import Mathlib

/-!
# parseMork: a shallow embedding of the Mork parser's store

The definitions below follow `src/parseMork.c`, `src/parseMork.h` and
`src/vCard.c`.

Modelling conventions.

* A C `int` is a Lean `Int`; the store never does arithmetic on keys, it only
  compares them, so no wrap-around is involved in the dictionary, cell and
  index operations.
* A malloc'd array together with its `cnt` field is a Lean `List`; `cnt` is
  the length of the list.
* The loop `for( i = 0; i < cnt; ++i ) if( key <= keys[i] ) break;`, which all
  sorted arrays of the program share, is `scanIndex`; the `realloc` followed by
  the right shift of the tail and the store at slot `i` is `shiftInsert`.
* `morkCells` objects are referenced through the long-lived pointer
  `activeCells`, so they live in an explicit heap (`cellsHeap`); a pointer to
  one of them is its address in that heap and `NULL` is `none`.  The objects
  of the three upper index levels are only reached through their unique
  parent slot, so they are stored in place.
* The input `FILE` is the list of bytes still to be read together with the
  end-of-file indicator.  The parser functions take a fuel argument that
  bounds the number of loop iterations, and end in a value or in a `Fault`:
  fuel exhausted, a store through a `NULL` `activeCells`, or a write past the
  end of one of the 512-byte token buffers.
-/

namespace ParseMork

/-! ## Data model (`parseMork.h`) -/

/-- The `nowParsingType` enumeration. -/
inductive NowParsingType where
  | NPColumns
  | NPValues
  | NPRows
deriving DecidableEq, Repr

/-- A `morkDictEntry`: integer key, owned string value. -/
structure MorkDictEntry where
  key : Int
  value : String
deriving DecidableEq, Repr

/-- A `morkDict`: the array of entries (`cnt` is its length). -/
structure MorkDict where
  entries : List MorkDictEntry
deriving DecidableEq, Repr

/-- A `morkCellEntry`: column id and value id. -/
structure MorkCellEntry where
  key : Int
  value : Int
deriving DecidableEq, Repr

/-- A `morkCells`: the array of cell entries of one row. -/
structure MorkCells where
  entries : List MorkCellEntry
deriving DecidableEq, Repr

/-- A `morkRowMap`: row ids and, in parallel, pointers to `morkCells`. -/
structure MorkRowMap where
  keys : List Int
  entries : List Nat
deriving DecidableEq, Repr

/-- A `rowScopeMap`: row scopes and, in parallel, row maps. -/
structure RowScopeMap where
  keys : List Int
  entries : List MorkRowMap
deriving DecidableEq, Repr

/-- A `morkTableMap`: table ids and, in parallel, row scope maps. -/
structure MorkTableMap where
  keys : List Int
  entries : List RowScopeMap
deriving DecidableEq, Repr

/-- A `morkDb`: the table scope map (`keys`, `entries`), the two dictionaries,
the parse state, and the heap holding every `morkCells` object. -/
structure MorkDb where
  keys : List Int
  entries : List MorkTableMap
  columns : MorkDict
  values : MorkDict
  nowParsing : NowParsingType
  nextAddValueId : Int
  defaultScope : Int
  activeCells : Option Nat
  cellsHeap : List MorkCells
deriving DecidableEq, Repr

def MorkDict.cnt (dict : MorkDict) : Nat := dict.entries.length

def MorkCells.cnt (cells : MorkCells) : Nat := cells.entries.length

def MorkRowMap.cnt (rowMap : MorkRowMap) : Nat := rowMap.keys.length

def RowScopeMap.cnt (rowScopeMap : RowScopeMap) : Nat := rowScopeMap.keys.length

def MorkTableMap.cnt (tableMap : MorkTableMap) : Nat := tableMap.keys.length

def MorkDb.cnt (mork : MorkDb) : Nat := mork.keys.length

/-! ## Loops shared by every sorted array -/

/-- The index at which `for( i = 0; i < cnt; ++i ) if( key <= keys[i] ) break;`
stops. -/
def scanIndex (key : Int) : List Int → Nat
  | [] => 0
  | k :: ks => if key ≤ k then 0 else scanIndex key ks + 1

/-- Grow the array by one slot, move the slots `i ..` one place to the right
and store `x` at slot `i`. -/
def shiftInsert {α : Type} (xs : List α) (i : Nat) (x : α) : List α :=
  xs.take i ++ x :: xs.drop i

/-! ## Dictionaries -/

def makeMorkDictEntry (key : Int) (value : String) : MorkDictEntry :=
  { key := key, value := value }

/-- A dictionary as `calloc` leaves it: no entries. -/
def emptyDict : MorkDict := { entries := [] }

/-- The scan of `getMorkDictValue` over the entries. -/
def getMorkDictValueLoop (key : Int) : List MorkDictEntry → String
  | [] => ""
  | e :: es => if e.key = key then e.value else getMorkDictValueLoop key es

def getMorkDictValue (dict : MorkDict) (key : Int) : String :=
  getMorkDictValueLoop key dict.entries

/-- The scan of `getMorkDictKey` over the entries (`strcmp(..) == 0` is
equality of the strings). -/
def getMorkDictKeyLoop (value : String) : List MorkDictEntry → Int
  | [] => 0
  | e :: es => if value = e.value then e.key else getMorkDictKeyLoop value es

def getMorkDictKey (dict : MorkDict) (value : String) : Int :=
  getMorkDictKeyLoop value dict.entries

def storeInMorkDict (dict : MorkDict) (key : Int) (value : String) : MorkDict :=
  let i := scanIndex key (dict.entries.map (fun e => e.key))
  if i ≥ dict.cnt ∨ key ≠ (dict.entries.map (fun e => e.key)).getD i 0 then
    { entries := shiftInsert dict.entries i (makeMorkDictEntry key value) }
  else
    { entries := dict.entries.set i (makeMorkDictEntry key value) }

def getValue (mork : MorkDb) (objectId : Int) : String :=
  getMorkDictValue mork.values objectId

def getColumn (mork : MorkDb) (objectId : Int) : String :=
  getMorkDictValue mork.columns objectId

def getColumnId (mork : MorkDb) (value : String) : Int :=
  getMorkDictKey mork.columns value

/-- The dictionary reached from the empty one by the given `storeInMorkDict`
calls, in order. -/
def buildDict (ops : List (Int × String)) : MorkDict :=
  ops.foldl (fun d op => storeInMorkDict d op.1 op.2) emptyDict

/-! ## Cell sets -/

def makeMorkCellEntry (key : Int) (value : Int) : MorkCellEntry :=
  { key := key, value := value }

/-- The result of `makeMorkCells` (a zeroed `morkCells`). -/
def makeMorkCells : MorkCells := { entries := [] }

def storeInMorkCell (cells : MorkCells) (key : Int) (value : Int) : MorkCells :=
  let i := scanIndex key (cells.entries.map (fun e => e.key))
  if i ≥ cells.cnt ∨ key ≠ (cells.entries.map (fun e => e.key)).getD i 0 then
    { entries := shiftInsert cells.entries i (makeMorkCellEntry key value) }
  else
    { entries := cells.entries.set i (makeMorkCellEntry key value) }

/-! ## The hierarchical row index

The four `get...` functions return a pointer to the entry they found or
created.  `getMorkCells` returns the address of a `morkCells` object in the
heap.  The other three return a pointer to an object stored in place, which is
given as the slot `i` of the entries array after the call; `setCurrentRow`
reads the object at that slot, lets the next call update it, and stores the
updated object back at the same slot. -/

def makeMorkRowMap : MorkRowMap := { keys := [], entries := [] }

def makeRowScopeMap : RowScopeMap := { keys := [], entries := [] }

def makeMorkTableMap : MorkTableMap := { keys := [], entries := [] }

/-- The function `getMorkCells`: the heap and the row map after the call, and
the returned pointer `morkRowMap->entries[i]`.  A new `morkCells` object gets
the next free address of the heap. -/
def getMorkCells (heap : List MorkCells) (rowMap : MorkRowMap) (rowId : Int) :
    List MorkCells × MorkRowMap × Nat :=
  let i := scanIndex rowId rowMap.keys
  if i ≥ rowMap.cnt ∨ rowId ≠ rowMap.keys.getD i 0 then
    let entries := shiftInsert rowMap.entries i heap.length
    (heap ++ [makeMorkCells],
      { keys := shiftInsert rowMap.keys i rowId, entries := entries },
      entries.getD i 0)
  else
    (heap, rowMap, rowMap.entries.getD i 0)

/-- The function `getMorkRowMap`: the row scope map after the call and the slot
of the returned entry. -/
def getMorkRowMap (rowScopeMap : RowScopeMap) (rowScope : Int) : RowScopeMap × Nat :=
  let i := scanIndex rowScope rowScopeMap.keys
  if i ≥ rowScopeMap.cnt ∨ rowScope ≠ rowScopeMap.keys.getD i 0 then
    ({ keys := shiftInsert rowScopeMap.keys i rowScope,
       entries := shiftInsert rowScopeMap.entries i makeMorkRowMap }, i)
  else
    (rowScopeMap, i)

/-- The function `getRowScopeMapEntry`: the table map after the call and the
slot of the returned entry. -/
def getRowScopeMapEntry (tableMap : MorkTableMap) (tableId : Int) : MorkTableMap × Nat :=
  let i := scanIndex tableId tableMap.keys
  if i ≥ tableMap.cnt ∨ tableId ≠ tableMap.keys.getD i 0 then
    ({ keys := shiftInsert tableMap.keys i tableId,
       entries := shiftInsert tableMap.entries i makeRowScopeMap }, i)
  else
    (tableMap, i)

/-- The function `getMorkTableMapEntry`: the database after the call and the
slot of the returned entry. -/
def getMorkTableMapEntry (mork : MorkDb) (tableScope : Int) : MorkDb × Nat :=
  let i := scanIndex tableScope mork.keys
  if i ≥ mork.cnt ∨ tableScope ≠ mork.keys.getD i 0 then
    ({ mork with
       keys := shiftInsert mork.keys i tableScope
       entries := shiftInsert mork.entries i makeMorkTableMap }, i)
  else
    (mork, i)

def setCurrentRow (m : MorkDb) (TableScope TableId RowScope RowId : Int) : MorkDb :=
  let RowScope := if RowScope = 0 then m.defaultScope else RowScope
  let TableScope := if TableScope = 0 then m.defaultScope else TableScope
  let t := getMorkTableMapEntry m TableScope
  let s := getRowScopeMapEntry (t.1.entries.getD t.2 makeMorkTableMap) TableId
  let r := getMorkRowMap (s.1.entries.getD s.2 makeRowScopeMap) RowScope
  let c := getMorkCells t.1.cellsHeap (r.1.entries.getD r.2 makeMorkRowMap) RowId
  { t.1 with
    entries := t.1.entries.set t.2
      { s.1 with
        entries := s.1.entries.set s.2 { r.1 with entries := r.1.entries.set r.2 c.2.1 } }
    cellsHeap := c.1
    activeCells := some c.2.2 }

/-- The `morkCells` object a pointer refers to. -/
def derefCells (m : MorkDb) (p : Nat) : MorkCells := m.cellsHeap.getD p makeMorkCells

/-- The call `storeInMorkCell( m->activeCells, key, value )`; `none` when
`activeCells` is `NULL` or does not point to an allocated object. -/
def storeInActiveCells (m : MorkDb) (key value : Int) : Option MorkDb :=
  match m.activeCells with
  | none => none
  | some p =>
    if p < m.cellsHeap.length then
      some { m with cellsHeap := m.cellsHeap.set p (storeInMorkCell (derefCells m p) key value) }
    else none

/-- A sequence of `storeInMorkCell( m->activeCells, key, value )` calls. -/
def storeAllInActiveCells (m : MorkDb) : List (Int × Int) → Option MorkDb
  | [] => some m
  | kv :: rest =>
    match storeInActiveCells m kv.1 kv.2 with
    | none => none
    | some m2 => storeAllInActiveCells m2 rest

/-- The entry stored under `key` in a pair of parallel arrays, as the dump
functions pair `keys[i]` with `entries[i]`. -/
def assocAt {α : Type} (key : Int) : List Int → List α → Option α
  | k :: ks, e :: es => if k = key then some e else assocAt key ks es
  | _, _ => none

def rowMapLookup (rm : MorkRowMap) (rowId : Int) : Option Nat :=
  assocAt rowId rm.keys rm.entries

def scopeLookup (s : RowScopeMap) (rowScope rowId : Int) : Option Nat :=
  (assocAt rowScope s.keys s.entries).bind (fun rm => rowMapLookup rm rowId)

def tableLookup (t : MorkTableMap) (tableId rowScope rowId : Int) : Option Nat :=
  (assocAt tableId t.keys t.entries).bind (fun s => scopeLookup s rowScope rowId)

/-- The pointer to the Cell Set stored in the index under the path
(table scope, table id, row scope, row id), if the path exists. -/
def cellsAt (m : MorkDb) (tableScope tableId rowScope rowId : Int) : Option Nat :=
  (assocAt tableScope m.keys m.entries).bind (fun t => tableLookup t tableId rowScope rowId)

/-- The database after a sequence of `setCurrentRow` calls. -/
def setCurrentRows (m : MorkDb) (calls : List (Int × Int × Int × Int)) : MorkDb :=
  calls.foldl (fun d c => setCurrentRow d c.1 c.2.1 c.2.2.1 c.2.2.2) m

/-! ## The database -/

/-- The database `parseMorkStream` starts from: a zeroed `morkDb` (so
`activeCells` is `NULL`) on which `initializeTableScopeMap` has run. -/
def initializeTableScopeMap : MorkDb :=
  { keys := []
    entries := []
    columns := emptyDict
    values := emptyDict
    nowParsing := NowParsingType.NPValues
    nextAddValueId := 0x7fffffff
    defaultScope := 0x80
    activeCells := none
    cellsHeap := [] }

/-! ## Characters, C strings and `strtol`

A byte is a `Nat` below 256.  The value of `fgetc` is an `Int`: a byte, or
`EOF`.  A `char` variable holds a byte: storing `EOF` in it gives the byte 255.
A character buffer is the list of the bytes written to it so far; the
functions reading it as a C string stop at the first zero byte. -/

def EOF : Int := -1

/-- Conversion of an `int` to `char`, as a byte. -/
def toChar (c : Int) : Nat := (c % 256).toNat

/-- The function `isspace` in the C locale (false for `EOF`). -/
def isspace (c : Int) : Bool := decide (c = 32 ∨ (9 ≤ c ∧ c ≤ 13))

/-- The function `isxdigit`. -/
def isxdigit (c : Nat) : Bool :=
  decide ((48 ≤ c ∧ c ≤ 57) ∨ (65 ≤ c ∧ c ≤ 70) ∨ (97 ≤ c ∧ c ≤ 102))

/-- The value of one hexadecimal digit. -/
def hexDigitValue (c : Nat) : Nat :=
  if 48 ≤ c ∧ c ≤ 57 then c - 48
  else if 65 ≤ c ∧ c ≤ 70 then c - 55
  else if 97 ≤ c ∧ c ≤ 102 then c - 87
  else 0

/-- The number written by a string of hexadecimal digits. -/
def hexValue (ds : List Nat) : Nat :=
  ds.foldl (fun acc d => acc * 16 + hexDigitValue d) 0

/-- Modelled from the C standard: `strtol( s, NULL, 16 )` with a 64-bit `long`.
Leading white space is skipped, then an optional sign and an optional `0x` or
`0X`; the longest run of hexadecimal digits that follows is the value (0 when
there is none), which is clamped to the range of `long`. -/
def strtol16 (s : List Nat) : Int :=
  let s1 : List Nat := s.dropWhile (fun (c : Nat) => isspace (c : Int))
  let s2 : List Nat := if s1.head? = some 45 ∨ s1.head? = some 43 then s1.tail else s1
  let s3 : List Nat :=
    match s2 with
    | 48 :: x :: rest => if x = 120 ∨ x = 88 then rest else s2
    | _ => s2
  let v : Int := (hexValue (s3.takeWhile isxdigit) : Nat)
  let r : Int := if s1.head? = some 45 then -v else v
  max (-(2 ^ 63)) (min r (2 ^ 63 - 1))

/-- Conversion of a `long` to `int` (the low 32 bits, two's complement). -/
def toInt32 (x : Int) : Int := (x + 2 ^ 31) % 2 ^ 32 - 2 ^ 31

/-- The offset of the first `c` in the C string `s`, as `strchr` finds it. -/
def strchr (c : Nat) : List Nat → Option Nat
  | [] => none
  | x :: xs =>
    if x = c then some 0
    else if x = 0 then none
    else (strchr c xs).map (fun i => i + 1)

/-- The C string held by a buffer, as an owned string (`strdup`). -/
def cString (buf : List Nat) : String :=
  String.mk ((buf.takeWhile (fun c => c ≠ 0)).map Char.ofNat)

/-- The bytes of a string literal. -/
def bytes (s : String) : List Nat := s.toList.map Char.toNat

/-! ## The input stream -/

/-- The `FILE` being read: the bytes still to come (pushed-back bytes first)
and the end-of-file indicator. -/
structure MorkFile where
  pending : List Nat
  eof : Bool
deriving DecidableEq, Repr

def morkgetc (ifp : MorkFile) : Int × MorkFile :=
  match ifp.pending with
  | [] => (EOF, { ifp with eof := true })
  | c :: cs => ((c : Int), { ifp with pending := cs })

/-- The function `feof`. -/
def feof (ifp : MorkFile) : Bool := ifp.eof

/-! ## The parser

Every loop of the parser is a function with a fuel argument, one unit for each
iteration; a call made from a loop body gets the fuel that is left.  A run
ends in a value or in a `Fault`. -/

/-- How a run can fail to produce a value. -/
inductive Fault where
  | outOfFuel
  | nullDeref
  | overflow
deriving DecidableEq, Repr

/-- The write `buf[pos++] = c` into a `char buf[512]`. -/
def bufPut (buf : List Nat) (c : Nat) : Except Fault (List Nat) :=
  if buf.length < 512 then Except.ok (buf ++ [c]) else Except.error Fault.overflow

/-- The write `buf[pos] = 0` that ends a `char buf[512]`. -/
def bufEnd (buf : List Nat) : Except Fault (List Nat) :=
  if buf.length < 512 then Except.ok buf else Except.error Fault.overflow

/-- The function `parseScopeId`: the values of `*id` and `*scope` after the
call, given the value of `*scope` before it (`*id` is only written). -/
def parseScopeId (textId : List Nat) (scope : Int) : Int × Int :=
  match strchr 58 textId with
  | some i =>
    let colonPos := textId.drop (i + 1)
    let colonPos := if colonPos.head? = some 94 then colonPos.tail else colonPos
    (toInt32 (strtol16 (textId.take i)), toInt32 (strtol16 colonPos))
  | none => (toInt32 (strtol16 textId), scope)

/-- The loop of `parseMorkMeta`. -/
def parseMorkMetaLoop (c : Nat) : Nat → Int → MorkFile → Except Fault MorkFile
  | 0, _, _ => Except.error Fault.outOfFuel
  | fuel + 1, cur, ifp =>
    if cur ≠ (c : Int) ∧ cur ≠ 0 ∧ feof ifp = false then
      parseMorkMetaLoop c fuel (morkgetc ifp).1 (morkgetc ifp).2
    else Except.ok ifp

def parseMorkMeta (fuel : Nat) (ifp : MorkFile) (c : Nat) : Except Fault (Bool × MorkFile) :=
  match parseMorkMetaLoop c fuel (morkgetc ifp).1 (morkgetc ifp).2 with
  | Except.error e => Except.error e
  | Except.ok ifp2 => Except.ok (true, ifp2)

/-- The local variables of `parseMorkCell`. -/
structure CellState where
  columnIsObjectId : Bool
  valueIsObjectId : Bool
  bColumn : Bool
  corners : Nat
  column : List Nat
  text : List Nat
deriving DecidableEq, Repr

/-- The `switch( cur )` of the loop of `parseMorkCell`. -/
def parseMorkCellSwitch (cur : Nat) (ifp : MorkFile) (st : CellState) :
    Except Fault (MorkFile × CellState) :=
  if cur = 94 then
    if st.bColumn then
      if st.corners + 1 = 1 then
        Except.ok (ifp, { st with corners := st.corners + 1, columnIsObjectId := true })
      else if st.corners + 1 = 2 then
        Except.ok (ifp, { st with corners := st.corners + 1, bColumn := false,
                                  valueIsObjectId := true })
      else Except.ok (ifp, { st with corners := st.corners + 1 })
    else
      match bufPut st.text cur with
      | Except.error e => Except.error e
      | Except.ok text => Except.ok (ifp, { st with text := text })
  else if cur = 61 then
    if st.bColumn then Except.ok (ifp, { st with bColumn := false })
    else
      match bufPut st.text cur with
      | Except.error e => Except.error e
      | Except.ok text => Except.ok (ifp, { st with text := text })
  else if cur = 92 then
    let nextChar := toChar (morkgetc ifp).1
    if 13 ≠ nextChar ∧ 10 ≠ nextChar then
      match bufPut st.text nextChar with
      | Except.error e => Except.error e
      | Except.ok text => Except.ok ((morkgetc ifp).2, { st with text := text })
    else Except.ok ((morkgetc ifp).2, st)
  else if cur = 36 then
    let h0 := toChar (morkgetc ifp).1
    let h1 := toChar (morkgetc (morkgetc ifp).2).1
    match bufPut st.text (toChar (strtol16 [h0, h1])) with
    | Except.error e => Except.error e
    | Except.ok text => Except.ok ((morkgetc (morkgetc ifp).2).2, { st with text := text })
  else if st.bColumn then
    if isspace cur = false then
      match bufPut st.column cur with
      | Except.error e => Except.error e
      | Except.ok column => Except.ok (ifp, { st with column := column })
    else Except.ok (ifp, st)
  else
    match bufPut st.text cur with
    | Except.error e => Except.error e
    | Except.ok text => Except.ok (ifp, { st with text := text })

/-- The loop of `parseMorkCell` (`result` stays true in it). -/
def parseMorkCellLoop : Nat → Nat → MorkFile → CellState → Except Fault (MorkFile × CellState)
  | 0, _, _, _ => Except.error Fault.outOfFuel
  | fuel + 1, cur, ifp, st =>
    if cur ≠ 41 ∧ cur ≠ 0 ∧ feof ifp = false then
      match parseMorkCellSwitch cur ifp st with
      | Except.error e => Except.error e
      | Except.ok r => parseMorkCellLoop fuel (toChar (morkgetc r.1).1) (morkgetc r.1).2 r.2
    else Except.ok (ifp, st)

/-- The calls `storeInMorkCell( m->activeCells, .. )` of `parseMorkCell`, which
fault on a pointer that is `NULL`. -/
def storeInActiveCellsOrFault (m : MorkDb) (key value : Int) : Except Fault MorkDb :=
  match storeInActiveCells m key value with
  | none => Except.error Fault.nullDeref
  | some m2 => Except.ok m2

/-- The part of `parseMorkCell` after the loop: apply column and text. -/
def parseMorkCellApply (m : MorkDb) (valueIsObjectId : Bool) (column text : List Nat) :
    Except Fault MorkDb :=
  let columnId := toInt32 (strtol16 column)
  if text.head? ≠ none ∧ text.head? ≠ some 0 then
    if m.nowParsing = NowParsingType.NPRows then
      if valueIsObjectId then
        storeInActiveCellsOrFault m columnId (toInt32 (strtol16 text))
      else
        storeInActiveCellsOrFault
          { m with
            nextAddValueId := m.nextAddValueId - 1
            values := storeInMorkDict m.values (m.nextAddValueId - 1) (cString text) }
          columnId (m.nextAddValueId - 1)
    else if m.nowParsing = NowParsingType.NPColumns then
      Except.ok { m with columns := storeInMorkDict m.columns columnId (cString text) }
    else
      Except.ok { m with values := storeInMorkDict m.values columnId (cString text) }
  else Except.ok m

def parseMorkCell (fuel : Nat) (ifp : MorkFile) (m : MorkDb) :
    Except Fault (Bool × MorkFile × MorkDb) :=
  match parseMorkCellLoop fuel (toChar (morkgetc ifp).1) (morkgetc ifp).2
      { columnIsObjectId := false, valueIsObjectId := false, bColumn := true, corners := 0,
        column := [], text := [] } with
  | Except.error e => Except.error e
  | Except.ok r =>
    match bufEnd r.2.column with
    | Except.error e => Except.error e
    | Except.ok column =>
      match bufEnd r.2.text with
      | Except.error e => Except.error e
      | Except.ok text =>
        match parseMorkCellApply m r.2.valueIsObjectId column text with
        | Except.error e => Except.error e
        | Except.ok m2 => Except.ok (true, r.1, m2)

/-- The first loop of `parseMorkRow`: read the id text. -/
def parseMorkRowIdLoop : Nat → Int → MorkFile → List Nat →
    Except Fault (Int × MorkFile × List Nat)
  | 0, _, _, _ => Except.error Fault.outOfFuel
  | fuel + 1, cur, ifp, rowIdText =>
    if cur ≠ 40 ∧ cur ≠ 91 ∧ cur ≠ 93 ∧ cur ≠ 0 ∧ feof ifp = false then
      if isspace cur = false then
        match bufPut rowIdText (toChar cur) with
        | Except.error e => Except.error e
        | Except.ok buf => parseMorkRowIdLoop fuel (morkgetc ifp).1 (morkgetc ifp).2 buf
      else parseMorkRowIdLoop fuel (morkgetc ifp).1 (morkgetc ifp).2 rowIdText
    else Except.ok (cur, ifp, rowIdText)

/-- The second loop of `parseMorkRow`: parse the row itself. -/
def parseMorkRowLoop : Nat → Bool → Int → MorkFile → MorkDb →
    Except Fault (Bool × MorkFile × MorkDb)
  | 0, _, _, _, _ => Except.error Fault.outOfFuel
  | fuel + 1, result, cur, ifp, m =>
    if result = true ∧ cur ≠ 93 ∧ cur ≠ 0 then
      if isspace cur = false then
        if cur = 40 then
          match parseMorkCell fuel ifp m with
          | Except.error e => Except.error e
          | Except.ok r => parseMorkRowLoop fuel r.1 (morkgetc r.2.1).1 (morkgetc r.2.1).2 r.2.2
        else if cur = 91 then
          match parseMorkMeta fuel ifp 93 with
          | Except.error e => Except.error e
          | Except.ok r => parseMorkRowLoop fuel r.1 (morkgetc r.2).1 (morkgetc r.2).2 m
        else parseMorkRowLoop fuel false (morkgetc ifp).1 (morkgetc ifp).2 m
      else parseMorkRowLoop fuel result (morkgetc ifp).1 (morkgetc ifp).2 m
    else Except.ok (result, ifp, m)

def parseMorkRow (fuel : Nat) (ifp : MorkFile) (m : MorkDb) (tableId tableScope : Int) :
    Except Fault (Bool × MorkFile × MorkDb) :=
  match parseMorkRowIdLoop fuel (morkgetc ifp).1 (morkgetc ifp).2 [] with
  | Except.error e => Except.error e
  | Except.ok r =>
    match bufEnd r.2.2 with
    | Except.error e => Except.error e
    | Except.ok rowIdText =>
      let ids := parseScopeId rowIdText 0
      parseMorkRowLoop fuel true r.1 r.2.1
        (setCurrentRow { m with nowParsing := NowParsingType.NPRows } tableScope tableId
          ids.2 ids.1)

/-- The first loop of `parseMorkTable`: read the id text. -/
def parseMorkTableIdLoop : Nat → Nat → MorkFile → List Nat →
    Except Fault (Nat × MorkFile × List Nat)
  | 0, _, _, _ => Except.error Fault.outOfFuel
  | fuel + 1, cur, ifp, textId =>
    if cur ≠ 0 ∧ cur ≠ 123 ∧ cur ≠ 91 ∧ cur ≠ 125 then
      if isspace cur = false then
        match bufPut textId cur with
        | Except.error e => Except.error e
        | Except.ok buf =>
          parseMorkTableIdLoop fuel (toChar (morkgetc ifp).1) (morkgetc ifp).2 buf
      else parseMorkTableIdLoop fuel (toChar (morkgetc ifp).1) (morkgetc ifp).2 textId
    else Except.ok (cur, ifp, textId)

/-- The loop reading a bare row id in `parseMorkTable`.  The flag of the result
tells whether the loop was left by the `return result` taken when the byte
just read is the closing brace. -/
def parseMorkTableJustIdLoop : Nat → Nat → MorkFile → List Nat →
    Except Fault (Bool × Nat × MorkFile × List Nat)
  | 0, _, _, _ => Except.error Fault.outOfFuel
  | fuel + 1, cur, ifp, justId =>
    if cur ≠ 0 ∧ isspace cur = false then
      match bufPut justId cur with
      | Except.error e => Except.error e
      | Except.ok buf =>
        if toChar (morkgetc ifp).1 = 125 then
          Except.ok (true, toChar (morkgetc ifp).1, (morkgetc ifp).2, buf)
        else parseMorkTableJustIdLoop fuel (toChar (morkgetc ifp).1) (morkgetc ifp).2 buf
    else Except.ok (false, cur, ifp, justId)

/-- The second loop of `parseMorkTable`: parse the table. -/
def parseMorkTableLoop (id scope : Int) : Nat → Bool → Nat → MorkFile → MorkDb →
    Except Fault (Bool × MorkFile × MorkDb)
  | 0, _, _, _, _ => Except.error Fault.outOfFuel
  | fuel + 1, result, cur, ifp, m =>
    if result = true ∧ cur ≠ 0 ∧ cur ≠ 125 then
      if isspace cur = false then
        if cur = 123 then
          match parseMorkMeta fuel ifp 125 with
          | Except.error e => Except.error e
          | Except.ok r =>
            parseMorkTableLoop id scope fuel r.1 (toChar (morkgetc r.2).1) (morkgetc r.2).2 m
        else if cur = 91 then
          match parseMorkRow fuel ifp m id scope with
          | Except.error e => Except.error e
          | Except.ok r =>
            parseMorkTableLoop id scope fuel r.1 (toChar (morkgetc r.2.1).1)
              (morkgetc r.2.1).2 r.2.2
        else if cur = 45 ∨ cur = 43 then
          parseMorkTableLoop id scope fuel result (toChar (morkgetc ifp).1) (morkgetc ifp).2 m
        else
          match parseMorkTableJustIdLoop fuel cur ifp [] with
          | Except.error e => Except.error e
          | Except.ok r =>
            if r.1 = true then Except.ok (result, r.2.2.1, m)
            else
              match bufEnd r.2.2.2 with
              | Except.error e => Except.error e
              | Except.ok justId =>
                let ids := parseScopeId justId 0
                parseMorkTableLoop id scope fuel result (toChar (morkgetc r.2.2.1).1)
                  (morkgetc r.2.2.1).2 (setCurrentRow m scope id ids.2 ids.1)
      else parseMorkTableLoop id scope fuel result (toChar (morkgetc ifp).1) (morkgetc ifp).2 m
    else Except.ok (result, ifp, m)

def parseMorkTable (fuel : Nat) (ifp : MorkFile) (m : MorkDb) :
    Except Fault (Bool × MorkFile × MorkDb) :=
  match parseMorkTableIdLoop fuel (toChar (morkgetc ifp).1) (morkgetc ifp).2 [] with
  | Except.error e => Except.error e
  | Except.ok r =>
    match bufEnd r.2.2 with
    | Except.error e => Except.error e
    | Except.ok textId =>
      let ids := parseScopeId textId 0
      parseMorkTableLoop ids.1 ids.2 fuel true r.1 r.2.1 m

/-- The constant `MorkMagicHeader`. -/
def MorkMagicHeader : List Nat := bytes "// <!-- <mdb:mork:z v=\"1.4\"/> -->"

/-- The constant `MorkDictColumnMeta`. -/
def MorkDictColumnMeta : List Nat := bytes "<(a=c)>"

/-- Conversion of a `char` to `int`, `char` being signed: the byte 255 is -1. -/
def charToInt (b : Nat) : Int := if b < 128 then (b : Int) else (b : Int) - 256

/-- The function `morkungetc`, on a reader with unbounded push-back: the value
is converted to a byte and becomes the next byte read, and the end-of-file
indicator is cleared; pushing back `EOF` fails and changes nothing. -/
def morkungetc (c : Int) (ifp : MorkFile) : Int × MorkFile :=
  if c = EOF then (EOF, ifp)
  else ((toChar c : Int), { pending := toChar c :: ifp.pending, eof := false })

/-- The loop of `parseMorkComment`, which copies the comment into
`cmntBuf[512]`. -/
def parseMorkCommentLoop : Nat → Int → MorkFile → List Nat →
    Except Fault (MorkFile × List Nat)
  | 0, _, _, _ => Except.error Fault.outOfFuel
  | fuel + 1, cur, ifp, cmntBuf =>
    if cur ≠ 0 ∧ cur ≠ 13 ∧ cur ≠ 10 then
      match bufPut cmntBuf (toChar cur) with
      | Except.error e => Except.error e
      | Except.ok buf => parseMorkCommentLoop fuel (morkgetc ifp).1 (morkgetc ifp).2 buf
    else Except.ok (ifp, cmntBuf)

def parseMorkComment (fuel : Nat) (ifp : MorkFile) : Except Fault (Bool × MorkFile) :=
  if (morkgetc ifp).1 ≠ 47 then Except.ok (false, (morkgetc ifp).2)
  else
    match parseMorkCommentLoop fuel (morkgetc ifp).1 (morkgetc ifp).2 [] with
    | Except.error e => Except.error e
    | Except.ok r =>
      match bufEnd r.2 with
      | Except.error e => Except.error e
      | Except.ok _ => Except.ok (true, r.1)

/-- The loop `for( i = 1; i < n + 1; ++i ) { cur = morkgetc( ifp ); buf[i] = cur; }`:
the `n` bytes stored and the file after them. -/
def morkgetcN : Nat → MorkFile → List Nat × MorkFile
  | 0, ifp => ([], ifp)
  | n + 1, ifp =>
    (toChar (morkgetc ifp).1 :: (morkgetcN n (morkgetc ifp).2).1,
      (morkgetcN n (morkgetc ifp).2).2)

/-- The loop of `parseMorkDict`. -/
def parseMorkDictLoop : Nat → Bool → Int → MorkFile → MorkDb →
    Except Fault (Bool × MorkFile × MorkDb)
  | 0, _, _, _, _ => Except.error Fault.outOfFuel
  | fuel + 1, result, cur, ifp, m =>
    if result = true ∧ cur ≠ 62 ∧ cur ≠ 0 ∧ feof ifp = false then
      if isspace cur = false then
        if cur = 60 then
          if 60 :: (morkgetcN (MorkDictColumnMeta.length - 1) ifp).1 = MorkDictColumnMeta then
            parseMorkDictLoop fuel result
              (morkgetc (morkgetcN (MorkDictColumnMeta.length - 1) ifp).2).1
              (morkgetc (morkgetcN (MorkDictColumnMeta.length - 1) ifp).2).2
              { m with nowParsing := NowParsingType.NPColumns }
          else
            parseMorkDictLoop fuel result
              (morkgetc (morkgetcN (MorkDictColumnMeta.length - 1) ifp).2).1
              (morkgetc (morkgetcN (MorkDictColumnMeta.length - 1) ifp).2).2 m
        else if cur = 40 then
          match parseMorkCell fuel ifp m with
          | Except.error e => Except.error e
          | Except.ok r =>
            parseMorkDictLoop fuel r.1 (morkgetc r.2.1).1 (morkgetc r.2.1).2 r.2.2
        else if cur = 47 then
          match parseMorkComment fuel ifp with
          | Except.error e => Except.error e
          | Except.ok r => parseMorkDictLoop fuel r.1 (morkgetc r.2).1 (morkgetc r.2).2 m
        else parseMorkDictLoop fuel result (morkgetc ifp).1 (morkgetc ifp).2 m
      else parseMorkDictLoop fuel result (morkgetc ifp).1 (morkgetc ifp).2 m
    else Except.ok (result, ifp, m)

def parseMorkDict (fuel : Nat) (ifp : MorkFile) (m : MorkDb) :
    Except Fault (Bool × MorkFile × MorkDb) :=
  parseMorkDictLoop fuel true (morkgetc ifp).1 (morkgetc ifp).2
    { m with nowParsing := NowParsingType.NPValues }

/-- The two loops of `parseMorkGroup` that load the header and the footer into
a `char[64]`: a byte is stored only while the position is below 63. -/
def parseMorkGroupMarkLoop : Nat → Int → MorkFile → List Nat →
    Except Fault (MorkFile × List Nat)
  | 0, _, _, _ => Except.error Fault.outOfFuel
  | fuel + 1, cur, ifp, buf =>
    if cur ≠ 64 ∧ cur ≠ 0 ∧ feof ifp = false then
      parseMorkGroupMarkLoop fuel (morkgetc ifp).1 (morkgetc ifp).2
        (if buf.length < 63 then buf ++ [toChar cur] else buf)
    else Except.ok (ifp, buf)

/-- The write `contentBuf[contentBufPos++] = c` into the `realloc`ed buffer of
`contentBufSize` bytes. -/
def contentPut (content : List Nat) (size : Nat) (c : Nat) : Except Fault (List Nat) :=
  if content.length < size then Except.ok (content ++ [c]) else Except.error Fault.overflow

/-- The loop of `parseMorkGroup` that loads the group contents: the file, the
buffered bytes and the buffer size when the loop ends. -/
def parseMorkGroupContentLoop : Nat → Bool → Int → MorkFile → List Nat → Nat →
    Except Fault (MorkFile × List Nat × Nat)
  | 0, _, _, _, _, _ => Except.error Fault.outOfFuel
  | fuel + 1, notAtTheEnd, cur, ifp, content, size0 =>
    if notAtTheEnd = true ∧ cur ≠ 0 ∧ feof ifp = false then
      let size := if content.length ≥ size0 then size0 + 512 else size0
      if cur = 92 then
        match contentPut content size (toChar cur) with
        | Except.error e => Except.error e
        | Except.ok c1 =>
          match contentPut c1 size (toChar (morkgetc ifp).1) with
          | Except.error e => Except.error e
          | Except.ok c2 =>
            parseMorkGroupContentLoop fuel notAtTheEnd (morkgetc (morkgetc ifp).2).1
              (morkgetc (morkgetc ifp).2).2 c2 size
      else if cur = 64 then
        match contentPut content size (toChar cur) with
        | Except.error e => Except.error e
        | Except.ok c1 =>
          match contentPut c1 size (toChar (morkgetc ifp).1) with
          | Except.error e => Except.error e
          | Except.ok c2 =>
            if (morkgetc ifp).1 = 36 then
              match contentPut c2 size (toChar (morkgetc (morkgetc ifp).2).1) with
              | Except.error e => Except.error e
              | Except.ok c3 =>
                if (morkgetc (morkgetc ifp).2).1 = 36 then
                  parseMorkGroupContentLoop fuel false
                    (morkgetc (morkungetc 32 (morkungetc 36 (morkungetc 36
                      (morkgetc (morkgetc ifp).2).2).2).2).2).1
                    (morkgetc (morkungetc 32 (morkungetc 36 (morkungetc 36
                      (morkgetc (morkgetc ifp).2).2).2).2).2).2
                    (c3.take (c3.length - 3)) size
                else
                  parseMorkGroupContentLoop fuel notAtTheEnd
                    (morkgetc (morkgetc (morkgetc ifp).2).2).1
                    (morkgetc (morkgetc (morkgetc ifp).2).2).2 c3 size
            else
              parseMorkGroupContentLoop fuel notAtTheEnd (morkgetc (morkgetc ifp).2).1
                (morkgetc (morkgetc ifp).2).2 c2 size
      else
        match contentPut content size (toChar cur) with
        | Except.error e => Except.error e
        | Except.ok c1 =>
          parseMorkGroupContentLoop fuel notAtTheEnd (morkgetc ifp).1 (morkgetc ifp).2 c1 size
    else Except.ok (ifp, content, size0)

/-- The loop `while( --contentBufPos >= 0 )` of `parseMorkGroup`, given the
buffered bytes last first: each is pushed back, and a failed push-back ends
the loop. -/
def pushBackContent : List Nat → MorkFile → MorkFile
  | [], ifp => ifp
  | c :: cs, ifp =>
    if (morkungetc (charToInt c) ifp).1 = EOF then ifp
    else pushBackContent cs (morkungetc (charToInt c) ifp).2

/-- The function `parseMorkGroup` (with `PARSE_GROUPS` set).  The first value
given to `endGroupId` is never read and is left out. -/
def parseMorkGroup (fuel : Nat) (ifp : MorkFile) : Except Fault (Bool × MorkFile) :=
  match parseMorkGroupMarkLoop fuel (morkgetc ifp).1 (morkgetc ifp).2 [] with
  | Except.error e => Except.error e
  | Except.ok h =>
    if h.2.length > 4 ∧ h.2.getLast? = some 123 ∧ h.2.take 3 = bytes "$$\x7b" ∧
        isxdigit (h.2.getD 3 0) = true then
      match parseMorkGroupContentLoop fuel true (morkgetc h.1).1 (morkgetc h.1).2 [] 0 with
      | Except.error e => Except.error e
      | Except.ok c =>
        if c.2.2 = 0 then Except.error Fault.nullDeref
        else if ¬ c.2.1.length < c.2.2 then Except.error Fault.overflow
        else
          match parseMorkGroupMarkLoop fuel (morkgetc c.1).1 (morkgetc c.1).2 [] with
          | Except.error e => Except.error e
          | Except.ok f =>
            if f.2.length > 4 ∧ f.2.getLast? = some 125 ∧ f.2.take 3 = bytes "$$\x7d" ∧
                isxdigit (f.2.getD 3 0) = true then
              if toInt32 (strtol16 (h.2.drop 3)) ≠ toInt32 (strtol16 (f.2.drop 3)) then
                Except.ok (true, f.1)
              else Except.ok (true, pushBackContent c.2.1.reverse f.1)
            else if f.2.length > 10 ∧ f.2.getLast? = some 125 ∧
                f.2.take 10 = bytes "$$\x7d~abort~" ∧ isxdigit (f.2.getD 10 0) = true then
              Except.ok (true, f.1)
            else Except.ok (true, f.1)
    else Except.ok (true, h.1)

/-- The `do .. while` of `parseMorkStream` that reads the magic header; the
first argument is the number of bytes still expected. -/
def readMagicHeader : Nat → MorkFile → List Nat × MorkFile
  | 0, ifp => ([], ifp)
  | n + 1, ifp =>
    if 0 < n ∧ feof (morkgetc ifp).2 = false then
      (toChar (morkgetc ifp).1 :: (readMagicHeader n (morkgetc ifp).2).1,
        (readMagicHeader n (morkgetc ifp).2).2)
    else ([toChar (morkgetc ifp).1], (morkgetc ifp).2)

/-- The dispatch loop of `parseMorkStream`. -/
def parseMorkStreamLoop : Nat → Bool → Int → MorkFile → MorkDb →
    Except Fault (Bool × MorkFile × MorkDb)
  | 0, _, _, _, _ => Except.error Fault.outOfFuel
  | fuel + 1, result, cur, ifp, m =>
    if result = true ∧ cur ≠ 0 ∧ feof ifp = false then
      if isspace cur = false then
        if cur = 60 then
          match parseMorkDict fuel ifp m with
          | Except.error e => Except.error e
          | Except.ok r =>
            parseMorkStreamLoop fuel r.1 (morkgetc r.2.1).1 (morkgetc r.2.1).2 r.2.2
        else if cur = 47 then
          match parseMorkComment fuel ifp with
          | Except.error e => Except.error e
          | Except.ok r => parseMorkStreamLoop fuel r.1 (morkgetc r.2).1 (morkgetc r.2).2 m
        else if cur = 123 then
          match parseMorkTable fuel ifp m with
          | Except.error e => Except.error e
          | Except.ok r =>
            parseMorkStreamLoop fuel r.1 (morkgetc r.2.1).1 (morkgetc r.2.1).2 r.2.2
        else if cur = 91 then
          match parseMorkRow fuel ifp m 0 0 with
          | Except.error e => Except.error e
          | Except.ok r =>
            parseMorkStreamLoop fuel r.1 (morkgetc r.2.1).1 (morkgetc r.2.1).2 r.2.2
        else if cur = 64 then
          match parseMorkGroup fuel ifp with
          | Except.error e => Except.error e
          | Except.ok r => parseMorkStreamLoop fuel r.1 (morkgetc r.2).1 (morkgetc r.2).2 m
        else parseMorkStreamLoop fuel false (morkgetc ifp).1 (morkgetc ifp).2 m
      else parseMorkStreamLoop fuel result (morkgetc ifp).1 (morkgetc ifp).2 m
    else Except.ok (result, ifp, m)

/-- The function `parseMorkStream`: `none` is the null pointer returned when
the magic header does not match. -/
def parseMorkStream (fuel : Nat) (ifp : MorkFile) : Except Fault (Option MorkDb) :=
  if ((readMagicHeader MorkMagicHeader.length ifp).1.takeWhile (fun c => c ≠ 0)) ≠
      MorkMagicHeader then Except.ok none
  else
    match parseMorkStreamLoop fuel true
        (morkgetc (readMagicHeader MorkMagicHeader.length ifp).2).1
        (morkgetc (readMagicHeader MorkMagicHeader.length ifp).2).2
        initializeTableScopeMap with
    | Except.error e => Except.error e
    | Except.ok r => Except.ok (some r.2.2)

/-- The scan of `valueForColumnId` over the cells: the value id of the first
cell whose key is `columnId`. -/
def cellValueId (columnId : Int) : List MorkCellEntry → Option Int
  | [] => none
  | e :: es => if e.key = columnId then some e.value else cellValueId columnId es

/-- The function `valueForColumnId`; `none` is the null pointer. -/
def valueForColumnId (columnId : Int) (cells : MorkCells) (morkDb : MorkDb) : Option String :=
  (cellValueId columnId cells.entries).map (fun v => getValue morkDb v)

/-- The file holding the given bytes, nothing read yet. -/
def fileOf (input : List Nat) : MorkFile := { pending := input, eof := false }

/-! ## Input texts used to state the parser claims -/

/-- A byte that a table or row header copies into its id text: a non-zero byte
that is neither white space nor one of the delimiters of the format. -/
def idByte (c : Nat) : Bool :=
  decide (0 < c ∧ c < 256 ∧ c ≠ 32 ∧ (c < 9 ∨ 13 < c) ∧ c ≠ 40 ∧ c ≠ 91 ∧ c ≠ 93 ∧
    c ≠ 123 ∧ c ≠ 125)

/-- A byte of a cell that is neither zero, nor the closing parenthesis, nor one
of the two escape characters (backslash and dollar). -/
def cellByte (c : Nat) : Bool :=
  decide (0 < c ∧ c < 256 ∧ c ≠ 41 ∧ c ≠ 92 ∧ c ≠ 36)

/-- A byte inside a metadata block closed by a brace. -/
def metaByte (c : Nat) : Bool := decide (0 < c ∧ c ≠ 125)

/-- The text of a sequence of cells, each between parentheses. -/
def cellsText : List (List Nat) → List Nat
  | [] => []
  | b :: bs => 40 :: (b ++ 41 :: cellsText bs)

/-- The text that follows the opening brace of the table block
`{t{meta}[r(cell)..(cell)]}`, followed by `rest`. -/
def tableBlockText (t metaText r : List Nat) (cells : List (List Nat)) (rest : List Nat) :
    List Nat :=
  t ++ 123 :: (metaText ++ 125 :: 91 :: (r ++ (cellsText cells ++ 93 :: 125 :: rest)))

/-- The text of a table or row header: the hex id `H`, followed by `:^S` when a
scope `S` is given. -/
def scopedIdText (H : List Nat) (S : Option (List Nat)) : List Nat :=
  match S with
  | none => H
  | some s => H ++ 58 :: 94 :: s

/-- The scope written in a header: 0 when there is none. -/
def scopeValue (S : Option (List Nat)) : Int :=
  match S with
  | none => 0
  | some s => (hexValue s : Int)

/-- The scope of the index path a header stands for: the written scope, or
0x80 when it is absent or zero. -/
def scopeOrDefault (S : Option (List Nat)) : Int :=
  if scopeValue S = 0 then 0x80 else scopeValue S

/-- A scope, when given, is a non-empty string of hex digits that fits 32
bits. -/
def ScopeOK (S : Option (List Nat)) : Prop :=
  ∀ s, S = some s → s ≠ [] ∧ (∀ c ∈ s, isxdigit c = true) ∧ hexValue s < 2 ^ 31

/-- What a cell may change in the database when `activeCells` is `p`: the
index, `activeCells`, the default scope and the parsing target stay, no Cell
Set is allocated, and only the Cell Set at `p` may differ. -/
def CellFrame (m m2 : MorkDb) (p : Nat) : Prop :=
  m2.keys = m.keys ∧ m2.entries = m.entries ∧ m2.activeCells = m.activeCells ∧
  m2.defaultScope = m.defaultScope ∧ m2.nowParsing = m.nowParsing ∧
  m2.cellsHeap.length = m.cellsHeap.length ∧
  ∀ q, q ≠ p → derefCells m2 q = derefCells m q

/-- A byte that the column part of a cell treats as an ordinary character:
a cell byte that is neither the caret nor the equals sign. -/
def columnByte (c : Nat) : Bool :=
  decide (0 < c ∧ c < 256 ∧ c ≠ 41 ∧ c ≠ 92 ∧ c ≠ 36 ∧ c ≠ 94 ∧ c ≠ 61)

/-- The bytes of the column part that reach the column buffer: white space is
skipped. -/
def columnToken (C : List Nat) : List Nat := C.filter (fun c => isspace (c : Int) = false)

/-- One item of a value token, as the specification lists them: an ordinary
character, a dollar sign with two hex digits, a backslash with a character
that is not a line end, or a backslash with a line end. -/
inductive ValueItem where
  | plain (c : Nat)
  | hex (h0 h1 : Nat)
  | escaped (c : Nat)
  | continuation (c : Nat)
deriving DecidableEq, Repr

/-- The side conditions of each item. -/
def ValueItem.OK : ValueItem → Bool
  | ValueItem.plain c => cellByte c
  | ValueItem.hex h0 h1 => isxdigit h0 && isxdigit h1
  | ValueItem.escaped c => decide (c < 256 ∧ c ≠ 13 ∧ c ≠ 10)
  | ValueItem.continuation c => decide (c = 13 ∨ c = 10)

/-- The bytes of the input that write an item. -/
def ValueItem.text : ValueItem → List Nat
  | ValueItem.plain c => [c]
  | ValueItem.hex h0 h1 => [36, h0, h1]
  | ValueItem.escaped c => [92, c]
  | ValueItem.continuation c => [92, c]

/-- The bytes that the specification says an item stands for. -/
def ValueItem.decoded : ValueItem → List Nat
  | ValueItem.plain c => [c]
  | ValueItem.hex h0 h1 => [hexValue [h0, h1]]
  | ValueItem.escaped c => [c]
  | ValueItem.continuation _ => []

/-- The input text of a value token. -/
def itemsText : List ValueItem → List Nat
  | [] => []
  | i :: is => i.text ++ itemsText is

/-- The text that the specification says a value token decodes to. -/
def decodeItems : List ValueItem → List Nat
  | [] => []
  | i :: is => i.decoded ++ decodeItems is

/-- The three ways of writing a cell with a column `C` and a value `V`:
`(C=V)`, `(^C=V)` and `(^C^V)`. -/
inductive CellForm where
  | literal
  | oidLiteral
  | oidOid
deriving DecidableEq, Repr

/-- The text of a cell between its parentheses. -/
def cellText (form : CellForm) (C V : List Nat) : List Nat :=
  match form with
  | CellForm.literal => C ++ 61 :: V
  | CellForm.oidLiteral => 94 :: (C ++ 61 :: V)
  | CellForm.oidOid => 94 :: (C ++ 94 :: V)

/-- The string with the given bytes as characters. -/
def textOf (T : List Nat) : String := String.mk (T.map Char.ofNat)

/-- The text of a committed group after its opening `@`, in the form given
by the comment above `parseMorkGroup`: `$$\x7bG\x7b@`, the body `B`, `@$$\x7dG\x7d@`. -/
def groupText (G B : List Nat) : List Nat :=
  36 :: 36 :: 123 :: (G ++ 123 :: 64 :: (B ++ 64 :: 36 :: 36 :: 125 :: (G ++ [125, 64])))

/-- A relation between states of the database that holds across every update
the parser makes: the application of a cell, `setCurrentRow`, and a change of
the parsing target. -/
structure ParserClosed (R : MorkDb → MorkDb → Prop) : Prop where
  refl : ∀ m, R m m
  trans : ∀ a b c, R a b → R b c → R a c
  apply : ∀ m v column text m2, parseMorkCellApply m v column text = Except.ok m2 → R m m2
  row : ∀ m ts tid rs rid, R m (setCurrentRow m ts tid rs rid)
  target : ∀ m t, R m { m with nowParsing := t }

/-- The condition under which `parseMorkCell` takes the branch that interns a
literal row value: a non-empty text, the target Rows, and a value that is not
an object id. -/
def MintsLiteral (m : MorkDb) (valueIsObjectId : Bool) (text : List Nat) : Prop :=
  (text.head? ≠ none ∧ text.head? ≠ some 0) ∧ m.nowParsing = NowParsingType.NPRows ∧
    valueIsObjectId = false

instance (m : MorkDb) (v : Bool) (text : List Nat) : Decidable (MintsLiteral m v text) := by
  unfold MintsLiteral; infer_instance

/-- The test that `parseMorkGroup` makes on the header it has read. -/
def isGroupHeader (h : List Nat) : Bool :=
  decide (h.length > 4 ∧ h.getLast? = some 123 ∧ h.take 3 = bytes "$$\x7b" ∧
    isxdigit (h.getD 3 0) = true)

/-- The first test that `parseMorkGroup` makes on the footer it has read: the
commit form. -/
def isCommitFooter (f : List Nat) : Bool :=
  decide (f.length > 4 ∧ f.getLast? = some 125 ∧ f.take 3 = bytes "$$\x7d" ∧
    isxdigit (f.getD 3 0) = true)

/-- The second test that `parseMorkGroup` makes on the footer: the abort
form. -/
def isAbortFooter (f : List Nat) : Bool :=
  decide (f.length > 10 ∧ f.getLast? = some 125 ∧ f.take 10 = bytes "$$\x7d~abort~" ∧
    isxdigit (f.getD 10 0) = true)

/-- The text of a group after its opening `@`, with the header `$$\x7bG\x7b@`, the
body `B`, the terminator `@$$`, and the bytes `X` that stand between the
terminator and the `@` closing the footer. -/
def groupWith (G B X : List Nat) : List Nat :=
  36 :: 36 :: 123 :: (G ++ 123 :: 64 :: (B ++ 64 :: 36 :: 36 :: (X ++ [64])))

/-! ## Recursive description of the sorted-array update -/

/-- Insert-or-replace in a list ordered by the key function `kf`: the
recursive description of what scan, shift and store do together. -/
def upsertBy {α : Type} (kf : α → Int) (key : Int) (x : α) : List α → List α
  | [] => [x]
  | y :: ys =>
    if key ≤ kf y then (if key = kf y then x :: ys else x :: y :: ys)
    else y :: upsertBy kf key x ys

/-- Strictly ascending list of keys. -/
def StrictAsc (ks : List Int) : Prop := ks.Pairwise (fun a b => a < b)

instance (ks : List Int) : Decidable (StrictAsc ks) := by
  unfold StrictAsc; infer_instance

/-- The test `i >= cnt || key != keys[i]` made after the scan. -/
def keyAbsent (key : Int) (keys : List Int) : Prop :=
  scanIndex key keys ≥ keys.length ∨ key ≠ keys.getD (scanIndex key keys) 0

instance (key : Int) (keys : List Int) : Decidable (keyAbsent key keys) := by
  unfold keyAbsent; infer_instance

/-- The keys array after a `get...` call for `key`. -/
def ensureKeys (key : Int) (keys : List Int) : List Int :=
  if keyAbsent key keys then shiftInsert keys (scanIndex key keys) key else keys

/-- The entries array after a `get...` call for `key`, where `d` is the newly
made entry. -/
def ensureEntries {α : Type} (key : Int) (keys : List Int) (entries : List α) (d : α) :
    List α :=
  if keyAbsent key keys then shiftInsert entries (scanIndex key keys) d else entries

/-- The part of `setCurrentRow` below a row scope map: `getMorkRowMap` followed
by `getMorkCells` on the returned row map. -/
def scopeStep (heap : List MorkCells) (s : RowScopeMap) (rowScope rowId : Int) :
    List MorkCells × RowScopeMap × Nat :=
  let r := getMorkRowMap s rowScope
  let c := getMorkCells heap (r.1.entries.getD r.2 makeMorkRowMap) rowId
  (c.1, { r.1 with entries := r.1.entries.set r.2 c.2.1 }, c.2.2)

/-- The part of `setCurrentRow` below a table map. -/
def tableStep (heap : List MorkCells) (t : MorkTableMap) (tableId rowScope rowId : Int) :
    List MorkCells × MorkTableMap × Nat :=
  let s := getRowScopeMapEntry t tableId
  let c := scopeStep heap (s.1.entries.getD s.2 makeRowScopeMap) rowScope rowId
  (c.1, { s.1 with entries := s.1.entries.set s.2 c.2.1 }, c.2.2)

/-- Well-formed row map: parallel arrays of equal length, keys strictly
ascending. -/
def MorkRowMap.WF (rm : MorkRowMap) : Prop :=
  rm.keys.length = rm.entries.length ∧ StrictAsc rm.keys

def RowScopeMap.WF (s : RowScopeMap) : Prop :=
  s.keys.length = s.entries.length ∧ StrictAsc s.keys ∧ ∀ rm ∈ s.entries, rm.WF

def MorkTableMap.WF (t : MorkTableMap) : Prop :=
  t.keys.length = t.entries.length ∧ StrictAsc t.keys ∧ ∀ s ∈ t.entries, s.WF

/-- Well-formed index: at every level the parallel arrays have equal length
and the keys are strictly ascending. -/
def IndexWF (m : MorkDb) : Prop :=
  m.keys.length = m.entries.length ∧ StrictAsc m.keys ∧ ∀ t ∈ m.entries, t.WF

/-- Well-formed heap: every Cell Set pointer stored in the index is an
allocated address, two different paths never share a pointer, and
`activeCells`, when not `NULL`, is an allocated address. -/
def HeapWF (m : MorkDb) : Prop :=
  (∀ a b c d p, cellsAt m a b c d = some p → p < m.cellsHeap.length) ∧
  (∀ a b c d a2 b2 c2 d2 p, cellsAt m a b c d = some p → cellsAt m a2 b2 c2 d2 = some p →
    a = a2 ∧ b = b2 ∧ c = c2 ∧ d = d2) ∧
  (∀ p, m.activeCells = some p → p < m.cellsHeap.length)

/-- What one level of `setCurrentRow` guarantees, for a level with
well-formedness `WFc` and lookup `L`: the updated object is well-formed, the
returned pointer is the one found under `path` or else the next free heap
address, the heap grows only in the second case, and the lookup changes at
`path` only. -/
def StepSpec {β P : Type} [DecidableEq P] (WFc : β → Prop) (L : β → P → Option Nat)
    (step : List MorkCells → β → List MorkCells × β × Nat) (path : P) : Prop :=
  ∀ heap b, WFc b →
    WFc (step heap b).2.1 ∧
    (step heap b).2.2 = (L b path).getD heap.length ∧
    (step heap b).1 = (if (L b path).isSome then heap else heap ++ [makeMorkCells]) ∧
    ∀ q, L (step heap b).2.1 q = if q = path then some (step heap b).2.2 else L b q

/-- The scope that `setCurrentRow` uses for a given scope argument. -/
def effectiveScope (m : MorkDb) (scope : Int) : Int :=
  if scope = 0 then m.defaultScope else scope

/-- What holds of every database the parser builds: the index and the heap of
Cell Sets are well formed, and the keys of both dictionaries and of every Cell
Set are strictly ascending. -/
def ParsedInv (m : MorkDb) : Prop :=
  IndexWF m ∧ HeapWF m ∧
  StrictAsc (m.columns.entries.map (fun e => e.key)) ∧
  StrictAsc (m.values.entries.map (fun e => e.key)) ∧
  ∀ c ∈ m.cellsHeap, StrictAsc (c.entries.map (fun e => e.key))

/-! ## Writing vCards (`vCard.c` and the writers of `parseMork.c`)

The object that `dst` points to is the list of its bytes, whose length is the
size of the object; a store past its end is a `Fault.overflow`.  A string read
through a `const char *` is the list of its bytes: it ends at the first zero
byte, or at the end of the list. -/

/-- The store `*dp++ = c` when `dp` is `dst + pos`. -/
def dstPut (dst : List Nat) (pos : Nat) (c : Nat) : Except Fault (List Nat) :=
  if pos < dst.length then Except.ok (dst.set pos c) else Except.error Fault.overflow

/-- The first loop of `vCardEscapeString`, `while( i < n && *src )`: the values
of `i` and `dp - dst` and the bytes of the object when the loop ends. -/
def vCardEscapeLoop (n : Nat) : List Nat → Nat → Nat → List Nat →
    Except Fault (Nat × Nat × List Nat)
  | [], i, dp, dst => Except.ok (i, dp, dst)
  | c :: src, i, dp, dst =>
    if i < n ∧ c ≠ 0 then
      if c = 13 then
        match dstPut dst dp 92 with
        | Except.error e => Except.error e
        | Except.ok d1 =>
          match dstPut d1 (dp + 1) 114 with
          | Except.error e => Except.error e
          | Except.ok d2 => vCardEscapeLoop n src (i + 2) (dp + 2) d2
      else if c = 10 then
        match dstPut dst dp 92 with
        | Except.error e => Except.error e
        | Except.ok d1 =>
          match dstPut d1 (dp + 1) 110 with
          | Except.error e => Except.error e
          | Except.ok d2 => vCardEscapeLoop n src (i + 2) (dp + 2) d2
      else if c = 59 ∨ c = 44 then
        match dstPut dst dp 92 with
        | Except.error e => Except.error e
        | Except.ok d1 =>
          match dstPut d1 (dp + 1) c with
          | Except.error e => Except.error e
          | Except.ok d2 => vCardEscapeLoop n src (i + 2) (dp + 2) d2
      else
        match dstPut dst dp c with
        | Except.error e => Except.error e
        | Except.ok d1 => vCardEscapeLoop n src (i + 1) (dp + 1) d1
    else Except.ok (i, dp, dst)

/-- The second loop of `vCardEscapeString`, `while( i++ < n ) *dp++ = 0`; the
first argument is the number of turns, `n - i`. -/
def vCardFillLoop : Nat → Nat → List Nat → Except Fault (List Nat)
  | 0, _, dst => Except.ok dst
  | k + 1, dp, dst =>
    match dstPut dst dp 0 with
    | Except.error e => Except.error e
    | Except.ok d1 => vCardFillLoop k (dp + 1) d1

/-- The function `vCardEscapeString`: the bytes of the object at `dst` after
the call; `none` is the null pointer, for `dst` and for `src`. -/
def vCardEscapeString (dst : Option (List Nat)) (src : Option (List Nat)) (n : Nat) :
    Except Fault (Option (List Nat)) :=
  match dst with
  | none => Except.ok none
  | some d =>
    match src with
    | none =>
      match dstPut d 0 0 with
      | Except.error e => Except.error e
      | Except.ok d1 => Except.ok (some d1)
    | some s =>
      match vCardEscapeLoop n s 0 0 d with
      | Except.error e => Except.error e
      | Except.ok r =>
        match vCardFillLoop (n - r.1) r.2.1 r.2.2 with
        | Except.error e => Except.error e
        | Except.ok d1 => Except.ok (some d1)

/-- The escaped form of one byte, as the specification words it: CR gives
backslash `r`, LF backslash `n`, a semicolon and a comma get a backslash in
front, every other byte stands for itself. -/
def escapedByte (c : Nat) : List Nat :=
  if c = 13 then [92, 114]
  else if c = 10 then [92, 110]
  else if c = 59 ∨ c = 44 then [92, c]
  else [c]

/-- The escaped form of a string, as the specification words it: the escaped
forms of its bytes, one after the other. -/
def escapedForm (src : List Nat) : List Nat :=
  ((src.takeWhile (fun c => c ≠ 0)).map escapedByte).flatten

/-- The constant `ESCBUFSIZE`. -/
def ESCBUFSIZE : Nat := 1024

/-- The state of a vCard writer: the bytes written to `ofp` so far, and the
bytes of the local array `escBuf`. -/
structure VcardOut where
  ofp : List Nat
  escBuf : List Nat
deriving DecidableEq, Repr

/-- The call `fprintf( ofp, s )` for a format `s` without conversion. -/
def fprintfText (s : String) (w : VcardOut) : VcardOut :=
  { w with ofp := w.ofp ++ bytes s }

/-- What `%s` prints for the string that starts the object `buf`: its bytes up
to the first zero; without a zero byte in the object the read runs past its
end. -/
def readCString (buf : List Nat) : Except Fault (List Nat) :=
  if 0 ∈ buf then Except.ok (buf.takeWhile (fun c => c ≠ 0))
  else Except.error Fault.overflow

/-- The call
`fprintf( ofp, fmt, vCardEscapeString( escBuf, value, ESCBUFSIZE ) )` for the
format `fmt` made of `pre`, `%s` and `post`. -/
def fprintfEscaped (pre post : String) (value : String) (w : VcardOut) :
    Except Fault VcardOut :=
  match vCardEscapeString (some w.escBuf) (some (bytes value)) ESCBUFSIZE with
  | Except.error e => Except.error e
  | Except.ok none => Except.error Fault.nullDeref
  | Except.ok (some buf) =>
    match readCString buf with
    | Except.error e => Except.error e
    | Except.ok s => Except.ok { ofp := w.ofp ++ bytes pre ++ s ++ bytes post, escBuf := buf }

/-- The statement `if( value ) fprintf( ofp, fmt, vCardEscapeString( .. ) )`. -/
def fprintfEscapedIf (pre post : String) (value : Option String) (w : VcardOut) :
    Except Fault VcardOut :=
  match value with
  | none => Except.ok w
  | some v => fprintfEscaped pre post v w

/-- The macro `vCardLine( colId, fmt )`. -/
def vCardLine (morkDb : MorkDb) (cells : MorkCells) (colId : Int) (pre post : String)
    (w : VcardOut) : Except Fault VcardOut :=
  fprintfEscapedIf pre post (valueForColumnId colId cells morkDb) w

/-- The block `if( firstName || lastName ) .. ` that both writers use for the
`N:` line. -/
def writeNameLine (firstName lastName : Option String) (w : VcardOut) :
    Except Fault VcardOut :=
  if firstName.isSome = true ∨ lastName.isSome = true then
    match fprintfEscapedIf "" "" firstName (fprintfText "N:" w) with
    | Except.error e => Except.error e
    | Except.ok w1 =>
      match fprintfEscapedIf ";" "" lastName w1 with
      | Except.error e => Except.error e
      | Except.ok w2 => Except.ok (fprintfText ";;;\n" w2)
  else Except.ok w

/-- The four statements, each followed by the separator but the last by the
line end, that print city, state, zip code and country in an `ADR` line. -/
def writeAddressTail (value2 value3 value4 value5 : Option String) (w : VcardOut) :
    Except Fault VcardOut :=
  match fprintfEscapedIf "" "" value2 w with
  | Except.error e => Except.error e
  | Except.ok w2 =>
    match fprintfEscapedIf "" "" value3 (fprintfText ";" w2) with
    | Except.error e => Except.error e
    | Except.ok w3 =>
      match fprintfEscapedIf "" "" value4 (fprintfText ";" w3) with
      | Except.error e => Except.error e
      | Except.ok w4 =>
        match fprintfEscapedIf "" "" value5 (fprintfText ";" w4) with
        | Except.error e => Except.error e
        | Except.ok w5 => Except.ok (fprintfText "\n" w5)

/-- An `ADR` block of `writeMorkCellsAsVcard3_0` (the two address lines are
printed without escaping there); `label` is `ADR:type=WORK:;` or
`ADR:type=HOME:;`. -/
def writeAddress3_0 (label : String) (value1 value2 value3 value4 value5 addr2 : Option String)
    (w : VcardOut) : Except Fault VcardOut :=
  if value1.isSome = true ∨ value2.isSome = true ∨ value3.isSome = true ∨
      value4.isSome = true ∨ value5.isSome = true then
    writeAddressTail value2 value3 value4 value5
      (match addr2, value1 with
       | some a, some v => fprintfText (v ++ ";" ++ a ++ ";") (fprintfText label w)
       | some a, none => fprintfText (";" ++ a ++ ";") (fprintfText label w)
       | none, some v => fprintfText (";" ++ v ++ ";") (fprintfText label w)
       | none, none => fprintfText ";;" (fprintfText label w))
  else Except.ok w

/-- An `ADR` block of `writeMorkCellsAsVcard2_1`; `label` is `ADR:WORK:;` or
`ADR:HOME:;`. -/
def writeAddress2_1 (label : String) (value1 value2 value3 value4 value5 addr2 : Option String)
    (w : VcardOut) : Except Fault VcardOut :=
  if value1.isSome = true ∨ value2.isSome = true ∨ value3.isSome = true ∨
      value4.isSome = true ∨ value5.isSome = true then
    match fprintfEscapedIf "" "" addr2 (fprintfText label w) with
    | Except.error e => Except.error e
    | Except.ok w1 =>
      match fprintfEscapedIf "" "" value1 (fprintfText ";" w1) with
      | Except.error e => Except.error e
      | Except.ok w2 => writeAddressTail value2 value3 value4 value5 (fprintfText ";" w2)
  else Except.ok w

/-- The function `writeMorkCellsAsVcard3_0`: the bytes written to `ofp`. -/
def writeMorkCellsAsVcard3_0 (morkDb : MorkDb) (cells : MorkCells) : Except Fault (List Nat) :=
  let col := fun (name : String) => getColumnId morkDb name
  let value := fun (name : String) => valueForColumnId (col name) cells morkDb
  if cells.cnt ≤ 1 then Except.ok []
  else if (value "PrimaryEmail").isSome = false ∧ (value "DisplayName").isSome = false ∧
      (value "FirstName").isSome = false ∧ (value "LastName").isSome = false then
    Except.ok []
  else do
    let w := fprintfText "VERSION:3.0\n" (fprintfText "BEGIN:VCARD\n"
      { ofp := [], escBuf := List.replicate ESCBUFSIZE 0 })
    let w ← writeNameLine (value "FirstName") (value "LastName") w
    let w ← vCardLine morkDb cells (col "DisplayName") "FN:" "\n" w
    let w ← vCardLine morkDb cells (col "PrimaryEmail") "EMAIL;type=INTERNET;type=PREF:" "\n" w
    let w ← vCardLine morkDb cells (col "Company") "ORG:" "" w
    let w ← vCardLine morkDb cells (col "JobTitle") "TITLE:" "\n" w
    let w ← vCardLine morkDb cells (col "WorkPhone") "TEL;type=WORK;type=VOICE:" "\n" w
    let w ← vCardLine morkDb cells (col "FaxNumber") "TEL;type=WORK;type=FAX:" "\n" w
    let w ← vCardLine morkDb cells (col "PagerNumber") "TEL;type=PAGER:" "\n" w
    let w ← vCardLine morkDb cells (col "CellularNumber") "TEL;type=CELL;type=VOICE:" "\n" w
    let w ← vCardLine morkDb cells (col "HomePhone") "TEL;type=HOME;type=VOICE:" "\n" w
    let w ← writeAddress3_0 "ADR:type=WORK:;" (value "WorkAddress") (value "WorkCity")
      (value "WorkState") (value "WorkZipCode") (value "WorkCountry") (value "WorkAddress2") w
    let w ← writeAddress3_0 "ADR:type=HOME:;" (value "HomeAddress") (value "HomeCity")
      (value "HomeState") (value "HomeZipCode") (value "HomeCountry") (value "HomeAddress2") w
    let w ← vCardLine morkDb cells (col "Notes") "NOTE:" "\n" w
    Except.ok (fprintfText "END:VCARD\n" w).ofp

/-- The function `writeMorkCellsAsVcard2_1`: the bytes written to `ofp`. -/
def writeMorkCellsAsVcard2_1 (morkDb : MorkDb) (cells : MorkCells) : Except Fault (List Nat) :=
  let col := fun (name : String) => getColumnId morkDb name
  let value := fun (name : String) => valueForColumnId (col name) cells morkDb
  if cells.cnt ≤ 1 then Except.ok []
  else if (value "PrimaryEmail").isSome = false ∧ (value "DisplayName").isSome = false ∧
      (value "FirstName").isSome = false ∧ (value "LastName").isSome = false then
    Except.ok []
  else do
    let w := fprintfText "VERSION:2.1\n" (fprintfText "BEGIN:VCARD\n"
      { ofp := [], escBuf := List.replicate ESCBUFSIZE 0 })
    let w ← writeNameLine (value "FirstName") (value "LastName") w
    let w ← vCardLine morkDb cells (col "DisplayName") "FN:" "\n" w
    let w ← vCardLine morkDb cells (col "Company") "ORG:" "" w
    let w ← vCardLine morkDb cells (col "JobTitle") "TITLE:" "\n" w
    let w ← vCardLine morkDb cells (col "WorkPhone") "TEL;WORK;VOICE:" "\n" w
    let w ← vCardLine morkDb cells (col "FaxNumber") "TEL;WORK;FAX:" "\n" w
    let w ← vCardLine morkDb cells (col "PagerNumber") "TEL;PAGER:" "\n" w
    let w ← vCardLine morkDb cells (col "CellularNumber") "TEL;CELL;VOICE:" "\n" w
    let w ← vCardLine morkDb cells (col "HomePhone") "TEL;HOME;VOICE:" "\n" w
    let w ← writeAddress2_1 "ADR:WORK:;" (value "WorkAddress") (value "WorkCity")
      (value "WorkState") (value "WorkZipCode") (value "WorkCountry") (value "WorkAddress2") w
    let w ← writeAddress2_1 "ADR:HOME:;" (value "HomeAddress") (value "HomeCity")
      (value "HomeState") (value "HomeZipCode") (value "HomeCountry") (value "HomeAddress2") w
    let w ← vCardLine morkDb cells (col "PrimaryEmail") "EMAIL;PREF;INTERNET:" "\n" w
    let w ← vCardLine morkDb cells (col "Notes") "NOTE:" "\n" w
    Except.ok (fprintfText "END:VCARD\n" w).ofp
/-! ## The calls of `parseMorkCell` made during a parse

Each function below follows the function of the parser named in it and lists,
in order, the calls of `parseMorkCell` that this function makes, directly or
through the functions it calls: the database given to the call and, for a call
made by `parseMorkRow`, the index path of the row whose header
`parseMorkRow` has parsed.  A run that ends in a fault lists the calls made
before it. -/

/-- A call of `parseMorkCell`. -/
structure CellCall where
  row : Option (Int × Int × Int × Int)
  db : MorkDb

/-- The calls made by the second loop of `parseMorkRow`. -/
def parseMorkRowLoopCalls (path : Int × Int × Int × Int) :
    Nat → Bool → Int → MorkFile → MorkDb → List CellCall
  | 0, _, _, _, _ => []
  | fuel + 1, result, cur, ifp, m =>
    if result = true ∧ cur ≠ 93 ∧ cur ≠ 0 then
      if isspace cur = false then
        if cur = 40 then
          { row := some path, db := m } ::
            (match parseMorkCell fuel ifp m with
             | Except.error _ => []
             | Except.ok r =>
               parseMorkRowLoopCalls path fuel r.1 (morkgetc r.2.1).1 (morkgetc r.2.1).2 r.2.2)
        else if cur = 91 then
          match parseMorkMeta fuel ifp 93 with
          | Except.error _ => []
          | Except.ok r =>
            parseMorkRowLoopCalls path fuel r.1 (morkgetc r.2).1 (morkgetc r.2).2 m
        else parseMorkRowLoopCalls path fuel false (morkgetc ifp).1 (morkgetc ifp).2 m
      else parseMorkRowLoopCalls path fuel result (morkgetc ifp).1 (morkgetc ifp).2 m
    else []

/-- The calls made by `parseMorkRow`; the path is the one that
`setCurrentRow` resolves for the header just parsed. -/
def parseMorkRowCalls (fuel : Nat) (ifp : MorkFile) (m : MorkDb) (tableId tableScope : Int) :
    List CellCall :=
  match parseMorkRowIdLoop fuel (morkgetc ifp).1 (morkgetc ifp).2 [] with
  | Except.error _ => []
  | Except.ok r =>
    match bufEnd r.2.2 with
    | Except.error _ => []
    | Except.ok rowIdText =>
      let ids := parseScopeId rowIdText 0
      parseMorkRowLoopCalls
        (effectiveScope m tableScope, tableId, effectiveScope m ids.2, ids.1)
        fuel true r.1 r.2.1
        (setCurrentRow { m with nowParsing := NowParsingType.NPRows } tableScope tableId
          ids.2 ids.1)

/-- The calls made by the second loop of `parseMorkTable`. -/
def parseMorkTableLoopCalls (id scope : Int) : Nat → Bool → Nat → MorkFile → MorkDb →
    List CellCall
  | 0, _, _, _, _ => []
  | fuel + 1, result, cur, ifp, m =>
    if result = true ∧ cur ≠ 0 ∧ cur ≠ 125 then
      if isspace cur = false then
        if cur = 123 then
          match parseMorkMeta fuel ifp 125 with
          | Except.error _ => []
          | Except.ok r =>
            parseMorkTableLoopCalls id scope fuel r.1 (toChar (morkgetc r.2).1)
              (morkgetc r.2).2 m
        else if cur = 91 then
          parseMorkRowCalls fuel ifp m id scope ++
            (match parseMorkRow fuel ifp m id scope with
             | Except.error _ => []
             | Except.ok r =>
               parseMorkTableLoopCalls id scope fuel r.1 (toChar (morkgetc r.2.1).1)
                 (morkgetc r.2.1).2 r.2.2)
        else if cur = 45 ∨ cur = 43 then
          parseMorkTableLoopCalls id scope fuel result (toChar (morkgetc ifp).1)
            (morkgetc ifp).2 m
        else
          match parseMorkTableJustIdLoop fuel cur ifp [] with
          | Except.error _ => []
          | Except.ok r =>
            if r.1 = true then []
            else
              match bufEnd r.2.2.2 with
              | Except.error _ => []
              | Except.ok justId =>
                let ids := parseScopeId justId 0
                parseMorkTableLoopCalls id scope fuel result (toChar (morkgetc r.2.2.1).1)
                  (morkgetc r.2.2.1).2 (setCurrentRow m scope id ids.2 ids.1)
      else
        parseMorkTableLoopCalls id scope fuel result (toChar (morkgetc ifp).1)
          (morkgetc ifp).2 m
    else []

/-- The calls made by `parseMorkTable`. -/
def parseMorkTableCalls (fuel : Nat) (ifp : MorkFile) (m : MorkDb) : List CellCall :=
  match parseMorkTableIdLoop fuel (toChar (morkgetc ifp).1) (morkgetc ifp).2 [] with
  | Except.error _ => []
  | Except.ok r =>
    match bufEnd r.2.2 with
    | Except.error _ => []
    | Except.ok textId =>
      let ids := parseScopeId textId 0
      parseMorkTableLoopCalls ids.1 ids.2 fuel true r.1 r.2.1 m

/-- The calls made by the loop of `parseMorkDict`. -/
def parseMorkDictLoopCalls : Nat → Bool → Int → MorkFile → MorkDb → List CellCall
  | 0, _, _, _, _ => []
  | fuel + 1, result, cur, ifp, m =>
    if result = true ∧ cur ≠ 62 ∧ cur ≠ 0 ∧ feof ifp = false then
      if isspace cur = false then
        if cur = 60 then
          if 60 :: (morkgetcN (MorkDictColumnMeta.length - 1) ifp).1 = MorkDictColumnMeta then
            parseMorkDictLoopCalls fuel result
              (morkgetc (morkgetcN (MorkDictColumnMeta.length - 1) ifp).2).1
              (morkgetc (morkgetcN (MorkDictColumnMeta.length - 1) ifp).2).2
              { m with nowParsing := NowParsingType.NPColumns }
          else
            parseMorkDictLoopCalls fuel result
              (morkgetc (morkgetcN (MorkDictColumnMeta.length - 1) ifp).2).1
              (morkgetc (morkgetcN (MorkDictColumnMeta.length - 1) ifp).2).2 m
        else if cur = 40 then
          { row := none, db := m } ::
            (match parseMorkCell fuel ifp m with
             | Except.error _ => []
             | Except.ok r =>
               parseMorkDictLoopCalls fuel r.1 (morkgetc r.2.1).1 (morkgetc r.2.1).2 r.2.2)
        else if cur = 47 then
          match parseMorkComment fuel ifp with
          | Except.error _ => []
          | Except.ok r => parseMorkDictLoopCalls fuel r.1 (morkgetc r.2).1 (morkgetc r.2).2 m
        else parseMorkDictLoopCalls fuel result (morkgetc ifp).1 (morkgetc ifp).2 m
      else parseMorkDictLoopCalls fuel result (morkgetc ifp).1 (morkgetc ifp).2 m
    else []

/-- The calls made by `parseMorkDict`. -/
def parseMorkDictCalls (fuel : Nat) (ifp : MorkFile) (m : MorkDb) : List CellCall :=
  parseMorkDictLoopCalls fuel true (morkgetc ifp).1 (morkgetc ifp).2
    { m with nowParsing := NowParsingType.NPValues }

/-- The calls made by the dispatch loop of `parseMorkStream`. -/
def parseMorkStreamLoopCalls : Nat → Bool → Int → MorkFile → MorkDb → List CellCall
  | 0, _, _, _, _ => []
  | fuel + 1, result, cur, ifp, m =>
    if result = true ∧ cur ≠ 0 ∧ feof ifp = false then
      if isspace cur = false then
        if cur = 60 then
          parseMorkDictCalls fuel ifp m ++
            (match parseMorkDict fuel ifp m with
             | Except.error _ => []
             | Except.ok r =>
               parseMorkStreamLoopCalls fuel r.1 (morkgetc r.2.1).1 (morkgetc r.2.1).2 r.2.2)
        else if cur = 47 then
          match parseMorkComment fuel ifp with
          | Except.error _ => []
          | Except.ok r => parseMorkStreamLoopCalls fuel r.1 (morkgetc r.2).1 (morkgetc r.2).2 m
        else if cur = 123 then
          parseMorkTableCalls fuel ifp m ++
            (match parseMorkTable fuel ifp m with
             | Except.error _ => []
             | Except.ok r =>
               parseMorkStreamLoopCalls fuel r.1 (morkgetc r.2.1).1 (morkgetc r.2.1).2 r.2.2)
        else if cur = 91 then
          parseMorkRowCalls fuel ifp m 0 0 ++
            (match parseMorkRow fuel ifp m 0 0 with
             | Except.error _ => []
             | Except.ok r =>
               parseMorkStreamLoopCalls fuel r.1 (morkgetc r.2.1).1 (morkgetc r.2.1).2 r.2.2)
        else if cur = 64 then
          match parseMorkGroup fuel ifp with
          | Except.error _ => []
          | Except.ok r => parseMorkStreamLoopCalls fuel r.1 (morkgetc r.2).1 (morkgetc r.2).2 m
        else parseMorkStreamLoopCalls fuel false (morkgetc ifp).1 (morkgetc ifp).2 m
      else parseMorkStreamLoopCalls fuel result (morkgetc ifp).1 (morkgetc ifp).2 m
    else []

/-- The calls made by `parseMorkStream`. -/
def parseMorkStreamCalls (fuel : Nat) (ifp : MorkFile) : List CellCall :=
  if ((readMagicHeader MorkMagicHeader.length ifp).1.takeWhile (fun c => c ≠ 0)) ≠
      MorkMagicHeader then []
  else
    parseMorkStreamLoopCalls fuel true
      (morkgetc (readMagicHeader MorkMagicHeader.length ifp).2).1
      (morkgetc (readMagicHeader MorkMagicHeader.length ifp).2).2
      initializeTableScopeMap

/-- What the claim on the calls of `parseMorkCell` says of one call: when the
parsing target is Rows, the call is made by `parseMorkRow`, `activeCells`
is not null and points to an allocated Cell Set, and it is the Cell Set that
the index holds for the row whose header was parsed. -/
def GoodCall (c : CellCall) : Prop :=
  c.db.nowParsing = NowParsingType.NPRows →
    ∃ ts tid rs rid p, c.row = some (ts, tid, rs, rid) ∧ c.db.activeCells = some p ∧
      p < c.db.cellsHeap.length ∧ cellsAt c.db ts tid rs rid = some p

/-! ## The stores into the values dictionary made during a parse -/

/-- A store into the values dictionary: whether the id is a synthetic one,
minted for a literal row value, or an explicit one, given by a dictionary
cell; the id; and whether the id was already a key of the dictionary. -/
structure ValueStore where
  minted : Bool
  id : Int
  present : Bool
deriving DecidableEq, Repr

/-- The stores into the values dictionary that `parseMorkCell` makes when it
applies column and text: the list has at most one element. -/
def valueStores (m : MorkDb) (valueIsObjectId : Bool) (column text : List Nat) :
    List ValueStore :=
  if text.head? ≠ none ∧ text.head? ≠ some 0 then
    if m.nowParsing = NowParsingType.NPRows then
      if valueIsObjectId then []
      else
        [{ minted := true, id := m.nextAddValueId - 1,
           present := decide (m.nextAddValueId - 1 ∈ m.values.entries.map (fun e => e.key)) }]
    else if m.nowParsing = NowParsingType.NPColumns then []
    else
      [{ minted := false, id := toInt32 (strtol16 column),
         present := decide (toInt32 (strtol16 column) ∈
           m.values.entries.map (fun e => e.key)) }]
  else []

/-- A succession of updates of the parser leading from one state of the
database to another, with the stores into the values dictionary made on the
way, in processing order. -/
inductive Stores : MorkDb → List ValueStore → MorkDb → Prop where
  | done (m : MorkDb) : Stores m [] m
  | cell (m m1 m2 : MorkDb) (evs : List ValueStore) (v : Bool) (column text : List Nat) :
      parseMorkCellApply m v column text = Except.ok m1 →
      Stores m1 evs m2 → Stores m (valueStores m v column text ++ evs) m2
  | row (m m2 : MorkDb) (evs : List ValueStore) (ts tid rs rid : Int) :
      Stores (setCurrentRow m ts tid rs rid) evs m2 → Stores m evs m2
  | target (m m2 : MorkDb) (evs : List ValueStore) (t : NowParsingType) :
      Stores { m with nowParsing := t } evs m2 → Stores m evs m2

/-! ## The updates of the database made during a parse

Each function below follows the function of the parser named in it and lists,
in order, the updates of the database that this function makes, directly or
through the functions it calls: the application of the column and text of a
cell at the end of `parseMorkCell`, the calls of `setCurrentRow`, and the
assignments to `nowParsing`.  A run that ends in a fault lists the updates made
before it. -/

/-- An update of the database made by the parser. -/
inductive Update where
  | cell (valueIsObjectId : Bool) (column text : List Nat)
  | row (tableScope tableId rowScope rowId : Int)
  | target (t : NowParsingType)
deriving DecidableEq, Repr

/-- The effect of one update on the database. -/
def applyUpdate (m : MorkDb) : Update → Except Fault MorkDb
  | Update.cell v column text => parseMorkCellApply m v column text
  | Update.row ts tid rs rid => Except.ok (setCurrentRow m ts tid rs rid)
  | Update.target t => Except.ok { m with nowParsing := t }

/-- The effect of a list of updates made one after the other. -/
def applyUpdates : MorkDb → List Update → Except Fault MorkDb
  | m, [] => Except.ok m
  | m, u :: us =>
    match applyUpdate m u with
    | Except.error e => Except.error e
    | Except.ok m1 => applyUpdates m1 us

/-- The update made by `parseMorkCell`: the column and text it has read. -/
def parseMorkCellUpdates (fuel : Nat) (ifp : MorkFile) : List Update :=
  match parseMorkCellLoop fuel (toChar (morkgetc ifp).1) (morkgetc ifp).2
      { columnIsObjectId := false, valueIsObjectId := false, bColumn := true, corners := 0,
        column := [], text := [] } with
  | Except.error _ => []
  | Except.ok r =>
    match bufEnd r.2.column with
    | Except.error _ => []
    | Except.ok column =>
      match bufEnd r.2.text with
      | Except.error _ => []
      | Except.ok text => [Update.cell r.2.valueIsObjectId column text]

/-- The updates made by the second loop of `parseMorkRow`. -/
def parseMorkRowLoopUpdates : Nat → Bool → Int → MorkFile → MorkDb → List Update
  | 0, _, _, _, _ => []
  | fuel + 1, result, cur, ifp, m =>
    if result = true ∧ cur ≠ 93 ∧ cur ≠ 0 then
      if isspace cur = false then
        if cur = 40 then
          parseMorkCellUpdates fuel ifp ++
            (match parseMorkCell fuel ifp m with
             | Except.error _ => []
             | Except.ok r =>
               parseMorkRowLoopUpdates fuel r.1 (morkgetc r.2.1).1 (morkgetc r.2.1).2 r.2.2)
        else if cur = 91 then
          match parseMorkMeta fuel ifp 93 with
          | Except.error _ => []
          | Except.ok r =>
            parseMorkRowLoopUpdates fuel r.1 (morkgetc r.2).1 (morkgetc r.2).2 m
        else parseMorkRowLoopUpdates fuel false (morkgetc ifp).1 (morkgetc ifp).2 m
      else parseMorkRowLoopUpdates fuel result (morkgetc ifp).1 (morkgetc ifp).2 m
    else []

/-- The updates made by `parseMorkRow`: the target becomes Rows, the row of
the header is made current, then the row is parsed. -/
def parseMorkRowUpdates (fuel : Nat) (ifp : MorkFile) (m : MorkDb) (tableId tableScope : Int) :
    List Update :=
  match parseMorkRowIdLoop fuel (morkgetc ifp).1 (morkgetc ifp).2 [] with
  | Except.error _ => []
  | Except.ok r =>
    match bufEnd r.2.2 with
    | Except.error _ => []
    | Except.ok rowIdText =>
      let ids := parseScopeId rowIdText 0
      Update.target NowParsingType.NPRows :: Update.row tableScope tableId ids.2 ids.1 ::
        parseMorkRowLoopUpdates fuel true r.1 r.2.1
          (setCurrentRow { m with nowParsing := NowParsingType.NPRows } tableScope tableId
            ids.2 ids.1)

/-- The updates made by the second loop of `parseMorkTable`. -/
def parseMorkTableLoopUpdates (id scope : Int) : Nat → Bool → Nat → MorkFile → MorkDb →
    List Update
  | 0, _, _, _, _ => []
  | fuel + 1, result, cur, ifp, m =>
    if result = true ∧ cur ≠ 0 ∧ cur ≠ 125 then
      if isspace cur = false then
        if cur = 123 then
          match parseMorkMeta fuel ifp 125 with
          | Except.error _ => []
          | Except.ok r =>
            parseMorkTableLoopUpdates id scope fuel r.1 (toChar (morkgetc r.2).1)
              (morkgetc r.2).2 m
        else if cur = 91 then
          parseMorkRowUpdates fuel ifp m id scope ++
            (match parseMorkRow fuel ifp m id scope with
             | Except.error _ => []
             | Except.ok r =>
               parseMorkTableLoopUpdates id scope fuel r.1 (toChar (morkgetc r.2.1).1)
                 (morkgetc r.2.1).2 r.2.2)
        else if cur = 45 ∨ cur = 43 then
          parseMorkTableLoopUpdates id scope fuel result (toChar (morkgetc ifp).1)
            (morkgetc ifp).2 m
        else
          match parseMorkTableJustIdLoop fuel cur ifp [] with
          | Except.error _ => []
          | Except.ok r =>
            if r.1 = true then []
            else
              match bufEnd r.2.2.2 with
              | Except.error _ => []
              | Except.ok justId =>
                let ids := parseScopeId justId 0
                Update.row scope id ids.2 ids.1 ::
                  parseMorkTableLoopUpdates id scope fuel result
                    (toChar (morkgetc r.2.2.1).1) (morkgetc r.2.2.1).2
                    (setCurrentRow m scope id ids.2 ids.1)
      else
        parseMorkTableLoopUpdates id scope fuel result (toChar (morkgetc ifp).1)
          (morkgetc ifp).2 m
    else []

/-- The updates made by `parseMorkTable`. -/
def parseMorkTableUpdates (fuel : Nat) (ifp : MorkFile) (m : MorkDb) : List Update :=
  match parseMorkTableIdLoop fuel (toChar (morkgetc ifp).1) (morkgetc ifp).2 [] with
  | Except.error _ => []
  | Except.ok r =>
    match bufEnd r.2.2 with
    | Except.error _ => []
    | Except.ok textId =>
      let ids := parseScopeId textId 0
      parseMorkTableLoopUpdates ids.1 ids.2 fuel true r.1 r.2.1 m

/-- The updates made by the loop of `parseMorkDict`. -/
def parseMorkDictLoopUpdates : Nat → Bool → Int → MorkFile → MorkDb → List Update
  | 0, _, _, _, _ => []
  | fuel + 1, result, cur, ifp, m =>
    if result = true ∧ cur ≠ 62 ∧ cur ≠ 0 ∧ feof ifp = false then
      if isspace cur = false then
        if cur = 60 then
          if 60 :: (morkgetcN (MorkDictColumnMeta.length - 1) ifp).1 = MorkDictColumnMeta then
            Update.target NowParsingType.NPColumns ::
              parseMorkDictLoopUpdates fuel result
                (morkgetc (morkgetcN (MorkDictColumnMeta.length - 1) ifp).2).1
                (morkgetc (morkgetcN (MorkDictColumnMeta.length - 1) ifp).2).2
                { m with nowParsing := NowParsingType.NPColumns }
          else
            parseMorkDictLoopUpdates fuel result
              (morkgetc (morkgetcN (MorkDictColumnMeta.length - 1) ifp).2).1
              (morkgetc (morkgetcN (MorkDictColumnMeta.length - 1) ifp).2).2 m
        else if cur = 40 then
          parseMorkCellUpdates fuel ifp ++
            (match parseMorkCell fuel ifp m with
             | Except.error _ => []
             | Except.ok r =>
               parseMorkDictLoopUpdates fuel r.1 (morkgetc r.2.1).1 (morkgetc r.2.1).2 r.2.2)
        else if cur = 47 then
          match parseMorkComment fuel ifp with
          | Except.error _ => []
          | Except.ok r => parseMorkDictLoopUpdates fuel r.1 (morkgetc r.2).1 (morkgetc r.2).2 m
        else parseMorkDictLoopUpdates fuel result (morkgetc ifp).1 (morkgetc ifp).2 m
      else parseMorkDictLoopUpdates fuel result (morkgetc ifp).1 (morkgetc ifp).2 m
    else []

/-- The updates made by `parseMorkDict`: the target becomes Values, then the
dictionary is parsed. -/
def parseMorkDictUpdates (fuel : Nat) (ifp : MorkFile) (m : MorkDb) : List Update :=
  Update.target NowParsingType.NPValues ::
    parseMorkDictLoopUpdates fuel true (morkgetc ifp).1 (morkgetc ifp).2
      { m with nowParsing := NowParsingType.NPValues }

/-- The updates made by the dispatch loop of `parseMorkStream`. -/
def parseMorkStreamLoopUpdates : Nat → Bool → Int → MorkFile → MorkDb → List Update
  | 0, _, _, _, _ => []
  | fuel + 1, result, cur, ifp, m =>
    if result = true ∧ cur ≠ 0 ∧ feof ifp = false then
      if isspace cur = false then
        if cur = 60 then
          parseMorkDictUpdates fuel ifp m ++
            (match parseMorkDict fuel ifp m with
             | Except.error _ => []
             | Except.ok r =>
               parseMorkStreamLoopUpdates fuel r.1 (morkgetc r.2.1).1 (morkgetc r.2.1).2 r.2.2)
        else if cur = 47 then
          match parseMorkComment fuel ifp with
          | Except.error _ => []
          | Except.ok r =>
            parseMorkStreamLoopUpdates fuel r.1 (morkgetc r.2).1 (morkgetc r.2).2 m
        else if cur = 123 then
          parseMorkTableUpdates fuel ifp m ++
            (match parseMorkTable fuel ifp m with
             | Except.error _ => []
             | Except.ok r =>
               parseMorkStreamLoopUpdates fuel r.1 (morkgetc r.2.1).1 (morkgetc r.2.1).2 r.2.2)
        else if cur = 91 then
          parseMorkRowUpdates fuel ifp m 0 0 ++
            (match parseMorkRow fuel ifp m 0 0 with
             | Except.error _ => []
             | Except.ok r =>
               parseMorkStreamLoopUpdates fuel r.1 (morkgetc r.2.1).1 (morkgetc r.2.1).2 r.2.2)
        else if cur = 64 then
          match parseMorkGroup fuel ifp with
          | Except.error _ => []
          | Except.ok r =>
            parseMorkStreamLoopUpdates fuel r.1 (morkgetc r.2).1 (morkgetc r.2).2 m
        else parseMorkStreamLoopUpdates fuel false (morkgetc ifp).1 (morkgetc ifp).2 m
      else parseMorkStreamLoopUpdates fuel result (morkgetc ifp).1 (morkgetc ifp).2 m
    else []

/-- The updates made by `parseMorkStream`, from the initial database. -/
def parseMorkStreamUpdates (fuel : Nat) (ifp : MorkFile) : List Update :=
  if ((readMagicHeader MorkMagicHeader.length ifp).1.takeWhile (fun c => c ≠ 0)) ≠
      MorkMagicHeader then []
  else
    parseMorkStreamLoopUpdates fuel true
      (morkgetc (readMagicHeader MorkMagicHeader.length ifp).2).1
      (morkgetc (readMagicHeader MorkMagicHeader.length ifp).2).2
      initializeTableScopeMap

/-- A literal row value interned during a parse: the database before and
after the cell is applied, and the column and text of the cell. -/
structure LiteralStore where
  before : MorkDb
  after : MorkDb
  column : List Nat
  text : List Nat

/-- The literal row values interned while the updates are made one after the
other from the database `m`, in processing order: the cell updates that take
the branch of `parseMorkCell` for a literal value in a row. -/
def literalStores : MorkDb → List Update → List LiteralStore
  | _, [] => []
  | m, u :: us =>
    match applyUpdate m u with
    | Except.error _ => []
    | Except.ok m1 =>
      match u with
      | Update.cell v column text =>
        if MintsLiteral m v text then
          { before := m, after := m1, column := column, text := text } :: literalStores m1 us
        else literalStores m1 us
      | _ => literalStores m1 us

/-- What the claim on the synthetic ids says of one interned literal: the id
`n` is the value of `nextAddValueId` after the cell, one less than before it;
the text of the cell is stored in the values dictionary under `n`; and the
active Cell Set, which the cell does not change, maps the column of the cell
to `n`, so that `valueForColumnId` gives the text back. -/
def LiteralStore.StoredUnder (e : LiteralStore) (n : Int) : Prop :=
  e.before.nowParsing = NowParsingType.NPRows ∧
  e.before.nextAddValueId = n + 1 ∧ e.after.nextAddValueId = n ∧
  e.after.values = storeInMorkDict e.before.values n (cString e.text) ∧
  getValue e.after n = cString e.text ∧
  ∃ p, e.before.activeCells = some p ∧ e.after.activeCells = some p ∧
    derefCells e.after p =
      storeInMorkCell (derefCells e.before p) (toInt32 (strtol16 e.column)) n ∧
    cellValueId (toInt32 (strtol16 e.column)) (derefCells e.after p).entries = some n ∧
    valueForColumnId (toInt32 (strtol16 e.column)) (derefCells e.after p) e.after =
      some (cString e.text)

/-! ## Blocks of plain cells -/

/-- The updates that `parseMorkCell` makes for the cells with the given
bodies, in order, each cell being read on its own. -/
def cellsUpdates : List (List Nat) → List Update
  | [] => []
  | b :: bs =>
    parseMorkCellUpdates (b.length + 1) { pending := b ++ [41], eof := false } ++
      cellsUpdates bs

/-- Cell bodies made of cell bytes, each shorter than 512 bytes. -/
def PlainCells (cells : List (List Nat)) : Prop :=
  ∀ b ∈ cells, (∀ x ∈ b, cellByte x = true) ∧ b.length < 512

instance (cells : List (List Nat)) : Decidable (PlainCells cells) := by
  unfold PlainCells; infer_instance

/-- A block at top level made of plain cells: a dictionary
`<(cell)..(cell)>` or a row `[R(cell)..(cell)]`. -/
inductive Block where
  | dict (cells : List (List Nat))
  | row (R : List Nat) (cells : List (List Nat))
deriving DecidableEq, Repr

/-- The text of a block. -/
def Block.text : Block → List Nat
  | Block.dict cells => 60 :: (cellsText cells ++ [62])
  | Block.row R cells => 91 :: (R ++ (cellsText cells ++ [93]))

/-- The text of a sequence of blocks. -/
def blocksText : List Block → List Nat
  | [] => []
  | b :: bs => b.text ++ blocksText bs

/-- A block whose cells are plain; a row has a header of id bytes shorter than
512 bytes and at least one cell. -/
def Block.OK : Block → Prop
  | Block.dict cells => PlainCells cells
  | Block.row R cells =>
    R ≠ [] ∧ (∀ x ∈ R, idByte x = true) ∧ R.length < 512 ∧ cells ≠ [] ∧ PlainCells cells

instance (b : Block) : Decidable b.OK := by
  cases b <;> (unfold Block.OK; infer_instance)

/-- Nothing stored in `m` is missing from `m2`: every key of the column
dictionary and of the value dictionary of `m` is a key of the same dictionary
of `m2`, every index path of `m` leads to the same Cell Set in `m2`, and
every key of a Cell Set of `m` is a key of the same Cell Set of `m2`. -/
def Grows (m m2 : MorkDb) : Prop :=
  (∀ k ∈ m.columns.entries.map (fun e => e.key),
    k ∈ m2.columns.entries.map (fun e => e.key)) ∧
  (∀ k ∈ m.values.entries.map (fun e => e.key),
    k ∈ m2.values.entries.map (fun e => e.key)) ∧
  (∀ a b c d p, cellsAt m a b c d = some p → cellsAt m2 a b c d = some p) ∧
  (∀ p, ∀ k ∈ (derefCells m p).entries.map (fun e => e.key),
    k ∈ (derefCells m2 p).entries.map (fun e => e.key))

/-! # Theorems -/

theorem scan_shift_set_eq_upsertBy {α : Type} (kf : α → Int) (key : Int) (x : α)
    (l : List α) :
    (if scanIndex key (l.map kf) ≥ l.length ∨
        key ≠ (l.map kf).getD (scanIndex key (l.map kf)) 0
      then shiftInsert l (scanIndex key (l.map kf)) x
      else l.set (scanIndex key (l.map kf)) x) = upsertBy kf key x l := by
  induction l with
  | nil => simp [scanIndex, shiftInsert, upsertBy]
  | cons y ys ih =>
    by_cases h : key ≤ kf y
    · by_cases h2 : key = kf y
      · simp [scanIndex, shiftInsert, upsertBy, h, h2]
      · simp [scanIndex, shiftInsert, upsertBy, h, h2]
    · simp only [List.map_cons, scanIndex, h, if_false, upsertBy, List.length_cons,
        List.getD_cons_succ, List.set_cons_succ, shiftInsert, List.take_succ_cons,
        List.drop_succ_cons, List.cons_append, ge_iff_le, Nat.add_le_add_iff_right]
      rw [← ih]
      simp only [shiftInsert, ge_iff_le]
      split <;> rfl

theorem upsertBy_key_mem {α : Type} (kf : α → Int) (key : Int) (x : α) (hx : kf x = key)
    (l : List α) (z : α) (hz : z ∈ upsertBy kf key x l) : kf z = key ∨ z ∈ l := by
  induction l with
  | nil =>
    simp only [upsertBy, List.mem_singleton] at hz
    left; rw [hz, hx]
  | cons y ys ih =>
    simp only [upsertBy] at hz
    split at hz
    · split at hz
      · rcases List.mem_cons.1 hz with h | h
        · left; rw [h, hx]
        · right; exact List.mem_cons_of_mem _ h
      · rcases List.mem_cons.1 hz with h | h
        · left; rw [h, hx]
        · right; exact h
    · rcases List.mem_cons.1 hz with h | h
      · right; rw [h]; exact List.mem_cons_self _ _
      · rcases ih h with h1 | h1
        · left; exact h1
        · right; exact List.mem_cons_of_mem _ h1

theorem upsertBy_strictAsc {α : Type} (kf : α → Int) (key : Int) (x : α) (hx : kf x = key)
    (l : List α) (hl : StrictAsc (l.map kf)) :
    StrictAsc ((upsertBy kf key x l).map kf) := by
  unfold StrictAsc at *
  rw [List.pairwise_map] at *
  induction l with
  | nil => simp [upsertBy]
  | cons y ys ih =>
    rw [List.pairwise_cons] at hl
    obtain ⟨hy, hys⟩ := hl
    simp only [upsertBy]
    split
    · rename_i hle
      split
      · rename_i heq
        rw [List.pairwise_cons]
        refine ⟨fun z hz => ?_, hys⟩
        rw [hx, heq]; exact hy z hz
      · rename_i hne
        have hlt : key < kf y := lt_of_le_of_ne hle hne
        rw [List.pairwise_cons]
        refine ⟨fun z hz => ?_, List.pairwise_cons.2 ⟨hy, hys⟩⟩
        rcases List.mem_cons.1 hz with h | h
        · rw [h, hx]; exact hlt
        · rw [hx]; exact lt_trans hlt (hy z h)
    · rename_i hnle
      rw [List.pairwise_cons]
      refine ⟨fun z hz => ?_, ih hys⟩
      rcases upsertBy_key_mem kf key x hx ys z hz with h | h
      · rw [h]; exact lt_of_not_le hnle
      · exact hy z h

theorem filter_key_eq_nil_of_lt {α : Type} (kf : α → Int) (key : Int) (l : List α)
    (h : ∀ z ∈ l, key < kf z) : l.filter (fun e => decide (kf e = key)) = [] := by
  rw [List.filter_eq_nil_iff]
  intro z hz
  have := h z hz
  simp only [decide_eq_true_eq]
  omega

theorem upsertBy_filter_eq {α : Type} (kf : α → Int) (key : Int) (x : α) (hx : kf x = key)
    (l : List α) (hl : StrictAsc (l.map kf)) :
    (upsertBy kf key x l).filter (fun e => decide (kf e = key)) = [x] := by
  unfold StrictAsc at hl
  rw [List.pairwise_map] at hl
  induction l with
  | nil => simp [upsertBy, hx]
  | cons y ys ih =>
    rw [List.pairwise_cons] at hl
    obtain ⟨hy, hys⟩ := hl
    simp only [upsertBy]
    split
    · rename_i hle
      split
      · rename_i heq
        rw [List.filter_cons_of_pos (by simpa using hx)]
        rw [filter_key_eq_nil_of_lt kf key ys (fun z hz => by rw [heq]; exact hy z hz)]
      · rename_i hne
        have hlt : key < kf y := lt_of_le_of_ne hle hne
        rw [List.filter_cons_of_pos (by simpa using hx)]
        rw [filter_key_eq_nil_of_lt kf key (y :: ys)]
        intro z hz
        rcases List.mem_cons.1 hz with h | h
        · rw [h]; exact hlt
        · exact lt_trans hlt (hy z h)
    · rename_i hnle
      have hne : ¬ kf y = key := by omega
      rw [List.filter_cons_of_neg (by simpa using hne)]
      exact ih hys

theorem upsertBy_filter_ne {α : Type} (kf : α → Int) (key : Int) (x : α) (hx : kf x = key)
    (l : List α) :
    (upsertBy kf key x l).filter (fun e => decide (kf e ≠ key)) =
      l.filter (fun e => decide (kf e ≠ key)) := by
  induction l with
  | nil => simp [upsertBy, hx]
  | cons y ys ih =>
    simp only [upsertBy]
    split
    · split
      · rename_i heq
        simp [hx, heq.symm]
      · simp [hx]
    · rename_i hnle
      have hne : ¬ kf y = key := by omega
      simp only [ne_eq, decide_not] at ih
      simp [hne, ih]

theorem upsertBy_upsertBy_length {α : Type} (kf : α → Int) (key : Int) (x x2 : α)
    (hx : kf x = key) (l : List α) :
    (upsertBy kf key x2 (upsertBy kf key x l)).length = (upsertBy kf key x l).length := by
  induction l with
  | nil => simp [upsertBy, hx]
  | cons y ys ih =>
    simp only [upsertBy]
    split
    · split
      · simp [upsertBy, hx]
      · simp [upsertBy, hx]
    · rename_i hnle
      simp [upsertBy, hnle, ih]

theorem storeInMorkDict_entries (dict : MorkDict) (key : Int) (value : String) :
    (storeInMorkDict dict key value).entries =
      upsertBy (fun e => e.key) key (makeMorkDictEntry key value) dict.entries := by
  rw [← scan_shift_set_eq_upsertBy]
  unfold storeInMorkDict MorkDict.cnt
  simp only [List.length_map]
  split <;> rfl

theorem storeInMorkCell_entries (cells : MorkCells) (key : Int) (value : Int) :
    (storeInMorkCell cells key value).entries =
      upsertBy (fun e => e.key) key (makeMorkCellEntry key value) cells.entries := by
  rw [← scan_shift_set_eq_upsertBy]
  unfold storeInMorkCell MorkCells.cnt
  simp only [List.length_map]
  split <;> rfl

theorem upsertBy_length {α : Type} (kf : α → Int) (key : Int) (x : α)
    (l : List α) (hl : StrictAsc (l.map kf)) :
    (upsertBy kf key x l).length =
      if key ∈ l.map kf then l.length else l.length + 1 := by
  unfold StrictAsc at hl
  rw [List.pairwise_map] at hl
  induction l with
  | nil => simp [upsertBy]
  | cons y ys ih =>
    rw [List.pairwise_cons] at hl
    obtain ⟨hy, hys⟩ := hl
    simp only [upsertBy]
    split
    · rename_i hle
      split
      · rename_i heq
        simp [heq]
      · rename_i hne
        have hnot : key ∉ (y :: ys).map kf := by
          intro hmem
          rcases List.mem_map.1 hmem with ⟨z, hz, hzk⟩
          rcases List.mem_cons.1 hz with h | h
          · exact hne (by rw [← hzk, h])
          · have := hy z h
            omega
        rw [if_neg hnot]
        simp
    · rename_i hnle
      have hne : ¬ key = kf y := by omega
      simp only [List.length_cons, ih hys, List.map_cons, List.mem_cons, hne, false_or]
      split <;> rfl

theorem buildDict_snoc (ops : List (Int × String)) (k : Int) (v : String) :
    buildDict (ops ++ [(k, v)]) = storeInMorkDict (buildDict ops) k v := by
  simp [buildDict, List.foldl_append]

theorem storeInMorkDict_strictAsc (d : MorkDict) (k : Int) (v : String)
    (h : StrictAsc (d.entries.map (fun e => e.key))) :
    StrictAsc ((storeInMorkDict d k v).entries.map (fun e => e.key)) := by
  rw [storeInMorkDict_entries]
  exact upsertBy_strictAsc _ k _ rfl _ h

theorem buildDict_strictAsc (ops : List (Int × String)) :
    StrictAsc ((buildDict ops).entries.map (fun e => e.key)) := by
  induction ops using List.reverseRecOn with
  | nil => simp [buildDict, emptyDict, StrictAsc]
  | append_singleton ops op ih =>
    obtain ⟨k, v⟩ := op
    rw [buildDict_snoc]
    exact storeInMorkDict_strictAsc _ k v ih

theorem getMorkDictValueLoop_upsertBy_same (k : Int) (v : String) (l : List MorkDictEntry) :
    getMorkDictValueLoop k (upsertBy (fun e => e.key) k (makeMorkDictEntry k v) l) = v := by
  induction l with
  | nil => simp [upsertBy, getMorkDictValueLoop, makeMorkDictEntry]
  | cons y ys ih =>
    simp only [upsertBy]
    split
    · split <;> simp [getMorkDictValueLoop, makeMorkDictEntry]
    · rename_i hnle
      have hne : ¬ y.key = k := by omega
      simp [getMorkDictValueLoop, hne, ih]

theorem getMorkDictValueLoop_upsertBy_other (k k2 : Int) (v : String) (hne : k2 ≠ k)
    (l : List MorkDictEntry) :
    getMorkDictValueLoop k2 (upsertBy (fun e => e.key) k (makeMorkDictEntry k v) l) =
      getMorkDictValueLoop k2 l := by
  have hkk : ¬ k = k2 := fun h => hne h.symm
  induction l with
  | nil => simp [upsertBy, getMorkDictValueLoop, makeMorkDictEntry, hkk]
  | cons y ys ih =>
    simp only [upsertBy]
    split
    · split
      · rename_i heq
        have : ¬ y.key = k2 := by rw [← heq]; exact hkk
        simp [getMorkDictValueLoop, makeMorkDictEntry, hkk, this]
      · simp [getMorkDictValueLoop, makeMorkDictEntry, hkk]
    · simp only [getMorkDictValueLoop, ih]

theorem getMorkDictValueLoop_absent (k : Int) (l : List MorkDictEntry)
    (h : k ∉ l.map (fun e => e.key)) : getMorkDictValueLoop k l = "" := by
  induction l with
  | nil => rfl
  | cons y ys ih =>
    simp only [List.map_cons, List.mem_cons, not_or] at h
    have hne : ¬ y.key = k := fun e => h.1 e.symm
    simp [getMorkDictValueLoop, hne, ih h.2]

theorem buildDict_keys_subset (ops : List (Int × String)) :
    ∀ k ∈ (buildDict ops).entries.map (fun e => e.key), k ∈ ops.map Prod.fst := by
  induction ops using List.reverseRecOn with
  | nil => simp [buildDict, emptyDict]
  | append_singleton ops op ih =>
    obtain ⟨k0, v0⟩ := op
    intro k hk
    rw [buildDict_snoc, storeInMorkDict_entries] at hk
    rcases List.mem_map.1 hk with ⟨z, hz, hzk⟩
    rcases upsertBy_key_mem _ k0 _ rfl _ z hz with h | h
    · simp only [List.map_append, List.map_cons, List.map_nil, List.mem_append,
        List.mem_singleton]
      right; rw [← hzk]; exact h
    · simp only [List.map_append, List.mem_append]
      left; exact ih k (List.mem_map.2 ⟨z, h, hzk⟩)

theorem getMorkDictKeyLoop_none (s : String) (l : List MorkDictEntry)
    (h : ∀ e ∈ l, e.value ≠ s) : getMorkDictKeyLoop s l = 0 := by
  induction l with
  | nil => rfl
  | cons y ys ih =>
    have hy : ¬ s = y.value := fun e => h y (List.mem_cons_self _ _) e.symm
    simp only [getMorkDictKeyLoop, hy, if_false]
    exact ih (fun e he => h e (List.mem_cons_of_mem _ he))

theorem getMorkDictKeyLoop_least (s : String) (l : List MorkDictEntry)
    (hl : StrictAsc (l.map (fun e => e.key))) (e : MorkDictEntry) (he : e ∈ l)
    (hes : e.value = s) :
    getMorkDictKeyLoop s l ≤ e.key ∧
      ∃ e2 ∈ l, e2.value = s ∧ e2.key = getMorkDictKeyLoop s l := by
  unfold StrictAsc at hl
  rw [List.pairwise_map] at hl
  induction l with
  | nil => cases he
  | cons y ys ih =>
    rw [List.pairwise_cons] at hl
    obtain ⟨hy, hys⟩ := hl
    by_cases hsy : s = y.value
    · simp only [getMorkDictKeyLoop, hsy, if_true]
      refine ⟨?_, y, List.mem_cons_self _ _, rfl, rfl⟩
      rcases List.mem_cons.1 he with h | h
      · rw [h]
      · exact le_of_lt (hy e h)
    · simp only [getMorkDictKeyLoop, hsy, if_false]
      rcases List.mem_cons.1 he with h | h
      · exact absurd (by rw [← hes, h]) hsy
      · obtain ⟨h1, e2, he2, h2, h3⟩ := ih hys h
        exact ⟨h1, e2, List.mem_cons_of_mem _ he2, h2, h3⟩

/-! ## Claims on the dictionaries and the cell sets -/

/-- C1: in a dictionary built from empty by `storeInMorkDict` calls, storing `a`
and then `b` under the same key `k` makes `getMorkDictValue` return `b`, leaves
exactly one entry with key `k` (the one holding `b`), and the second store does
not change the entry count. -/
theorem C1_store_twice_last_write_wins (ops : List (Int × String)) (k : Int) (a b : String) :
    getMorkDictValue (storeInMorkDict (storeInMorkDict (buildDict ops) k a) k b) k = b ∧
    (storeInMorkDict (storeInMorkDict (buildDict ops) k a) k b).entries.filter
        (fun e => decide (e.key = k)) = [makeMorkDictEntry k b] ∧
    ((storeInMorkDict (storeInMorkDict (buildDict ops) k a) k b).entries.filter
        (fun e => decide (e.key = k))).length = 1 ∧
    (storeInMorkDict (storeInMorkDict (buildDict ops) k a) k b).cnt =
      (storeInMorkDict (buildDict ops) k a).cnt := by
  have hs := storeInMorkDict_strictAsc _ k a (buildDict_strictAsc ops)
  have hf : (storeInMorkDict (storeInMorkDict (buildDict ops) k a) k b).entries.filter
        (fun e => decide (e.key = k)) = [makeMorkDictEntry k b] := by
    rw [storeInMorkDict_entries]
    exact upsertBy_filter_eq _ k _ rfl _ hs
  refine ⟨?_, hf, ?_, ?_⟩
  · unfold getMorkDictValue
    rw [storeInMorkDict_entries]
    exact getMorkDictValueLoop_upsertBy_same k b _
  · rw [hf]; rfl
  · unfold MorkDict.cnt
    rw [storeInMorkDict_entries, storeInMorkDict_entries]
    exact upsertBy_upsertBy_length _ k _ _ rfl _

/-- C2: after any finite sequence of `storeInMorkDict` calls on the empty
dictionary, the keys of the entries array are strictly ascending (sorted, no
duplicates). -/
theorem C2_dict_keys_strictly_ascending (ops : List (Int × String)) :
    StrictAsc ((buildDict ops).entries.map (fun e => e.key)) ∧
    ((buildDict ops).entries.map (fun e => e.key)).Sorted (fun a b => a < b) ∧
    ((buildDict ops).entries.map (fun e => e.key)).Nodup := by
  have h := buildDict_strictAsc ops
  refine ⟨h, h, ?_⟩
  exact List.Pairwise.imp (fun hab => ne_of_lt hab) h

/-- C3: `getMorkDictValue` returns the empty string for a key that was never
stored, and `storeInMorkDict d k v` leaves `getMorkDictValue d k2` unchanged for
every other key `k2`; the same holds for `getColumn` and `getValue`. -/
theorem C3_get_absent_and_frame (ops : List (Int × String)) (d : MorkDict) (m : MorkDb)
    (k k2 : Int) (v : String) (habsent : k ∉ ops.map Prod.fst) (hne : k2 ≠ k) :
    getMorkDictValue (buildDict ops) k = "" ∧
    getMorkDictValue (storeInMorkDict d k v) k2 = getMorkDictValue d k2 ∧
    getColumn { m with columns := buildDict ops } k = "" ∧
    getValue { m with values := buildDict ops } k = "" ∧
    getColumn { m with columns := storeInMorkDict m.columns k v } k2 = getColumn m k2 ∧
    getValue { m with values := storeInMorkDict m.values k v } k2 = getValue m k2 := by
  have h1 : getMorkDictValue (buildDict ops) k = "" := by
    unfold getMorkDictValue
    exact getMorkDictValueLoop_absent k _ (fun hk => habsent (buildDict_keys_subset ops k hk))
  have h2 : ∀ d : MorkDict,
      getMorkDictValue (storeInMorkDict d k v) k2 = getMorkDictValue d k2 := by
    intro d
    unfold getMorkDictValue
    rw [storeInMorkDict_entries]
    exact getMorkDictValueLoop_upsertBy_other k k2 v hne _
  exact ⟨h1, h2 d, h1, h1, h2 _, h2 _⟩

/-- C3 applied: key 7 was never stored and a store under 5 leaves key 3 alone. -/
theorem C3_get_absent_and_frame_witness :
    getMorkDictValue (buildDict [(3, "x"), (5, "y")]) 7 = "" ∧
    getMorkDictValue (storeInMorkDict (buildDict [(3, "x")]) 5 "z") 3 =
      getMorkDictValue (buildDict [(3, "x")]) 3 :=
  ⟨(C3_get_absent_and_frame [(3, "x"), (5, "y")] (buildDict [(3, "x")])
      initializeTableScopeMap 7 3 "z" (by decide) (by decide)).1,
   (C3_get_absent_and_frame [] (buildDict [(3, "x")])
      initializeTableScopeMap 5 3 "z" (by decide) (by decide)).2.1⟩

/-- C4: in a dictionary built from empty by `storeInMorkDict` calls,
`getMorkDictKey` (and so `getColumnId`) returns 0 when no entry has value `s`,
and otherwise returns the key of an entry with value `s` that is at most the
key of every entry with value `s`. -/
theorem C4_reverse_lookup_smallest_key (ops : List (Int × String)) (m : MorkDb) (s : String) :
    ((∀ e ∈ (buildDict ops).entries, e.value ≠ s) → getMorkDictKey (buildDict ops) s = 0) ∧
    (∀ e ∈ (buildDict ops).entries, e.value = s →
      getMorkDictKey (buildDict ops) s ≤ e.key ∧
      ∃ e2 ∈ (buildDict ops).entries,
        e2.value = s ∧ e2.key = getMorkDictKey (buildDict ops) s) ∧
    getColumnId { m with columns := buildDict ops } s = getMorkDictKey (buildDict ops) s := by
  refine ⟨fun h => getMorkDictKeyLoop_none s _ h, fun e he hes => ?_, rfl⟩
  exact getMorkDictKeyLoop_least s _ (buildDict_strictAsc ops) e he hes

/-- C4 applied: the value "a" is stored under 5 and 3, so 3 is returned; a
dictionary without "a" gives 0. -/
theorem C4_reverse_lookup_smallest_key_witness :
    (getMorkDictKey (buildDict [(5, "a"), (3, "a"), (4, "b")]) "a" ≤ 3 ∧
      ∃ e2 ∈ (buildDict [(5, "a"), (3, "a"), (4, "b")]).entries,
        e2.value = "a" ∧
          e2.key = getMorkDictKey (buildDict [(5, "a"), (3, "a"), (4, "b")]) "a") ∧
    getMorkDictKey (buildDict [(4, "b")]) "a" = 0 :=
  ⟨(C4_reverse_lookup_smallest_key [(5, "a"), (3, "a"), (4, "b")] initializeTableScopeMap
      "a").2.1 (makeMorkDictEntry 3 "a") (by decide) rfl,
   (C4_reverse_lookup_smallest_key [(4, "b")] initializeTableScopeMap "a").1 (by decide)⟩

/-- C5: for a Cell Set whose column ids are strictly ascending,
`storeInMorkCell cells c v` keeps the column ids strictly ascending, leaves
exactly one cell with column id `c`, whose value id is `v`, keeps every cell
with another column id (in order), and grows the set by one exactly when `c`
was absent. -/
theorem C5_storeInMorkCell_sorted_upsert (cells : MorkCells) (c v : Int)
    (h : StrictAsc (cells.entries.map (fun e => e.key))) :
    StrictAsc ((storeInMorkCell cells c v).entries.map (fun e => e.key)) ∧
    (storeInMorkCell cells c v).entries.filter (fun e => decide (e.key = c)) =
      [makeMorkCellEntry c v] ∧
    (storeInMorkCell cells c v).entries.filter (fun e => decide (e.key ≠ c)) =
      cells.entries.filter (fun e => decide (e.key ≠ c)) ∧
    (storeInMorkCell cells c v).cnt =
      if c ∈ cells.entries.map (fun e => e.key) then cells.cnt else cells.cnt + 1 := by
  rw [storeInMorkCell_entries]
  refine ⟨upsertBy_strictAsc _ c _ rfl _ h, upsertBy_filter_eq _ c _ rfl _ h,
    upsertBy_filter_ne _ c _ rfl _, ?_⟩
  unfold MorkCells.cnt
  rw [storeInMorkCell_entries]
  exact upsertBy_length _ c _ _ h

/-- C5 applied to the cell set (1 -> 10, 3 -> 30) and the store of 3 -> 31. -/
theorem C5_storeInMorkCell_sorted_upsert_witness :
    StrictAsc (([makeMorkCellEntry 1 10, makeMorkCellEntry 3 30] : List MorkCellEntry).map
      (fun e => e.key)) ∧
    (storeInMorkCell { entries := [makeMorkCellEntry 1 10, makeMorkCellEntry 3 30] } 3
        31).entries.filter (fun e => decide (e.key = 3)) = [makeMorkCellEntry 3 31] :=
  ⟨by decide,
   (C5_storeInMorkCell_sorted_upsert
      { entries := [makeMorkCellEntry 1 10, makeMorkCellEntry 3 30] } 3 31 (by decide)).2.1⟩

/-! ## The sorted parallel arrays of the index -/

theorem scanIndex_le_length (key : Int) (keys : List Int) :
    scanIndex key keys ≤ keys.length := by
  induction keys with
  | nil => simp [scanIndex]
  | cons k ks ih =>
    simp only [scanIndex]
    split
    · simp
    · simp only [List.length_cons]; omega

theorem ensureKeys_nil (key : Int) : ensureKeys key [] = [key] := by
  simp [ensureKeys, keyAbsent, scanIndex, shiftInsert]

theorem ensureEntries_nil {α : Type} (key : Int) (es : List α) (d : α) :
    ensureEntries key [] es d = d :: es := by
  simp [ensureEntries, keyAbsent, scanIndex, shiftInsert]

theorem ensureKeys_cons (key k0 : Int) (ks : List Int) :
    ensureKeys key (k0 :: ks) =
      if key ≤ k0 then (if key = k0 then k0 :: ks else key :: k0 :: ks)
      else k0 :: ensureKeys key ks := by
  by_cases h : key ≤ k0
  · by_cases h2 : key = k0
    · simp [ensureKeys, keyAbsent, scanIndex, shiftInsert, h, h2]
    · simp [ensureKeys, keyAbsent, scanIndex, shiftInsert, h, h2]
  · simp only [ensureKeys, keyAbsent, scanIndex, h, if_false, List.length_cons,
      List.getD_cons_succ, shiftInsert, List.take_succ_cons, List.drop_succ_cons,
      List.cons_append, ge_iff_le, Nat.add_le_add_iff_right]
    split <;> rfl

theorem ensureEntries_cons {α : Type} (key k0 : Int) (ks : List Int) (e0 : α) (es : List α)
    (d : α) :
    ensureEntries key (k0 :: ks) (e0 :: es) d =
      if key ≤ k0 then (if key = k0 then e0 :: es else d :: e0 :: es)
      else e0 :: ensureEntries key ks es d := by
  by_cases h : key ≤ k0
  · by_cases h2 : key = k0
    · simp [ensureEntries, keyAbsent, scanIndex, shiftInsert, h, h2]
    · simp [ensureEntries, keyAbsent, scanIndex, shiftInsert, h, h2]
  · simp only [ensureEntries, keyAbsent, scanIndex, h, if_false, List.length_cons,
      List.getD_cons_succ, shiftInsert, List.take_succ_cons, List.drop_succ_cons,
      List.cons_append, ge_iff_le, Nat.add_le_add_iff_right]
    split <;> rfl

theorem ensureKeys_eq_upsertBy (key : Int) (keys : List Int) :
    ensureKeys key keys = upsertBy (fun k => k) key key keys := by
  induction keys with
  | nil => simp [ensureKeys_nil, upsertBy]
  | cons k ks ih =>
    rw [ensureKeys_cons, ih]
    simp only [upsertBy]
    split
    · split
      · rename_i h2; rw [h2]
      · rfl
    · rfl

theorem ensureKeys_strictAsc (key : Int) (keys : List Int) (h : StrictAsc keys) :
    StrictAsc (ensureKeys key keys) := by
  rw [ensureKeys_eq_upsertBy]
  have h2 : StrictAsc (keys.map (fun k => k)) := by simpa using h
  simpa using upsertBy_strictAsc (fun k => k) key key rfl keys h2

theorem ensure_length {α : Type} (key : Int) (keys : List Int) (entries : List α) (d : α)
    (h : keys.length = entries.length) :
    (ensureKeys key keys).length = (ensureEntries key keys entries d).length := by
  induction keys generalizing entries with
  | nil =>
    cases entries with
    | nil => simp [ensureKeys_nil, ensureEntries_nil]
    | cons e es => simp at h
  | cons k ks ih =>
    cases entries with
    | nil => simp at h
    | cons e es =>
      simp only [List.length_cons, Nat.add_right_cancel_iff] at h
      rw [ensureKeys_cons, ensureEntries_cons]
      split
      · split <;> simp [h]
      · simp [ih es h]

theorem scanIndex_lt_ensureKeys (key : Int) (keys : List Int) :
    scanIndex key keys < (ensureKeys key keys).length := by
  induction keys with
  | nil => simp [ensureKeys_nil, scanIndex]
  | cons k ks ih =>
    rw [ensureKeys_cons]
    simp only [scanIndex]
    split
    · split <;> simp
    · simp only [List.length_cons]; omega

theorem assocAt_none_of_lt {α : Type} (key : Int) (keys : List Int) (entries : List α)
    (h : ∀ k ∈ keys, key < k) : assocAt key keys entries = none := by
  induction keys generalizing entries with
  | nil => cases entries <;> rfl
  | cons k ks ih =>
    cases entries with
    | nil => rfl
    | cons e es =>
      have hk : ¬ k = key := by
        have := h k (List.mem_cons_self _ _)
        omega
      simp only [assocAt, hk, if_false]
      exact ih es (fun k2 hk2 => h k2 (List.mem_cons_of_mem _ hk2))

theorem ensureEntries_getD {α : Type} (key : Int) (keys : List Int) (entries : List α)
    (d d0 : α) (hs : StrictAsc keys) (h : keys.length = entries.length) :
    (ensureEntries key keys entries d).getD (scanIndex key keys) d0 =
      (assocAt key keys entries).getD d := by
  unfold StrictAsc at hs
  induction keys generalizing entries with
  | nil =>
    cases entries with
    | nil => simp [ensureEntries_nil, scanIndex, assocAt]
    | cons e es => simp at h
  | cons k ks ih =>
    cases entries with
    | nil => simp at h
    | cons e es =>
      simp only [List.length_cons, Nat.add_right_cancel_iff] at h
      rw [List.pairwise_cons] at hs
      rw [ensureEntries_cons]
      simp only [scanIndex, assocAt]
      by_cases h1 : key ≤ k
      · by_cases h2 : key = k
        · simp [h1, h2]
        · have hlt : key < k := lt_of_le_of_ne h1 h2
          have h3 : ¬ k = key := fun e => h2 e.symm
          have hn := assocAt_none_of_lt key ks es (fun k2 hk2 => lt_trans hlt (hs.1 k2 hk2))
          simp [h1, h2, h3, hn]
      · have h3 : ¬ k = key := by omega
        simp only [h1, if_false, h3, List.getD_cons_succ]
        exact ih es hs.2 h

theorem assocAt_ensure_set {α : Type} (key k : Int) (keys : List Int) (entries : List α)
    (d x : α) (h : keys.length = entries.length) :
    assocAt k (ensureKeys key keys)
        ((ensureEntries key keys entries d).set (scanIndex key keys) x) =
      if k = key then some x else assocAt k keys entries := by
  induction keys generalizing entries with
  | nil =>
    cases entries with
    | nil =>
      by_cases hk : key = k
      · simp [ensureKeys_nil, ensureEntries_nil, scanIndex, assocAt, hk]
      · have hk2 : ¬ k = key := fun e => hk e.symm
        simp [ensureKeys_nil, ensureEntries_nil, scanIndex, assocAt, hk, hk2]
    | cons e es => simp at h
  | cons k0 ks ih =>
    cases entries with
    | nil => simp at h
    | cons e es =>
      simp only [List.length_cons, Nat.add_right_cancel_iff] at h
      rw [ensureKeys_cons, ensureEntries_cons]
      simp only [scanIndex]
      by_cases h1 : key ≤ k0
      · by_cases h2 : key = k0
        · subst h2
          by_cases hk : k = key
          · simp [assocAt, hk]
          · have hk2 : ¬ key = k := fun e => hk e.symm
            simp [assocAt, hk, hk2]
        · by_cases hk : k = key
          · simp [h1, h2, assocAt, hk]
          · have hk2 : ¬ key = k := fun e => hk e.symm
            simp [h1, h2, assocAt, hk, hk2]
      · simp only [h1, if_false, List.set_cons_succ, assocAt]
        rw [ih es h]
        by_cases hk0 : k0 = k
        · have hk : ¬ k = key := by omega
          simp [hk0, hk]
        · simp [hk0]

theorem mem_ensure_set {α : Type} (key : Int) (keys : List Int) (entries : List α)
    (d x e : α) (h : keys.length = entries.length)
    (he : e ∈ (ensureEntries key keys entries d).set (scanIndex key keys) x) :
    e = x ∨ e ∈ entries := by
  induction keys generalizing entries with
  | nil =>
    cases entries with
    | nil =>
      simp only [ensureEntries_nil, scanIndex, List.set_cons_zero, List.mem_singleton] at he
      left; exact he
    | cons e es => simp at h
  | cons k0 ks ih =>
    cases entries with
    | nil => simp at h
    | cons e0 es =>
      simp only [List.length_cons, Nat.add_right_cancel_iff] at h
      rw [ensureEntries_cons] at he
      simp only [scanIndex] at he
      by_cases h1 : key ≤ k0
      · by_cases h2 : key = k0
        · subst h2
          simp only [le_refl, if_true, List.set_cons_zero, List.mem_cons] at he
          rcases he with he | he
          · left; exact he
          · right; exact List.mem_cons_of_mem _ he
        · simp only [h1, h2, if_true, if_false, List.set_cons_zero, List.mem_cons] at he
          rcases he with he | he | he
          · left; exact he
          · right; rw [he]; exact List.mem_cons_self _ _
          · right; exact List.mem_cons_of_mem _ he
      · simp only [h1, if_false, List.set_cons_succ, List.mem_cons] at he
        rcases he with he | he
        · right; rw [he]; exact List.mem_cons_self _ _
        · rcases ih es h he with h3 | h3
          · left; exact h3
          · right; exact List.mem_cons_of_mem _ h3

theorem assocAt_mem {α : Type} (key : Int) (keys : List Int) (entries : List α) (e : α)
    (h : assocAt key keys entries = some e) : e ∈ entries := by
  induction keys generalizing entries with
  | nil => cases entries <;> simp [assocAt] at h
  | cons k ks ih =>
    cases entries with
    | nil => simp [assocAt] at h
    | cons e0 es =>
      simp only [assocAt] at h
      split at h
      · simp only [Option.some.injEq] at h
        rw [← h]; exact List.mem_cons_self _ _
      · exact List.mem_cons_of_mem _ (ih es h)

theorem keyAbsent_cons (key k0 : Int) (ks : List Int) :
    keyAbsent key (k0 :: ks) ↔ if key ≤ k0 then key ≠ k0 else keyAbsent key ks := by
  by_cases h : key ≤ k0
  · simp [keyAbsent, scanIndex, h]
  · simp [keyAbsent, scanIndex, h]

theorem keyAbsent_iff_assocAt_none {α : Type} (key : Int) (keys : List Int)
    (entries : List α) (hs : StrictAsc keys) (h : keys.length = entries.length) :
    keyAbsent key keys ↔ assocAt key keys entries = none := by
  unfold StrictAsc at hs
  induction keys generalizing entries with
  | nil => cases entries <;> simp [keyAbsent, scanIndex, assocAt]
  | cons k ks ih =>
    cases entries with
    | nil => simp at h
    | cons e es =>
      simp only [List.length_cons, Nat.add_right_cancel_iff] at h
      rw [List.pairwise_cons] at hs
      rw [keyAbsent_cons]
      simp only [assocAt]
      by_cases h1 : key ≤ k
      · by_cases h2 : key = k
        · simp [h1, h2]
        · have hlt : key < k := lt_of_le_of_ne h1 h2
          have h3 : ¬ k = key := fun e => h2 e.symm
          have hn := assocAt_none_of_lt key ks es (fun k2 hk2 => lt_trans hlt (hs.1 k2 hk2))
          simp [h1, h2, h3, hn]
      · have h3 : ¬ k = key := by omega
        simp only [h1, if_false, h3]
        exact ih es hs.2 h

theorem set_getD_self {α : Type} (l : List α) (i : Nat) (d : α) :
    l.set i (l.getD i d) = l := by
  induction l generalizing i with
  | nil => rfl
  | cons x xs ih =>
    cases i with
    | zero => rfl
    | succ n => simp only [List.getD_cons_succ, List.set_cons_succ, ih n]

theorem assocAt_ensure {α : Type} (key k : Int) (keys : List Int) (entries : List α)
    (d : α) (hs : StrictAsc keys) (h : keys.length = entries.length) :
    assocAt k (ensureKeys key keys) (ensureEntries key keys entries d) =
      if k = key then some ((assocAt key keys entries).getD d)
      else assocAt k keys entries := by
  have h1 := assocAt_ensure_set key k keys entries d
    ((ensureEntries key keys entries d).getD (scanIndex key keys) d) h
  rw [set_getD_self] at h1
  rw [h1, ensureEntries_getD key keys entries d d hs h]

theorem level_step {β P : Type} [DecidableEq P] (WFc : β → Prop) (L : β → P → Option Nat)
    (d : β) (step : List MorkCells → β → List MorkCells × β × Nat) (path : P)
    (hdWF : WFc d) (hdL : ∀ q, L d q = none)
    (hstep : ∀ heap b, WFc b →
      WFc (step heap b).2.1 ∧
      (step heap b).2.2 = (L b path).getD heap.length ∧
      (step heap b).1 = (if (L b path).isSome then heap else heap ++ [makeMorkCells]) ∧
      ∀ q, L (step heap b).2.1 q = if q = path then some (step heap b).2.2 else L b q)
    (heap : List MorkCells) (keys : List Int) (entries : List β) (key : Int)
    (hlen : keys.length = entries.length) (hs : StrictAsc keys)
    (hmem : ∀ b ∈ entries, WFc b) :
    (ensureKeys key keys).length =
      ((ensureEntries key keys entries d).set (scanIndex key keys)
        (step heap ((ensureEntries key keys entries d).getD (scanIndex key keys)
          d)).2.1).length ∧
    StrictAsc (ensureKeys key keys) ∧
    (∀ b ∈ (ensureEntries key keys entries d).set (scanIndex key keys)
        (step heap ((ensureEntries key keys entries d).getD (scanIndex key keys) d)).2.1,
      WFc b) ∧
    (step heap ((ensureEntries key keys entries d).getD (scanIndex key keys) d)).2.2 =
      ((assocAt key keys entries).bind (fun b => L b path)).getD heap.length ∧
    (step heap ((ensureEntries key keys entries d).getD (scanIndex key keys) d)).1 =
      (if ((assocAt key keys entries).bind (fun b => L b path)).isSome then heap
        else heap ++ [makeMorkCells]) ∧
    ∀ k q,
      (assocAt k (ensureKeys key keys)
        ((ensureEntries key keys entries d).set (scanIndex key keys)
          (step heap ((ensureEntries key keys entries d).getD (scanIndex key keys)
            d)).2.1)).bind (fun b => L b q) =
      if k = key ∧ q = path then
        some (step heap ((ensureEntries key keys entries d).getD (scanIndex key keys)
          d)).2.2
      else (assocAt k keys entries).bind (fun b => L b q) := by
  have hb0 := ensureEntries_getD key keys entries d d hs hlen
  rw [hb0]
  have hWF0 : WFc ((assocAt key keys entries).getD d) := by
    cases hA : assocAt key keys entries with
    | none => simpa using hdWF
    | some b => simpa using hmem b (assocAt_mem key keys entries b hA)
  have hL0 : ∀ q, (assocAt key keys entries).bind (fun b => L b q) =
      L ((assocAt key keys entries).getD d) q := by
    intro q
    cases hA : assocAt key keys entries with
    | none => simp [hdL]
    | some b => simp
  obtain ⟨h1, h2, h3, h4⟩ := hstep heap ((assocAt key keys entries).getD d) hWF0
  refine ⟨?_, ensureKeys_strictAsc key keys hs, ?_, ?_, ?_, ?_⟩
  · rw [List.length_set]; exact ensure_length key keys entries d hlen
  · intro b hb
    rcases mem_ensure_set key keys entries d _ b hlen hb with h | h
    · rw [h]; exact h1
    · exact hmem b h
  · rw [hL0]; exact h2
  · rw [hL0]; exact h3
  · intro k q
    rw [assocAt_ensure_set key k keys entries d _ hlen]
    by_cases hk : k = key
    · subst hk
      simp only [if_true, Option.some_bind, true_and]
      rw [h4 q, hL0 q]
    · simp [hk]

theorem getMorkCells_eq (heap : List MorkCells) (rm : MorkRowMap) (k : Int) :
    getMorkCells heap rm k =
      (if keyAbsent k rm.keys then heap ++ [makeMorkCells] else heap,
       { keys := ensureKeys k rm.keys,
         entries := ensureEntries k rm.keys rm.entries heap.length },
       (ensureEntries k rm.keys rm.entries heap.length).getD (scanIndex k rm.keys) 0) := by
  unfold getMorkCells ensureKeys ensureEntries keyAbsent MorkRowMap.cnt
  simp only []
  split <;> rfl

theorem getMorkRowMap_eq (s : RowScopeMap) (k : Int) :
    getMorkRowMap s k =
      ({ keys := ensureKeys k s.keys,
         entries := ensureEntries k s.keys s.entries makeMorkRowMap }, scanIndex k s.keys) := by
  unfold getMorkRowMap ensureKeys ensureEntries keyAbsent RowScopeMap.cnt
  simp only []
  split <;> rfl

theorem getRowScopeMapEntry_eq (t : MorkTableMap) (k : Int) :
    getRowScopeMapEntry t k =
      ({ keys := ensureKeys k t.keys,
         entries := ensureEntries k t.keys t.entries makeRowScopeMap }, scanIndex k t.keys) := by
  unfold getRowScopeMapEntry ensureKeys ensureEntries keyAbsent MorkTableMap.cnt
  simp only []
  split <;> rfl

theorem getMorkTableMapEntry_eq (m : MorkDb) (k : Int) :
    getMorkTableMapEntry m k =
      ({ m with
         keys := ensureKeys k m.keys
         entries := ensureEntries k m.keys m.entries makeMorkTableMap }, scanIndex k m.keys) := by
  unfold getMorkTableMapEntry ensureKeys ensureEntries keyAbsent MorkDb.cnt
  simp only []
  split <;> rfl

theorem getMorkCells_spec (rowId : Int) :
    StepSpec MorkRowMap.WF rowMapLookup (fun heap rm => getMorkCells heap rm rowId) rowId := by
  intro heap rm hWF
  obtain ⟨hlen, hs⟩ := hWF
  simp only [getMorkCells_eq]
  have hg := ensureEntries_getD rowId rm.keys rm.entries heap.length 0 hs hlen
  refine ⟨⟨ensure_length _ _ _ _ hlen, ensureKeys_strictAsc _ _ hs⟩, ?_, ?_, ?_⟩
  · rw [hg]; rfl
  · have := keyAbsent_iff_assocAt_none rowId rm.keys rm.entries hs hlen
    unfold rowMapLookup
    by_cases hA : keyAbsent rowId rm.keys
    · simp [hA, this.1 hA]
    · have hne : assocAt rowId rm.keys rm.entries ≠ none := fun e => hA (this.2 e)
      obtain ⟨p, hp⟩ := Option.ne_none_iff_exists.1 hne
      simp [hA, ← hp]
  · intro q
    unfold rowMapLookup
    rw [hg]
    exact assocAt_ensure rowId q rm.keys rm.entries heap.length hs hlen

theorem scopeStep_eq (heap : List MorkCells) (s : RowScopeMap) (rs rid : Int) :
    scopeStep heap s rs rid =
      ((getMorkCells heap ((ensureEntries rs s.keys s.entries makeMorkRowMap).getD
          (scanIndex rs s.keys) makeMorkRowMap) rid).1,
       { keys := ensureKeys rs s.keys,
         entries := (ensureEntries rs s.keys s.entries makeMorkRowMap).set (scanIndex rs s.keys)
           (getMorkCells heap ((ensureEntries rs s.keys s.entries makeMorkRowMap).getD
             (scanIndex rs s.keys) makeMorkRowMap) rid).2.1 },
       (getMorkCells heap ((ensureEntries rs s.keys s.entries makeMorkRowMap).getD
          (scanIndex rs s.keys) makeMorkRowMap) rid).2.2) := by
  unfold scopeStep
  rw [getMorkRowMap_eq]

theorem scopeStep_spec (rs rid : Int) :
    StepSpec RowScopeMap.WF (fun s (q : Int × Int) => scopeLookup s q.1 q.2)
      (fun heap s => scopeStep heap s rs rid) (rs, rid) := by
  intro heap s hWF
  obtain ⟨hlen, hs, hmem⟩ := hWF
  have h := level_step MorkRowMap.WF rowMapLookup makeMorkRowMap
    (fun heap rm => getMorkCells heap rm rid) rid
    (by simp [MorkRowMap.WF, makeMorkRowMap, StrictAsc])
    (by intro q; simp [rowMapLookup, makeMorkRowMap, assocAt])
    (getMorkCells_spec rid) heap s.keys s.entries rs hlen hs hmem
  simp only [scopeStep_eq]
  obtain ⟨h1, h2, h3, h4, h5, h6⟩ := h
  refine ⟨⟨h1, h2, h3⟩, h4, h5, ?_⟩
  intro q
  obtain ⟨q1, q2⟩ := q
  simp only [scopeLookup, Prod.mk.injEq]
  exact h6 q1 q2

theorem tableStep_eq (heap : List MorkCells) (t : MorkTableMap) (tid rs rid : Int) :
    tableStep heap t tid rs rid =
      ((scopeStep heap ((ensureEntries tid t.keys t.entries makeRowScopeMap).getD
          (scanIndex tid t.keys) makeRowScopeMap) rs rid).1,
       { keys := ensureKeys tid t.keys,
         entries := (ensureEntries tid t.keys t.entries makeRowScopeMap).set
           (scanIndex tid t.keys)
           (scopeStep heap ((ensureEntries tid t.keys t.entries makeRowScopeMap).getD
             (scanIndex tid t.keys) makeRowScopeMap) rs rid).2.1 },
       (scopeStep heap ((ensureEntries tid t.keys t.entries makeRowScopeMap).getD
          (scanIndex tid t.keys) makeRowScopeMap) rs rid).2.2) := by
  unfold tableStep
  rw [getRowScopeMapEntry_eq]

theorem tableStep_spec (tid rs rid : Int) :
    StepSpec MorkTableMap.WF
      (fun t (q : Int × Int × Int) => tableLookup t q.1 q.2.1 q.2.2)
      (fun heap t => tableStep heap t tid rs rid) (tid, rs, rid) := by
  intro heap t hWF
  obtain ⟨hlen, hs, hmem⟩ := hWF
  have h := level_step RowScopeMap.WF (fun s (q : Int × Int) => scopeLookup s q.1 q.2)
    makeRowScopeMap (fun heap s => scopeStep heap s rs rid) (rs, rid)
    (by simp [RowScopeMap.WF, makeRowScopeMap, StrictAsc])
    (by intro q; simp [scopeLookup, makeRowScopeMap, assocAt])
    (scopeStep_spec rs rid) heap t.keys t.entries tid hlen hs hmem
  simp only [tableStep_eq]
  obtain ⟨h1, h2, h3, h4, h5, h6⟩ := h
  refine ⟨⟨h1, h2, h3⟩, h4, h5, ?_⟩
  intro q
  obtain ⟨q1, q2, q3⟩ := q
  have h7 := h6 q1 (q2, q3)
  simp only [Prod.mk.injEq] at h7
  simp only [tableLookup, Prod.mk.injEq]
  exact h7

theorem setCurrentRow_eq (m : MorkDb) (ts tid rs rid : Int) :
    setCurrentRow m ts tid rs rid =
      { m with
        keys := ensureKeys (effectiveScope m ts) m.keys
        entries := (ensureEntries (effectiveScope m ts) m.keys m.entries makeMorkTableMap).set
          (scanIndex (effectiveScope m ts) m.keys)
          (tableStep m.cellsHeap
            ((ensureEntries (effectiveScope m ts) m.keys m.entries makeMorkTableMap).getD
              (scanIndex (effectiveScope m ts) m.keys) makeMorkTableMap)
            tid (effectiveScope m rs) rid).2.1
        cellsHeap := (tableStep m.cellsHeap
            ((ensureEntries (effectiveScope m ts) m.keys m.entries makeMorkTableMap).getD
              (scanIndex (effectiveScope m ts) m.keys) makeMorkTableMap)
            tid (effectiveScope m rs) rid).1
        activeCells := some (tableStep m.cellsHeap
            ((ensureEntries (effectiveScope m ts) m.keys m.entries makeMorkTableMap).getD
              (scanIndex (effectiveScope m ts) m.keys) makeMorkTableMap)
            tid (effectiveScope m rs) rid).2.2 } := by
  unfold setCurrentRow tableStep scopeStep effectiveScope
  simp only [getMorkTableMapEntry_eq]

theorem setCurrentRow_spec (m : MorkDb) (ts tid rs rid : Int) (hWF : IndexWF m) :
    IndexWF (setCurrentRow m ts tid rs rid) ∧
    (setCurrentRow m ts tid rs rid).activeCells =
      some ((cellsAt m (effectiveScope m ts) tid (effectiveScope m rs) rid).getD
        m.cellsHeap.length) ∧
    (setCurrentRow m ts tid rs rid).cellsHeap =
      (if (cellsAt m (effectiveScope m ts) tid (effectiveScope m rs) rid).isSome
        then m.cellsHeap else m.cellsHeap ++ [makeMorkCells]) ∧
    ∀ a b c d, cellsAt (setCurrentRow m ts tid rs rid) a b c d =
      if a = effectiveScope m ts ∧ b = tid ∧ c = effectiveScope m rs ∧ d = rid
        then (setCurrentRow m ts tid rs rid).activeCells
        else cellsAt m a b c d := by
  obtain ⟨hlen, hs, hmem⟩ := hWF
  have h := level_step MorkTableMap.WF
    (fun t (q : Int × Int × Int) => tableLookup t q.1 q.2.1 q.2.2)
    makeMorkTableMap (fun heap t => tableStep heap t tid (effectiveScope m rs) rid)
    (tid, effectiveScope m rs, rid)
    (by simp [MorkTableMap.WF, makeMorkTableMap, StrictAsc])
    (by intro q; simp [tableLookup, makeMorkTableMap, assocAt])
    (tableStep_spec tid (effectiveScope m rs) rid) m.cellsHeap m.keys m.entries
    (effectiveScope m ts) hlen hs hmem
  obtain ⟨h1, h2, h3, h4, h5, h6⟩ := h
  rw [setCurrentRow_eq]
  refine ⟨⟨h1, h2, h3⟩, ?_, ?_, ?_⟩
  · simp only [cellsAt]
    rw [← h4]
  · simp only [cellsAt]
    exact h5
  · intro a b c d
    have h7 := h6 a (b, c, d)
    simp only [Prod.mk.injEq] at h7
    simp only [cellsAt]
    exact h7

theorem setCurrentRow_frame (m : MorkDb) (ts tid rs rid : Int) :
    (setCurrentRow m ts tid rs rid).columns = m.columns ∧
    (setCurrentRow m ts tid rs rid).values = m.values ∧
    (setCurrentRow m ts tid rs rid).nowParsing = m.nowParsing ∧
    (setCurrentRow m ts tid rs rid).nextAddValueId = m.nextAddValueId ∧
    (setCurrentRow m ts tid rs rid).defaultScope = m.defaultScope := by
  rw [setCurrentRow_eq]
  exact ⟨rfl, rfl, rfl, rfl, rfl⟩

theorem setCurrentRow_heapWF (m : MorkDb) (ts tid rs rid : Int) (hWF : IndexWF m)
    (hH : HeapWF m) : HeapWF (setCurrentRow m ts tid rs rid) := by
  obtain ⟨_, hact, hheap, hlook⟩ := setCurrentRow_spec m ts tid rs rid hWF
  obtain ⟨hb, hinj, _⟩ := hH
  have hle : m.cellsHeap.length ≤ (setCurrentRow m ts tid rs rid).cellsHeap.length := by
    rw [hheap]; split <;> simp
  have hactlt : ∀ p, (setCurrentRow m ts tid rs rid).activeCells = some p →
      p < (setCurrentRow m ts tid rs rid).cellsHeap.length := by
    intro p hp
    rw [hact] at hp
    simp only [Option.some.injEq] at hp
    rw [hheap, ← hp]
    cases hc : cellsAt m (effectiveScope m ts) tid (effectiveScope m rs) rid with
    | none => simp
    | some p0 => simpa using hb _ _ _ _ p0 hc
  have hold : ∀ a b c d p,
      ¬ (a = effectiveScope m ts ∧ b = tid ∧ c = effectiveScope m rs ∧ d = rid) →
      cellsAt m a b c d = some p →
      (setCurrentRow m ts tid rs rid).activeCells = some p → False := by
    intro a b c d p hne hc hp
    rw [hact] at hp
    simp only [Option.some.injEq] at hp
    cases hc2 : cellsAt m (effectiveScope m ts) tid (effectiveScope m rs) rid with
    | none =>
      rw [hc2] at hp
      simp only [Option.getD_none] at hp
      have := hb a b c d p hc
      omega
    | some p0 =>
      rw [hc2] at hp
      simp only [Option.getD_some] at hp
      rw [hp] at hc2
      exact hne (hinj a b c d _ _ _ _ p hc hc2)
  refine ⟨?_, ?_, hactlt⟩
  · intro a b c d p hp
    rw [hlook] at hp
    split at hp
    · exact hactlt p hp
    · exact lt_of_lt_of_le (hb a b c d p hp) hle
  · intro a b c d a2 b2 c2 d2 p hp hp2
    rw [hlook] at hp hp2
    split at hp
    · rename_i h1
      split at hp2
      · rename_i h2
        obtain ⟨e1, e2, e3, e4⟩ := h1
        obtain ⟨f1, f2, f3, f4⟩ := h2
        exact ⟨e1.trans f1.symm, e2.trans f2.symm, e3.trans f3.symm, e4.trans f4.symm⟩
      · rename_i h2
        exact (hold a2 b2 c2 d2 p h2 hp2 hp).elim
    · rename_i h1
      split at hp2
      · exact (hold a b c d p h1 hp hp2).elim
      · exact hinj a b c d a2 b2 c2 d2 p hp hp2

theorem initializeTableScopeMap_WF :
    IndexWF initializeTableScopeMap ∧ HeapWF initializeTableScopeMap := by
  refine ⟨⟨rfl, by simp [initializeTableScopeMap, StrictAsc], ?_⟩, ?_, ?_, ?_⟩
  · intro t ht; simp [initializeTableScopeMap] at ht
  · intro a b c d p h; simp [cellsAt, initializeTableScopeMap, assocAt] at h
  · intro a b c d a2 b2 c2 d2 p h; simp [cellsAt, initializeTableScopeMap, assocAt] at h
  · intro p h; simp [initializeTableScopeMap] at h

theorem setCurrentRows_WF (calls : List (Int × Int × Int × Int)) (m : MorkDb)
    (hWF : IndexWF m) (hH : HeapWF m) :
    IndexWF (setCurrentRows m calls) ∧ HeapWF (setCurrentRows m calls) := by
  induction calls generalizing m with
  | nil => exact ⟨hWF, hH⟩
  | cons c cs ih =>
    simp only [setCurrentRows, List.foldl_cons]
    exact ih _ (setCurrentRow_spec m _ _ _ _ hWF).1 (setCurrentRow_heapWF m _ _ _ _ hWF hH)

/-! ## Claims on the hierarchical row index -/

/-- C7: after any finite sequence of `setCurrentRow` calls on a freshly
initialised database, the key array of the table-scope map, of every table
map, of every row-scope map and of every row map is strictly ascending. -/
theorem C7_index_keys_strictly_ascending (calls : List (Int × Int × Int × Int)) :
    StrictAsc (setCurrentRows initializeTableScopeMap calls).keys ∧
    ∀ t ∈ (setCurrentRows initializeTableScopeMap calls).entries,
      StrictAsc t.keys ∧
      ∀ s ∈ t.entries,
        StrictAsc s.keys ∧
        ∀ rm ∈ s.entries, StrictAsc rm.keys := by
  obtain ⟨⟨_, hs, hmem⟩, _⟩ := setCurrentRows_WF calls initializeTableScopeMap
    initializeTableScopeMap_WF.1 initializeTableScopeMap_WF.2
  refine ⟨hs, fun t ht => ⟨(hmem t ht).2.1, fun s hs2 => ⟨((hmem t ht).2.2 s hs2).2.1,
    fun rm hrm => (((hmem t ht).2.2 s hs2).2.2 rm hrm).2⟩⟩⟩

/-- C7 applied to two calls: the table map stored under scope 0x80 is reached
and its levels are ascending. -/
theorem C7_index_keys_strictly_ascending_witness :
    StrictAsc (setCurrentRows initializeTableScopeMap [(1, 2, 3, 4), (0, 2, 0, 5)]).keys ∧
    StrictAsc ([2] : List Int) :=
  ⟨(C7_index_keys_strictly_ascending [(1, 2, 3, 4), (0, 2, 0, 5)]).1,
   ((C7_index_keys_strictly_ascending [(1, 2, 3, 4), (0, 2, 0, 5)]).2
      { keys := [2], entries := [{ keys := [128], entries := [{ keys := [5], entries := [1] }] }] }
      (by decide)).1⟩

theorem effectiveScope_idem (m : MorkDb) (scope : Int) :
    effectiveScope m (effectiveScope m scope) = effectiveScope m scope := by
  unfold effectiveScope
  split
  · split <;> rfl
  · rename_i h; simp [h]

theorem setCurrentRow_effective (m : MorkDb) (ts tid rs rid : Int) :
    setCurrentRow m ts tid rs rid =
      setCurrentRow m (effectiveScope m ts) tid (effectiveScope m rs) rid := by
  rw [setCurrentRow_eq, setCurrentRow_eq, effectiveScope_idem, effectiveScope_idem]

theorem setCurrentRow_init (ts tid rs rid : Int) :
    setCurrentRow initializeTableScopeMap ts tid rs rid =
      { initializeTableScopeMap with
        keys := [if ts = 0 then 0x80 else ts]
        entries := [{ keys := [tid],
                      entries := [{ keys := [if rs = 0 then 0x80 else rs],
                                    entries := [{ keys := [rid], entries := [0] }] }] }]
        cellsHeap := [makeMorkCells]
        activeCells := some 0 } := by
  rw [setCurrentRow_eq]
  simp [initializeTableScopeMap, effectiveScope, ensureKeys_nil, ensureEntries_nil, scanIndex,
    tableStep_eq, scopeStep_eq, getMorkCells_eq, makeMorkTableMap, makeRowScopeMap,
    makeMorkRowMap, keyAbsent]

theorem setCurrentRow_single (m : MorkDb) (a b c d : Int) (p : Nat) (ha : a ≠ 0) (hc : c ≠ 0)
    (hk : m.keys = [a])
    (he : m.entries = [{ keys := [b],
                         entries := [{ keys := [c],
                                       entries := [{ keys := [d], entries := [p] }] }] }]) :
    setCurrentRow m a b c d = { m with activeCells := some p } := by
  rw [setCurrentRow_eq]
  simp [hk, he, effectiveScope, ha, hc, ensureKeys_cons, ensureEntries_cons, scanIndex,
    tableStep_eq, scopeStep_eq, getMorkCells_eq, keyAbsent]

/-- C6: on an empty index, `setCurrentRow` with arguments (tableScope, tableId,
rowScope, rowId) leaves exactly one key at each of the four levels (the scopes
being replaced by 0x80 when zero), a second call with the same arguments
changes nothing in the database, and both calls set `activeCells` to the same
Cell Set, the single one allocated. -/
theorem C6_setCurrentRow_idempotent (ts tid rs rid : Int) :
    (setCurrentRow initializeTableScopeMap ts tid rs rid).keys =
      [if ts = 0 then 0x80 else ts] ∧
    (setCurrentRow initializeTableScopeMap ts tid rs rid).entries =
      [{ keys := [tid],
         entries := [{ keys := [if rs = 0 then 0x80 else rs],
                       entries := [{ keys := [rid], entries := [0] }] }] }] ∧
    (setCurrentRow initializeTableScopeMap ts tid rs rid).cellsHeap = [makeMorkCells] ∧
    (setCurrentRow initializeTableScopeMap ts tid rs rid).activeCells = some 0 ∧
    setCurrentRow (setCurrentRow initializeTableScopeMap ts tid rs rid) ts tid rs rid =
      setCurrentRow initializeTableScopeMap ts tid rs rid ∧
    (setCurrentRow (setCurrentRow initializeTableScopeMap ts tid rs rid) ts tid rs
      rid).activeCells = (setCurrentRow initializeTableScopeMap ts tid rs rid).activeCells := by
  have h2 : setCurrentRow (setCurrentRow initializeTableScopeMap ts tid rs rid) ts tid rs rid =
      setCurrentRow initializeTableScopeMap ts tid rs rid := by
    rw [setCurrentRow_effective (setCurrentRow initializeTableScopeMap ts tid rs rid)]
    have hd : (setCurrentRow initializeTableScopeMap ts tid rs rid).defaultScope = 0x80 :=
      (setCurrentRow_frame _ _ _ _ _).2.2.2.2
    have e1 : ∀ x : Int, effectiveScope (setCurrentRow initializeTableScopeMap ts tid rs rid) x
        = if x = 0 then 0x80 else x := by
      intro x; unfold effectiveScope; rw [hd]
    rw [e1, e1]
    rw [setCurrentRow_single _ (if ts = 0 then 0x80 else ts) tid (if rs = 0 then 0x80 else rs)
      rid 0 (by split <;> omega) (by split <;> omega)
      (by rw [setCurrentRow_init]) (by rw [setCurrentRow_init])]
    rw [setCurrentRow_init]
  rw [h2]
  rw [setCurrentRow_init]
  exact ⟨rfl, rfl, rfl, rfl, rfl, rfl⟩

theorem cellsAt_congr (m m2 : MorkDb) (hk : m2.keys = m.keys) (he : m2.entries = m.entries)
    (a b c d : Int) : cellsAt m2 a b c d = cellsAt m a b c d := by
  unfold cellsAt; rw [hk, he]

theorem IndexWF_congr (m m2 : MorkDb) (hk : m2.keys = m.keys) (he : m2.entries = m.entries)
    (h : IndexWF m) : IndexWF m2 := by
  unfold IndexWF at *; rw [hk, he]; exact h

theorem HeapWF_congr (m m2 : MorkDb) (hk : m2.keys = m.keys) (he : m2.entries = m.entries)
    (hl : m2.cellsHeap.length = m.cellsHeap.length) (ha : m2.activeCells = m.activeCells)
    (h : HeapWF m) : HeapWF m2 := by
  obtain ⟨h1, h2, h3⟩ := h
  refine ⟨?_, ?_, ?_⟩
  · intro a b c d p hp
    rw [cellsAt_congr m m2 hk he] at hp
    rw [hl]; exact h1 a b c d p hp
  · intro a b c d a2 b2 c2 d2 p hp hp2
    rw [cellsAt_congr m m2 hk he] at hp hp2
    exact h2 a b c d a2 b2 c2 d2 p hp hp2
  · intro p hp
    rw [ha] at hp
    rw [hl]; exact h3 p hp

theorem getD_set_self {α : Type} (l : List α) (p : Nat) (x d : α) (h : p < l.length) :
    (l.set p x).getD p d = x := by
  induction l generalizing p with
  | nil => simp at h
  | cons y ys ih =>
    cases p with
    | zero => rfl
    | succ n =>
      simp only [List.length_cons, Nat.add_lt_add_iff_right] at h
      simp only [List.set_cons_succ, List.getD_cons_succ, ih n h]

theorem getD_set_other {α : Type} (l : List α) (p q : Nat) (x d : α) (h : q ≠ p) :
    (l.set p x).getD q d = l.getD q d := by
  induction l generalizing p q with
  | nil => rfl
  | cons y ys ih =>
    cases p with
    | zero =>
      cases q with
      | zero => exact absurd rfl h
      | succ n => rfl
    | succ k =>
      cases q with
      | zero => rfl
      | succ n =>
        simp only [List.set_cons_succ, List.getD_cons_succ]
        exact ih k n (fun e => h (by rw [e]))

theorem getD_append_left {α : Type} (l l2 : List α) (q : Nat) (d : α) (h : q < l.length) :
    (l ++ l2).getD q d = l.getD q d := by
  induction l generalizing q with
  | nil => simp at h
  | cons y ys ih =>
    cases q with
    | zero => rfl
    | succ n =>
      simp only [List.length_cons, Nat.add_lt_add_iff_right] at h
      simp only [List.cons_append, List.getD_cons_succ, ih n h]

theorem storeInActiveCells_eq (m : MorkDb) (k v : Int) (p : Nat) (hp : m.activeCells = some p)
    (hlt : p < m.cellsHeap.length) :
    storeInActiveCells m k v =
      some { m with
        cellsHeap := m.cellsHeap.set p (storeInMorkCell (derefCells m p) k v) } := by
  unfold storeInActiveCells
  rw [hp]
  simp only [hlt, if_true]

theorem storeAllInActiveCells_spec (cells : List (Int × Int)) (m : MorkDb) (p : Nat)
    (hp : m.activeCells = some p) (hlt : p < m.cellsHeap.length) :
    ∃ m2, storeAllInActiveCells m cells = some m2 ∧
      m2.keys = m.keys ∧ m2.entries = m.entries ∧ m2.activeCells = some p ∧
      m2.cellsHeap.length = m.cellsHeap.length ∧ m2.defaultScope = m.defaultScope ∧
      m2.columns = m.columns ∧ m2.values = m.values ∧ m2.nowParsing = m.nowParsing ∧
      m2.nextAddValueId = m.nextAddValueId ∧
      (∀ q, q ≠ p → derefCells m2 q = derefCells m q) ∧
      derefCells m2 p =
        cells.foldl (fun c kv => storeInMorkCell c kv.1 kv.2) (derefCells m p) := by
  induction cells generalizing m with
  | nil =>
    exact ⟨m, rfl, rfl, rfl, hp, rfl, rfl, rfl, rfl, rfl, rfl, fun _ _ => rfl, rfl⟩
  | cons kv rest ih =>
    simp only [storeAllInActiveCells, storeInActiveCells_eq m kv.1 kv.2 p hp hlt,
      List.foldl_cons]
    obtain ⟨m2, h1, h2, h3, h4, h5, h6, h7, h8, h9, h10, h11, h12⟩ :=
      ih { m with cellsHeap := m.cellsHeap.set p (storeInMorkCell (derefCells m p) kv.1 kv.2) }
        hp (by simpa using hlt)
    refine ⟨m2, h1, h2, h3, h4, ?_, h6, h7, h8, h9, h10, ?_, ?_⟩
    · rw [h5]; simp
    · intro q hq
      rw [h11 q hq]
      simp only [derefCells]
      exact getD_set_other _ _ _ _ _ hq
    · rw [h12]
      congr 1
      simp only [derefCells]
      exact getD_set_self _ _ _ _ hlt

theorem setCurrentRow_deref (m : MorkDb) (ts tid rs rid : Int) (hWF : IndexWF m) (q : Nat)
    (hq : q < m.cellsHeap.length) :
    derefCells (setCurrentRow m ts tid rs rid) q = derefCells m q := by
  unfold derefCells
  rw [(setCurrentRow_spec m ts tid rs rid hWF).2.2.1]
  split
  · rfl
  · exact getD_append_left _ _ _ _ hq

/-- C9: in a well-formed database, for two paths A and B that differ after the
default-scope substitution: after `setCurrentRow` A, stores `cellsA` on
`activeCells`, `setCurrentRow` B and stores `cellsB` on `activeCells`, a
further `setCurrentRow` A sets `activeCells` to the pointer it had for A
before, and the Cell Set behind it holds exactly the cells stored for A (the
stores `cellsA` applied to A's Cell Set); B's Cell Set is another object, and
neither creating nor filling B changed A's Cell Set. -/
theorem C9_rows_keep_their_cells (m0 : MorkDb) (hWF : IndexWF m0) (hH : HeapWF m0)
    (tsA tidA rsA ridA tsB tidB rsB ridB : Int) (cellsA cellsB : List (Int × Int))
    (hAB : ¬ (effectiveScope m0 tsA = effectiveScope m0 tsB ∧ tidA = tidB ∧
      effectiveScope m0 rsA = effectiveScope m0 rsB ∧ ridA = ridB)) :
    ∃ pA mA mB,
      (setCurrentRow m0 tsA tidA rsA ridA).activeCells = some pA ∧
      storeAllInActiveCells (setCurrentRow m0 tsA tidA rsA ridA) cellsA = some mA ∧
      storeAllInActiveCells (setCurrentRow mA tsB tidB rsB ridB) cellsB = some mB ∧
      (setCurrentRow mA tsB tidB rsB ridB).activeCells ≠ some pA ∧
      derefCells mB pA = derefCells mA pA ∧
      (setCurrentRow mB tsA tidA rsA ridA).activeCells = some pA ∧
      derefCells (setCurrentRow mB tsA tidA rsA ridA) pA = derefCells mA pA ∧
      derefCells mA pA =
        cellsA.foldl (fun c kv => storeInMorkCell c kv.1 kv.2)
          (derefCells (setCurrentRow m0 tsA tidA rsA ridA) pA) := by
  -- first call for A
  obtain ⟨hWF1, hact1, _, hlook1⟩ := setCurrentRow_spec m0 tsA tidA rsA ridA hWF
  have hH1 := setCurrentRow_heapWF m0 tsA tidA rsA ridA hWF hH
  have hd1 : (setCurrentRow m0 tsA tidA rsA ridA).defaultScope = m0.defaultScope :=
    (setCurrentRow_frame _ _ _ _ _).2.2.2.2
  have hpA1 := hH1.2.2 _ hact1
  have hcA1 := hlook1 (effectiveScope m0 tsA) tidA (effectiveScope m0 rsA) ridA
  simp only [and_self, if_true] at hcA1
  rw [hact1] at hcA1
  -- stores on A
  obtain ⟨mA, hsA, hkA, heA, haA, hlA, hdA, _, _, _, _, _, hderefA⟩ :=
    storeAllInActiveCells_spec cellsA _ _ hact1 hpA1
  have hWFA : IndexWF mA := IndexWF_congr _ mA hkA heA hWF1
  have hHA : HeapWF mA := HeapWF_congr _ mA hkA heA hlA (by rw [haA, hact1]) hH1
  have hcA : cellsAt mA (effectiveScope m0 tsA) tidA (effectiveScope m0 rsA) ridA =
      some ((cellsAt m0 (effectiveScope m0 tsA) tidA (effectiveScope m0 rsA) ridA).getD
        m0.cellsHeap.length) := by
    rw [cellsAt_congr _ mA hkA heA]; exact hcA1
  have hdA0 : mA.defaultScope = m0.defaultScope := by rw [hdA, hd1]
  have hesA : ∀ x, effectiveScope mA x = effectiveScope m0 x := by
    intro x; unfold effectiveScope; rw [hdA0]
  -- call for B
  obtain ⟨hWF3, hact3, _, hlook3⟩ := setCurrentRow_spec mA tsB tidB rsB ridB hWFA
  have hH3 := setCurrentRow_heapWF mA tsB tidB rsB ridB hWFA hHA
  have hd3 : (setCurrentRow mA tsB tidB rsB ridB).defaultScope = mA.defaultScope :=
    (setCurrentRow_frame _ _ _ _ _).2.2.2.2
  have hpB3 := hH3.2.2 _ hact3
  have hcA3 := hlook3 (effectiveScope m0 tsA) tidA (effectiveScope m0 rsA) ridA
  rw [hesA, hesA, if_neg hAB, hcA] at hcA3
  have hcB3 := hlook3 (effectiveScope mA tsB) tidB (effectiveScope mA rsB) ridB
  simp only [and_self, if_true] at hcB3
  have hpAlt : (cellsAt m0 (effectiveScope m0 tsA) tidA (effectiveScope m0 rsA) ridA).getD
      m0.cellsHeap.length < mA.cellsHeap.length := hHA.1 _ _ _ _ _ hcA
  have hne3 : (setCurrentRow mA tsB tidB rsB ridB).activeCells ≠
      some ((cellsAt m0 (effectiveScope m0 tsA) tidA (effectiveScope m0 rsA) ridA).getD
        m0.cellsHeap.length) := by
    intro e
    rw [e] at hcB3
    have := hH3.2.1 _ _ _ _ _ _ _ _ _ hcA3 hcB3
    rw [hesA, hesA] at this
    exact hAB this
  have hneAB : (cellsAt m0 (effectiveScope m0 tsA) tidA (effectiveScope m0 rsA) ridA).getD
      m0.cellsHeap.length ≠
      (cellsAt mA (effectiveScope mA tsB) tidB (effectiveScope mA rsB) ridB).getD
        mA.cellsHeap.length := by
    intro e
    apply hne3
    rw [hact3, e]
  -- stores on B
  obtain ⟨mB, hsB, hkB, heB, haB, hlB, hdB, _, _, _, _, hotherB, _⟩ :=
    storeAllInActiveCells_spec cellsB _ _ hact3 hpB3
  have hWFB : IndexWF mB := IndexWF_congr _ mB hkB heB hWF3
  have hHB : HeapWF mB := HeapWF_congr _ mB hkB heB hlB (by rw [haB, hact3]) hH3
  have hcB : cellsAt mB (effectiveScope m0 tsA) tidA (effectiveScope m0 rsA) ridA =
      some ((cellsAt m0 (effectiveScope m0 tsA) tidA (effectiveScope m0 rsA) ridA).getD
        m0.cellsHeap.length) := by
    rw [cellsAt_congr _ mB hkB heB]; exact hcA3
  have hesB : ∀ x, effectiveScope mB x = effectiveScope m0 x := by
    intro x; unfold effectiveScope; rw [hdB, hd3, hdA0]
  have hderefB : derefCells mB
      ((cellsAt m0 (effectiveScope m0 tsA) tidA (effectiveScope m0 rsA) ridA).getD
        m0.cellsHeap.length) = derefCells mA
      ((cellsAt m0 (effectiveScope m0 tsA) tidA (effectiveScope m0 rsA) ridA).getD
        m0.cellsHeap.length) := by
    rw [hotherB _ hneAB]
    exact setCurrentRow_deref mA tsB tidB rsB ridB hWFA _ hpAlt
  -- second call for A
  obtain ⟨_, hact5, _, _⟩ := setCurrentRow_spec mB tsA tidA rsA ridA hWFB
  rw [hesB, hesB, hcB] at hact5
  simp only [Option.getD_some] at hact5
  refine ⟨_, mA, mB, hact1, hsA, hsB, hne3, hderefB, hact5, ?_, hderefA⟩
  rw [setCurrentRow_deref mB tsA tidA rsA ridA hWFB _ (hHB.1 _ _ _ _ _ hcB)]
  exact hderefB

/-- C9 applied to the fresh database, A = (1, 2, 3, 4) and B = (0, 2, 0, 5). -/
theorem C9_rows_keep_their_cells_witness :
    ¬ (effectiveScope initializeTableScopeMap 1 = effectiveScope initializeTableScopeMap 0 ∧
        (2 : Int) = 2 ∧
        effectiveScope initializeTableScopeMap 3 = effectiveScope initializeTableScopeMap 0 ∧
        (4 : Int) = 5) ∧
    ∃ pA mA mB,
      (setCurrentRow initializeTableScopeMap 1 2 3 4).activeCells = some pA ∧
      storeAllInActiveCells (setCurrentRow initializeTableScopeMap 1 2 3 4) [(7, 8)] =
        some mA ∧
      storeAllInActiveCells (setCurrentRow mA 0 2 0 5) [(9, 10)] = some mB ∧
      (setCurrentRow mA 0 2 0 5).activeCells ≠ some pA ∧
      derefCells mB pA = derefCells mA pA ∧
      (setCurrentRow mB 1 2 3 4).activeCells = some pA ∧
      derefCells (setCurrentRow mB 1 2 3 4) pA = derefCells mA pA ∧
      derefCells mA pA =
        ([(7, 8)] : List (Int × Int)).foldl (fun c kv => storeInMorkCell c kv.1 kv.2)
          (derefCells (setCurrentRow initializeTableScopeMap 1 2 3 4) pA) :=
  ⟨by decide,
   C9_rows_keep_their_cells initializeTableScopeMap initializeTableScopeMap_WF.1
     initializeTableScopeMap_WF.2 1 2 3 4 0 2 0 5 [(7, 8)] [(9, 10)] (by decide)⟩

/-! ## Scoped-id tokens -/

theorem isxdigit_range (c : Nat) (h : isxdigit c = true) :
    (48 ≤ c ∧ c ≤ 57) ∨ (65 ≤ c ∧ c ≤ 70) ∨ (97 ≤ c ∧ c ≤ 102) := by
  simpa [isxdigit] using h

theorem isspace_false_of_ne (c : Nat) (h1 : c ≠ 32) (h2 : c < 9 ∨ 13 < c) :
    isspace (c : Int) = false := by
  simp only [isspace, decide_eq_false_iff_not]
  omega

theorem takeWhile_all {α : Type} (p : α → Bool) (l : List α) (h : ∀ x ∈ l, p x = true) :
    l.takeWhile p = l := by
  induction l with
  | nil => rfl
  | cons x xs ih =>
    rw [List.takeWhile_cons, h x (List.mem_cons_self _ _)]
    simp only [if_true]
    rw [ih (fun y hy => h y (List.mem_cons_of_mem _ hy))]

theorem strtol16_hex (H : List Nat) (hne : H ≠ []) (hd : ∀ c ∈ H, isxdigit c = true)
    (hv : hexValue H < 2 ^ 63) : strtol16 H = (hexValue H : Nat) := by
  cases H with
  | nil => exact absurd rfl hne
  | cons c cs =>
    have hc := isxdigit_range c (hd c (List.mem_cons_self _ _))
    have hsp : isspace (c : Int) = false := isspace_false_of_ne c (by omega) (by omega)
    have h45 : ¬ c = 45 := by omega
    have h43 : ¬ c = 43 := by omega
    have hs3 : (match c :: cs with
        | 48 :: x :: rest => if x = 120 ∨ x = 88 then rest else c :: cs
        | _ => c :: cs) = c :: cs := by
      split
      · rename_i x rest heq
        simp only [List.cons.injEq] at heq
        have hx := isxdigit_range x (hd x (by rw [heq.2]; simp))
        have : ¬ (x = 120 ∨ x = 88) := by omega
        simp [this, heq]
      · rfl
    unfold strtol16
    simp only [List.dropWhile_cons, hsp, List.head?_cons, Option.some.injEq, h45, h43, or_self,
      if_false, Bool.false_eq_true]
    rw [hs3, takeWhile_all _ _ hd]
    have : ((hexValue (c :: cs) : Nat) : Int) < 2 ^ 63 := by exact_mod_cast hv
    have h0 : (0 : Int) ≤ (hexValue (c :: cs) : Nat) := Int.ofNat_nonneg _
    omega

theorem takeWhile_none {α : Type} (p : α → Bool) (l : List α) (h : ∀ x ∈ l, p x = false) :
    l.takeWhile p = [] := by
  cases l with
  | nil => rfl
  | cons x xs =>
    rw [List.takeWhile_cons, h x (List.mem_cons_self _ _)]
    simp

theorem strtol16_no_digit (s : List Nat) (h : ∀ c ∈ s, isxdigit c = false) :
    strtol16 s = 0 := by
  have h1 : ∀ c ∈ s.dropWhile (fun (c : Nat) => isspace (c : Int)), isxdigit c = false :=
    fun c hc => h c ((List.dropWhile_suffix _).subset hc)
  have h2 : ∀ c ∈ (if (s.dropWhile (fun (c : Nat) => isspace (c : Int))).head? = some 45 ∨
        (s.dropWhile (fun (c : Nat) => isspace (c : Int))).head? = some 43
      then (s.dropWhile (fun (c : Nat) => isspace (c : Int))).tail
      else s.dropWhile (fun (c : Nat) => isspace (c : Int))), isxdigit c = false := by
    intro c hc
    split at hc
    · exact h1 c (List.mem_of_mem_tail hc)
    · exact h1 c hc
  unfold strtol16
  simp only []
  generalize (if (s.dropWhile (fun (c : Nat) => isspace (c : Int))).head? = some 45 ∨
        (s.dropWhile (fun (c : Nat) => isspace (c : Int))).head? = some 43
      then (s.dropWhile (fun (c : Nat) => isspace (c : Int))).tail
      else s.dropWhile (fun (c : Nat) => isspace (c : Int))) = s2 at h2 ⊢
  have h3 : ∀ c ∈ (match s2 with
      | 48 :: x :: rest => if x = 120 ∨ x = 88 then rest else s2
      | _ => s2), isxdigit c = false := by
    intro c hc
    split at hc
    · split at hc
      · exact h2 c (by simp [hc])
      · exact h2 c hc
    · exact h2 c hc
  rw [takeWhile_none _ _ h3]
  simp [hexValue]

theorem toInt32_of_lt (v : Int) (h0 : 0 ≤ v) (h1 : v < 2 ^ 31) : toInt32 v = v := by
  unfold toInt32
  norm_num at h1 ⊢
  omega

theorem strchr_none (ch : Nat) (l : List Nat) (h : ∀ c ∈ l, c ≠ ch) : strchr ch l = none := by
  induction l with
  | nil => rfl
  | cons x xs ih =>
    have hx : ¬ x = ch := h x (List.mem_cons_self _ _)
    simp only [strchr, hx, if_false]
    split
    · rfl
    · rw [ih (fun c hc => h c (List.mem_cons_of_mem _ hc))]; rfl

theorem strchr_append (ch : Nat) (l rest : List Nat) (h : ∀ c ∈ l, c ≠ ch ∧ c ≠ 0) :
    strchr ch (l ++ ch :: rest) = some l.length := by
  induction l with
  | nil => simp [strchr]
  | cons x xs ih =>
    have hx := h x (List.mem_cons_self _ _)
    show strchr ch (x :: (xs ++ ch :: rest)) = _
    simp only [strchr, hx.1, hx.2, if_false]
    rw [ih (fun c hc => h c (List.mem_cons_of_mem _ hc))]
    rfl

theorem isxdigit_ne (c : Nat) (h : isxdigit c = true) :
    c ≠ 0 ∧ c ≠ 58 ∧ c ≠ 94 ∧ c < 256 := by
  have := isxdigit_range c h
  omega

theorem parseScopeId_hex (H : List Nat) (scope : Int) (hne : H ≠ [])
    (hd : ∀ c ∈ H, isxdigit c = true) (hv : hexValue H < 2 ^ 31) :
    parseScopeId H scope = ((hexValue H : Int), scope) := by
  unfold parseScopeId
  rw [strchr_none 58 H (fun c hc => (isxdigit_ne c (hd c hc)).2.1)]
  simp only []
  rw [strtol16_hex H hne hd (lt_trans hv (by norm_num)),
    toInt32_of_lt _ (Int.ofNat_nonneg _) (by exact_mod_cast hv)]

theorem parseScopeId_hex_colon (H S : List Nat) (scope : Int) (hne : H ≠ [])
    (hd : ∀ c ∈ H, isxdigit c = true) (hv : hexValue H < 2 ^ 31) (hne2 : S ≠ [])
    (hd2 : ∀ c ∈ S, isxdigit c = true) (hv2 : hexValue S < 2 ^ 31) :
    parseScopeId (H ++ 58 :: S) scope = ((hexValue H : Int), (hexValue S : Int)) := by
  unfold parseScopeId
  rw [strchr_append 58 H S (fun c hc => ⟨(isxdigit_ne c (hd c hc)).2.1,
    (isxdigit_ne c (hd c hc)).1⟩)]
  have hhead : ¬ S.head? = some 94 := by
    cases S with
    | nil => exact absurd rfl hne2
    | cons x xs =>
      have := (isxdigit_ne x (hd2 x (List.mem_cons_self _ _))).2.2.1
      simpa using this
  simp only [List.take_left', List.drop_succ_cons, List.drop_left', hhead, if_false,
    show (H ++ 58 :: S).drop (H.length + 1) = S by
      rw [← List.drop_drop]; simp]
  rw [strtol16_hex H hne hd (lt_trans hv (by norm_num)),
    strtol16_hex S hne2 hd2 (lt_trans hv2 (by norm_num)),
    toInt32_of_lt _ (Int.ofNat_nonneg _) (by exact_mod_cast hv),
    toInt32_of_lt _ (Int.ofNat_nonneg _) (by exact_mod_cast hv2)]

theorem parseScopeId_hex_colon_caret (H S : List Nat) (scope : Int) (hne : H ≠ [])
    (hd : ∀ c ∈ H, isxdigit c = true) (hv : hexValue H < 2 ^ 31) (hne2 : S ≠ [])
    (hd2 : ∀ c ∈ S, isxdigit c = true) (hv2 : hexValue S < 2 ^ 31) :
    parseScopeId (H ++ 58 :: 94 :: S) scope = ((hexValue H : Int), (hexValue S : Int)) := by
  unfold parseScopeId
  rw [strchr_append 58 H (94 :: S) (fun c hc => ⟨(isxdigit_ne c (hd c hc)).2.1,
    (isxdigit_ne c (hd c hc)).1⟩)]
  simp only [List.take_left',
    show (H ++ 58 :: 94 :: S).drop (H.length + 1) = 94 :: S by
      rw [← List.drop_drop]; simp,
    List.head?_cons, if_true, List.tail_cons]
  rw [strtol16_hex H hne hd (lt_trans hv (by norm_num)),
    strtol16_hex S hne2 hd2 (lt_trans hv2 (by norm_num)),
    toInt32_of_lt _ (Int.ofNat_nonneg _) (by exact_mod_cast hv),
    toInt32_of_lt _ (Int.ofNat_nonneg _) (by exact_mod_cast hv2)]

theorem parseScopeId_no_digit (tok : List Nat) (scope : Int)
    (h : ∀ c ∈ tok, isxdigit c = false) : (parseScopeId tok scope).1 = 0 := by
  unfold parseScopeId
  split
  · simp only []
    rw [strtol16_no_digit _ (fun c hc => h c (List.mem_of_mem_take hc))]
    rfl
  · simp only []
    rw [strtol16_no_digit _ h]
    rfl

/-- C10: for non-empty strings of hex digits `H` and `S` whose values fit a
signed 32-bit integer, `parseScopeId` on `H` sets the id to the hex value of `H`
and leaves the scope at the caller's value; on `H:S` and on `H:^S` it sets the id
to the value of `H` and the scope to the value of `S`; and on a token without any
hex digit it sets the id to 0. -/
theorem C10_parseScopeId_forms (H S tok : List Nat) (scope : Int) (hne : H ≠ [])
    (hd : ∀ c ∈ H, isxdigit c = true) (hv : hexValue H < 2 ^ 31) (hne2 : S ≠ [])
    (hd2 : ∀ c ∈ S, isxdigit c = true) (hv2 : hexValue S < 2 ^ 31)
    (htok : ∀ c ∈ tok, isxdigit c = false) :
    parseScopeId H scope = ((hexValue H : Int), scope) ∧
    parseScopeId H 0 = ((hexValue H : Int), 0) ∧
    parseScopeId (H ++ 58 :: S) scope = ((hexValue H : Int), (hexValue S : Int)) ∧
    parseScopeId (H ++ 58 :: 94 :: S) scope = ((hexValue H : Int), (hexValue S : Int)) ∧
    (parseScopeId tok scope).1 = 0 :=
  ⟨parseScopeId_hex H scope hne hd hv, parseScopeId_hex H 0 hne hd hv,
   parseScopeId_hex_colon H S scope hne hd hv hne2 hd2 hv2,
   parseScopeId_hex_colon_caret H S scope hne hd hv hne2 hd2 hv2,
   parseScopeId_no_digit tok scope htok⟩

/-- C10 applied to `1F`, `c0` and the digit-free token `-`. -/
theorem C10_parseScopeId_forms_witness :
    parseScopeId (bytes "1F") 0 = (31, 0) ∧
    parseScopeId (bytes "1F:c0") 0 = (31, 192) ∧
    parseScopeId (bytes "1F:^c0") 0 = (31, 192) ∧
    (parseScopeId (bytes "-") 0).1 = 0 :=
  have h := C10_parseScopeId_forms (bytes "1F") (bytes "c0") (bytes "-") 0 (by decide)
    (by decide) (by decide) (by decide) (by decide) (by decide) (by decide)
  ⟨h.1, h.2.2.1, h.2.2.2.1, h.2.2.2.2⟩

/-! ## Running the parser on a table block -/

theorem morkgetc_cons (c : Nat) (cs : List Nat) (e : Bool) :
    morkgetc { pending := c :: cs, eof := e } = ((c : Int), { pending := cs, eof := e }) := rfl

theorem toChar_cast (c : Nat) (h : c < 256) : toChar (c : Int) = c := by
  unfold toChar
  omega

theorem idByte_facts (c : Nat) (h : idByte c = true) :
    0 < c ∧ c < 256 ∧ c ≠ 32 ∧ (c < 9 ∨ 13 < c) ∧ c ≠ 40 ∧ c ≠ 91 ∧ c ≠ 93 ∧ c ≠ 123 ∧
      c ≠ 125 := by
  simpa [idByte] using h

theorem bufPut_ok (buf : List Nat) (c : Nat) (h : buf.length < 512) :
    bufPut buf c = Except.ok (buf ++ [c]) := by
  simp [bufPut, h]

theorem bufEnd_ok (buf : List Nat) (h : buf.length < 512) : bufEnd buf = Except.ok buf := by
  simp [bufEnd, h]

theorem parseMorkTableIdLoop_tok (rest : List Nat) (e : Bool) (tok : List Nat) :
    ∀ (c : Nat) (acc : List Nat) (fuel : Nat), idByte c = true →
      (∀ x ∈ tok, idByte x = true) → acc.length + tok.length + 1 < 512 →
      tok.length + 2 ≤ fuel →
      parseMorkTableIdLoop fuel c { pending := tok ++ 123 :: rest, eof := e } acc =
        Except.ok (123, { pending := rest, eof := e }, acc ++ c :: tok) := by
  induction tok with
  | nil =>
    intro c acc fuel hc _ hlen hfuel
    obtain ⟨f, rfl⟩ : ∃ f, fuel = f + 2 := ⟨fuel - 2, by simp at hfuel; omega⟩
    have hf := idByte_facts c hc
    have hsp : isspace (c : Int) = false := isspace_false_of_ne c hf.2.2.1 hf.2.2.2.1
    have hcond : c ≠ 0 ∧ c ≠ 123 ∧ c ≠ 91 ∧ c ≠ 125 := by omega
    simp only [parseMorkTableIdLoop, hcond, hsp, bufPut_ok acc c (by omega), List.nil_append,
      morkgetc_cons, toChar_cast 123 (by omega), and_self, if_true, ne_eq, not_false_eq_true]
    simp
  | cons x xs ih =>
    intro c acc fuel hc htok hlen hfuel
    obtain ⟨f, rfl⟩ : ∃ f, fuel = f + 1 := ⟨fuel - 1, by omega⟩
    have hf := idByte_facts c hc
    have hx := idByte_facts x (htok x (List.mem_cons_self _ _))
    have hsp : isspace (c : Int) = false := isspace_false_of_ne c hf.2.2.1 hf.2.2.2.1
    have hcond : c ≠ 0 ∧ c ≠ 123 ∧ c ≠ 91 ∧ c ≠ 125 := by omega
    simp only [List.length_cons] at hlen hfuel
    simp only [parseMorkTableIdLoop, hcond, hsp, bufPut_ok acc c (by omega), List.cons_append,
      morkgetc_cons, toChar_cast x hx.2.1, and_self, if_true, ne_eq, not_false_eq_true]
    rw [ih x (acc ++ [c]) f (htok x (List.mem_cons_self _ _))
      (fun y hy => htok y (List.mem_cons_of_mem _ hy)) (by simp; omega) (by omega)]
    simp

theorem parseMorkRowIdLoop_tok (rest : List Nat) (d : Nat) (hd : d = 40 ∨ d = 93)
    (tok : List Nat) :
    ∀ (c : Nat) (acc : List Nat) (fuel : Nat), idByte c = true →
      (∀ x ∈ tok, idByte x = true) → acc.length + tok.length + 1 < 512 →
      tok.length + 2 ≤ fuel →
      parseMorkRowIdLoop fuel (c : Int) { pending := tok ++ d :: rest, eof := false } acc =
        Except.ok ((d : Int), { pending := rest, eof := false }, acc ++ c :: tok) := by
  induction tok with
  | nil =>
    intro c acc fuel hc _ hlen hfuel
    obtain ⟨f, rfl⟩ : ∃ f, fuel = f + 2 := ⟨fuel - 2, by simp at hfuel; omega⟩
    have hf := idByte_facts c hc
    have hsp : isspace (c : Int) = false := isspace_false_of_ne c hf.2.2.1 hf.2.2.2.1
    have hcond : (c : Int) ≠ 40 ∧ (c : Int) ≠ 91 ∧ (c : Int) ≠ 93 ∧ (c : Int) ≠ 0 := by omega
    simp only [parseMorkRowIdLoop, feof, hcond, hsp, toChar_cast c hf.2.1,
      bufPut_ok acc c (by omega), List.nil_append, morkgetc_cons, and_self, if_true, ne_eq,
      not_false_eq_true]
    rw [if_neg]
    intro h; omega
  | cons x xs ih =>
    intro c acc fuel hc htok hlen hfuel
    obtain ⟨f, rfl⟩ : ∃ f, fuel = f + 1 := ⟨fuel - 1, by omega⟩
    have hf := idByte_facts c hc
    have hsp : isspace (c : Int) = false := isspace_false_of_ne c hf.2.2.1 hf.2.2.2.1
    have hcond : (c : Int) ≠ 40 ∧ (c : Int) ≠ 91 ∧ (c : Int) ≠ 93 ∧ (c : Int) ≠ 0 := by omega
    simp only [List.length_cons] at hlen hfuel
    simp only [parseMorkRowIdLoop, feof, hcond, hsp, toChar_cast c hf.2.1,
      bufPut_ok acc c (by omega), List.cons_append, morkgetc_cons, and_self, if_true, ne_eq,
      not_false_eq_true]
    rw [ih x (acc ++ [c]) f (htok x (List.mem_cons_self _ _))
      (fun y hy => htok y (List.mem_cons_of_mem _ hy)) (by simp; omega) (by omega)]
    simp

theorem parseMorkMetaLoop_brace (rest : List Nat) (metaText : List Nat) :
    ∀ (fuel : Nat), (∀ x ∈ metaText, metaByte x = true) → metaText.length + 1 ≤ fuel →
      parseMorkMetaLoop 125 fuel
          (morkgetc { pending := metaText ++ 125 :: rest, eof := false }).1
          (morkgetc { pending := metaText ++ 125 :: rest, eof := false }).2 =
        Except.ok { pending := rest, eof := false } := by
  induction metaText with
  | nil =>
    intro fuel _ hfuel
    obtain ⟨f, rfl⟩ : ∃ f, fuel = f + 1 := ⟨fuel - 1, by simp at hfuel; omega⟩
    simp [parseMorkMetaLoop, morkgetc_cons]
  | cons x xs ih =>
    intro fuel hm hfuel
    obtain ⟨f, rfl⟩ : ∃ f, fuel = f + 1 := ⟨fuel - 1, by omega⟩
    have hx : 0 < x ∧ x ≠ 125 := by
      simpa [metaByte] using hm x (List.mem_cons_self _ _)
    have hcond : (x : Int) ≠ ((125 : Nat) : Int) ∧ (x : Int) ≠ 0 := by omega
    simp only [List.length_cons] at hfuel
    simp only [List.cons_append, morkgetc_cons, parseMorkMetaLoop, feof, hcond, and_self,
      if_true, ne_eq, not_false_eq_true]
    exact ih f (fun y hy => hm y (List.mem_cons_of_mem _ hy)) (by omega)

theorem parseMorkMeta_brace (rest metaText : List Nat) (fuel : Nat)
    (hm : ∀ x ∈ metaText, metaByte x = true) (hfuel : metaText.length + 1 ≤ fuel) :
    parseMorkMeta fuel { pending := metaText ++ 125 :: rest, eof := false } 125 =
      Except.ok (true, { pending := rest, eof := false }) := by
  unfold parseMorkMeta
  rw [parseMorkMetaLoop_brace rest metaText fuel hm hfuel]

theorem parseMorkCellSwitch_plain (x : Nat) (ifp : MorkFile) (st : CellState)
    (h92 : x ≠ 92) (h36 : x ≠ 36) (hc : st.column.length < 512) (ht : st.text.length < 512) :
    ∃ st2, parseMorkCellSwitch x ifp st = Except.ok (ifp, st2) ∧
      st2.column.length ≤ st.column.length + 1 ∧ st2.text.length ≤ st.text.length + 1 := by
  unfold parseMorkCellSwitch
  simp only [h92, h36, if_false, bufPut_ok _ _ hc, bufPut_ok _ _ ht]
  split_ifs <;> exact ⟨_, rfl, by simp, by simp⟩

theorem parseMorkCellLoop_plain (rest : List Nat) (body : List Nat) :
    ∀ (st : CellState) (fuel : Nat), (∀ x ∈ body, cellByte x = true) →
      st.column.length + body.length < 512 → st.text.length + body.length < 512 →
      body.length + 1 ≤ fuel →
      ∃ st2,
        parseMorkCellLoop fuel
            (toChar (morkgetc { pending := body ++ 41 :: rest, eof := false }).1)
            (morkgetc { pending := body ++ 41 :: rest, eof := false }).2 st =
          Except.ok ({ pending := rest, eof := false }, st2) ∧
        st2.column.length ≤ st.column.length + body.length ∧
        st2.text.length ≤ st.text.length + body.length := by
  induction body with
  | nil =>
    intro st fuel _ _ _ hfuel
    obtain ⟨f, rfl⟩ : ∃ f, fuel = f + 1 := ⟨fuel - 1, by simp at hfuel; omega⟩
    refine ⟨st, ?_, by simp, by simp⟩
    have h41 : toChar (41 : Int) = 41 := rfl
    simp [parseMorkCellLoop, morkgetc_cons, h41]
  | cons x xs ih =>
    intro st fuel hb hcl htl hfuel
    obtain ⟨f, rfl⟩ : ∃ f, fuel = f + 1 := ⟨fuel - 1, by omega⟩
    have hx : 0 < x ∧ x < 256 ∧ x ≠ 41 ∧ x ≠ 92 ∧ x ≠ 36 := by
      simpa [cellByte] using hb x (List.mem_cons_self _ _)
    simp only [List.length_cons] at hcl htl hfuel
    obtain ⟨st1, hs1, hc1, ht1⟩ := parseMorkCellSwitch_plain x
      { pending := xs ++ 41 :: rest, eof := false } st hx.2.2.2.1 hx.2.2.2.2
      (by omega) (by omega)
    obtain ⟨st2, hs2, hc2, ht2⟩ := ih st1 f (fun y hy => hb y (List.mem_cons_of_mem _ hy))
      (by omega) (by omega) (by omega)
    refine ⟨st2, ?_, by simp only [List.length_cons]; omega,
      by simp only [List.length_cons]; omega⟩
    have hcond : x ≠ 41 ∧ x ≠ 0 := by omega
    simp only [List.cons_append, morkgetc_cons, toChar_cast x hx.2.1, parseMorkCellLoop, feof,
      hcond, and_self, if_true, ne_eq, not_false_eq_true, hs1]
    exact hs2

theorem storeInActiveCellsOrFault_ok (m : MorkDb) (k v : Int) (p : Nat)
    (hp : m.activeCells = some p) (hlt : p < m.cellsHeap.length) :
    storeInActiveCellsOrFault m k v =
      Except.ok { m with
        cellsHeap := m.cellsHeap.set p (storeInMorkCell (derefCells m p) k v) } := by
  unfold storeInActiveCellsOrFault
  rw [storeInActiveCells_eq m k v p hp hlt]

theorem CellFrame_refl (m : MorkDb) (p : Nat) : CellFrame m m p :=
  ⟨rfl, rfl, rfl, rfl, rfl, rfl, fun _ _ => rfl⟩

theorem CellFrame_trans (m m2 m3 : MorkDb) (p : Nat) (h1 : CellFrame m m2 p)
    (h2 : CellFrame m2 m3 p) : CellFrame m m3 p := by
  obtain ⟨a1, a2, a3, a4, a5, a6, a7⟩ := h1
  obtain ⟨b1, b2, b3, b4, b5, b6, b7⟩ := h2
  exact ⟨b1.trans a1, b2.trans a2, b3.trans a3, b4.trans a4, b5.trans a5, b6.trans a6,
    fun q hq => (b7 q hq).trans (a7 q hq)⟩

theorem parseMorkCellApply_frame (m : MorkDb) (v : Bool) (column text : List Nat) (p : Nat)
    (hp : m.activeCells = some p) (hlt : p < m.cellsHeap.length) :
    ∃ m2, parseMorkCellApply m v column text = Except.ok m2 ∧ CellFrame m m2 p := by
  unfold parseMorkCellApply
  simp only []
  split_ifs
  · rw [storeInActiveCellsOrFault_ok m _ _ p hp hlt]
    refine ⟨_, rfl, rfl, rfl, rfl, rfl, rfl, by simp, ?_⟩
    intro q hq
    simp only [derefCells]
    exact getD_set_other _ _ _ _ _ hq
  · rw [storeInActiveCellsOrFault_ok
      { m with
        nextAddValueId := m.nextAddValueId - 1
        values := storeInMorkDict m.values (m.nextAddValueId - 1) (cString text) }
      _ _ p hp hlt]
    refine ⟨_, rfl, rfl, rfl, rfl, rfl, rfl, by simp, ?_⟩
    intro q hq
    simp only [derefCells]
    exact getD_set_other _ _ _ _ _ hq
  · exact ⟨_, rfl, rfl, rfl, rfl, rfl, rfl, rfl, fun _ _ => rfl⟩
  · exact ⟨_, rfl, rfl, rfl, rfl, rfl, rfl, rfl, fun _ _ => rfl⟩
  · exact ⟨_, rfl, CellFrame_refl m p⟩

theorem parseMorkCell_plain (rest body : List Nat) (m : MorkDb) (fuel : Nat) (p : Nat)
    (hb : ∀ x ∈ body, cellByte x = true) (hlen : body.length < 512)
    (hfuel : body.length + 1 ≤ fuel) (hp : m.activeCells = some p)
    (hlt : p < m.cellsHeap.length) :
    ∃ m2, parseMorkCell fuel { pending := body ++ 41 :: rest, eof := false } m =
        Except.ok (true, { pending := rest, eof := false }, m2) ∧ CellFrame m m2 p := by
  obtain ⟨st2, hs2, hc2, ht2⟩ := parseMorkCellLoop_plain rest body
    { columnIsObjectId := false, valueIsObjectId := false, bColumn := true, corners := 0,
      column := [], text := [] } fuel hb (by simpa using hlen) (by simpa using hlen) hfuel
  simp only [List.length_nil, Nat.zero_add] at hc2 ht2
  obtain ⟨m2, hm2, hframe⟩ := parseMorkCellApply_frame m st2.valueIsObjectId st2.column
    st2.text p hp hlt
  refine ⟨m2, ?_, hframe⟩
  unfold parseMorkCell
  rw [hs2]
  simp only [bufEnd_ok st2.column (by omega), bufEnd_ok st2.text (by omega), hm2]

theorem parseMorkRowLoop_cells (rest : List Nat) (p : Nat) (cells : List (List Nat)) :
    ∀ (m : MorkDb) (fuel : Nat),
      (∀ b ∈ cells, (∀ x ∈ b, cellByte x = true) ∧ b.length < 512) →
      (cellsText cells).length + 1 ≤ fuel → m.activeCells = some p →
      p < m.cellsHeap.length →
      ∃ m2,
        parseMorkRowLoop fuel true
            (morkgetc { pending := cellsText cells ++ 93 :: rest, eof := false }).1
            (morkgetc { pending := cellsText cells ++ 93 :: rest, eof := false }).2 m =
          Except.ok (true, { pending := rest, eof := false }, m2) ∧
        CellFrame m m2 p := by
  induction cells with
  | nil =>
    intro m fuel _ hfuel _ _
    obtain ⟨f, rfl⟩ : ∃ f, fuel = f + 1 := ⟨fuel - 1, by omega⟩
    refine ⟨m, ?_, CellFrame_refl m p⟩
    simp [cellsText, parseMorkRowLoop, morkgetc_cons]
  | cons b bs ih =>
    intro m fuel hcells hfuel hp hlt
    obtain ⟨f, rfl⟩ : ∃ f, fuel = f + 1 := ⟨fuel - 1, by omega⟩
    have hb := hcells b (List.mem_cons_self _ _)
    simp only [cellsText, List.length_cons, List.length_append] at hfuel
    obtain ⟨m1, hm1, hf1⟩ := parseMorkCell_plain (cellsText bs ++ 93 :: rest) b m f p hb.1 hb.2
      (by omega) hp hlt
    obtain ⟨m2, hm2, hf2⟩ := ih m1 f (fun b2 hb2 => hcells b2 (List.mem_cons_of_mem _ hb2))
      (by omega) (by rw [hf1.2.2.1, hp]) (by rw [hf1.2.2.2.2.2.1]; exact hlt)
    refine ⟨m2, ?_, CellFrame_trans m m1 m2 p hf1 hf2⟩
    have h40 : isspace (40 : Int) = false := by decide
    simp only [cellsText, List.cons_append, List.append_assoc, morkgetc_cons, parseMorkRowLoop,
      Nat.cast_ofNat, h40, if_true, hm1]
    rw [if_pos (by decide)]
    exact hm2

theorem getD_append_default {α : Type} (l : List α) (q : Nat) (d : α) :
    (l ++ [d]).getD q d = l.getD q d := by
  induction l generalizing q with
  | nil =>
    cases q with
    | zero => rfl
    | succ n => rfl
  | cons x xs ih =>
    cases q with
    | zero => rfl
    | succ n => simp only [List.cons_append, List.getD_cons_succ, ih n]

theorem derefCells_setCurrentRow (m : MorkDb) (ts tid rs rid : Int) (hWF : IndexWF m)
    (q : Nat) : derefCells (setCurrentRow m ts tid rs rid) q = derefCells m q := by
  unfold derefCells
  rw [(setCurrentRow_spec m ts tid rs rid hWF).2.2.1]
  split
  · rfl
  · exact getD_append_default _ _ _

theorem parseMorkRow_cells (rest rTok : List Nat) (cells : List (List Nat)) (m : MorkDb)
    (tableId tableScope : Int) (fuel : Nat) (hr : rTok ≠ [])
    (hrb : ∀ x ∈ rTok, idByte x = true) (hrl : rTok.length < 512)
    (hcells : ∀ b ∈ cells, (∀ x ∈ b, cellByte x = true) ∧ b.length < 512)
    (hfuel : rTok.length + (cellsText cells).length + 3 ≤ fuel)
    (hWF : IndexWF m) (hH : HeapWF m) :
    ∃ m2 p,
      parseMorkRow fuel { pending := rTok ++ (cellsText cells ++ 93 :: rest), eof := false } m
          tableId tableScope =
        Except.ok (true, { pending := rest, eof := false }, m2) ∧
      (setCurrentRow { m with nowParsing := NowParsingType.NPRows } tableScope tableId
        (parseScopeId rTok 0).2 (parseScopeId rTok 0).1).activeCells = some p ∧
      CellFrame
        (setCurrentRow { m with nowParsing := NowParsingType.NPRows } tableScope tableId
          (parseScopeId rTok 0).2 (parseScopeId rTok 0).1) m2 p := by
  cases rTok with
  | nil => exact absurd rfl hr
  | cons c tok =>
    simp only [List.length_cons] at hrl hfuel
    have hid : parseMorkRowIdLoop fuel (c : Int)
        { pending := tok ++ (cellsText cells ++ 93 :: rest), eof := false } [] =
        Except.ok ((morkgetc { pending := cellsText cells ++ 93 :: rest, eof := false }).1,
          (morkgetc { pending := cellsText cells ++ 93 :: rest, eof := false }).2,
          c :: tok) := by
      cases cells with
      | nil =>
        have := parseMorkRowIdLoop_tok rest 93 (Or.inr rfl) tok c [] fuel
          (hrb c (List.mem_cons_self _ _)) (fun y hy => hrb y (List.mem_cons_of_mem _ hy))
          (by simp; omega) (by omega)
        simpa [cellsText, morkgetc_cons] using this
      | cons b bs =>
        have := parseMorkRowIdLoop_tok (b ++ 41 :: (cellsText bs ++ 93 :: rest)) 40
          (Or.inl rfl) tok c [] fuel
          (hrb c (List.mem_cons_self _ _)) (fun y hy => hrb y (List.mem_cons_of_mem _ hy))
          (by simp; omega) (by omega)
        simpa [cellsText, morkgetc_cons] using this
    have hWF0 : IndexWF { m with nowParsing := NowParsingType.NPRows } :=
      IndexWF_congr m _ rfl rfl hWF
    have hH0 : HeapWF { m with nowParsing := NowParsingType.NPRows } :=
      HeapWF_congr m _ rfl rfl rfl rfl hH
    obtain ⟨_, hact, _, _⟩ := setCurrentRow_spec { m with nowParsing := NowParsingType.NPRows }
      tableScope tableId (parseScopeId (c :: tok) 0).2 (parseScopeId (c :: tok) 0).1 hWF0
    have hH1 := setCurrentRow_heapWF { m with nowParsing := NowParsingType.NPRows }
      tableScope tableId (parseScopeId (c :: tok) 0).2 (parseScopeId (c :: tok) 0).1 hWF0 hH0
    obtain ⟨m2, hm2, hframe⟩ := parseMorkRowLoop_cells rest _ cells
      (setCurrentRow { m with nowParsing := NowParsingType.NPRows } tableScope tableId
        (parseScopeId (c :: tok) 0).2 (parseScopeId (c :: tok) 0).1) fuel hcells (by omega)
      hact (hH1.2.2 _ hact)
    refine ⟨m2, _, ?_, hact, hframe⟩
    unfold parseMorkRow
    simp only [List.cons_append, morkgetc_cons, hid, bufEnd_ok (c :: tok) (by simp; omega)]
    exact hm2

theorem parseMorkTable_block (tTok metaText rTok : List Nat) (cells : List (List Nat))
    (rest : List Nat) (m : MorkDb) (fuel : Nat) (ht : tTok ≠ [])
    (htb : ∀ x ∈ tTok, idByte x = true) (htl : tTok.length < 512)
    (hm : ∀ x ∈ metaText, metaByte x = true) (hr : rTok ≠ [])
    (hrb : ∀ x ∈ rTok, idByte x = true) (hrl : rTok.length < 512)
    (hcells : ∀ b ∈ cells, (∀ x ∈ b, cellByte x = true) ∧ b.length < 512)
    (hfuel : tTok.length + metaText.length + rTok.length + (cellsText cells).length + 8 ≤ fuel)
    (hWF : IndexWF m) (hH : HeapWF m) :
    ∃ m2 p,
      parseMorkTable fuel
          { pending := tableBlockText tTok metaText rTok cells rest, eof := false } m =
        Except.ok (true, { pending := rest, eof := false }, m2) ∧
      (setCurrentRow { m with nowParsing := NowParsingType.NPRows } (parseScopeId tTok 0).2
        (parseScopeId tTok 0).1 (parseScopeId rTok 0).2 (parseScopeId rTok 0).1).activeCells =
        some p ∧
      CellFrame
        (setCurrentRow { m with nowParsing := NowParsingType.NPRows } (parseScopeId tTok 0).2
          (parseScopeId tTok 0).1 (parseScopeId rTok 0).2 (parseScopeId rTok 0).1) m2 p := by
  cases tTok with
  | nil => exact absurd rfl ht
  | cons c tok =>
    simp only [List.length_cons] at htl hfuel
    obtain ⟨f3, rfl⟩ : ∃ f3, fuel = f3 + 3 := ⟨fuel - 3, by omega⟩
    have hc := idByte_facts c (htb c (List.mem_cons_self _ _))
    have hid := parseMorkTableIdLoop_tok
      (metaText ++ 125 :: 91 :: (rTok ++ (cellsText cells ++ 93 :: 125 :: rest))) false tok c []
      (f3 + 3) (htb c (List.mem_cons_self _ _))
      (fun y hy => htb y (List.mem_cons_of_mem _ hy)) (by simp; omega) (by omega)
    have hmeta := parseMorkMeta_brace (91 :: (rTok ++ (cellsText cells ++ 93 :: 125 :: rest)))
      metaText (f3 + 2) hm (by omega)
    obtain ⟨m2, p, hrow, hact, hframe⟩ := parseMorkRow_cells (125 :: rest) rTok cells m
      (parseScopeId (c :: tok) 0).1 (parseScopeId (c :: tok) 0).2 (f3 + 1) hr hrb hrl hcells
      (by omega) hWF hH
    refine ⟨m2, p, ?_, hact, hframe⟩
    have h123 : isspace (123 : Int) = false := by decide
    have h91 : isspace (91 : Int) = false := by decide
    have t91 : toChar (91 : Int) = 91 := rfl
    have t125 : toChar (125 : Int) = 125 := rfl
    unfold parseMorkTable
    simp only [tableBlockText, List.cons_append, morkgetc_cons, toChar_cast c hc.2.1, hid,
      List.nil_append, bufEnd_ok (c :: tok) (by simp; omega)]
    simp only [parseMorkTableLoop, Nat.cast_ofNat, h123, h91, t91, t125, hmeta, hrow,
      morkgetc_cons]
    simp

theorem isxdigit_idByte (c : Nat) (h : isxdigit c = true) : idByte c = true := by
  have := isxdigit_range c h
  simp only [idByte, decide_eq_true_eq]
  omega

theorem idByte_scoped (H S : List Nat) (hd : ∀ c ∈ H, isxdigit c = true)
    (hd2 : ∀ c ∈ S, isxdigit c = true) : ∀ x ∈ H ++ 58 :: 94 :: S, idByte x = true := by
  intro x hx
  simp only [List.mem_append, List.mem_cons] at hx
  rcases hx with h | h | h | h
  · exact isxdigit_idByte x (hd x h)
  · rw [h]; decide
  · rw [h]; decide
  · exact isxdigit_idByte x (hd2 x h)

theorem table_block_path (tTok metaText rTok : List Nat) (cells : List (List Nat))
    (rest : List Nat) (m : MorkDb) (fuel : Nat) (ht : tTok ≠ [])
    (htb : ∀ x ∈ tTok, idByte x = true) (htl : tTok.length < 512)
    (hm : ∀ x ∈ metaText, metaByte x = true) (hr : rTok ≠ [])
    (hrb : ∀ x ∈ rTok, idByte x = true) (hrl : rTok.length < 512)
    (hcells : ∀ b ∈ cells, (∀ x ∈ b, cellByte x = true) ∧ b.length < 512)
    (hfuel : tTok.length + metaText.length + rTok.length + (cellsText cells).length + 8 ≤ fuel)
    (hWF : IndexWF m) (hH : HeapWF m) :
    ∃ m2 p,
      parseMorkTable fuel
          { pending := tableBlockText tTok metaText rTok cells rest, eof := false } m =
        Except.ok (true, { pending := rest, eof := false }, m2) ∧
      m2.activeCells = some p ∧
      cellsAt m2 (effectiveScope m (parseScopeId tTok 0).2) (parseScopeId tTok 0).1
        (effectiveScope m (parseScopeId rTok 0).2) (parseScopeId rTok 0).1 = some p ∧
      (setCurrentRow m (parseScopeId tTok 0).2 (parseScopeId tTok 0).1 (parseScopeId rTok 0).2
        (parseScopeId rTok 0).1).activeCells = some p ∧
      ∀ q, q ≠ p → derefCells m2 q = derefCells m q := by
  obtain ⟨m2, p, hparse, hact, hframe⟩ := parseMorkTable_block tTok metaText rTok cells rest m
    fuel ht htb htl hm hr hrb hrl hcells hfuel hWF hH
  have hWF0 : IndexWF { m with nowParsing := NowParsingType.NPRows } :=
    IndexWF_congr m _ rfl rfl hWF
  obtain ⟨hk, he, ha, _, _, _, hd⟩ := hframe
  obtain ⟨_, hact0, _, hlook0⟩ := setCurrentRow_spec
    { m with nowParsing := NowParsingType.NPRows } (parseScopeId tTok 0).2
    (parseScopeId tTok 0).1 (parseScopeId rTok 0).2 (parseScopeId rTok 0).1 hWF0
  have hlook := hlook0
    (effectiveScope m (parseScopeId tTok 0).2) (parseScopeId tTok 0).1
    (effectiveScope m (parseScopeId rTok 0).2) (parseScopeId rTok 0).1
  have hes : ∀ x, effectiveScope { m with nowParsing := NowParsingType.NPRows } x =
      effectiveScope m x := fun _ => rfl
  rw [hes, hes] at hlook
  simp only [and_self, if_true] at hlook
  have hact1 := (setCurrentRow_spec m (parseScopeId tTok 0).2
    (parseScopeId tTok 0).1 (parseScopeId rTok 0).2 (parseScopeId rTok 0).1 hWF).2.1
  have hc0 : ∀ a b c d, cellsAt { m with nowParsing := NowParsingType.NPRows } a b c d =
      cellsAt m a b c d := fun a b c d => cellsAt_congr m _ rfl rfl a b c d
  rw [hes, hes, hc0] at hact0
  have hlen0 : ({ m with nowParsing := NowParsingType.NPRows } : MorkDb).cellsHeap.length =
      m.cellsHeap.length := rfl
  rw [hlen0] at hact0
  refine ⟨m2, p, hparse, ha.trans hact, ?_, ?_, ?_⟩
  · rw [cellsAt_congr _ m2 hk he]
    exact hlook.trans hact
  · rw [hact1, ← hact0]; exact hact
  · intro q hq
    rw [hd q hq, derefCells_setCurrentRow _ _ _ _ _ hWF0 q]
    rfl

theorem scopedIdText_facts (H : List Nat) (S : Option (List Nat)) (hne : H ≠ [])
    (hd : ∀ c ∈ H, isxdigit c = true) (hv : hexValue H < 2 ^ 31) (hS : ScopeOK S) :
    scopedIdText H S ≠ [] ∧ (∀ x ∈ scopedIdText H S, idByte x = true) ∧
    parseScopeId (scopedIdText H S) 0 = ((hexValue H : Int), scopeValue S) := by
  cases S with
  | none =>
    exact ⟨hne, fun x hx => isxdigit_idByte x (hd x hx), parseScopeId_hex H 0 hne hd hv⟩
  | some s =>
    obtain ⟨h1, h2, h3⟩ := hS s rfl
    refine ⟨by simp [scopedIdText], idByte_scoped H s hd h2, ?_⟩
    exact parseScopeId_hex_colon_caret H s 0 hne hd hv h1 h2 h3

/-! ## Running `parseMorkCell` on a cell with a column and a value -/

theorem parseMorkCellLoop_column (tail : List Nat) (C : List Nat) :
    ∀ (st : CellState) (f : Nat), (∀ c ∈ C, columnByte c = true) → st.bColumn = true →
      st.column.length + (columnToken C).length ≤ 512 →
      parseMorkCellLoop (C.length + f)
          (toChar (morkgetc { pending := C ++ tail, eof := false }).1)
          (morkgetc { pending := C ++ tail, eof := false }).2 st =
        parseMorkCellLoop f
          (toChar (morkgetc { pending := tail, eof := false }).1)
          (morkgetc { pending := tail, eof := false }).2
          { st with column := st.column ++ columnToken C } := by
  induction C with
  | nil =>
    intro st f _ _ _
    simp [columnToken]
  | cons x xs ih =>
    intro st f hC hb hlen
    have hx : 0 < x ∧ x < 256 ∧ x ≠ 41 ∧ x ≠ 92 ∧ x ≠ 36 ∧ x ≠ 94 ∧ x ≠ 61 := by
      simpa [columnByte] using hC x (List.mem_cons_self _ _)
    have hfuel : (x :: xs).length + f = (xs.length + f) + 1 := by
      simp only [List.length_cons]; omega
    have hcond : x ≠ 41 ∧ x ≠ 0 := by omega
    rw [hfuel]
    simp only [List.cons_append, morkgetc_cons, toChar_cast x hx.2.1, parseMorkCellLoop, feof,
      hcond, and_self, if_true, ne_eq, not_false_eq_true]
    by_cases hsp : isspace (x : Int) = false
    · have hct : columnToken (x :: xs) = x :: columnToken xs := by
        simp [columnToken, List.filter_cons, hsp]
      rw [hct] at hlen ⊢
      simp only [List.length_cons] at hlen
      simp only [parseMorkCellSwitch, hx.2.2.2.1, hx.2.2.2.2.1, hx.2.2.2.2.2.1,
        hx.2.2.2.2.2.2, if_false, hb, if_true, hsp, bufPut_ok _ _ (show st.column.length < 512 by omega)]
      have h := ih { st with bColumn := true, column := st.column ++ [x] } f
        (fun y hy => hC y (List.mem_cons_of_mem _ hy)) rfl
        (by simp only [List.length_append, List.length_cons, List.length_nil]; omega)
      simp only [List.append_assoc, List.singleton_append] at h
      exact h
    · have hct : columnToken (x :: xs) = columnToken xs := by
        simp [columnToken, List.filter_cons, hsp]
      rw [hct] at hlen ⊢
      simp only [parseMorkCellSwitch, hx.2.2.2.1, hx.2.2.2.2.1, hx.2.2.2.2.2.1,
        hx.2.2.2.2.2.2, if_false, hb, if_true, hsp]
      have h := ih st f (fun y hy => hC y (List.mem_cons_of_mem _ hy)) hb hlen
      simp only [hb] at h
      exact h

theorem toChar_strtol16_pair (h0 h1 : Nat) (hh0 : isxdigit h0 = true) (hh1 : isxdigit h1 = true) :
    toChar (strtol16 [h0, h1]) = hexValue [h0, h1] := by
  have hd : ∀ c ∈ [h0, h1], isxdigit c = true := by
    intro c hc
    simp only [List.mem_cons, List.mem_singleton, List.not_mem_nil, or_false] at hc
    rcases hc with rfl | rfl
    · exact hh0
    · exact hh1
  have r0 := isxdigit_range h0 hh0
  have r1 := isxdigit_range h1 hh1
  have hv : hexValue [h0, h1] < 256 := by
    simp only [hexValue, List.foldl_cons, List.foldl_nil, hexDigitValue]
    split_ifs <;> omega
  rw [strtol16_hex [h0, h1] (by simp) hd (by omega)]
  exact toChar_cast _ hv

theorem parseMorkCellSwitch_value (c : Nat) (ifp : MorkFile) (st : CellState)
    (hb : st.bColumn = false) (h92 : c ≠ 92) (h36 : c ≠ 36) (ht : st.text.length < 512) :
    parseMorkCellSwitch c ifp st = Except.ok (ifp, { st with text := st.text ++ [c] }) := by
  unfold parseMorkCellSwitch
  simp only [h92, h36, if_false, hb, bufPut_ok _ _ ht, Bool.false_eq_true]
  split_ifs <;> rfl

theorem parseMorkCellSwitch_hex (h0 h1 : Nat) (rest : List Nat) (e : Bool) (st : CellState)
    (hh0 : isxdigit h0 = true) (hh1 : isxdigit h1 = true) (ht : st.text.length < 512) :
    parseMorkCellSwitch 36 { pending := h0 :: h1 :: rest, eof := e } st =
      Except.ok ({ pending := rest, eof := e },
        { st with text := st.text ++ [hexValue [h0, h1]] }) := by
  have r0 := isxdigit_range h0 hh0
  have r1 := isxdigit_range h1 hh1
  unfold parseMorkCellSwitch
  rw [if_neg (by decide), if_neg (by decide), if_neg (by decide), if_pos rfl]
  simp only [morkgetc_cons, toChar_cast h0 (by omega), toChar_cast h1 (by omega),
    toChar_strtol16_pair h0 h1 hh0 hh1, bufPut_ok _ _ ht]

theorem parseMorkCellSwitch_escaped (c : Nat) (rest : List Nat) (e : Bool) (st : CellState)
    (hc : c < 256) (h13 : c ≠ 13) (h10 : c ≠ 10) (ht : st.text.length < 512) :
    parseMorkCellSwitch 92 { pending := c :: rest, eof := e } st =
      Except.ok ({ pending := rest, eof := e }, { st with text := st.text ++ [c] }) := by
  unfold parseMorkCellSwitch
  rw [if_neg (by decide), if_neg (by decide), if_pos rfl]
  simp only [morkgetc_cons, toChar_cast c hc, bufPut_ok _ _ ht]
  rw [if_pos ⟨fun e => h13 e.symm, fun e => h10 e.symm⟩]

theorem parseMorkCellSwitch_continuation (c : Nat) (rest : List Nat) (e : Bool)
    (st : CellState) (hc : c = 13 ∨ c = 10) :
    parseMorkCellSwitch 92 { pending := c :: rest, eof := e } st =
      Except.ok ({ pending := rest, eof := e }, st) := by
  unfold parseMorkCellSwitch
  rw [if_neg (by decide), if_neg (by decide), if_pos rfl]
  simp only [morkgetc_cons, toChar_cast c (by omega)]
  rw [if_neg (by intro hh; omega)]

theorem parseMorkCellLoop_value (tail : List Nat) (items : List ValueItem) :
    ∀ (st : CellState) (f : Nat), (∀ i ∈ items, i.OK = true) → st.bColumn = false →
      st.text.length + (decodeItems items).length ≤ 512 →
      parseMorkCellLoop (items.length + f)
          (toChar (morkgetc { pending := itemsText items ++ tail, eof := false }).1)
          (morkgetc { pending := itemsText items ++ tail, eof := false }).2 st =
        parseMorkCellLoop f
          (toChar (morkgetc { pending := tail, eof := false }).1)
          (morkgetc { pending := tail, eof := false }).2
          { st with text := st.text ++ decodeItems items } := by
  induction items with
  | nil =>
    intro st f _ _ _
    simp [itemsText, decodeItems]
  | cons i is ih =>
    intro st f hI hb hlen
    have hfuel : (i :: is).length + f = (is.length + f) + 1 := by
      simp only [List.length_cons]; omega
    have hI2 : ∀ j ∈ is, j.OK = true := fun j hj => hI j (List.mem_cons_of_mem _ hj)
    have hi := hI i (List.mem_cons_self _ _)
    have h36 : toChar (36 : Int) = 36 := rfl
    have h92 : toChar (92 : Int) = 92 := rfl
    rw [hfuel]
    cases i with
    | plain c =>
      have hx : 0 < c ∧ c < 256 ∧ c ≠ 41 ∧ c ≠ 92 ∧ c ≠ 36 := by
        simpa [ValueItem.OK, cellByte] using hi
      have hcond : c ≠ 41 ∧ c ≠ 0 := by omega
      simp only [decodeItems, ValueItem.decoded, List.length_append, List.length_cons,
        List.length_nil] at hlen
      have h := ih { st with text := st.text ++ [c] } f hI2 hb
        (by simp only [List.length_append, List.length_cons, List.length_nil]; omega)
      simp only [List.append_assoc, List.singleton_append] at h
      simp only [itemsText, ValueItem.text, decodeItems, ValueItem.decoded, List.cons_append,
        List.nil_append, morkgetc_cons, toChar_cast c hx.2.1, parseMorkCellLoop, feof,
        hcond, and_self, if_true, ne_eq, not_false_eq_true, List.singleton_append]
      rw [parseMorkCellSwitch_value c _ st hb hx.2.2.2.1 hx.2.2.2.2 (by omega)]
      exact h
    | hex h0 h1 =>
      have hx : isxdigit h0 = true ∧ isxdigit h1 = true := by
        simpa [ValueItem.OK] using hi
      have r0 := isxdigit_range h0 hx.1
      have r1 := isxdigit_range h1 hx.2
      simp only [decodeItems, ValueItem.decoded, List.length_append, List.length_cons,
        List.length_nil] at hlen
      have h := ih { st with text := st.text ++ [hexValue [h0, h1]] } f hI2 hb
        (by simp only [List.length_append, List.length_cons, List.length_nil]; omega)
      simp only [List.append_assoc, List.singleton_append] at h
      simp only [itemsText, ValueItem.text, decodeItems, ValueItem.decoded, List.cons_append,
        List.nil_append, morkgetc_cons, Nat.cast_ofNat, h36, parseMorkCellLoop, feof,
        and_self, if_true, ne_eq, not_false_eq_true, List.singleton_append]
      rw [if_pos (by decide), parseMorkCellSwitch_hex h0 h1 _ _ st hx.1 hx.2 (by omega)]
      exact h
    | escaped c =>
      have hx : c < 256 ∧ c ≠ 13 ∧ c ≠ 10 := by
        simpa [ValueItem.OK] using hi
      simp only [decodeItems, ValueItem.decoded, List.length_append, List.length_cons,
        List.length_nil] at hlen
      have h := ih { st with text := st.text ++ [c] } f hI2 hb
        (by simp only [List.length_append, List.length_cons, List.length_nil]; omega)
      simp only [List.append_assoc, List.singleton_append] at h
      simp only [itemsText, ValueItem.text, decodeItems, ValueItem.decoded, List.cons_append,
        List.nil_append, morkgetc_cons, Nat.cast_ofNat, h92, parseMorkCellLoop, feof,
        and_self, if_true, ne_eq, not_false_eq_true, List.singleton_append]
      rw [if_pos (by decide), parseMorkCellSwitch_escaped c _ _ st hx.1 hx.2.1 hx.2.2 (by omega)]
      exact h
    | continuation c =>
      have hx : c = 13 ∨ c = 10 := by
        simpa [ValueItem.OK] using hi
      simp only [decodeItems, ValueItem.decoded, List.nil_append] at hlen
      have h := ih st f hI2 hb hlen
      simp only [itemsText, ValueItem.text, decodeItems, ValueItem.decoded, List.cons_append,
        List.nil_append, morkgetc_cons, Nat.cast_ofNat, h92, parseMorkCellLoop, feof,
        and_self, if_true, ne_eq, not_false_eq_true, List.singleton_append]
      rw [if_pos (by decide), parseMorkCellSwitch_continuation c _ _ st hx]
      exact h

theorem parseMorkCellLoop_step (x : Nat) (tail : List Nat) (st st2 : CellState) (f : Nat)
    (hx : x < 256) (h41 : x ≠ 41) (h0 : x ≠ 0)
    (hs : parseMorkCellSwitch x { pending := tail, eof := false } st =
      Except.ok ({ pending := tail, eof := false }, st2)) :
    parseMorkCellLoop (f + 1)
        (toChar (morkgetc { pending := x :: tail, eof := false }).1)
        (morkgetc { pending := x :: tail, eof := false }).2 st =
      parseMorkCellLoop f
        (toChar (morkgetc { pending := tail, eof := false }).1)
        (morkgetc { pending := tail, eof := false }).2 st2 := by
  simp only [morkgetc_cons, toChar_cast x hx, parseMorkCellLoop, feof, h41, h0, and_self,
    if_true, ne_eq, not_false_eq_true, hs]

theorem parseMorkCellLoop_close (rest : List Nat) (st : CellState) (f : Nat) :
    parseMorkCellLoop (f + 1)
        (toChar (morkgetc { pending := 41 :: rest, eof := false }).1)
        (morkgetc { pending := 41 :: rest, eof := false }).2 st =
      Except.ok ({ pending := rest, eof := false }, st) := by
  have h41 : toChar (41 : Int) = 41 := rfl
  simp [parseMorkCellLoop, morkgetc_cons, h41]

theorem parseMorkCellLoop_form (form : CellForm) (C : List Nat) (items : List ValueItem)
    (rest : List Nat) (fuel : Nat)
    (hC : ∀ c ∈ C, columnByte c = true) (hI : ∀ i ∈ items, i.OK = true)
    (hcl : (columnToken C).length < 512) (htl : (decodeItems items).length < 512)
    (hfuel : C.length + items.length + 3 ≤ fuel) :
    ∃ st, parseMorkCellLoop fuel
        (toChar (morkgetc
          { pending := cellText form C (itemsText items) ++ 41 :: rest, eof := false }).1)
        (morkgetc
          { pending := cellText form C (itemsText items) ++ 41 :: rest, eof := false }).2
        { columnIsObjectId := false, valueIsObjectId := false, bColumn := true, corners := 0,
          column := [], text := [] } =
      Except.ok ({ pending := rest, eof := false }, st) ∧
      st.valueIsObjectId = decide (form = CellForm.oidOid) ∧
      st.column = columnToken C ∧ st.text = decodeItems items := by
  cases form with
  | literal =>
    obtain ⟨f, rfl⟩ : ∃ f, fuel = C.length + ((items.length + (f + 1)) + 1) :=
      ⟨fuel - (C.length + items.length + 2), by omega⟩
    refine ⟨{ columnIsObjectId := false, valueIsObjectId := false, bColumn := false,
                corners := 0, column := [] ++ columnToken C,
                text := [] ++ decodeItems items }, ?_, ?_, ?_, ?_⟩
    · simp only [cellText, List.append_assoc, List.cons_append]
      rw [parseMorkCellLoop_column _ C _ _ hC rfl (by simpa using hcl.le),
        parseMorkCellLoop_step 61 _ _
          { columnIsObjectId := false, valueIsObjectId := false, bColumn := false,
            corners := 0, column := [] ++ columnToken C, text := [] } _
          (by decide) (by decide) (by decide) (by simp [parseMorkCellSwitch]),
        parseMorkCellLoop_value _ items _ _ hI rfl (by simpa using htl.le),
        parseMorkCellLoop_close]
    · rfl
    · simp
    · simp
  | oidLiteral =>
    obtain ⟨f, rfl⟩ : ∃ f, fuel = (C.length + ((items.length + (f + 1)) + 1)) + 1 :=
      ⟨fuel - (C.length + items.length + 3), by omega⟩
    refine ⟨{ columnIsObjectId := true, valueIsObjectId := false, bColumn := false,
                corners := 1, column := [] ++ columnToken C,
                text := [] ++ decodeItems items }, ?_, ?_, ?_, ?_⟩
    · simp only [cellText, List.append_assoc, List.cons_append]
      rw [parseMorkCellLoop_step 94 _ _
          { columnIsObjectId := true, valueIsObjectId := false, bColumn := true,
            corners := 1, column := [], text := [] } _
          (by decide) (by decide) (by decide) (by simp [parseMorkCellSwitch]),
        parseMorkCellLoop_column _ C _ _ hC rfl (by simpa using hcl.le),
        parseMorkCellLoop_step 61 _ _
          { columnIsObjectId := true, valueIsObjectId := false, bColumn := false,
            corners := 1, column := [] ++ columnToken C, text := [] } _
          (by decide) (by decide) (by decide) (by simp [parseMorkCellSwitch]),
        parseMorkCellLoop_value _ items _ _ hI rfl (by simpa using htl.le),
        parseMorkCellLoop_close]
    · rfl
    · simp
    · simp
  | oidOid =>
    obtain ⟨f, rfl⟩ : ∃ f, fuel = (C.length + ((items.length + (f + 1)) + 1)) + 1 :=
      ⟨fuel - (C.length + items.length + 3), by omega⟩
    refine ⟨{ columnIsObjectId := true, valueIsObjectId := true, bColumn := false,
                corners := 2, column := [] ++ columnToken C,
                text := [] ++ decodeItems items }, ?_, ?_, ?_, ?_⟩
    · simp only [cellText, List.append_assoc, List.cons_append]
      rw [parseMorkCellLoop_step 94 _ _
          { columnIsObjectId := true, valueIsObjectId := false, bColumn := true,
            corners := 1, column := [], text := [] } _
          (by decide) (by decide) (by decide) (by simp [parseMorkCellSwitch]),
        parseMorkCellLoop_column _ C _ _ hC rfl (by simpa using hcl.le),
        parseMorkCellLoop_step 94 _ _
          { columnIsObjectId := true, valueIsObjectId := true, bColumn := false,
            corners := 2, column := [] ++ columnToken C, text := [] } _
          (by decide) (by decide) (by decide) (by simp [parseMorkCellSwitch]),
        parseMorkCellLoop_value _ items _ _ hI rfl (by simpa using htl.le),
        parseMorkCellLoop_close]
    · rfl
    · simp
    · simp

theorem parseMorkCell_form (form : CellForm) (C : List Nat) (items : List ValueItem)
    (rest : List Nat) (m : MorkDb) (fuel : Nat)
    (hC : ∀ c ∈ C, columnByte c = true) (hI : ∀ i ∈ items, i.OK = true)
    (hcl : (columnToken C).length < 512) (htl : (decodeItems items).length < 512)
    (hfuel : C.length + items.length + 3 ≤ fuel) :
    parseMorkCell fuel
        { pending := cellText form C (itemsText items) ++ 41 :: rest, eof := false } m =
      match parseMorkCellApply m (decide (form = CellForm.oidOid)) (columnToken C)
          (decodeItems items) with
      | Except.error e => Except.error e
      | Except.ok m2 => Except.ok (true, { pending := rest, eof := false }, m2) := by
  obtain ⟨st, hs, hv, hc, ht⟩ := parseMorkCellLoop_form form C items rest fuel hC hI hcl htl hfuel
  unfold parseMorkCell
  rw [hs]
  simp only [hc, ht, hv, bufEnd_ok _ hcl, bufEnd_ok _ htl]


theorem itemsText_plain (T : List Nat) : itemsText (T.map ValueItem.plain) = T := by
  induction T with
  | nil => rfl
  | cons x xs ih => simp [itemsText, ValueItem.text, ih]

theorem decodeItems_plain (T : List Nat) : decodeItems (T.map ValueItem.plain) = T := by
  induction T with
  | nil => rfl
  | cons x xs ih => simp [decodeItems, ValueItem.decoded, ih]

theorem plain_OK (T : List Nat) (h : ∀ c ∈ T, cellByte c = true) :
    ∀ i ∈ T.map ValueItem.plain, i.OK = true := by
  intro i hi
  obtain ⟨c, hc, rfl⟩ := List.mem_map.1 hi
  exact h c hc

theorem isxdigit_cellByte (c : Nat) (h : isxdigit c = true) : cellByte c = true := by
  have := isxdigit_range c h
  simp only [cellByte, decide_eq_true_eq]
  omega

theorem isxdigit_columnByte (c : Nat) (h : isxdigit c = true) : columnByte c = true := by
  have := isxdigit_range c h
  simp only [columnByte, decide_eq_true_eq]
  omega

theorem columnToken_hex (C : List Nat) (h : ∀ c ∈ C, isxdigit c = true) : columnToken C = C := by
  unfold columnToken
  rw [List.filter_eq_self]
  intro c hc
  have := isxdigit_range c (h c hc)
  simp only [decide_eq_true_eq]
  exact isspace_false_of_ne c (by omega) (by omega)

theorem columnId_hex (C : List Nat) (hne : C ≠ []) (hd : ∀ c ∈ C, isxdigit c = true)
    (hv : hexValue C < 2 ^ 31) : toInt32 (strtol16 C) = (hexValue C : Int) := by
  rw [strtol16_hex C hne hd (by omega)]
  exact toInt32_of_lt _ (Int.ofNat_nonneg _) (by exact_mod_cast hv)

theorem cString_textOf (T : List Nat) (h : ∀ c ∈ T, c ≠ 0) : cString T = textOf T := by
  unfold cString textOf
  rw [takeWhile_all _ _ (fun c hc => by simpa using h c hc)]

theorem cellValueId_upsertBy (k v : Int) (l : List MorkCellEntry) :
    cellValueId k (upsertBy (fun e => e.key) k (makeMorkCellEntry k v) l) = some v := by
  induction l with
  | nil => simp [upsertBy, cellValueId, makeMorkCellEntry]
  | cons y ys ih =>
    simp only [upsertBy]
    split
    · split <;> simp [cellValueId, makeMorkCellEntry]
    · rename_i hnle
      have hne : ¬ y.key = k := by omega
      simp [cellValueId, hne, ih]

theorem cellValueId_storeInMorkCell (cells : MorkCells) (k v : Int) :
    cellValueId k (storeInMorkCell cells k v).entries = some v := by
  rw [storeInMorkCell_entries]
  exact cellValueId_upsertBy k v cells.entries

theorem getValue_storeInMorkDict (d : MorkDict) (k : Int) (v : String) :
    getMorkDictValue (storeInMorkDict d k v) k = v := by
  unfold getMorkDictValue
  rw [storeInMorkDict_entries]
  exact getMorkDictValueLoop_upsertBy_same k v d.entries

/-- C11: in the value token of a cell, `$hh` with two hex digits stands for the
byte 0xhh, a backslash followed by a character other than CR and LF stands for
that character (a closing parenthesis included, which then does not end the
cell), and a backslash followed by CR or LF stands for nothing.  A cell written
`C=V`, `^C=V` or `^C^V` whose value `V` is any sequence of such items and
ordinary characters is read up to its first unescaped closing parenthesis, and
what `parseMorkCell` applies to the database is the column token with the
decoded bytes as text. -/
theorem C11_value_token_decoding (form : CellForm) (C : List Nat) (items : List ValueItem)
    (rest : List Nat) (m : MorkDb) (fuel : Nat)
    (hC : ∀ c ∈ C, columnByte c = true) (hI : ∀ i ∈ items, i.OK = true)
    (hcl : (columnToken C).length < 512) (htl : (decodeItems items).length < 512)
    (hfuel : C.length + items.length + 3 ≤ fuel) :
    parseMorkCell fuel
        { pending := cellText form C (itemsText items) ++ 41 :: rest, eof := false } m =
      match parseMorkCellApply m (decide (form = CellForm.oidOid)) (columnToken C)
          (decodeItems items) with
      | Except.error e => Except.error e
      | Except.ok m2 => Except.ok (true, { pending := rest, eof := false }, m2) :=
  parseMorkCell_form form C items rest m fuel hC hI hcl htl hfuel

/-- C11 on the dictionary cell `(1=$41\;\)\<LF>z)`: the value stored under key
1 is `A;)z`, and the cell ends at the last parenthesis. -/
theorem C11_value_token_decoding_witness :
    cellText CellForm.literal (bytes "1")
        (itemsText [ValueItem.hex 52 49, ValueItem.escaped 59, ValueItem.escaped 41,
          ValueItem.continuation 10, ValueItem.plain 122]) ++ 41 :: bytes "(2=b)" =
      bytes "1=$41\\;\\)\\\nz)(2=b)" ∧
    parseMorkCell 20
        { pending := cellText CellForm.literal (bytes "1")
            (itemsText [ValueItem.hex 52 49, ValueItem.escaped 59, ValueItem.escaped 41,
              ValueItem.continuation 10, ValueItem.plain 122]) ++ 41 :: bytes "(2=b)",
          eof := false }
        initializeTableScopeMap =
      Except.ok (true, { pending := bytes "(2=b)", eof := false },
        { initializeTableScopeMap with
          values := { entries := [makeMorkDictEntry 1 "A;)z"] } }) :=
  ⟨by decide,
   (C11_value_token_decoding CellForm.literal (bytes "1")
      [ValueItem.hex 52 49, ValueItem.escaped 59, ValueItem.escaped 41,
        ValueItem.continuation 10, ValueItem.plain 122] (bytes "(2=b)")
      initializeTableScopeMap 20 (by decide) (by decide) (by decide) (by decide)
      (by decide)).trans (by rfl)⟩


theorem parseMorkCell_hex_value (form : CellForm) (C T rest : List Nat) (m : MorkDb)
    (fuel : Nat) (hCd : ∀ c ∈ C, isxdigit c = true) (hCl : C.length < 512)
    (hTb : ∀ c ∈ T, cellByte c = true) (hTl : T.length < 512)
    (hfuel : C.length + T.length + 3 ≤ fuel) :
    parseMorkCell fuel { pending := cellText form C T ++ 41 :: rest, eof := false } m =
      match parseMorkCellApply m (decide (form = CellForm.oidOid)) C T with
      | Except.error e => Except.error e
      | Except.ok m2 => Except.ok (true, { pending := rest, eof := false }, m2) := by
  have h := parseMorkCell_form form C (T.map ValueItem.plain) rest m fuel
    (fun c hc => isxdigit_columnByte c (hCd c hc)) (plain_OK T hTb)
    (by rw [columnToken_hex C hCd]; exact hCl) (by rw [decodeItems_plain]; exact hTl)
    (by rw [List.length_map]; exact hfuel)
  rw [itemsText_plain, decodeItems_plain, columnToken_hex C hCd] at h
  exact h

theorem head_ok_of_cellByte (T : List Nat) (hne : T ≠ []) (hTb : ∀ c ∈ T, cellByte c = true) :
    T.head? ≠ none ∧ T.head? ≠ some 0 := by
  cases T with
  | nil => exact absurd rfl hne
  | cons x xs =>
    have hx : 0 < x ∧ x < 256 ∧ x ≠ 41 ∧ x ≠ 92 ∧ x ≠ 36 := by
      simpa [cellByte] using hTb x (List.mem_cons_self _ _)
    simp only [List.head?_cons, ne_eq, Option.some.injEq, not_false_eq_true, true_and,
      reduceCtorEq]
    omega

/-- C12: a row cell `(^C^V)` with hex `C` and `V`, parsed while the target is
Rows, stores the value id hex(V) under the column id hex(C) in the active Cell
Set and changes nothing else: the values dictionary, the columns dictionary and
`nextAddValueId` are as before. -/
theorem C12_oid_cell_stores_value_id (C V rest : List Nat) (m : MorkDb) (p fuel : Nat)
    (hC : C ≠ []) (hCd : ∀ c ∈ C, isxdigit c = true) (hCv : hexValue C < 2 ^ 31)
    (hCl : C.length < 512)
    (hV : V ≠ []) (hVd : ∀ c ∈ V, isxdigit c = true) (hVv : hexValue V < 2 ^ 31)
    (hVl : V.length < 512)
    (hrows : m.nowParsing = NowParsingType.NPRows) (hp : m.activeCells = some p)
    (hlt : p < m.cellsHeap.length) (hfuel : C.length + V.length + 3 ≤ fuel) :
    ∃ m2,
      parseMorkCell fuel
          { pending := cellText CellForm.oidOid C V ++ 41 :: rest, eof := false } m =
        Except.ok (true, { pending := rest, eof := false }, m2) ∧
      m2 = { m with
              cellsHeap := m.cellsHeap.set p
                (storeInMorkCell (derefCells m p) (hexValue C) (hexValue V)) } ∧
      m2.activeCells = some p ∧
      derefCells m2 p = storeInMorkCell (derefCells m p) (hexValue C) (hexValue V) ∧
      cellValueId (hexValue C) (derefCells m2 p).entries = some (hexValue V : Int) ∧
      m2.values = m.values ∧ m2.columns = m.columns ∧
      m2.nextAddValueId = m.nextAddValueId := by
  have hcell := parseMorkCell_hex_value CellForm.oidOid C V rest m fuel hCd hCl
    (fun c hc => isxdigit_cellByte c (hVd c hc)) hVl hfuel
  have happly : parseMorkCellApply m (decide (CellForm.oidOid = CellForm.oidOid)) C V =
      Except.ok { m with
        cellsHeap := m.cellsHeap.set p
          (storeInMorkCell (derefCells m p) (hexValue C) (hexValue V)) } := by
    unfold parseMorkCellApply
    simp only [columnId_hex C hC hCd hCv, columnId_hex V hV hVd hVv, if_true, decide_True]
    rw [if_pos (head_ok_of_cellByte V hV (fun c hc => isxdigit_cellByte c (hVd c hc))),
      if_pos hrows]
    exact storeInActiveCellsOrFault_ok m _ _ p hp hlt
  rw [happly] at hcell
  refine ⟨_, hcell, rfl, hp, ?_, ?_, rfl, rfl, rfl⟩
  · simp only [derefCells]
    exact getD_set_self _ _ _ _ hlt
  · simp only [derefCells]
    rw [getD_set_self _ _ _ _ hlt]
    exact cellValueId_storeInMorkCell _ _ _

/-- C12 on the cell `(^8E^1F)` of the row that `setCurrentRow` has just made
current: the Cell Set holds 0x8E → 0x1F. -/
theorem C12_oid_cell_stores_value_id_witness :
    cellText CellForm.oidOid (bytes "8E") (bytes "1F") ++ 41 :: [] = bytes "^8E^1F)" ∧
    hexValue (bytes "8E") = 0x8E ∧ hexValue (bytes "1F") = 0x1F ∧
    ∃ m2,
      parseMorkCell 20
          { pending := cellText CellForm.oidOid (bytes "8E") (bytes "1F") ++ 41 :: [],
            eof := false }
          (setCurrentRow { initializeTableScopeMap with nowParsing := NowParsingType.NPRows }
            0 0 0 1) =
        Except.ok (true, { pending := [], eof := false }, m2) ∧
      m2 = { (setCurrentRow { initializeTableScopeMap with nowParsing := NowParsingType.NPRows }
            0 0 0 1) with
              cellsHeap :=
                (setCurrentRow
                  { initializeTableScopeMap with nowParsing := NowParsingType.NPRows }
                  0 0 0 1).cellsHeap.set 0
                    (storeInMorkCell (derefCells (setCurrentRow
                      { initializeTableScopeMap with nowParsing := NowParsingType.NPRows }
                        0 0 0 1) 0) (hexValue (bytes "8E")) (hexValue (bytes "1F"))) } ∧
      m2.activeCells = some 0 ∧
      derefCells m2 0 = storeInMorkCell (derefCells (setCurrentRow
        { initializeTableScopeMap with nowParsing := NowParsingType.NPRows } 0 0 0 1) 0)
          (hexValue (bytes "8E")) (hexValue (bytes "1F")) ∧
      cellValueId (hexValue (bytes "8E")) (derefCells m2 0).entries =
        some (hexValue (bytes "1F") : Int) ∧
      m2.values = (setCurrentRow
        { initializeTableScopeMap with nowParsing := NowParsingType.NPRows } 0 0 0 1).values ∧
      m2.columns = (setCurrentRow
        { initializeTableScopeMap with nowParsing := NowParsingType.NPRows } 0 0 0 1).columns ∧
      m2.nextAddValueId = (setCurrentRow
        { initializeTableScopeMap with nowParsing := NowParsingType.NPRows }
          0 0 0 1).nextAddValueId :=
  ⟨by decide, by decide, by decide,
   C12_oid_cell_stores_value_id (bytes "8E") (bytes "1F") []
     (setCurrentRow { initializeTableScopeMap with nowParsing := NowParsingType.NPRows } 0 0 0 1)
     0 20 (by decide) (by decide) (by decide) (by decide) (by decide) (by decide) (by decide)
     (by decide) (by decide) (by decide) (by decide) (by decide)⟩


/-- C13: a row cell `(C=T)` or `(^C=T)` with hex `C` and a non-empty literal
text `T`, parsed while the target is Rows, decrements `nextAddValueId` by one
to a new id `n`, stores `T` in the values dictionary under `n`, and stores `n`
under hex(C) in the active Cell Set, so that `valueForColumnId` on hex(C) and
the active Cell Set returns `T`. -/
theorem C13_literal_cell_mints_value_id (form : CellForm) (C T rest : List Nat) (m : MorkDb)
    (p fuel : Nat) (hform : form = CellForm.literal ∨ form = CellForm.oidLiteral)
    (hC : C ≠ []) (hCd : ∀ c ∈ C, isxdigit c = true) (hCv : hexValue C < 2 ^ 31)
    (hCl : C.length < 512)
    (hT : T ≠ []) (hTb : ∀ c ∈ T, cellByte c = true) (hTl : T.length < 512)
    (hrows : m.nowParsing = NowParsingType.NPRows) (hp : m.activeCells = some p)
    (hlt : p < m.cellsHeap.length) (hfuel : C.length + T.length + 3 ≤ fuel) :
    ∃ m2,
      parseMorkCell fuel { pending := cellText form C T ++ 41 :: rest, eof := false } m =
        Except.ok (true, { pending := rest, eof := false }, m2) ∧
      m2.nextAddValueId = m.nextAddValueId - 1 ∧
      m2.values = storeInMorkDict m.values (m.nextAddValueId - 1) (textOf T) ∧
      getValue m2 m2.nextAddValueId = textOf T ∧
      m2.activeCells = some p ∧
      derefCells m2 p =
        storeInMorkCell (derefCells m p) (hexValue C) (m.nextAddValueId - 1) ∧
      cellValueId (hexValue C) (derefCells m2 p).entries = some m2.nextAddValueId ∧
      valueForColumnId (hexValue C) (derefCells m2 p) m2 = some (textOf T) ∧
      m2.columns = m.columns := by
  have hcell := parseMorkCell_hex_value form C T rest m fuel hCd hCl hTb hTl hfuel
  have hf : decide (form = CellForm.oidOid) = false := by
    rcases hform with h | h <;> rw [h] <;> rfl
  have hz : ∀ c ∈ T, c ≠ 0 := by
    intro c hc
    have hx : 0 < c ∧ c < 256 ∧ c ≠ 41 ∧ c ≠ 92 ∧ c ≠ 36 := by
      simpa [cellByte] using hTb c hc
    omega
  have happly : parseMorkCellApply m (decide (form = CellForm.oidOid)) C T =
      Except.ok { m with
        nextAddValueId := m.nextAddValueId - 1
        values := storeInMorkDict m.values (m.nextAddValueId - 1) (textOf T)
        cellsHeap := m.cellsHeap.set p
          (storeInMorkCell (derefCells m p) (hexValue C) (m.nextAddValueId - 1)) } := by
    unfold parseMorkCellApply
    simp only [columnId_hex C hC hCd hCv, hf, cString_textOf T hz]
    rw [if_pos (head_ok_of_cellByte T hT hTb), if_pos hrows, if_neg (by simp)]
    exact storeInActiveCellsOrFault_ok
      { m with
        nextAddValueId := m.nextAddValueId - 1
        values := storeInMorkDict m.values (m.nextAddValueId - 1) (textOf T) }
      _ _ p hp hlt
  rw [happly] at hcell
  have hd : derefCells
      { m with
        nextAddValueId := m.nextAddValueId - 1
        values := storeInMorkDict m.values (m.nextAddValueId - 1) (textOf T)
        cellsHeap := m.cellsHeap.set p
          (storeInMorkCell (derefCells m p) (hexValue C) (m.nextAddValueId - 1)) } p =
      storeInMorkCell (derefCells m p) (hexValue C) (m.nextAddValueId - 1) := by
    simp only [derefCells]
    exact getD_set_self _ _ _ _ hlt
  refine ⟨_, hcell, rfl, rfl, ?_, hp, hd, ?_, ?_, rfl⟩
  · exact getValue_storeInMorkDict _ _ _
  · rw [hd]
    exact cellValueId_storeInMorkCell _ _ _
  · unfold valueForColumnId
    rw [hd, cellValueId_storeInMorkCell]
    simp only [Option.map_some', Option.some.injEq]
    exact getValue_storeInMorkDict _ _ _

/-- C13 on the cells `(8E=Ann)` and `(^8E=Ann)` of the row that
`setCurrentRow` has just made current, in a new database: the new id is
0x7ffffffe. -/
theorem C13_literal_cell_mints_value_id_witness :
    cellText CellForm.oidLiteral (bytes "8E") (bytes "Ann") ++ 41 :: [] = bytes "^8E=Ann)" ∧
    hexValue (bytes "8E") = 0x8E ∧ textOf (bytes "Ann") = "Ann" ∧
    (setCurrentRow { initializeTableScopeMap with nowParsing := NowParsingType.NPRows }
      0 0 0 1).nextAddValueId - 1 = 0x7ffffffe ∧
    ∃ m2,
      parseMorkCell 20
          { pending := cellText CellForm.oidLiteral (bytes "8E") (bytes "Ann") ++ 41 :: [],
            eof := false }
          (setCurrentRow { initializeTableScopeMap with nowParsing := NowParsingType.NPRows }
            0 0 0 1) =
        Except.ok (true, { pending := [], eof := false }, m2) ∧
      m2.nextAddValueId = (setCurrentRow
        { initializeTableScopeMap with nowParsing := NowParsingType.NPRows }
          0 0 0 1).nextAddValueId - 1 ∧
      m2.values = storeInMorkDict (setCurrentRow
        { initializeTableScopeMap with nowParsing := NowParsingType.NPRows } 0 0 0 1).values
          ((setCurrentRow { initializeTableScopeMap with nowParsing := NowParsingType.NPRows }
            0 0 0 1).nextAddValueId - 1) (textOf (bytes "Ann")) ∧
      getValue m2 m2.nextAddValueId = textOf (bytes "Ann") ∧
      m2.activeCells = some 0 ∧
      derefCells m2 0 =
        storeInMorkCell (derefCells (setCurrentRow
          { initializeTableScopeMap with nowParsing := NowParsingType.NPRows } 0 0 0 1) 0)
            (hexValue (bytes "8E"))
            ((setCurrentRow { initializeTableScopeMap with nowParsing := NowParsingType.NPRows }
              0 0 0 1).nextAddValueId - 1) ∧
      cellValueId (hexValue (bytes "8E")) (derefCells m2 0).entries = some m2.nextAddValueId ∧
      valueForColumnId (hexValue (bytes "8E")) (derefCells m2 0) m2 =
        some (textOf (bytes "Ann")) ∧
      m2.columns = (setCurrentRow
        { initializeTableScopeMap with nowParsing := NowParsingType.NPRows } 0 0 0 1).columns :=
  ⟨by decide, by decide, by decide, by decide,
   C13_literal_cell_mints_value_id CellForm.oidLiteral (bytes "8E") (bytes "Ann") []
     (setCurrentRow { initializeTableScopeMap with nowParsing := NowParsingType.NPRows } 0 0 0 1)
     0 20 (Or.inr rfl) (by decide) (by decide) (by decide) (by decide) (by decide) (by decide)
     (by decide) (by decide) (by decide) (by decide) (by decide)⟩

theorem morkgetcN_marker (rest : List Nat) :
    morkgetcN (MorkDictColumnMeta.length - 1)
        { pending := 40 :: 97 :: 61 :: 99 :: 41 :: 62 :: rest, eof := false } =
      ([40, 97, 61, 99, 41, 62], { pending := rest, eof := false }) := rfl

theorem MorkDictColumnMeta_eq : MorkDictColumnMeta = [60, 40, 97, 61, 99, 41, 62] := by decide

theorem readMagicHeader_exact (H rest : List Nat) (hH : ∀ c ∈ H, c < 256) :
    readMagicHeader H.length { pending := H ++ rest, eof := false } =
      (H, { pending := rest, eof := false }) := by
  induction H with
  | nil => rfl
  | cons x xs ih =>
    have hx := hH x (List.mem_cons_self _ _)
    have ih2 := ih (fun c hc => hH c (List.mem_cons_of_mem _ hc))
    simp only [List.length_cons, readMagicHeader, List.cons_append, morkgetc_cons,
      toChar_cast x hx, feof, and_true]
    cases xs with
    | nil => simp
    | cons y ys =>
      rw [if_pos (by simp)]
      rw [ih2]

theorem MorkMagicHeader_bytes : ∀ c ∈ MorkMagicHeader, c < 256 ∧ c ≠ 0 := by decide

theorem parseMorkStream_header (rest : List Nat) (fuel : Nat) :
    parseMorkStream fuel { pending := MorkMagicHeader ++ rest, eof := false } =
      match parseMorkStreamLoop fuel true (morkgetc { pending := rest, eof := false }).1
          (morkgetc { pending := rest, eof := false }).2 initializeTableScopeMap with
      | Except.error e => Except.error e
      | Except.ok r => Except.ok (some r.2.2) := by
  unfold parseMorkStream
  rw [readMagicHeader_exact MorkMagicHeader rest (fun c hc => (MorkMagicHeader_bytes c hc).1)]
  simp only []
  rw [takeWhile_all _ _ (fun c hc => by simpa using (MorkMagicHeader_bytes c hc).2)]
  simp

theorem parseMorkStreamLoop_end (fuel : Nat) (result : Bool) (m : MorkDb) :
    parseMorkStreamLoop (fuel + 1) result (morkgetc { pending := [], eof := false }).1
        (morkgetc { pending := [], eof := false }).2 m =
      Except.ok (result, { pending := [], eof := true }, m) := by
  simp [parseMorkStreamLoop, morkgetc, feof]

theorem parseMorkDict_marker_cell (C T rest : List Nat) (m : MorkDb) (fuel : Nat)
    (hC : C ≠ []) (hCd : ∀ c ∈ C, isxdigit c = true) (hCv : hexValue C < 2 ^ 31)
    (hCl : C.length < 512)
    (hT : T ≠ []) (hTb : ∀ c ∈ T, cellByte c = true) (hTl : T.length < 512)
    (hfuel : C.length + T.length + 5 ≤ fuel) :
    parseMorkDict fuel
        { pending := MorkDictColumnMeta ++
            40 :: (cellText CellForm.literal C T ++ 41 :: 62 :: rest), eof := false } m =
      Except.ok (true, { pending := rest, eof := false },
        { m with
          nowParsing := NowParsingType.NPColumns
          columns := storeInMorkDict m.columns (hexValue C) (textOf T) }) := by
  obtain ⟨f, rfl⟩ : ∃ f, fuel = f + 1 + 1 + 1 := ⟨fuel - 3, by omega⟩
  have hz : ∀ c ∈ T, c ≠ 0 := by
    intro c hc
    have hx : 0 < c ∧ c < 256 ∧ c ≠ 41 ∧ c ≠ 92 ∧ c ≠ 36 := by
      simpa [cellByte] using hTb c hc
    omega
  have hcell := parseMorkCell_hex_value CellForm.literal C T (62 :: rest)
    { m with nowParsing := NowParsingType.NPColumns } (f + 1) hCd hCl hTb hTl (by omega)
  have happly : parseMorkCellApply { m with nowParsing := NowParsingType.NPColumns }
      (decide (CellForm.literal = CellForm.oidOid)) C T =
      Except.ok { m with
        nowParsing := NowParsingType.NPColumns
        columns := storeInMorkDict m.columns (hexValue C) (textOf T) } := by
    unfold parseMorkCellApply
    simp only [columnId_hex C hC hCd hCv, cString_textOf T hz]
    rw [if_pos (head_ok_of_cellByte T hT hTb), if_neg (by simp)]
    simp only [if_true]
  rw [happly] at hcell
  unfold parseMorkDict
  rw [MorkDictColumnMeta_eq]
  simp only [List.cons_append, morkgetc_cons, List.nil_append]
  rw [parseMorkDictLoop]
  rw [if_pos (by simp [feof]), if_pos (by decide), if_pos (by decide)]
  rw [morkgetcN_marker, MorkDictColumnMeta_eq]
  simp only [if_true, morkgetc_cons]
  rw [parseMorkDictLoop]
  rw [if_pos (by simp [feof]), if_pos (by decide), if_neg (by decide), if_pos (by decide)]
  rw [hcell]
  simp only [morkgetc_cons]
  rw [parseMorkDictLoop]
  rw [if_neg (by simp)]

/-- C15: a dictionary block that starts with the columns marker `<(a=c)>` and
goes on with the cell `(C=T)`, for a hex column id `C` and a non-empty name `T`
free of `)`, backslash and `$`, leaves a database in which `getColumn` on
hex(C) is `T`; the cell leaves the values dictionary as it was.  This holds for
`parseMorkDict` on any database, and for `parseMorkStream` on the magic header
followed by the block `<<(a=c)>(C=T)>`, whose values dictionary stays empty. -/
theorem C15_column_cell_round_trip (C T rest : List Nat) (m : MorkDb) (fuel : Nat)
    (hC : C ≠ []) (hCd : ∀ c ∈ C, isxdigit c = true) (hCv : hexValue C < 2 ^ 31)
    (hCl : C.length < 512)
    (hT : T ≠ []) (hTb : ∀ c ∈ T, cellByte c = true) (hTl : T.length < 512)
    (hfuel : C.length + T.length + 6 ≤ fuel) :
    (∃ m2,
      parseMorkDict fuel
          { pending := MorkDictColumnMeta ++
              40 :: (cellText CellForm.literal C T ++ 41 :: 62 :: rest), eof := false } m =
        Except.ok (true, { pending := rest, eof := false }, m2) ∧
      getColumn m2 (hexValue C) = textOf T ∧ m2.values = m.values ∧
      m2.columns = storeInMorkDict m.columns (hexValue C) (textOf T)) ∧
    (∃ db,
      parseMorkStream fuel
          { pending := MorkMagicHeader ++ 60 :: (MorkDictColumnMeta ++
              40 :: (cellText CellForm.literal C T ++ 41 :: 62 :: [])), eof := false } =
        Except.ok (some db) ∧
      getColumn db (hexValue C) = textOf T ∧ db.values = emptyDict) := by
  constructor
  · refine ⟨_, parseMorkDict_marker_cell C T rest m fuel hC hCd hCv hCl hT hTb hTl (by omega),
      ?_, rfl, rfl⟩
    exact getValue_storeInMorkDict _ _ _
  · obtain ⟨f, rfl⟩ : ∃ f, fuel = f + 1 + 1 := ⟨fuel - 2, by omega⟩
    refine ⟨{ initializeTableScopeMap with
        nowParsing := NowParsingType.NPColumns
        columns := storeInMorkDict initializeTableScopeMap.columns (hexValue C) (textOf T) },
      ?_, ?_, rfl⟩
    · rw [parseMorkStream_header]
      simp only [morkgetc_cons]
      rw [parseMorkStreamLoop]
      rw [if_pos (by simp [feof]), if_pos (by decide), if_pos (by decide)]
      rw [parseMorkDict_marker_cell C T [] initializeTableScopeMap (f + 1) hC hCd hCv hCl hT hTb
        hTl (by omega)]
      simp only []
      rw [parseMorkStreamLoop_end]
    · exact getValue_storeInMorkDict _ _ _

/-- C15 on the input made of the magic header and `<<(a=c)>(8E=FirstName)>`:
the name of column 0x8E is `FirstName`. -/
theorem C15_column_cell_round_trip_witness :
    MorkMagicHeader ++ 60 :: (MorkDictColumnMeta ++
        40 :: (cellText CellForm.literal (bytes "8E") (bytes "FirstName") ++ 41 :: 62 :: [])) =
      bytes "// <!-- <mdb:mork:z v=\"1.4\"/> --><<(a=c)>(8E=FirstName)>" ∧
    hexValue (bytes "8E") = 0x8E ∧ textOf (bytes "FirstName") = "FirstName" ∧
    (∃ m2,
      parseMorkDict 60
          { pending := MorkDictColumnMeta ++
              40 :: (cellText CellForm.literal (bytes "8E") (bytes "FirstName") ++
                41 :: 62 :: bytes "<(1=a)>"), eof := false }
          initializeTableScopeMap =
        Except.ok (true, { pending := bytes "<(1=a)>", eof := false }, m2) ∧
      getColumn m2 (hexValue (bytes "8E")) = textOf (bytes "FirstName") ∧
      m2.values = initializeTableScopeMap.values ∧
      m2.columns = storeInMorkDict initializeTableScopeMap.columns (hexValue (bytes "8E"))
        (textOf (bytes "FirstName"))) ∧
    (∃ db,
      parseMorkStream 60
          { pending := MorkMagicHeader ++ 60 :: (MorkDictColumnMeta ++
              40 :: (cellText CellForm.literal (bytes "8E") (bytes "FirstName") ++
                41 :: 62 :: [])), eof := false } =
        Except.ok (some db) ∧
      getColumn db (hexValue (bytes "8E")) = textOf (bytes "FirstName") ∧
      db.values = emptyDict) :=
  ⟨by decide, by decide, by decide,
   C15_column_cell_round_trip (bytes "8E") (bytes "FirstName") (bytes "<(1=a)>")
     initializeTableScopeMap 60 (by decide) (by decide) (by decide) (by decide) (by decide)
     (by decide) (by decide) (by decide)⟩


/-- C16: on the magic header followed by `<<(1=ab)(2=c)>` the inner `<` is not
followed by the rest of the columns marker; the six bytes `(1=ab)` read for the
comparison are not given back to the input, so the cell `(1=ab)` is never
parsed.  The parse goes on with the target Values and stores only 2 → `c`,
while the same block without the inner `<` stores both cells. -/
theorem C16_unmatched_marker_swallows_cell :
    parseMorkStream 60
        { pending := MorkMagicHeader ++ bytes "<<(1=ab)(2=c)>", eof := false } =
      Except.ok (some { initializeTableScopeMap with
        values := { entries := [makeMorkDictEntry 2 "c"] } }) ∧
    parseMorkStream 60
        { pending := MorkMagicHeader ++ bytes "<(1=ab)(2=c)>", eof := false } =
      Except.ok (some { initializeTableScopeMap with
        values := { entries := [makeMorkDictEntry 1 "ab", makeMorkDictEntry 2 "c"] } }) :=
  ⟨by rfl, by rfl⟩


theorem readMagicHeader_long (n : Nat) :
    ∀ (input : List Nat), (∀ c ∈ input, c < 256) → 0 < n → n ≤ input.length →
      readMagicHeader n { pending := input, eof := false } =
        (input.take n, { pending := input.drop n, eof := false }) := by
  induction n with
  | zero => intro input _ h; exact absurd h (by decide)
  | succ k ih =>
    intro input hb _ hlen
    cases input with
    | nil => simp at hlen
    | cons x xs =>
      have hx := hb x (List.mem_cons_self _ _)
      simp only [List.length_cons, Nat.add_le_add_iff_right] at hlen
      simp only [readMagicHeader, morkgetc_cons, toChar_cast x hx, feof, and_true,
        List.take_succ_cons, List.drop_succ_cons]
      by_cases hk : 0 < k
      · rw [if_pos hk, ih xs (fun c hc => hb c (List.mem_cons_of_mem _ hc)) hk hlen]
      · have hk0 : k = 0 := by omega
        subst hk0
        simp

theorem readMagicHeader_short (n : Nat) :
    ∀ (input : List Nat), (∀ c ∈ input, c < 256) → input.length < n →
      (readMagicHeader n { pending := input, eof := false }).1 = input ++ [255] := by
  induction n with
  | zero => intro input _ h; exact absurd h (by omega)
  | succ k ih =>
    intro input hb hlen
    cases input with
    | nil =>
      have h255 : toChar EOF = 255 := rfl
      simp [readMagicHeader, morkgetc, feof, h255]
    | cons x xs =>
      have hx := hb x (List.mem_cons_self _ _)
      simp only [List.length_cons, Nat.add_lt_add_iff_right] at hlen
      simp only [readMagicHeader, morkgetc_cons, toChar_cast x hx, feof, and_true]
      rw [if_pos (by omega)]
      simp only [List.cons_append, List.cons.injEq, true_and]
      exact ih xs (fun c hc => hb c (List.mem_cons_of_mem _ hc)) hlen

theorem takeWhile_eq_of_length_le {α : Type} (p : α → Bool) (l h : List α)
    (he : l.takeWhile p = h) (hlen : l.length ≤ h.length) : l = h := by
  have hp : l.takeWhile p <+: l := List.takeWhile_prefix p
  rw [he] at hp
  exact (List.IsPrefix.eq_of_length_le hp hlen).symm

theorem MorkMagicHeader_length : MorkMagicHeader.length = 33 := by decide

theorem magicHeader_test (input : List Nat) (hb : ∀ c ∈ input, c < 256) :
    ((readMagicHeader MorkMagicHeader.length { pending := input, eof := false }).1.takeWhile
        (fun c => c ≠ 0) = MorkMagicHeader) ↔ input.take 33 = MorkMagicHeader := by
  rw [MorkMagicHeader_length]
  have hnz : ∀ c ∈ MorkMagicHeader, (decide (c ≠ 0)) = true := fun c hc => by
    simpa using (MorkMagicHeader_bytes c hc).2
  by_cases hlen : 33 ≤ input.length
  · rw [readMagicHeader_long 33 input hb (by decide) hlen]
    constructor
    · intro h
      exact takeWhile_eq_of_length_le _ _ _ h
        (by rw [List.length_take, MorkMagicHeader_length]; omega)
    · intro h
      simp only [h]
      exact takeWhile_all _ _ hnz
  · rw [readMagicHeader_short 33 input hb (by omega)]
    constructor
    · intro h
      exfalso
      have h2 := takeWhile_eq_of_length_le _ _ _ h
        (by rw [List.length_append, MorkMagicHeader_length]; simp; omega)
      have h3 : (255 : Nat) ∈ MorkMagicHeader := by rw [← h2]; simp
      revert h3
      decide
    · intro h
      exfalso
      have h2 := congrArg List.length h
      rw [List.length_take, MorkMagicHeader_length] at h2
      omega

/-! ## Running `parseMorkGroup` on a committed group -/

theorem parseMorkGroupMarkLoop_tok (rest : List Nat) (tok : List Nat) :
    ∀ (buf : List Nat) (f : Nat), (∀ c ∈ tok, 0 < c ∧ c < 256 ∧ c ≠ 64) →
      buf.length + tok.length ≤ 63 →
      parseMorkGroupMarkLoop (tok.length + (f + 1))
          (morkgetc { pending := tok ++ 64 :: rest, eof := false }).1
          (morkgetc { pending := tok ++ 64 :: rest, eof := false }).2 buf =
        Except.ok ({ pending := rest, eof := false }, buf ++ tok) := by
  induction tok with
  | nil =>
    intro buf f _ _
    simp [parseMorkGroupMarkLoop, morkgetc_cons]
  | cons x xs ih =>
    intro buf f hb hlen
    have hx := hb x (List.mem_cons_self _ _)
    simp only [List.length_cons] at hlen
    have hfuel : (x :: xs).length + (f + 1) = (xs.length + (f + 1)) + 1 := by
      simp only [List.length_cons]; omega
    rw [hfuel]
    simp only [List.cons_append, morkgetc_cons]
    rw [parseMorkGroupMarkLoop]
    rw [if_pos ⟨by omega, by omega, rfl⟩, if_pos (by omega), toChar_cast x hx.2.1]
    rw [ih (buf ++ [x]) f (fun c hc => hb c (List.mem_cons_of_mem _ hc))
      (by simp only [List.length_append, List.length_cons, List.length_nil]; omega)]
    simp

theorem contentPut_ok (content : List Nat) (size c : Nat) (h : content.length < size) :
    contentPut content size c = Except.ok (content ++ [c]) := by
  simp [contentPut, h]

theorem parseMorkGroupContentLoop_body (rest : List Nat) (B : List Nat) :
    ∀ (content : List Nat) (size0 f : Nat),
      (∀ c ∈ B, 0 < c ∧ c < 256 ∧ c ≠ 64 ∧ c ≠ 92) →
      size0 = 512 * ((content.length + 511) / 512) →
      (content.length + B.length) % 512 ≤ 509 →
      parseMorkGroupContentLoop (B.length + (f + 2)) true
          (morkgetc { pending := B ++ 64 :: 36 :: 36 :: rest, eof := false }).1
          (morkgetc { pending := B ++ 64 :: 36 :: 36 :: rest, eof := false }).2
          content size0 =
        Except.ok ({ pending := 36 :: 36 :: rest, eof := false }, content ++ B,
          512 * ((content.length + B.length) / 512 + 1)) := by
  induction B with
  | nil =>
    intro content size0 f _ hsize hmod
    simp only [List.length_nil, Nat.zero_add, Nat.add_zero, List.nil_append, morkgetc_cons,
      List.append_nil] at hmod ⊢
    have hsz : (if content.length ≥ size0 then size0 + 512 else size0) =
        512 * (content.length / 512 + 1) := by
      split_ifs <;> omega
    rw [show f + 2 = (f + 1) + 1 from rfl, parseMorkGroupContentLoop]
    rw [if_pos ⟨rfl, by decide, rfl⟩]
    simp only [hsz]
    rw [if_neg (by decide), if_pos (by decide)]
    have h64 : toChar ((64 : Nat) : Int) = 64 := rfl
    have h36 : toChar ((36 : Nat) : Int) = 36 := rfl
    simp only [morkgetc_cons, h64, h36]
    rw [contentPut_ok _ _ _ (by omega)]
    simp only []
    rw [contentPut_ok _ _ _
      (by simp only [List.length_append, List.length_cons, List.length_nil]; omega)]
    simp only []
    rw [if_pos (by decide)]
    rw [contentPut_ok _ _ _
      (by simp only [List.length_append, List.length_cons, List.length_nil]; omega)]
    simp only []
    rw [if_pos (by decide)]
    have hun : (morkgetc (morkungetc 32 (morkungetc 36 (morkungetc 36
        { pending := rest, eof := false }).2).2).2) =
        ((32 : Int), { pending := 36 :: 36 :: rest, eof := false }) := rfl
    rw [hun]
    rw [parseMorkGroupContentLoop]
    rw [if_neg (by simp)]
    simp
  | cons x xs ih =>
    intro content size0 f hb hsize hmod
    have hx := hb x (List.mem_cons_self _ _)
    simp only [List.length_cons] at hmod
    have hfuel : (x :: xs).length + (f + 2) = (xs.length + (f + 2)) + 1 := by
      simp only [List.length_cons]; omega
    have hsz : (if content.length ≥ size0 then size0 + 512 else size0) =
        512 * (content.length / 512 + 1) := by
      split_ifs <;> omega
    rw [hfuel]
    simp only [List.cons_append, morkgetc_cons]
    rw [parseMorkGroupContentLoop]
    rw [if_pos ⟨rfl, by omega, rfl⟩]
    simp only [hsz]
    rw [if_neg (by omega), if_neg (by omega), toChar_cast x hx.2.1]
    rw [contentPut_ok _ _ _ (by omega)]
    simp only []
    have h := ih (content ++ [x]) (512 * (content.length / 512 + 1)) f
      (fun c hc => hb c (List.mem_cons_of_mem _ hc))
      (by simp only [List.length_append, List.length_cons, List.length_nil]; omega)
      (by simp only [List.length_append, List.length_cons, List.length_nil]
          rw [show content.length + (0 + 1) + xs.length = content.length + (xs.length + 1) by
            omega]
          exact hmod)
    rw [h]
    simp only [List.length_append, List.length_cons, List.length_nil, List.append_assoc,
      List.singleton_append]
    rw [show content.length + (0 + 1) + xs.length = content.length + (xs.length + 1) by omega]

theorem pushBackContent_all (L : List Nat) :
    ∀ (R : List Nat) (e : Bool), (∀ c ∈ L, c < 255) →
      pushBackContent L { pending := R, eof := e } =
        { pending := L.reverse ++ R, eof := if L = [] then e else false } := by
  induction L with
  | nil => intro R e _; rfl
  | cons c cs ih =>
    intro R e hb
    have hc := hb c (List.mem_cons_self _ _)
    have hne : charToInt c ≠ EOF := by
      unfold charToInt EOF
      split_ifs <;> omega
    have htc : toChar (charToInt c) = c := by
      unfold charToInt toChar
      split_ifs <;> omega
    have hce : ((c : Nat) : Int) ≠ EOF := by
      unfold EOF
      omega
    simp only [pushBackContent, morkungetc, hne, if_false, htc, hce]
    rw [ih (c :: R) false (fun x hx => hb x (List.mem_cons_of_mem _ hx))]
    simp

theorem strtol16_hex_then (H : List Nat) (d : Nat) (rest : List Nat) (hne : H ≠ [])
    (hd : ∀ c ∈ H, isxdigit c = true) (hdn : isxdigit d = false) (hdx : d ≠ 120 ∧ d ≠ 88) :
    strtol16 (H ++ d :: rest) =
      max (-(2 ^ 63)) (min ((hexValue H : Nat) : Int) (2 ^ 63 - 1)) := by
  cases H with
  | nil => exact absurd rfl hne
  | cons c cs =>
    have hc := isxdigit_range c (hd c (List.mem_cons_self _ _))
    have hsp : isspace (c : Int) = false := isspace_false_of_ne c (by omega) (by omega)
    have h45 : ¬ c = 45 := by omega
    have h43 : ¬ c = 43 := by omega
    have hs3 : (match c :: (cs ++ d :: rest) with
        | 48 :: x :: rest2 => if x = 120 ∨ x = 88 then rest2 else c :: (cs ++ d :: rest)
        | _ => c :: (cs ++ d :: rest)) = c :: (cs ++ d :: rest) := by
      split
      · rename_i x rest2 heq
        simp only [List.cons.injEq] at heq
        have hx : ¬ (x = 120 ∨ x = 88) := by
          cases cs with
          | nil =>
            simp only [List.nil_append, List.cons.injEq] at heq
            rw [← heq.2.1]; omega
          | cons y ys =>
            simp only [List.cons_append, List.cons.injEq] at heq
            have := isxdigit_range y (hd y (by simp))
            rw [← heq.2.1]; omega
        simp [hx, heq]
      · rfl
    have htw : (c :: (cs ++ d :: rest)).takeWhile isxdigit = c :: cs := by
      have : c :: (cs ++ d :: rest) = (c :: cs) ++ d :: rest := rfl
      rw [this, List.takeWhile_append_of_pos hd, List.takeWhile_cons, hdn]
      simp
    unfold strtol16
    simp only [List.cons_append, List.dropWhile_cons, hsp, List.head?_cons, Option.some.injEq,
      h45, h43, or_self, if_false, Bool.false_eq_true]
    rw [hs3, htw]

theorem getLast?_mark (a b c d : Nat) (l : List Nat) :
    (a :: b :: c :: (l ++ [d])).getLast? = some d := by
  have : a :: b :: c :: (l ++ [d]) = (a :: b :: c :: l) ++ [d] := rfl
  rw [this, List.getLast?_concat]

theorem parseMorkGroup_commit (G B R : List Nat) (fuel : Nat)
    (hG : G ≠ []) (hGd : ∀ c ∈ G, isxdigit c = true) (hGl : G.length ≤ 59)
    (hB : ∀ c ∈ B, 0 < c ∧ c < 255 ∧ c ≠ 64 ∧ c ≠ 92) (hBl : B.length % 512 ≤ 509)
    (hfuel : G.length + B.length + 6 ≤ fuel) :
    parseMorkGroup fuel { pending := groupText G B ++ R, eof := false } =
      Except.ok (true, { pending := B ++ R, eof := false }) := by
  have hGb : ∀ c ∈ G, 0 < c ∧ c < 256 ∧ c ≠ 64 := by
    intro c hc
    have := isxdigit_range c (hGd c hc)
    omega
  obtain ⟨g, gs, rfl⟩ : ∃ g gs, G = g :: gs := by
    cases G with
    | nil => exact absurd rfl hG
    | cons g gs => exact ⟨g, gs, rfl⟩
  have hg := hGd g (List.mem_cons_self _ _)
  -- the header
  have hhead : parseMorkGroupMarkLoop fuel
      (morkgetc { pending := groupText (g :: gs) B ++ R, eof := false }).1
      (morkgetc { pending := groupText (g :: gs) B ++ R, eof := false }).2 [] =
      Except.ok (
        { pending := B ++ 64 :: 36 :: 36 :: (125 :: (g :: gs) ++ 125 :: 64 :: R), eof := false },
        36 :: 36 :: 123 :: ((g :: gs) ++ [123])) := by
    obtain ⟨f, rfl⟩ : ∃ f, fuel = (36 :: 36 :: 123 :: ((g :: gs) ++ [123])).length + (f + 1) :=
      ⟨fuel - ((36 :: 36 :: 123 :: ((g :: gs) ++ [123])).length + 1), by
        simp only [List.length_cons, List.length_append, List.length_nil] at hfuel ⊢; omega⟩
    have h := parseMorkGroupMarkLoop_tok
      (B ++ 64 :: 36 :: 36 :: (125 :: (g :: gs) ++ 125 :: 64 :: R))
      (36 :: 36 :: 123 :: ((g :: gs) ++ [123])) [] f
      (by
        intro c hc
        simp only [List.mem_cons, List.mem_append, List.mem_singleton, List.not_mem_nil,
          or_false] at hc
        rcases hc with rfl | rfl | rfl | hc | rfl
        · decide
        · decide
        · decide
        · exact hGb c (by simpa using hc)
        · decide)
      (by simp only [List.length_cons, List.length_append, List.length_nil] at hGl ⊢; omega)
    simp only [List.nil_append] at h
    rw [← h]
    simp [groupText]
  -- the contents
  have hcont : ∀ f, parseMorkGroupContentLoop (B.length + (f + 2)) true
      (morkgetc
        { pending := B ++ 64 :: 36 :: 36 :: (125 :: (g :: gs) ++ 125 :: 64 :: R),
          eof := false }).1
      (morkgetc
        { pending := B ++ 64 :: 36 :: 36 :: (125 :: (g :: gs) ++ 125 :: 64 :: R),
          eof := false }).2 [] 0 =
      Except.ok ({ pending := 36 :: 36 :: (125 :: (g :: gs) ++ 125 :: 64 :: R), eof := false },
        B, 512 * (B.length / 512 + 1)) := by
    intro f
    have h := parseMorkGroupContentLoop_body (125 :: (g :: gs) ++ 125 :: 64 :: R) B [] 0 f
      (fun c hc => by have := hB c hc; omega) (by simp) (by simpa using hBl)
    simpa using h
  -- the footer
  have hfoot : parseMorkGroupMarkLoop fuel
      (morkgetc
        { pending := 36 :: 36 :: (125 :: (g :: gs) ++ 125 :: 64 :: R), eof := false }).1
      (morkgetc
        { pending := 36 :: 36 :: (125 :: (g :: gs) ++ 125 :: 64 :: R), eof := false }).2 [] =
      Except.ok ({ pending := R, eof := false }, 36 :: 36 :: 125 :: ((g :: gs) ++ [125])) := by
    obtain ⟨f, rfl⟩ : ∃ f, fuel = (36 :: 36 :: 125 :: ((g :: gs) ++ [125])).length + (f + 1) :=
      ⟨fuel - ((36 :: 36 :: 125 :: ((g :: gs) ++ [125])).length + 1), by
        simp only [List.length_cons, List.length_append, List.length_nil] at hfuel ⊢; omega⟩
    have h := parseMorkGroupMarkLoop_tok R (36 :: 36 :: 125 :: ((g :: gs) ++ [125])) [] f
      (by
        intro c hc
        simp only [List.mem_cons, List.mem_append, List.mem_singleton, List.not_mem_nil,
          or_false] at hc
        rcases hc with rfl | rfl | rfl | hc | rfl
        · decide
        · decide
        · decide
        · exact hGb c (by simpa using hc)
        · decide)
      (by simp only [List.length_cons, List.length_append, List.length_nil] at hGl ⊢; omega)
    simp only [List.nil_append] at h
    rw [← h]
    simp
  have hid : toInt32 (strtol16 ((36 :: 36 :: 123 :: ((g :: gs) ++ [123])).drop 3)) =
      toInt32 (strtol16 ((36 :: 36 :: 125 :: ((g :: gs) ++ [125])).drop 3)) := by
    simp only [List.drop_succ_cons, List.drop_zero]
    rw [strtol16_hex_then (g :: gs) 123 [] hG hGd (by decide) (by decide),
      strtol16_hex_then (g :: gs) 125 [] hG hGd (by decide) (by decide)]
  obtain ⟨f, hf⟩ : ∃ f, fuel = B.length + (f + 2) := ⟨fuel - (B.length + 2), by omega⟩
  unfold parseMorkGroup
  rw [hhead]
  simp only []
  rw [if_pos ⟨by simp, getLast?_mark _ _ _ _ _,
    by simp only [List.take_succ_cons, List.take_zero]; decide, by simpa using hg⟩]
  conv_lhs => rw [hf]
  rw [hcont f]
  simp only []
  rw [if_neg (by omega), if_neg (by simp; omega)]
  rw [← hf, hfoot]
  simp only []
  rw [if_pos ⟨by simp, getLast?_mark _ _ _ _ _,
    by simp only [List.take_succ_cons, List.take_zero]; decide, by simpa using hg⟩,
    if_neg (not_not.2 hid)]
  rw [pushBackContent_all B.reverse R false
    (fun c hc => (hB c (List.mem_reverse.1 hc)).2.1)]
  simp


theorem parseMorkStream_group_commit (G B R : List Nat) (F : Nat)
    (hG : G ≠ []) (hGd : ∀ c ∈ G, isxdigit c = true) (hGl : G.length ≤ 59)
    (hB : ∀ c ∈ B, 0 < c ∧ c < 255 ∧ c ≠ 64 ∧ c ≠ 92) (hBl : B.length % 512 ≤ 509)
    (hF : G.length + B.length + 6 ≤ F) :
    parseMorkStream (F + 1)
        { pending := MorkMagicHeader ++ 64 :: (groupText G B ++ R), eof := false } =
      parseMorkStream F { pending := MorkMagicHeader ++ (B ++ R), eof := false } := by
  rw [parseMorkStream_header, parseMorkStream_header]
  simp only [morkgetc_cons, Nat.cast_ofNat]
  rw [parseMorkStreamLoop]
  rw [if_pos ⟨rfl, by decide, rfl⟩, if_pos (by decide), if_neg (by decide), if_neg (by decide),
    if_neg (by decide), if_neg (by decide), if_pos (by decide)]
  rw [parseMorkGroup_commit G B R F hG hGd hGl hB hBl hF]

/-- C20, with the wrapper as `parseMorkGroup` reads it (`@$$\x7b1\x7b@` before
the body and `@$$\x7d1\x7d@` after it): parsing the magic header followed by
`@$$\x7b1\x7b@ [80(5=x)] @$$\x7d1\x7d@` and then any content `R` gives what
parsing the magic header followed by ` [80(5=x)] ` and `R` gives, the dispatch
of the `@` costing one unit of fuel; with nothing after the group, row 0x80
(table scope 0x80, table 0, row scope 0x80) has a cell for column 5 whose
value text is `x`. -/
theorem C20_group_commit_same_database (R : List Nat) (F : Nat) (hF : 18 ≤ F) :
    parseMorkStream (F + 1)
        { pending := MorkMagicHeader ++ (bytes "@$$\x7b1\x7b@ [80(5=x)] @$$\x7d1\x7d@" ++ R),
          eof := false } =
      parseMorkStream F
        { pending := MorkMagicHeader ++ (bytes " [80(5=x)] " ++ R), eof := false } ∧
    ∃ db,
      parseMorkStream 60
          { pending := MorkMagicHeader ++ bytes "@$$\x7b1\x7b@ [80(5=x)] @$$\x7d1\x7d@",
            eof := false } =
        Except.ok (some db) ∧
      cellsAt db 0x80 0 0x80 0x80 = some 0 ∧
      cellValueId 5 (derefCells db 0).entries = some 0x7ffffffe ∧
      valueForColumnId 5 (derefCells db 0) db = some "x" := by
  constructor
  · have h := parseMorkStream_group_commit (bytes "1") (bytes " [80(5=x)] ") R F (by decide)
      (by decide) (by decide) (by decide) (by decide) (by simpa using hF)
    exact h
  · exact ⟨_, rfl, by decide, by decide, by decide⟩

/-- C20 with the content `<(1=a)>` after the group. -/
theorem C20_group_commit_same_database_witness :
    parseMorkStream (60 + 1)
        { pending := MorkMagicHeader ++
            (bytes "@$$\x7b1\x7b@ [80(5=x)] @$$\x7d1\x7d@" ++ bytes "<(1=a)>"),
          eof := false } =
      parseMorkStream 60
        { pending := MorkMagicHeader ++ (bytes " [80(5=x)] " ++ bytes "<(1=a)>"),
          eof := false } :=
  (C20_group_commit_same_database (bytes "<(1=a)>") 60 (by decide)).1

/-- C20 as stated: the bytes `$$1\x7b [80(5=x)] ` between the first two `@` are
not a group header for `parseMorkGroup`, which returns having consumed them;
the `$` that follows is a format error, so the database returned is the
initial one, while the input without the wrapper gives a database with row
0x80 and the dictionary entry. -/
theorem C20_claimed_wrapper_counterexample :
    parseMorkStream 60
        { pending := MorkMagicHeader ++
            (bytes "@$$1\x7b [80(5=x)] @$$\x7d1\x7d@" ++ bytes "<(1=a)>"),
          eof := false } =
      Except.ok (some initializeTableScopeMap) ∧
    cellsAt initializeTableScopeMap 0x80 0 0x80 0x80 = none ∧
    ∃ db,
      parseMorkStream 60
          { pending := MorkMagicHeader ++ (bytes " [80(5=x)] " ++ bytes "<(1=a)>"),
            eof := false } =
        Except.ok (some db) ∧
      cellsAt db 0x80 0 0x80 0x80 = some 0 ∧
      valueForColumnId 5 (derefCells db 0) db = some "x" ∧
      getValue db 1 = "a" ∧
      db ≠ initializeTableScopeMap :=
  ⟨rfl, by decide, _, rfl, by decide, by decide, by decide, by decide⟩


/-! ## Every update of the parser -/

theorem parseMorkCell_closed (R : MorkDb → MorkDb → Prop) (hR : ParserClosed R)
    (fuel : Nat) (ifp : MorkFile) (m : MorkDb) (r : Bool × MorkFile × MorkDb)
    (h : parseMorkCell fuel ifp m = Except.ok r) : R m r.2.2 := by
  unfold parseMorkCell at h
  split at h
  · cases h
  · split at h
    · cases h
    · split at h
      · cases h
      · split at h
        · cases h
        · rename_i m2 happ
          cases h
          exact hR.apply _ _ _ _ _ happ

theorem parseMorkRowLoop_closed (R : MorkDb → MorkDb → Prop) (hR : ParserClosed R) :
    ∀ (fuel : Nat) (result : Bool) (cur : Int) (ifp : MorkFile) (m : MorkDb)
      (r : Bool × MorkFile × MorkDb),
      parseMorkRowLoop fuel result cur ifp m = Except.ok r → R m r.2.2 := by
  intro fuel
  induction fuel with
  | zero => intro result cur ifp m r h; simp [parseMorkRowLoop] at h
  | succ f ih =>
    intro result cur ifp m r h
    rw [parseMorkRowLoop] at h
    split_ifs at h
    · split at h
      · cases h
      · rename_i rc hc
        exact hR.trans _ _ _ (parseMorkCell_closed R hR _ _ _ _ hc) (ih _ _ _ _ _ h)
    · split at h
      · cases h
      · exact ih _ _ _ _ _ h
    · exact ih _ _ _ _ _ h
    · exact ih _ _ _ _ _ h
    · cases h; exact hR.refl _

theorem parseMorkRow_closed (R : MorkDb → MorkDb → Prop) (hR : ParserClosed R)
    (fuel : Nat) (ifp : MorkFile) (m : MorkDb) (tableId tableScope : Int)
    (r : Bool × MorkFile × MorkDb)
    (h : parseMorkRow fuel ifp m tableId tableScope = Except.ok r) : R m r.2.2 := by
  unfold parseMorkRow at h
  split at h
  · cases h
  · split at h
    · cases h
    · exact hR.trans _ _ _ (hR.trans _ _ _ (hR.target m NowParsingType.NPRows) (hR.row _ _ _ _ _))
        (parseMorkRowLoop_closed R hR _ _ _ _ _ _ h)

theorem parseMorkTableLoop_closed (R : MorkDb → MorkDb → Prop) (hR : ParserClosed R)
    (id scope : Int) :
    ∀ (fuel : Nat) (result : Bool) (cur : Nat) (ifp : MorkFile) (m : MorkDb)
      (r : Bool × MorkFile × MorkDb),
      parseMorkTableLoop id scope fuel result cur ifp m = Except.ok r → R m r.2.2 := by
  intro fuel
  induction fuel with
  | zero => intro result cur ifp m r h; simp [parseMorkTableLoop] at h
  | succ f ih =>
    intro result cur ifp m r h
    rw [parseMorkTableLoop] at h
    split_ifs at h
    · split at h
      · cases h
      · exact ih _ _ _ _ _ h
    · split at h
      · cases h
      · rename_i rc hc
        exact hR.trans _ _ _ (parseMorkRow_closed R hR _ _ _ _ _ _ hc) (ih _ _ _ _ _ h)
    · exact ih _ _ _ _ _ h
    · split at h
      · cases h
      · split_ifs at h
        · cases h; exact hR.refl _
        · split at h
          · cases h
          · exact hR.trans _ _ _ (hR.row _ _ _ _ _) (ih _ _ _ _ _ h)
    · exact ih _ _ _ _ _ h
    · cases h; exact hR.refl _

theorem parseMorkTable_closed (R : MorkDb → MorkDb → Prop) (hR : ParserClosed R)
    (fuel : Nat) (ifp : MorkFile) (m : MorkDb) (r : Bool × MorkFile × MorkDb)
    (h : parseMorkTable fuel ifp m = Except.ok r) : R m r.2.2 := by
  unfold parseMorkTable at h
  split at h
  · cases h
  · split at h
    · cases h
    · exact parseMorkTableLoop_closed R hR _ _ _ _ _ _ _ _ h

theorem parseMorkDictLoop_closed (R : MorkDb → MorkDb → Prop) (hR : ParserClosed R) :
    ∀ (fuel : Nat) (result : Bool) (cur : Int) (ifp : MorkFile) (m : MorkDb)
      (r : Bool × MorkFile × MorkDb),
      parseMorkDictLoop fuel result cur ifp m = Except.ok r → R m r.2.2 := by
  intro fuel
  induction fuel with
  | zero => intro result cur ifp m r h; simp [parseMorkDictLoop] at h
  | succ f ih =>
    intro result cur ifp m r h
    rw [parseMorkDictLoop] at h
    split_ifs at h
    · exact hR.trans _ _ _ (hR.target m NowParsingType.NPColumns) (ih _ _ _ _ _ h)
    · exact ih _ _ _ _ _ h
    · split at h
      · cases h
      · rename_i rc hc
        exact hR.trans _ _ _ (parseMorkCell_closed R hR _ _ _ _ hc) (ih _ _ _ _ _ h)
    · split at h
      · cases h
      · exact ih _ _ _ _ _ h
    · exact ih _ _ _ _ _ h
    · exact ih _ _ _ _ _ h
    · cases h; exact hR.refl _

theorem parseMorkDict_closed (R : MorkDb → MorkDb → Prop) (hR : ParserClosed R)
    (fuel : Nat) (ifp : MorkFile) (m : MorkDb) (r : Bool × MorkFile × MorkDb)
    (h : parseMorkDict fuel ifp m = Except.ok r) : R m r.2.2 := by
  unfold parseMorkDict at h
  exact hR.trans _ _ _ (hR.target m NowParsingType.NPValues)
    (parseMorkDictLoop_closed R hR _ _ _ _ _ _ h)

theorem parseMorkStreamLoop_closed (R : MorkDb → MorkDb → Prop) (hR : ParserClosed R) :
    ∀ (fuel : Nat) (result : Bool) (cur : Int) (ifp : MorkFile) (m : MorkDb)
      (r : Bool × MorkFile × MorkDb),
      parseMorkStreamLoop fuel result cur ifp m = Except.ok r → R m r.2.2 := by
  intro fuel
  induction fuel with
  | zero => intro result cur ifp m r h; simp [parseMorkStreamLoop] at h
  | succ f ih =>
    intro result cur ifp m r h
    rw [parseMorkStreamLoop] at h
    split_ifs at h
    · split at h
      · cases h
      · rename_i rc hc
        exact hR.trans _ _ _ (parseMorkDict_closed R hR _ _ _ _ hc) (ih _ _ _ _ _ h)
    · split at h
      · cases h
      · exact ih _ _ _ _ _ h
    · split at h
      · cases h
      · rename_i rc hc
        exact hR.trans _ _ _ (parseMorkTable_closed R hR _ _ _ _ hc) (ih _ _ _ _ _ h)
    · split at h
      · cases h
      · rename_i rc hc
        exact hR.trans _ _ _ (parseMorkRow_closed R hR _ _ _ _ _ _ hc) (ih _ _ _ _ _ h)
    · split at h
      · cases h
      · exact ih _ _ _ _ _ h
    · exact ih _ _ _ _ _ h
    · exact ih _ _ _ _ _ h
    · cases h; exact hR.refl _

theorem parseMorkStream_closed (R : MorkDb → MorkDb → Prop) (hR : ParserClosed R)
    (fuel : Nat) (ifp : MorkFile) (db : MorkDb)
    (h : parseMorkStream fuel ifp = Except.ok (some db)) : R initializeTableScopeMap db := by
  unfold parseMorkStream at h
  split_ifs at h
  · cases h
  · split at h
    · cases h
    · rename_i r hr
      cases h
      exact parseMorkStreamLoop_closed R hR _ _ _ _ _ _ hr


theorem storeInActiveCellsOrFault_next (m m2 : MorkDb) (k v : Int)
    (h : storeInActiveCellsOrFault m k v = Except.ok m2) :
    m2.nextAddValueId = m.nextAddValueId := by
  unfold storeInActiveCellsOrFault storeInActiveCells at h
  split at h
  · cases h
  · rename_i m3 h3
    cases h
    split at h3
    · cases h3
    · split_ifs at h3
      cases h3
      rfl

theorem parseMorkCellApply_next (m m2 : MorkDb) (v : Bool) (column text : List Nat)
    (h : parseMorkCellApply m v column text = Except.ok m2) :
    m2.nextAddValueId =
      if MintsLiteral m v text then m.nextAddValueId - 1 else m.nextAddValueId := by
  unfold parseMorkCellApply at h
  unfold MintsLiteral
  simp only [] at h
  split_ifs at h with h1 h2 h3 h4
  · rw [storeInActiveCellsOrFault_next _ _ _ _ h, if_neg]
    intro hc; rw [h3] at hc; exact absurd hc.2.2 (by decide)
  · rw [storeInActiveCellsOrFault_next _ _ _ _ h, if_pos ⟨h1, h2, by simpa using h3⟩]
  · cases h
    rw [if_neg]
    intro hc; exact h2 hc.2.1
  · cases h
    rw [if_neg]
    intro hc; exact h2 hc.2.1
  · cases h
    rw [if_neg]
    intro hc; exact h1 hc.1

/-! ## Metadata blocks, comments and rejected group headers -/

theorem parseMorkMetaLoop_to (c : Nat) (rest : List Nat) (pre : List Nat) :
    ∀ (fuel : Nat), (∀ x ∈ pre, x ≠ 0 ∧ x ≠ c) → pre.length + 1 ≤ fuel →
      parseMorkMetaLoop c fuel
          (morkgetc { pending := pre ++ c :: rest, eof := false }).1
          (morkgetc { pending := pre ++ c :: rest, eof := false }).2 =
        Except.ok { pending := rest, eof := false } := by
  induction pre with
  | nil =>
    intro fuel _ hfuel
    obtain ⟨f, rfl⟩ : ∃ f, fuel = f + 1 := ⟨fuel - 1, by simp at hfuel; omega⟩
    simp [parseMorkMetaLoop, morkgetc_cons]
  | cons x xs ih =>
    intro fuel hm hfuel
    obtain ⟨f, rfl⟩ : ∃ f, fuel = f + 1 := ⟨fuel - 1, by omega⟩
    have hx := hm x (List.mem_cons_self _ _)
    have hcond : (x : Int) ≠ (c : Int) ∧ (x : Int) ≠ 0 := by omega
    simp only [List.length_cons] at hfuel
    simp only [List.cons_append, morkgetc_cons, parseMorkMetaLoop, feof, hcond, and_self,
      if_true, ne_eq, not_false_eq_true]
    exact ih f (fun y hy => hm y (List.mem_cons_of_mem _ hy)) (by omega)

theorem parseMorkMetaLoop_eof (c : Nat) (pre : List Nat) :
    ∀ (fuel : Nat), (∀ x ∈ pre, x ≠ 0 ∧ x ≠ c) → pre.length + 1 ≤ fuel →
      parseMorkMetaLoop c fuel
          (morkgetc { pending := pre, eof := false }).1
          (morkgetc { pending := pre, eof := false }).2 =
        Except.ok { pending := [], eof := true } := by
  induction pre with
  | nil =>
    intro fuel _ hfuel
    obtain ⟨f, rfl⟩ : ∃ f, fuel = f + 1 := ⟨fuel - 1, by simp at hfuel; omega⟩
    simp [parseMorkMetaLoop, morkgetc, feof]
  | cons x xs ih =>
    intro fuel hm hfuel
    obtain ⟨f, rfl⟩ : ∃ f, fuel = f + 1 := ⟨fuel - 1, by omega⟩
    have hx := hm x (List.mem_cons_self _ _)
    have hcond : (x : Int) ≠ (c : Int) ∧ (x : Int) ≠ 0 := by omega
    simp only [List.length_cons] at hfuel
    simp only [morkgetc_cons, parseMorkMetaLoop, feof, hcond, and_self,
      if_true, ne_eq, not_false_eq_true]
    exact ih f (fun y hy => hm y (List.mem_cons_of_mem _ hy)) (by omega)

theorem parseMorkMetaLoop_total (c : Nat) :
    ∀ (fuel : Nat) (cur : Int) (ifp : MorkFile),
      ifp.pending.length + (if ifp.eof then 0 else 1) + 1 ≤ fuel →
      ∃ ifp2, parseMorkMetaLoop c fuel cur ifp = Except.ok ifp2 := by
  intro fuel
  induction fuel with
  | zero => intro cur ifp h; omega
  | succ f ih =>
    intro cur ifp h
    rw [parseMorkMetaLoop]
    split_ifs with hcond
    · have he : ifp.eof = false := hcond.2.2
      apply ih
      cases hp : ifp.pending with
      | nil =>
        simp only [morkgetc, hp, List.length_nil, if_true]
        rw [hp, he] at h
        simp at h
        omega
      | cons x xs =>
        simp only [morkgetc, hp, he, List.length_cons]
        rw [hp, he] at h
        simp only [List.length_cons, Bool.false_eq_true, if_false] at h ⊢
        omega
    · exact ⟨ifp, rfl⟩

theorem parseMorkMeta_true (fuel : Nat) (ifp : MorkFile) (c : Nat) (r : Bool × MorkFile)
    (h : parseMorkMeta fuel ifp c = Except.ok r) : r.1 = true := by
  unfold parseMorkMeta at h
  split at h
  · cases h
  · cases h; rfl

theorem parseMorkMetaLoop_stop (c s : Nat) (hs : s = c ∨ s = 0) (rest : List Nat)
    (pre : List Nat) :
    ∀ (fuel : Nat), (∀ x ∈ pre, x ≠ 0 ∧ x ≠ c) → pre.length + 1 ≤ fuel →
      parseMorkMetaLoop c fuel
          (morkgetc { pending := pre ++ s :: rest, eof := false }).1
          (morkgetc { pending := pre ++ s :: rest, eof := false }).2 =
        Except.ok { pending := rest, eof := false } := by
  induction pre with
  | nil =>
    intro fuel _ hfuel
    obtain ⟨f, rfl⟩ : ∃ f, fuel = f + 1 := ⟨fuel - 1, by simp at hfuel; omega⟩
    rcases hs with h | h
    · subst h
      simp [parseMorkMetaLoop, morkgetc_cons]
    · subst h
      simp [parseMorkMetaLoop, morkgetc_cons]
  | cons x xs ih =>
    intro fuel hm hfuel
    obtain ⟨f, rfl⟩ : ∃ f, fuel = f + 1 := ⟨fuel - 1, by omega⟩
    have hx := hm x (List.mem_cons_self _ _)
    have hcond : (x : Int) ≠ (c : Int) ∧ (x : Int) ≠ 0 := by omega
    simp only [List.length_cons] at hfuel
    simp only [List.cons_append, morkgetc_cons, parseMorkMetaLoop, feof, hcond, and_self,
      if_true, ne_eq, not_false_eq_true]
    exact ih f (fun y hy => hm y (List.mem_cons_of_mem _ hy)) (by omega)

/-- C29, with the zero byte taken into account: for every closing delimiter
`c` and every input, `parseMorkMeta` with `c` consumes the bytes up to and
including the first byte `s` that is `c` or zero, whatever stands before it
(opening delimiters included), or the whole input when there is no such byte,
and returns true; in every case it returns true when it returns, and it does
return on every input.  It has no access to the database: the table loop and
the row loop go on after it with the database they had. -/
theorem C29_meta_skips_to_delimiter_or_zero (c s : Nat) (pre rest input : List Nat)
    (fuel : Nat) (m : MorkDb) (id scope : Int) (hs : s = c ∨ s = 0)
    (hpre : ∀ x ∈ pre, x ≠ 0 ∧ x ≠ c) (hfuel : pre.length + 1 ≤ fuel) :
    parseMorkMeta fuel { pending := pre ++ s :: rest, eof := false } c =
      Except.ok (true, { pending := rest, eof := false }) ∧
    parseMorkMeta fuel { pending := pre, eof := false } c =
      Except.ok (true, { pending := [], eof := true }) ∧
    (∃ ifp2, parseMorkMeta (input.length + 2) { pending := input, eof := false } c =
      Except.ok (true, ifp2)) ∧
    (∀ f ifp r, parseMorkMeta f ifp c = Except.ok r → r.1 = true) ∧
    (c = 125 →
      parseMorkTableLoop id scope (fuel + 1) true 123
          { pending := pre ++ s :: rest, eof := false } m =
        parseMorkTableLoop id scope fuel true
          (toChar (morkgetc { pending := rest, eof := false }).1)
          (morkgetc { pending := rest, eof := false }).2 m) ∧
    (c = 93 →
      parseMorkRowLoop (fuel + 1) true 91 { pending := pre ++ s :: rest, eof := false } m =
        parseMorkRowLoop fuel true (morkgetc { pending := rest, eof := false }).1
          (morkgetc { pending := rest, eof := false }).2 m) := by
  have h1 : parseMorkMeta fuel { pending := pre ++ s :: rest, eof := false } c =
      Except.ok (true, { pending := rest, eof := false }) := by
    unfold parseMorkMeta
    rw [parseMorkMetaLoop_stop c s hs rest pre fuel hpre hfuel]
  refine ⟨h1, ?_, ?_, fun f ifp r h => parseMorkMeta_true f ifp c r h, ?_, ?_⟩
  · unfold parseMorkMeta
    rw [parseMorkMetaLoop_eof c pre fuel hpre hfuel]
  · obtain ⟨ifp2, h2⟩ := parseMorkMetaLoop_total c (input.length + 2)
      (morkgetc { pending := input, eof := false }).1
      (morkgetc { pending := input, eof := false }).2
      (by
        cases input with
        | nil => simp [morkgetc]
        | cons x xs => simp [morkgetc])
    exact ⟨ifp2, by unfold parseMorkMeta; rw [h2]⟩
  · intro hc
    subst hc
    rw [parseMorkTableLoop]
    rw [if_pos ⟨rfl, by decide, by decide⟩, if_pos (by decide), if_pos rfl, h1]
  · intro hc
    subst hc
    rw [parseMorkRowLoop]
    rw [if_pos ⟨rfl, by decide, by decide⟩, if_pos (by decide), if_neg (by decide),
      if_pos rfl, h1]

/-- C29 on the table metadata `a\x7bb\x7dc\x7d` (the skip ends at
the first closing brace, so `c\x7d` is left), on a row metadata block, on a
row metadata block cut by the end of the input, and on a table metadata block
with a zero byte before the closing brace (the skip ends at the zero byte). -/
theorem C29_meta_skips_to_delimiter_or_zero_witness :
    parseMorkMeta 10 { pending := bytes "a\x7bb" ++ 125 :: bytes "c\x7d", eof := false } 125 =
      Except.ok (true, { pending := bytes "c\x7d", eof := false }) ∧
    parseMorkMeta 10 { pending := bytes "a[b" ++ 93 :: bytes "c]", eof := false } 93 =
      Except.ok (true, { pending := bytes "c]", eof := false }) ∧
    parseMorkMeta 10 { pending := bytes "a[b", eof := false } 93 =
      Except.ok (true, { pending := [], eof := true }) ∧
    parseMorkMeta 10 { pending := bytes "ab" ++ 0 :: bytes "c\x7d", eof := false } 125 =
      Except.ok (true, { pending := bytes "c\x7d", eof := false }) :=
  ⟨(C29_meta_skips_to_delimiter_or_zero 125 125 (bytes "a\x7bb") (bytes "c\x7d") [] 10
      initializeTableScopeMap 0 0 (Or.inl rfl) (by decide) (by decide)).1,
   (C29_meta_skips_to_delimiter_or_zero 93 93 (bytes "a[b") (bytes "c]") [] 10
      initializeTableScopeMap 0 0 (Or.inl rfl) (by decide) (by decide)).1,
   (C29_meta_skips_to_delimiter_or_zero 93 93 (bytes "a[b") (bytes "c]") [] 10
      initializeTableScopeMap 0 0 (Or.inl rfl) (by decide) (by decide)).2.1,
   (C29_meta_skips_to_delimiter_or_zero 125 0 (bytes "ab") (bytes "c\x7d") [] 10
      initializeTableScopeMap 0 0 (Or.inr rfl) (by decide) (by decide)).1⟩

/-- C29 as stated fails when a zero byte stands before the first closing
brace: `parseMorkMeta` stops at the zero byte, and the bytes `c\x7d` up to the
first closing brace, which the claim counts as consumed, are left unread. -/
theorem C29_meta_stops_at_zero_byte :
    parseMorkMeta 10 { pending := bytes "ab" ++ 0 :: bytes "c\x7dd", eof := false } 125 =
      Except.ok (true, { pending := bytes "c\x7dd", eof := false }) ∧
    bytes "c\x7dd" ≠ bytes "d" :=
  ⟨rfl, by decide⟩

theorem parseMorkGroupMarkLoop_trunc (rest : List Nat) (tok : List Nat) :
    ∀ (buf : List Nat) (f : Nat), (∀ c ∈ tok, 0 < c ∧ c < 256 ∧ c ≠ 64) →
      buf.length ≤ 63 →
      parseMorkGroupMarkLoop (tok.length + (f + 1))
          (morkgetc { pending := tok ++ 64 :: rest, eof := false }).1
          (morkgetc { pending := tok ++ 64 :: rest, eof := false }).2 buf =
        Except.ok ({ pending := rest, eof := false }, (buf ++ tok).take 63) := by
  induction tok with
  | nil =>
    intro buf f _ hlen
    simp [parseMorkGroupMarkLoop, morkgetc_cons, List.take_of_length_le hlen]
  | cons x xs ih =>
    intro buf f hb hlen
    have hx := hb x (List.mem_cons_self _ _)
    have hfuel : (x :: xs).length + (f + 1) = (xs.length + (f + 1)) + 1 := by
      simp only [List.length_cons]; omega
    rw [hfuel]
    simp only [List.cons_append, morkgetc_cons]
    rw [parseMorkGroupMarkLoop]
    rw [if_pos ⟨by omega, by omega, rfl⟩, toChar_cast x hx.2.1]
    by_cases h63 : buf.length < 63
    · rw [if_pos h63]
      rw [ih (buf ++ [x]) f (fun c hc => hb c (List.mem_cons_of_mem _ hc))
        (by simp only [List.length_append, List.length_cons, List.length_nil]; omega)]
      simp
    · rw [if_neg h63]
      rw [ih buf f (fun c hc => hb c (List.mem_cons_of_mem _ hc)) hlen]
      have h1 : buf.length = 63 := by omega
      rw [List.take_append_of_le_length (by omega), List.take_append_of_le_length (by omega)]

theorem parseMorkGroup_true (fuel : Nat) (ifp : MorkFile) (r : Bool × MorkFile)
    (h : parseMorkGroup fuel ifp = Except.ok r) : r.1 = true := by
  unfold parseMorkGroup at h
  split at h
  · cases h
  · split_ifs at h
    · split at h
      · cases h
      · split_ifs at h
        split at h
        · cases h
        · split_ifs at h <;> (cases h; rfl)
    · cases h; rfl

theorem parseMorkStreamLoop_group (fuel : Nat) (ifp : MorkFile) (m : MorkDb)
    (r : Bool × MorkFile) (heof : feof ifp = false)
    (h : parseMorkGroup fuel ifp = Except.ok r) :
    parseMorkStreamLoop (fuel + 1) true 64 ifp m =
      parseMorkStreamLoop fuel true (morkgetc r.2).1 (morkgetc r.2).2 m := by
  have ht := parseMorkGroup_true fuel ifp r h
  rw [parseMorkStreamLoop]
  rw [if_pos ⟨rfl, by decide, heof⟩, if_pos (by decide), if_neg (by decide), if_neg (by decide),
    if_neg (by decide), if_neg (by decide), if_pos rfl, h]
  simp only [ht]

theorem parseMorkGroupMarkLoop_stop (s : Nat) (hs : s = 64 ∨ s = 0) (rest : List Nat)
    (tok : List Nat) :
    ∀ (buf : List Nat) (f : Nat), (∀ c ∈ tok, 0 < c ∧ c < 256 ∧ c ≠ 64) →
      buf.length ≤ 63 →
      parseMorkGroupMarkLoop (tok.length + (f + 1))
          (morkgetc { pending := tok ++ s :: rest, eof := false }).1
          (morkgetc { pending := tok ++ s :: rest, eof := false }).2 buf =
        Except.ok ({ pending := rest, eof := false }, (buf ++ tok).take 63) := by
  induction tok with
  | nil =>
    intro buf f _ hlen
    rcases hs with h | h
    · subst h
      simp [parseMorkGroupMarkLoop, morkgetc_cons, List.take_of_length_le hlen]
    · subst h
      simp [parseMorkGroupMarkLoop, morkgetc_cons, List.take_of_length_le hlen]
  | cons x xs ih =>
    intro buf f hb hlen
    have hx := hb x (List.mem_cons_self _ _)
    have hfuel : (x :: xs).length + (f + 1) = (xs.length + (f + 1)) + 1 := by
      simp only [List.length_cons]; omega
    rw [hfuel]
    simp only [List.cons_append, morkgetc_cons]
    rw [parseMorkGroupMarkLoop]
    rw [if_pos ⟨by omega, by omega, rfl⟩, toChar_cast x hx.2.1]
    by_cases h63 : buf.length < 63
    · rw [if_pos h63]
      rw [ih (buf ++ [x]) f (fun c hc => hb c (List.mem_cons_of_mem _ hc))
        (by simp only [List.length_append, List.length_cons, List.length_nil]; omega)]
      simp
    · rw [if_neg h63]
      rw [ih buf f (fun c hc => hb c (List.mem_cons_of_mem _ hc)) hlen]
      have h1 : buf.length = 63 := by omega
      rw [List.take_append_of_le_length (by omega), List.take_append_of_le_length (by omega)]

/-- C23, with the zero byte and the size of the header buffer taken into
account: when the bytes `T` between a top-level `@` and the first byte `s`
after it that is `@` or zero are not accepted as a group header (the test is
made on the first 63 of them, all that the header buffer keeps),
`parseMorkGroup` returns true having consumed `T` and `s` and nothing more,
and the dispatch loop goes on with the database it had, on the bytes that
follow. -/
theorem C23_rejected_group_header_skipped_to_at_or_zero (s : Nat) (T R : List Nat)
    (m : MorkDb) (fuel : Nat) (hs : s = 64 ∨ s = 0)
    (hT : ∀ c ∈ T, 0 < c ∧ c < 256 ∧ c ≠ 64) (hbad : isGroupHeader (T.take 63) = false)
    (hfuel : T.length + 1 ≤ fuel) :
    parseMorkGroup fuel { pending := T ++ s :: R, eof := false } =
      Except.ok (true, { pending := R, eof := false }) ∧
    parseMorkStreamLoop (fuel + 1) true 64 { pending := T ++ s :: R, eof := false } m =
      parseMorkStreamLoop fuel true (morkgetc { pending := R, eof := false }).1
        (morkgetc { pending := R, eof := false }).2 m := by
  have h1 : parseMorkGroup fuel { pending := T ++ s :: R, eof := false } =
      Except.ok (true, { pending := R, eof := false }) := by
    obtain ⟨f, rfl⟩ : ∃ f, fuel = T.length + (f + 1) := ⟨fuel - (T.length + 1), by omega⟩
    unfold parseMorkGroup
    rw [parseMorkGroupMarkLoop_stop s hs R T [] f hT (by simp)]
    simp only [List.nil_append]
    rw [if_neg]
    simpa [isGroupHeader] using hbad
  exact ⟨h1, parseMorkStreamLoop_group fuel { pending := T ++ s :: R, eof := false } m _ rfl h1⟩

/-- C23 on the text `$$1\x7b [80(5=x)] @` followed by `<(1=a)>`: the header lacks
the brace after `$$`, the group parser consumes it up to the `@`, and the
dictionary after it is left to be parsed; and on the text `$$1` followed by a
zero byte: the group parser consumes it up to the zero byte. -/
theorem C23_rejected_group_header_skipped_to_at_or_zero_witness :
    (parseMorkGroup 20
        { pending := bytes "$$1\x7b [80(5=x)] " ++ 64 :: bytes "<(1=a)>", eof := false } =
      Except.ok (true, { pending := bytes "<(1=a)>", eof := false }) ∧
    parseMorkStreamLoop (20 + 1) true 64
        { pending := bytes "$$1\x7b [80(5=x)] " ++ 64 :: bytes "<(1=a)>", eof := false }
        initializeTableScopeMap =
      parseMorkStreamLoop 20 true
        (morkgetc { pending := bytes "<(1=a)>", eof := false }).1
        (morkgetc { pending := bytes "<(1=a)>", eof := false }).2 initializeTableScopeMap) ∧
    parseMorkGroup 20
        { pending := bytes "$$1" ++ 0 :: bytes "\x7b@<(1=a)>", eof := false } =
      Except.ok (true, { pending := bytes "\x7b@<(1=a)>", eof := false }) :=
  ⟨C23_rejected_group_header_skipped_to_at_or_zero 64 (bytes "$$1\x7b [80(5=x)] ")
      (bytes "<(1=a)>") initializeTableScopeMap 20 (Or.inl rfl) (by decide) (by decide)
      (by decide),
   (C23_rejected_group_header_skipped_to_at_or_zero 0 (bytes "$$1") (bytes "\x7b@<(1=a)>")
      initializeTableScopeMap 20 (Or.inr rfl) (by decide) (by decide) (by decide)).1⟩

set_option maxRecDepth 20000 in
/-- C23 as stated fails in two ways.  With a zero byte before the next `@`, the
bytes `ab` are not a group header and `parseMorkGroup` stops at the zero byte:
`cd@`, which the claim counts as consumed, is left unread.  With more than 63
bytes before the next `@`, the test is made on the first 63: here they end
with a brace and pass it although the 65 bytes are not a group header, and the
content `<(1=a)>` after the `@` is consumed as the body of a group. -/
theorem C23_header_ends_at_zero_or_is_cut :
    (isGroupHeader (bytes "ab") = false ∧
      parseMorkGroup 20 { pending := bytes "ab" ++ 0 :: bytes "cd@<(1=a)>", eof := false } =
        Except.ok (true, { pending := bytes "cd@<(1=a)>", eof := false })) ∧
    (isGroupHeader (bytes "$$\x7b1" ++ List.replicate 58 97 ++ bytes "\x7bzz") = false ∧
      (bytes "$$\x7b1" ++ List.replicate 58 97 ++ bytes "\x7bzz").length = 65 ∧
      parseMorkGroup 200
          { pending := (bytes "$$\x7b1" ++ List.replicate 58 97 ++ bytes "\x7bzz") ++
              64 :: bytes "<(1=a)>", eof := false } =
        Except.ok (true, { pending := [], eof := true })) :=
  ⟨⟨by decide, rfl⟩, by decide, by decide, rfl⟩

theorem parseMorkCommentLoop_line (rest : List Nat) (e : Nat) (he : e = 13 ∨ e = 10)
    (text : List Nat) :
    ∀ (x : Nat) (buf : List Nat) (f : Nat), (0 < x ∧ x < 256 ∧ x ≠ 13 ∧ x ≠ 10) →
      (∀ c ∈ text, 0 < c ∧ c < 256 ∧ c ≠ 13 ∧ c ≠ 10) →
      buf.length + text.length + 1 < 512 →
      parseMorkCommentLoop (text.length + (f + 2)) (x : Int)
          { pending := text ++ e :: rest, eof := false } buf =
        Except.ok ({ pending := rest, eof := false }, buf ++ x :: text) := by
  induction text with
  | nil =>
    intro x buf f hx _ hlen
    simp only [List.length_nil, Nat.add_zero] at hlen
    simp only [List.length_nil, Nat.zero_add, List.nil_append]
    rw [show f + 2 = (f + 1) + 1 from rfl, parseMorkCommentLoop]
    rw [if_pos ⟨by omega, by omega, by omega⟩, toChar_cast x hx.2.1,
      bufPut_ok _ _ (by omega)]
    simp only [morkgetc_cons]
    rw [parseMorkCommentLoop]
    rw [if_neg (by rcases he with rfl | rfl <;> simp)]
  | cons y ys ih =>
    intro x buf f hx hb hlen
    have hy := hb y (List.mem_cons_self _ _)
    simp only [List.length_cons] at hlen
    have hfuel : (y :: ys).length + (f + 2) = (ys.length + (f + 2)) + 1 := by
      simp only [List.length_cons]; omega
    rw [hfuel, parseMorkCommentLoop]
    rw [if_pos ⟨by omega, by omega, by omega⟩, toChar_cast x hx.2.1,
      bufPut_ok _ _ (by omega)]
    simp only [List.cons_append, morkgetc_cons]
    rw [ih y (buf ++ [x]) f hy (fun c hc => hb c (List.mem_cons_of_mem _ hc))
      (by simp only [List.length_append, List.length_cons, List.length_nil]; omega)]
    simp

theorem parseMorkComment_line (rest text : List Nat) (e : Nat) (he : e = 13 ∨ e = 10)
    (fuel : Nat) (ht : ∀ c ∈ text, 0 < c ∧ c < 256 ∧ c ≠ 13 ∧ c ≠ 10)
    (hlen : text.length + 1 < 512) (hfuel : text.length + 2 ≤ fuel) :
    parseMorkComment fuel { pending := 47 :: (text ++ e :: rest), eof := false } =
      Except.ok (true, { pending := rest, eof := false }) := by
  obtain ⟨f, rfl⟩ : ∃ f, fuel = text.length + (f + 2) := ⟨fuel - (text.length + 2), by omega⟩
  unfold parseMorkComment
  simp only [morkgetc_cons, Nat.cast_ofNat]
  rw [if_neg (by simp)]
  have h := parseMorkCommentLoop_line rest e he text 47 [] f (by decide) ht
    (by simpa using hlen)
  simp only [Nat.cast_ofNat, List.nil_append] at h
  rw [h]
  simp only []
  rw [bufEnd_ok _ (by simp only [List.length_cons]; omega)]

theorem parseMorkComment_single (x : Nat) (rest : List Nat) (fuel : Nat) (hx : x ≠ 47) :
    parseMorkComment fuel { pending := x :: rest, eof := false } =
      Except.ok (false, { pending := rest, eof := false }) := by
  unfold parseMorkComment
  simp only [morkgetc_cons]
  rw [if_pos (by omega)]

theorem parseMorkCommentLoop_stop (rest : List Nat) (e : Nat)
    (he : e = 13 ∨ e = 10 ∨ e = 0) (text : List Nat) :
    ∀ (x : Nat) (buf : List Nat) (f : Nat), (0 < x ∧ x < 256 ∧ x ≠ 13 ∧ x ≠ 10) →
      (∀ c ∈ text, 0 < c ∧ c < 256 ∧ c ≠ 13 ∧ c ≠ 10) →
      buf.length + text.length + 1 ≤ 512 →
      parseMorkCommentLoop (text.length + (f + 2)) (x : Int)
          { pending := text ++ e :: rest, eof := false } buf =
        Except.ok ({ pending := rest, eof := false }, buf ++ x :: text) := by
  induction text with
  | nil =>
    intro x buf f hx _ hlen
    simp only [List.length_nil, Nat.add_zero] at hlen
    simp only [List.length_nil, Nat.zero_add, List.nil_append]
    rw [show f + 2 = (f + 1) + 1 from rfl, parseMorkCommentLoop]
    rw [if_pos ⟨by omega, by omega, by omega⟩, toChar_cast x hx.2.1,
      bufPut_ok _ _ (by omega)]
    simp only [morkgetc_cons]
    rw [parseMorkCommentLoop]
    rw [if_neg (by rcases he with rfl | rfl | rfl <;> simp)]
  | cons y ys ih =>
    intro x buf f hx hb hlen
    have hy := hb y (List.mem_cons_self _ _)
    simp only [List.length_cons] at hlen
    have hfuel : (y :: ys).length + (f + 2) = (ys.length + (f + 2)) + 1 := by
      simp only [List.length_cons]; omega
    rw [hfuel, parseMorkCommentLoop]
    rw [if_pos ⟨by omega, by omega, by omega⟩, toChar_cast x hx.2.1,
      bufPut_ok _ _ (by omega)]
    simp only [List.cons_append, morkgetc_cons]
    rw [ih y (buf ++ [x]) f hy (fun c hc => hb c (List.mem_cons_of_mem _ hc))
      (by simp only [List.length_append, List.length_cons, List.length_nil]; omega)]
    simp

theorem parseMorkComment_stop (rest text : List Nat) (e : Nat)
    (he : e = 13 ∨ e = 10 ∨ e = 0)
    (fuel : Nat) (ht : ∀ c ∈ text, 0 < c ∧ c < 256 ∧ c ≠ 13 ∧ c ≠ 10)
    (hlen : text.length + 1 < 512) (hfuel : text.length + 2 ≤ fuel) :
    parseMorkComment fuel { pending := 47 :: (text ++ e :: rest), eof := false } =
      Except.ok (true, { pending := rest, eof := false }) := by
  obtain ⟨f, rfl⟩ : ∃ f, fuel = text.length + (f + 2) := ⟨fuel - (text.length + 2), by omega⟩
  unfold parseMorkComment
  simp only [morkgetc_cons, Nat.cast_ofNat]
  rw [if_neg (by simp)]
  have h := parseMorkCommentLoop_stop rest e he text 47 [] f (by decide) ht
    (by simp only [List.length_nil]; omega)
  simp only [Nat.cast_ofNat, List.nil_append] at h
  rw [h]
  simp only []
  rw [bufEnd_ok _ (by simp only [List.length_cons]; omega)]

theorem parseMorkCommentLoop_long (rest : List Nat) (text : List Nat) :
    ∀ (x : Nat) (buf : List Nat) (fuel : Nat), (0 < x ∧ x < 256 ∧ x ≠ 13 ∧ x ≠ 10) →
      (∀ c ∈ text, 0 < c ∧ c < 256 ∧ c ≠ 13 ∧ c ≠ 10) →
      512 ≤ buf.length + text.length → text.length + 1 ≤ fuel →
      parseMorkCommentLoop fuel (x : Int) { pending := text ++ rest, eof := false } buf =
        Except.error Fault.overflow := by
  induction text with
  | nil =>
    intro x buf fuel hx _ hlen hfuel
    obtain ⟨f, rfl⟩ : ∃ f, fuel = f + 1 := ⟨fuel - 1, by omega⟩
    simp only [List.length_nil, Nat.add_zero] at hlen
    rw [parseMorkCommentLoop, if_pos ⟨by omega, by omega, by omega⟩]
    simp [bufPut, show ¬ buf.length < 512 by omega]
  | cons y ys ih =>
    intro x buf fuel hx hb hlen hfuel
    obtain ⟨f, rfl⟩ : ∃ f, fuel = f + 1 := ⟨fuel - 1, by omega⟩
    simp only [List.length_cons] at hlen hfuel
    rw [parseMorkCommentLoop, if_pos ⟨by omega, by omega, by omega⟩]
    by_cases hl : buf.length < 512
    · rw [toChar_cast x hx.2.1, bufPut_ok _ _ hl]
      simp only [List.cons_append, morkgetc_cons]
      exact ih y (buf ++ [x]) f (hb y (List.mem_cons_self _ _))
        (fun c hc => hb c (List.mem_cons_of_mem _ hc))
        (by simp only [List.length_append, List.length_cons, List.length_nil]; omega)
        (by omega)
    · simp [bufPut, hl]

theorem parseMorkComment_long (rest text : List Nat) (e : Nat)
    (he : e = 13 ∨ e = 10 ∨ e = 0)
    (fuel : Nat) (ht : ∀ c ∈ text, 0 < c ∧ c < 256 ∧ c ≠ 13 ∧ c ≠ 10)
    (hlen : 511 ≤ text.length) (hfuel : text.length + 2 ≤ fuel) :
    parseMorkComment fuel { pending := 47 :: (text ++ e :: rest), eof := false } =
      Except.error Fault.overflow := by
  unfold parseMorkComment
  simp only [morkgetc_cons, Nat.cast_ofNat]
  rw [if_neg (by simp)]
  by_cases h : text.length = 511
  · obtain ⟨f, rfl⟩ : ∃ f, fuel = text.length + (f + 2) :=
      ⟨fuel - (text.length + 2), by omega⟩
    have h2 := parseMorkCommentLoop_stop rest e he text 47 [] f (by decide) ht
      (by simp only [List.length_nil]; omega)
    simp only [Nat.cast_ofNat, List.nil_append] at h2
    rw [h2]
    simp only []
    simp [bufEnd, h]
  · have h2 := parseMorkCommentLoop_long (e :: rest) text 47 [] fuel (by decide) ht
      (by simp only [List.length_nil]; omega) (by omega)
    simp only [Nat.cast_ofNat] at h2
    rw [h2]

/-- C27, with the zero byte and the size of the comment buffer taken into
account: a `/` followed by a byte other than `/`, or by the end of input, is a
format error, at top level and inside a dictionary block: `parseMorkComment`
returns false having read that byte, and the dispatch loop ends with the
database as it stands (for a dictionary, with the target set to Values).  When the second `/` is
there and fewer than 511 bytes follow it before the first byte `e` that is CR,
LF or zero, `parseMorkComment` consumes the comment text and `e` and returns
true, and the dispatch loop and the dictionary loop go on after `e` with the
database they had. -/
theorem C27_comment_discarded_or_format_error (x e : Nat) (text rest : List Nat)
    (m : MorkDb) (fuel : Nat) (hx : x ≠ 47) (he : e = 13 ∨ e = 10 ∨ e = 0)
    (ht : ∀ c ∈ text, 0 < c ∧ c < 256 ∧ c ≠ 13 ∧ c ≠ 10)
    (hlen : text.length + 1 < 512) (hfuel : text.length + 2 ≤ fuel) :
    parseMorkComment fuel { pending := x :: rest, eof := false } =
      Except.ok (false, { pending := rest, eof := false }) ∧
    parseMorkStreamLoop (fuel + 2) true 47 { pending := x :: rest, eof := false } m =
      Except.ok (false, (morkgetc { pending := rest, eof := false }).2, m) ∧
    parseMorkDictLoop (fuel + 2) true 47 { pending := x :: rest, eof := false } m =
      Except.ok (false, (morkgetc { pending := rest, eof := false }).2, m) ∧
    parseMorkStreamLoop (fuel + 3) true 60 { pending := 47 :: x :: rest, eof := false } m =
      Except.ok (false,
        (morkgetc (morkgetc { pending := rest, eof := false }).2).2,
        { m with nowParsing := NowParsingType.NPValues }) ∧
    parseMorkComment fuel { pending := 47 :: (text ++ e :: rest), eof := false } =
      Except.ok (true, { pending := rest, eof := false }) ∧
    parseMorkStreamLoop (fuel + 1) true 47
        { pending := 47 :: (text ++ e :: rest), eof := false } m =
      parseMorkStreamLoop fuel true (morkgetc { pending := rest, eof := false }).1
        (morkgetc { pending := rest, eof := false }).2 m ∧
    parseMorkDictLoop (fuel + 1) true 47
        { pending := 47 :: (text ++ e :: rest), eof := false } m =
      parseMorkDictLoop fuel true (morkgetc { pending := rest, eof := false }).1
        (morkgetc { pending := rest, eof := false }).2 m ∧
    parseMorkComment fuel { pending := [], eof := false } =
      Except.ok (false, { pending := [], eof := true }) ∧
    parseMorkStreamLoop (fuel + 2) true 47 { pending := [], eof := false } m =
      Except.ok (false, { pending := [], eof := true }, m) := by
  have hc : ∀ f, parseMorkComment f { pending := [], eof := false } =
      Except.ok (false, { pending := [], eof := true }) := by
    intro f
    unfold parseMorkComment
    rw [if_pos (by decide)]
    rfl
  have hs := parseMorkComment_single x rest
  have hl := parseMorkComment_stop rest text e he fuel ht hlen hfuel
  have hdict : ∀ (d : MorkDb), parseMorkDictLoop (fuel + 2) true 47
      { pending := x :: rest, eof := false } d =
      Except.ok (false, (morkgetc { pending := rest, eof := false }).2, d) := by
    intro d
    rw [parseMorkDictLoop]
    rw [if_pos ⟨rfl, by decide, by decide, rfl⟩, if_pos (by decide), if_neg (by decide),
      if_neg (by decide), if_pos rfl, hs (fuel + 1) hx]
    simp only []
    rw [parseMorkDictLoop]
    rw [if_neg (by simp)]
  refine ⟨hs fuel hx, ?_, hdict m, ?_, hl, ?_, ?_, hc fuel, ?_⟩
  · rw [parseMorkStreamLoop]
    rw [if_pos ⟨rfl, by decide, rfl⟩, if_pos (by decide), if_neg (by decide), if_pos rfl,
      hs (fuel + 1) hx]
    simp only []
    rw [parseMorkStreamLoop]
    rw [if_neg (by simp)]
  · rw [parseMorkStreamLoop]
    rw [if_pos ⟨rfl, by decide, rfl⟩, if_pos (by decide), if_pos rfl]
    unfold parseMorkDict
    simp only [morkgetc_cons, Nat.cast_ofNat]
    rw [hdict]
    simp only []
    rw [parseMorkStreamLoop]
    rw [if_neg (by simp)]
  · rw [parseMorkStreamLoop]
    rw [if_pos ⟨rfl, by decide, rfl⟩, if_pos (by decide), if_neg (by decide), if_pos rfl, hl]
  · rw [parseMorkDictLoop]
    rw [if_pos ⟨rfl, by decide, by decide, rfl⟩, if_pos (by decide), if_neg (by decide),
      if_neg (by decide), if_pos rfl, hl]
  · rw [parseMorkStreamLoop]
    rw [if_pos ⟨rfl, by decide, rfl⟩, if_pos (by decide), if_neg (by decide), if_pos rfl,
      hc (fuel + 1)]
    simp only []
    rw [parseMorkStreamLoop]
    rw [if_neg (by simp)]
    rfl

/-- C27 on `/x`, on the comment `// note` ended by a line feed, each followed
by `<(1=a)>`, and on the comment `// no` ended by a zero byte. -/
theorem C27_comment_discarded_or_format_error_witness :
    parseMorkComment 20 { pending := 120 :: bytes "<(1=a)>", eof := false } =
      Except.ok (false, { pending := bytes "<(1=a)>", eof := false }) ∧
    parseMorkStreamLoop (20 + 2) true 47 { pending := 120 :: bytes "<(1=a)>", eof := false }
        initializeTableScopeMap =
      Except.ok (false, (morkgetc { pending := bytes "<(1=a)>", eof := false }).2,
        initializeTableScopeMap) ∧
    parseMorkComment 20
        { pending := 47 :: (bytes " note" ++ 10 :: bytes "<(1=a)>"), eof := false } =
      Except.ok (true, { pending := bytes "<(1=a)>", eof := false }) ∧
    parseMorkComment 20
        { pending := 47 :: (bytes " no" ++ 0 :: bytes "te\n<(1=a)>"), eof := false } =
      Except.ok (true, { pending := bytes "te\n<(1=a)>", eof := false }) ∧
    parseMorkStream 60
        { pending := MorkMagicHeader ++ bytes "// note\n<(1=a)>", eof := false } =
      Except.ok (some { initializeTableScopeMap with
        values := { entries := [makeMorkDictEntry 1 "a"] } }) ∧
    parseMorkStream 60
        { pending := MorkMagicHeader ++ bytes "</x(1=a)>", eof := false } =
      Except.ok (some initializeTableScopeMap) :=
  ⟨(C27_comment_discarded_or_format_error 120 10 (bytes " note") (bytes "<(1=a)>")
      initializeTableScopeMap 20 (by decide) (by decide) (by decide) (by decide)
      (by decide)).1,
   (C27_comment_discarded_or_format_error 120 10 (bytes " note") (bytes "<(1=a)>")
      initializeTableScopeMap 20 (by decide) (by decide) (by decide) (by decide)
      (by decide)).2.1,
   (C27_comment_discarded_or_format_error 120 10 (bytes " note") (bytes "<(1=a)>")
      initializeTableScopeMap 20 (by decide) (by decide) (by decide) (by decide)
      (by decide)).2.2.2.2.1,
   (C27_comment_discarded_or_format_error 120 0 (bytes " no") (bytes "te\n<(1=a)>")
      initializeTableScopeMap 20 (by decide) (by decide) (by decide) (by decide)
      (by decide)).2.2.2.2.1,
   by rfl, by rfl⟩

set_option maxRecDepth 20000 in
/-- C27 as stated fails in two ways.  A zero byte ends the comment like a line
end does: on `// no`, a zero byte and `te`, a line feed and `<(1=a)>`, the
comment parser returns with `te` and the rest still to read, and the parse
halts on the `t`, so that the dictionary is never parsed.  A comment with 511
bytes after the second slash fills the 512 bytes of the comment buffer and the
zero that ends it is written past the buffer. -/
theorem C27_comment_ends_at_zero_or_overflows :
    (parseMorkComment 20
        { pending := 47 :: (bytes " no" ++ 0 :: bytes "te\n<(1=a)>"), eof := false } =
      Except.ok (true, { pending := bytes "te\n<(1=a)>", eof := false }) ∧
     parseMorkStream 60
        { pending := MorkMagicHeader ++ (bytes "// no" ++ 0 :: bytes "te\n<(1=a)>"),
          eof := false } =
      Except.ok (some initializeTableScopeMap)) ∧
    parseMorkComment 600
        { pending := 47 :: (List.replicate 511 97 ++ 10 :: bytes "<(1=a)>"), eof := false } =
      Except.error Fault.overflow :=
  ⟨⟨rfl, rfl⟩,
   parseMorkComment_long (bytes "<(1=a)>") (List.replicate 511 97) 10 (Or.inr (Or.inl rfl))
     600 (fun c hc => by rw [List.eq_of_mem_replicate hc]; decide)
     (by rw [List.length_replicate]) (by rw [List.length_replicate]; decide)⟩

/-- C28, without the comment and for the runs of `parseMorkGroup` that return:
`parseMorkMeta` and `parseMorkGroup` never return failure.  `parseMorkMeta`
returns true on every input; `parseMorkGroup` returns true whenever it
returns, whether the group is well formed or not; after either of them the
loop that called it (the dispatch loop for a group, the table loop and the row
loop for a metadata block) goes on with the next byte and the database it had.
`parseMorkGroup` does not return on every input: on an accepted header that
the input ends right after, it writes through the null `contentBuf`. -/
theorem C28_meta_and_group_return_success (fuel : Nat) (ifp : MorkFile) (c : Nat) (m : MorkDb)
    (id scope : Int) (r : Bool × MorkFile) (heof : feof ifp = false) :
    (parseMorkMeta fuel ifp c = Except.ok r → r.1 = true) ∧
    (∃ ifp2, parseMorkMeta (ifp.pending.length + 2) ifp c = Except.ok (true, ifp2)) ∧
    (parseMorkGroup fuel ifp = Except.ok r →
      r.1 = true ∧
      parseMorkStreamLoop (fuel + 1) true 64 ifp m =
        parseMorkStreamLoop fuel true (morkgetc r.2).1 (morkgetc r.2).2 m) ∧
    (parseMorkMeta fuel ifp 125 = Except.ok r →
      parseMorkTableLoop id scope (fuel + 1) true 123 ifp m =
        parseMorkTableLoop id scope fuel true (toChar (morkgetc r.2).1) (morkgetc r.2).2 m) ∧
    (parseMorkMeta fuel ifp 93 = Except.ok r →
      parseMorkRowLoop (fuel + 1) true 91 ifp m =
        parseMorkRowLoop fuel true (morkgetc r.2).1 (morkgetc r.2).2 m) ∧
    parseMorkGroup 40 { pending := bytes "$$\x7b1\x7b@", eof := false } =
      Except.error Fault.nullDeref := by
  refine ⟨parseMorkMeta_true fuel ifp c r, ?_, ?_, ?_, ?_, rfl⟩
  · obtain ⟨ifp2, h2⟩ := parseMorkMetaLoop_total c (ifp.pending.length + 2)
      (morkgetc ifp).1 (morkgetc ifp).2
      (by
        cases hp : ifp.pending with
        | nil => simp [morkgetc, hp]
        | cons x xs =>
          simp only [morkgetc, hp, List.length_cons]
          split_ifs <;> omega)
    exact ⟨ifp2, by unfold parseMorkMeta; rw [h2]⟩
  · intro h
    exact ⟨parseMorkGroup_true fuel ifp r h, parseMorkStreamLoop_group fuel ifp m r heof h⟩
  · intro h
    have ht := parseMorkMeta_true fuel ifp 125 r h
    rw [parseMorkTableLoop]
    rw [if_pos ⟨rfl, by decide, by decide⟩, if_pos (by decide), if_pos rfl, h]
    simp only [ht]
  · intro h
    have ht := parseMorkMeta_true fuel ifp 93 r h
    rw [parseMorkRowLoop]
    rw [if_pos ⟨rfl, by decide, by decide⟩, if_pos (by decide), if_neg (by decide),
      if_pos rfl, h]
    simp only [ht]

/-- C28 on a group header that is not accepted and on a group whose footer
carries another id: the group parser returns true and the dictionary `<(1=a)>`
that follows is parsed. -/
theorem C28_meta_and_group_return_success_witness :
    (true = true ∧
      parseMorkStreamLoop (40 + 1) true 64
          { pending := bytes "$$\x7b1\x7b@(2=b)@$$\x7d2\x7d@<(1=a)>", eof := false }
          initializeTableScopeMap =
        parseMorkStreamLoop 40 true
          (morkgetc { pending := bytes "<(1=a)>", eof := false }).1
          (morkgetc { pending := bytes "<(1=a)>", eof := false }).2
          initializeTableScopeMap) ∧
    parseMorkStream 60
        { pending := MorkMagicHeader ++ bytes "@$$\x7b1\x7b@(2=b)@$$\x7d2\x7d@<(1=a)>",
          eof := false } =
      Except.ok (some { initializeTableScopeMap with
        values := { entries := [makeMorkDictEntry 1 "a"] } }) ∧
    parseMorkStream 60
        { pending := MorkMagicHeader ++ bytes "@oops@<(1=a)>", eof := false } =
      Except.ok (some { initializeTableScopeMap with
        values := { entries := [makeMorkDictEntry 1 "a"] } }) :=
  ⟨(C28_meta_and_group_return_success 40
      { pending := bytes "$$\x7b1\x7b@(2=b)@$$\x7d2\x7d@<(1=a)>", eof := false } 125
      initializeTableScopeMap 0 0 (true, { pending := bytes "<(1=a)>", eof := false })
      rfl).2.2.1 (by rfl),
   by rfl, by rfl⟩

/-- C28 as stated fails for the comment: `parseMorkComment` returns failure on
a `/` that is not followed by a second `/`, and the dispatch loop stops, so the
dictionary `<(1=a)>` after it is never parsed. -/
theorem C28_comment_failure_stops_the_parse :
    parseMorkComment 20 { pending := bytes "x<(1=a)>", eof := false } =
      Except.ok (false, { pending := bytes "<(1=a)>", eof := false }) ∧
    parseMorkStream 60
        { pending := MorkMagicHeader ++ bytes "/x<(1=a)>", eof := false } =
      Except.ok (some initializeTableScopeMap) ∧
    getValue initializeTableScopeMap 1 = "" ∧
    parseMorkStream 60 { pending := MorkMagicHeader ++ bytes "<(1=a)>", eof := false } =
      Except.ok (some { initializeTableScopeMap with
        values := { entries := [makeMorkDictEntry 1 "a"] } }) :=
  ⟨by rfl, by rfl, by decide, by rfl⟩


/-! ## Rows at top level, row errors and bare row ids -/

theorem setCurrentRow_rows_path (m : MorkDb) (ts tid rs rid : Int) (hWF : IndexWF m) :
    (setCurrentRow { m with nowParsing := NowParsingType.NPRows } ts tid rs rid).activeCells =
      (setCurrentRow m ts tid rs rid).activeCells ∧
    cellsAt (setCurrentRow { m with nowParsing := NowParsingType.NPRows } ts tid rs rid)
        (effectiveScope m ts) tid (effectiveScope m rs) rid =
      (setCurrentRow m ts tid rs rid).activeCells ∧
    (setCurrentRow { m with nowParsing := NowParsingType.NPRows } ts tid rs rid).nowParsing =
      NowParsingType.NPRows := by
  have hWF0 : IndexWF { m with nowParsing := NowParsingType.NPRows } :=
    IndexWF_congr m _ rfl rfl hWF
  obtain ⟨_, hact0, _, hlook0⟩ := setCurrentRow_spec
    { m with nowParsing := NowParsingType.NPRows } ts tid rs rid hWF0
  have hlook := hlook0 (effectiveScope m ts) tid (effectiveScope m rs) rid
  have hes : ∀ x, effectiveScope { m with nowParsing := NowParsingType.NPRows } x =
      effectiveScope m x := fun _ => rfl
  rw [hes, hes] at hlook
  simp only [and_self, if_true] at hlook
  have hact1 := (setCurrentRow_spec m ts tid rs rid hWF).2.1
  have hc0 : ∀ a b c d, cellsAt { m with nowParsing := NowParsingType.NPRows } a b c d =
      cellsAt m a b c d := fun a b c d => cellsAt_congr m _ rfl rfl a b c d
  rw [hes, hes, hc0] at hact0
  have hlen0 : ({ m with nowParsing := NowParsingType.NPRows } : MorkDb).cellsHeap.length =
      m.cellsHeap.length := rfl
  rw [hlen0] at hact0
  have hsame : (setCurrentRow { m with nowParsing := NowParsingType.NPRows } ts tid rs
      rid).activeCells = (setCurrentRow m ts tid rs rid).activeCells := by
    rw [hact0, hact1]
  exact ⟨hsame, hlook.trans hsame,
    (setCurrentRow_frame { m with nowParsing := NowParsingType.NPRows } ts tid rs rid).2.2.1⟩

theorem parseMorkRow_header (rTok tail : List Nat) (d : Nat) (hd : d = 40 ∨ d = 93)
    (m : MorkDb) (tableId tableScope : Int) (fuel : Nat) (hr : rTok ≠ [])
    (hrb : ∀ x ∈ rTok, idByte x = true) (hrl : rTok.length < 512)
    (hfuel : rTok.length + 1 ≤ fuel) :
    parseMorkRow fuel { pending := rTok ++ d :: tail, eof := false } m tableId tableScope =
      parseMorkRowLoop fuel true (d : Int) { pending := tail, eof := false }
        (setCurrentRow { m with nowParsing := NowParsingType.NPRows } tableScope tableId
          (parseScopeId rTok 0).2 (parseScopeId rTok 0).1) := by
  cases rTok with
  | nil => exact absurd rfl hr
  | cons c tok =>
    simp only [List.length_cons] at hrl hfuel
    unfold parseMorkRow
    simp only [List.cons_append, morkgetc_cons]
    rw [parseMorkRowIdLoop_tok tail d hd tok c [] fuel (hrb c (List.mem_cons_self _ _))
      (fun x hx => hrb x (List.mem_cons_of_mem _ hx))
      (by simp only [List.length_nil]; omega) (by omega)]
    simp only [List.nil_append]
    rw [bufEnd_ok _ (by simp only [List.length_cons]; omega)]

/-- C26: a row block at top level whose header is a hex id `R` without a
scope (fitting an `int`, fewer than 512 digits) is parsed by `parseMorkRow`
with table id 0 and table scope 0.  Whatever follows the header, the row is
parsed from the database `setCurrentRow` gives: the target is Rows, and
`activeCells` is the Cell Set stored in the index at (0x80, 0, 0x80, hex R),
the default scope standing for both zero scopes; it is the Cell Set that
`setCurrentRow( m, 0, 0, 0, hex R )` selects, created if the path did not
exist.  After a row of cells closed by `]`, the target and `activeCells` are
still those, and the dispatch loop goes on. -/
theorem C26_top_level_row_resolves_path (m : MorkDb) (R : List Nat) (cells : List (List Nat))
    (rest tail : List Nat) (d fuel : Nat)
    (hWF : IndexWF m) (hH : HeapWF m) (hdef : m.defaultScope = 0x80)
    (hR : R ≠ []) (hRd : ∀ c ∈ R, isxdigit c = true) (hRv : hexValue R < 2 ^ 31)
    (hRl : R.length < 512) (hd : d = 40 ∨ d = 93)
    (hcells : ∀ b ∈ cells, (∀ x ∈ b, cellByte x = true) ∧ b.length < 512)
    (hfuel : R.length + (cellsText cells).length + 3 ≤ fuel) :
    (∃ p,
      (∀ r, parseMorkRowLoop fuel true (d : Int) { pending := tail, eof := false }
            (setCurrentRow { m with nowParsing := NowParsingType.NPRows } 0 0 0
              (hexValue R)) = Except.ok r →
        parseMorkStreamLoop (fuel + 1) true 91
            { pending := R ++ d :: tail, eof := false } m =
          parseMorkStreamLoop fuel r.1 (morkgetc r.2.1).1 (morkgetc r.2.1).2 r.2.2) ∧
      parseMorkRow fuel { pending := R ++ d :: tail, eof := false } m 0 0 =
        parseMorkRowLoop fuel true (d : Int) { pending := tail, eof := false }
          (setCurrentRow { m with nowParsing := NowParsingType.NPRows } 0 0 0 (hexValue R)) ∧
      (setCurrentRow { m with nowParsing := NowParsingType.NPRows } 0 0 0
        (hexValue R)).nowParsing = NowParsingType.NPRows ∧
      (setCurrentRow { m with nowParsing := NowParsingType.NPRows } 0 0 0
        (hexValue R)).activeCells = some p ∧
      cellsAt (setCurrentRow { m with nowParsing := NowParsingType.NPRows } 0 0 0
        (hexValue R)) 0x80 0 0x80 (hexValue R) = some p ∧
      (setCurrentRow m 0 0 0 (hexValue R)).activeCells = some p) ∧
    ∃ m2 p,
      parseMorkStreamLoop (fuel + 1) true 91
          { pending := R ++ (cellsText cells ++ 93 :: rest), eof := false } m =
        parseMorkStreamLoop fuel true (morkgetc { pending := rest, eof := false }).1
          (morkgetc { pending := rest, eof := false }).2 m2 ∧
      parseMorkRow fuel { pending := R ++ (cellsText cells ++ 93 :: rest), eof := false } m 0 0 =
        Except.ok (true, { pending := rest, eof := false }, m2) ∧
      m2.nowParsing = NowParsingType.NPRows ∧
      m2.activeCells = some p ∧
      cellsAt m2 0x80 0 0x80 (hexValue R) = some p ∧
      (setCurrentRow m 0 0 0 (hexValue R)).activeCells = some p := by
  obtain ⟨hsame, hlook, hrows⟩ := setCurrentRow_rows_path m 0 0 0 (hexValue R) hWF
  have he : effectiveScope m 0 = 0x80 := by
    unfold effectiveScope; rw [hdef]; rfl
  rw [he] at hlook
  constructor
  · have hact := (setCurrentRow_spec m 0 0 0 (hexValue R) hWF).2.1
    have hrow := parseMorkRow_header R tail d hd m 0 0 fuel hR
      (fun x hx => isxdigit_idByte x (hRd x hx)) hRl (by omega)
    rw [parseScopeId_hex R 0 hR hRd hRv] at hrow
    simp only [] at hrow
    refine ⟨_, ?_, hrow, hrows, hsame.trans hact, hlook.trans hact, hact⟩
    intro r hr
    rw [parseMorkStreamLoop]
    rw [if_pos ⟨rfl, by decide, rfl⟩, if_pos (by decide), if_neg (by decide),
      if_neg (by decide), if_neg (by decide), if_pos rfl, hrow, hr]
  · obtain ⟨m2, p, hparse, hact, hframe⟩ := parseMorkRow_cells rest R cells m 0 0 fuel hR
      (fun x hx => isxdigit_idByte x (hRd x hx)) hRl hcells hfuel hWF hH
    rw [parseScopeId_hex R 0 hR hRd hRv] at hact hframe
    simp only [] at hact hframe
    obtain ⟨hk, hen, ha, _, hnp, _, _⟩ := hframe
    refine ⟨m2, p, ?_, hparse, hnp.trans hrows, ha.trans hact, ?_, hsame ▸ hact⟩
    · rw [parseMorkStreamLoop]
      rw [if_pos ⟨rfl, by decide, rfl⟩, if_pos (by decide), if_neg (by decide),
        if_neg (by decide), if_neg (by decide), if_pos rfl, hparse]
    · rw [cellsAt_congr _ m2 hk hen, hlook, ← hsame]
      exact hact

set_option maxRecDepth 20000 in
/-- C26 on the row `[1F(^5^6)]` at the start of a parse. -/
theorem C26_top_level_row_resolves_path_witness :
    hexValue (bytes "1F") = 0x1F ∧
    (∃ m2 p,
      parseMorkStreamLoop (40 + 1) true 91
          { pending := bytes "1F" ++ (cellsText [bytes "^5^6"] ++ 93 :: []), eof := false }
          initializeTableScopeMap =
        parseMorkStreamLoop 40 true (morkgetc { pending := [], eof := false }).1
          (morkgetc { pending := [], eof := false }).2 m2 ∧
      parseMorkRow 40
          { pending := bytes "1F" ++ (cellsText [bytes "^5^6"] ++ 93 :: []), eof := false }
          initializeTableScopeMap 0 0 =
        Except.ok (true, { pending := [], eof := false }, m2) ∧
      m2.nowParsing = NowParsingType.NPRows ∧
      m2.activeCells = some p ∧
      cellsAt m2 0x80 0 0x80 (hexValue (bytes "1F")) = some p ∧
      (setCurrentRow initializeTableScopeMap 0 0 0 (hexValue (bytes "1F"))).activeCells =
        some p) ∧
    (match parseMorkStream 60
        { pending := MorkMagicHeader ++ bytes "[1F(^5^6)]", eof := false } with
      | Except.ok (some db) =>
        (db.nowParsing, db.activeCells, cellsAt db 0x80 0 0x80 0x1F, db.cellsHeap)
      | _ => (NowParsingType.NPValues, none, none, [])) =
      (NowParsingType.NPRows, some 0, some 0, [{ entries := [makeMorkCellEntry 5 6] }]) :=
  ⟨by decide,
   (C26_top_level_row_resolves_path initializeTableScopeMap (bytes "1F") [bytes "^5^6"] [] []
     40 40 initializeTableScopeMap_WF.1 initializeTableScopeMap_WF.2 rfl (by decide)
     (by decide) (by decide) (by decide) (Or.inl rfl) (by decide) (by decide)).2,
   by decide⟩

theorem parseMorkCellSwitch_plain_u (x : Nat) (st : CellState)
    (h92 : x ≠ 92) (h36 : x ≠ 36) (hc : st.column.length < 512) (ht : st.text.length < 512) :
    ∃ st2, (∀ ifp, parseMorkCellSwitch x ifp st = Except.ok (ifp, st2)) ∧
      st2.column.length ≤ st.column.length + 1 ∧ st2.text.length ≤ st.text.length + 1 := by
  obtain ⟨st2, hs, h1, h2⟩ := parseMorkCellSwitch_plain x { pending := [], eof := false } st
    h92 h36 hc ht
  refine ⟨st2, ?_, h1, h2⟩
  intro ifp
  unfold parseMorkCellSwitch at hs ⊢
  simp only [h92, h36, if_false, bufPut_ok _ _ hc, bufPut_ok _ _ ht] at hs ⊢
  split_ifs at hs ⊢ <;> simp_all

theorem parseMorkCellLoop_plain_u (body : List Nat) :
    ∀ (st : CellState), (∀ x ∈ body, cellByte x = true) →
      st.column.length + body.length < 512 → st.text.length + body.length < 512 →
      ∃ st2,
        (∀ (rest : List Nat) (fuel : Nat), body.length + 1 ≤ fuel →
          parseMorkCellLoop fuel
              (toChar (morkgetc { pending := body ++ 41 :: rest, eof := false }).1)
              (morkgetc { pending := body ++ 41 :: rest, eof := false }).2 st =
            Except.ok ({ pending := rest, eof := false }, st2)) ∧
        st2.column.length ≤ st.column.length + body.length ∧
        st2.text.length ≤ st.text.length + body.length := by
  induction body with
  | nil =>
    intro st _ _ _
    refine ⟨st, ?_, by simp, by simp⟩
    intro rest fuel hfuel
    obtain ⟨f, rfl⟩ : ∃ f, fuel = f + 1 := ⟨fuel - 1, by simp at hfuel; omega⟩
    exact parseMorkCellLoop_close rest st f
  | cons x xs ih =>
    intro st hb hcl htl
    have hx : 0 < x ∧ x < 256 ∧ x ≠ 41 ∧ x ≠ 92 ∧ x ≠ 36 := by
      simpa [cellByte] using hb x (List.mem_cons_self _ _)
    simp only [List.length_cons] at hcl htl
    obtain ⟨st1, hs1, hc1, ht1⟩ := parseMorkCellSwitch_plain_u x st hx.2.2.2.1 hx.2.2.2.2
      (by omega) (by omega)
    obtain ⟨st2, hs2, hc2, ht2⟩ := ih st1 (fun y hy => hb y (List.mem_cons_of_mem _ hy))
      (by omega) (by omega)
    refine ⟨st2, ?_, by simp only [List.length_cons]; omega,
      by simp only [List.length_cons]; omega⟩
    intro rest fuel hfuel
    simp only [List.length_cons] at hfuel
    obtain ⟨f, rfl⟩ : ∃ f, fuel = f + 1 := ⟨fuel - 1, by omega⟩
    rw [show (x :: xs) ++ 41 :: rest = x :: (xs ++ 41 :: rest) from rfl,
      parseMorkCellLoop_step x _ st st1 f hx.2.1 hx.2.2.1 (by omega) (hs1 _)]
    exact hs2 rest f (by omega)

theorem parseMorkCell_plain_u (body : List Nat) (m : MorkDb) (p : Nat)
    (hb : ∀ x ∈ body, cellByte x = true) (hlen : body.length < 512)
    (hp : m.activeCells = some p) (hlt : p < m.cellsHeap.length) :
    ∃ m2,
      (∀ (rest : List Nat) (fuel : Nat), body.length + 1 ≤ fuel →
        parseMorkCell fuel { pending := body ++ 41 :: rest, eof := false } m =
          Except.ok (true, { pending := rest, eof := false }, m2)) ∧
      CellFrame m m2 p := by
  obtain ⟨st2, hs2, hc2, ht2⟩ := parseMorkCellLoop_plain_u body
    { columnIsObjectId := false, valueIsObjectId := false, bColumn := true, corners := 0,
      column := [], text := [] } hb (by simpa using hlen) (by simpa using hlen)
  simp only [List.length_nil, Nat.zero_add] at hc2 ht2
  obtain ⟨m2, hm2, hframe⟩ := parseMorkCellApply_frame m st2.valueIsObjectId st2.column
    st2.text p hp hlt
  refine ⟨m2, ?_, hframe⟩
  intro rest fuel hfuel
  unfold parseMorkCell
  rw [hs2 rest fuel hfuel]
  simp only [bufEnd_ok st2.column (by omega), bufEnd_ok st2.text (by omega), hm2]

theorem parseMorkRowLoop_cells_u (p : Nat) (cells : List (List Nat)) :
    ∀ (m : MorkDb), (∀ b ∈ cells, (∀ x ∈ b, cellByte x = true) ∧ b.length < 512) →
      m.activeCells = some p → p < m.cellsHeap.length →
      ∃ m2, CellFrame m m2 p ∧
        ∀ (tail : List Nat) (f : Nat), (∀ b ∈ cells, b.length + 1 ≤ f) →
          parseMorkRowLoop (cells.length + f) true
              (morkgetc { pending := cellsText cells ++ tail, eof := false }).1
              (morkgetc { pending := cellsText cells ++ tail, eof := false }).2 m =
            parseMorkRowLoop f true (morkgetc { pending := tail, eof := false }).1
              (morkgetc { pending := tail, eof := false }).2 m2 := by
  induction cells with
  | nil =>
    intro m _ _ _
    refine ⟨m, CellFrame_refl m p, ?_⟩
    intro tail f _
    simp [cellsText]
  | cons b bs ih =>
    intro m hcells hp hlt
    have hb := hcells b (List.mem_cons_self _ _)
    obtain ⟨m1, hm1, hf1⟩ := parseMorkCell_plain_u b m p hb.1 hb.2 hp hlt
    obtain ⟨m2, hf2, hm2⟩ := ih m1 (fun b2 hb2 => hcells b2 (List.mem_cons_of_mem _ hb2))
      (by rw [hf1.2.2.1, hp]) (by rw [hf1.2.2.2.2.2.1]; exact hlt)
    refine ⟨m2, CellFrame_trans m m1 m2 p hf1 hf2, ?_⟩
    intro tail f hf
    have hfb := hf b (List.mem_cons_self _ _)
    have hfuel : (b :: bs).length + f = (bs.length + f) + 1 := by
      simp only [List.length_cons]; omega
    rw [hfuel]
    simp only [cellsText, List.cons_append, List.append_assoc, morkgetc_cons, Nat.cast_ofNat]
    rw [parseMorkRowLoop]
    rw [if_pos ⟨rfl, by decide, by decide⟩, if_pos (by decide), if_pos rfl,
      hm1 (cellsText bs ++ tail) (bs.length + f) (by omega)]
    exact hm2 tail f (fun b2 hb2 => hf b2 (List.mem_cons_of_mem _ hb2))


theorem cell_length_le_cellsText (cells : List (List Nat)) :
    ∀ b ∈ cells, b.length + 2 ≤ (cellsText cells).length := by
  induction cells with
  | nil => intro b hb; cases hb
  | cons c cs ih =>
    intro b hb
    simp only [cellsText, List.length_cons, List.length_append]
    rcases List.mem_cons.1 hb with rfl | h
    · omega
    · have := ih b h
      omega

theorem cells_length_le_cellsText (cells : List (List Nat)) :
    cells.length ≤ (cellsText cells).length := by
  induction cells with
  | nil => simp
  | cons c cs ih =>
    simp only [cellsText, List.length_cons, List.length_append]
    omega

theorem parseMorkRow_cells_then (rTok : List Nat) (cells : List (List Nat)) (m : MorkDb)
    (tableId tableScope : Int) (hr : rTok ≠ []) (hc : cells ≠ [])
    (hrb : ∀ x ∈ rTok, idByte x = true) (hrl : rTok.length < 512)
    (hcells : ∀ b ∈ cells, (∀ x ∈ b, cellByte x = true) ∧ b.length < 512)
    (hWF : IndexWF m) (hH : HeapWF m) :
    ∃ m2 p,
      (setCurrentRow { m with nowParsing := NowParsingType.NPRows } tableScope tableId
        (parseScopeId rTok 0).2 (parseScopeId rTok 0).1).activeCells = some p ∧
      CellFrame
        (setCurrentRow { m with nowParsing := NowParsingType.NPRows } tableScope tableId
          (parseScopeId rTok 0).2 (parseScopeId rTok 0).1) m2 p ∧
      ∀ (tail : List Nat) (f : Nat), rTok.length + (cellsText cells).length + 1 ≤ f →
        parseMorkRow (cells.length + f)
            { pending := rTok ++ (cellsText cells ++ tail), eof := false } m
            tableId tableScope =
          parseMorkRowLoop f true (morkgetc { pending := tail, eof := false }).1
            (morkgetc { pending := tail, eof := false }).2 m2 := by
  have hWF0 : IndexWF { m with nowParsing := NowParsingType.NPRows } :=
    IndexWF_congr m _ rfl rfl hWF
  have hH0 : HeapWF { m with nowParsing := NowParsingType.NPRows } :=
    HeapWF_congr m _ rfl rfl rfl rfl hH
  obtain ⟨_, hact, _, _⟩ := setCurrentRow_spec { m with nowParsing := NowParsingType.NPRows }
    tableScope tableId (parseScopeId rTok 0).2 (parseScopeId rTok 0).1 hWF0
  have hH1 := setCurrentRow_heapWF { m with nowParsing := NowParsingType.NPRows }
    tableScope tableId (parseScopeId rTok 0).2 (parseScopeId rTok 0).1 hWF0 hH0
  obtain ⟨m2, hframe, hloop⟩ := parseMorkRowLoop_cells_u _ cells
    (setCurrentRow { m with nowParsing := NowParsingType.NPRows } tableScope tableId
      (parseScopeId rTok 0).2 (parseScopeId rTok 0).1) hcells hact (hH1.2.2 _ hact)
  refine ⟨m2, _, hact, hframe, ?_⟩
  intro tail f hfuel
  cases rTok with
  | nil => exact absurd rfl hr
  | cons c tok =>
    cases cells with
    | nil => exact absurd rfl hc
    | cons b bs =>
      simp only [List.length_cons] at hrl hfuel
      have hid := parseMorkRowIdLoop_tok (b ++ 41 :: (cellsText bs ++ tail)) 40
        (Or.inl rfl) tok c [] ((b :: bs).length + f)
        (hrb c (List.mem_cons_self _ _)) (fun y hy => hrb y (List.mem_cons_of_mem _ hy))
        (by simp; omega) (by omega)
      have hl := hloop tail f (fun b2 hb2 => by
        have := cell_length_le_cellsText (b :: bs) b2 hb2
        omega)
      simp only [cellsText, List.cons_append, List.append_assoc, morkgetc_cons,
        Nat.cast_ofNat] at hl hid
      unfold parseMorkRow
      simp only [cellsText, List.cons_append, List.append_assoc, morkgetc_cons, hid,
        List.nil_append, bufEnd_ok (c :: tok) (by simp; omega), Nat.cast_ofNat]
      exact hl

theorem parseMorkTableJustIdLoop_brace (rest : List Nat) (tok : List Nat) :
    ∀ (c : Nat) (acc : List Nat) (fuel : Nat), idByte c = true →
      (∀ x ∈ tok, idByte x = true) → acc.length + tok.length + 1 < 512 →
      tok.length + 1 ≤ fuel →
      parseMorkTableJustIdLoop fuel c { pending := tok ++ 125 :: rest, eof := false } acc =
        Except.ok (true, 125, { pending := rest, eof := false }, acc ++ c :: tok) := by
  induction tok with
  | nil =>
    intro c acc fuel hc _ hlen hfuel
    obtain ⟨f, rfl⟩ : ∃ f, fuel = f + 1 := ⟨fuel - 1, by simp at hfuel; omega⟩
    have hf := idByte_facts c hc
    have hsp : isspace (c : Int) = false := isspace_false_of_ne c hf.2.2.1 hf.2.2.2.1
    simp only [List.length_nil, Nat.add_zero] at hlen
    have h125 : toChar ((125 : Nat) : Int) = 125 := rfl
    rw [parseMorkTableJustIdLoop]
    rw [if_pos ⟨by omega, hsp⟩, bufPut_ok _ _ (by omega)]
    simp only [List.nil_append, morkgetc_cons, h125, if_true]
  | cons y ys ih =>
    intro c acc fuel hc hb hlen hfuel
    simp only [List.length_cons] at hlen hfuel
    obtain ⟨f, rfl⟩ : ∃ f, fuel = f + 1 := ⟨fuel - 1, by omega⟩
    have hf := idByte_facts c hc
    have hy := hb y (List.mem_cons_self _ _)
    have hfy := idByte_facts y hy
    have hsp : isspace (c : Int) = false := isspace_false_of_ne c hf.2.2.1 hf.2.2.2.1
    rw [parseMorkTableJustIdLoop]
    rw [if_pos ⟨by omega, hsp⟩, bufPut_ok _ _ (by omega)]
    simp only [List.cons_append, morkgetc_cons, toChar_cast y hfy.2.1]
    rw [if_neg (by omega)]
    rw [ih y (acc ++ [c]) f hy (fun z hz => hb z (List.mem_cons_of_mem _ hz))
      (by simp only [List.length_append, List.length_cons, List.length_nil]; omega)
      (by omega)]
    simp

theorem parseMorkTableJustIdLoop_space (rest : List Nat) (w : Nat)
    (hw : isspace (w : Int) = true) (hw2 : w < 256) (tok : List Nat) :
    ∀ (c : Nat) (acc : List Nat) (fuel : Nat), idByte c = true →
      (∀ x ∈ tok, idByte x = true) → acc.length + tok.length + 1 < 512 →
      tok.length + 2 ≤ fuel →
      parseMorkTableJustIdLoop fuel c { pending := tok ++ w :: rest, eof := false } acc =
        Except.ok (false, w, { pending := rest, eof := false }, acc ++ c :: tok) := by
  have hw125 : w ≠ 125 := by
    intro h; subst h; revert hw; decide
  induction tok with
  | nil =>
    intro c acc fuel hc _ hlen hfuel
    obtain ⟨f, rfl⟩ : ∃ f, fuel = f + 2 := ⟨fuel - 2, by simp at hfuel; omega⟩
    have hf := idByte_facts c hc
    have hsp : isspace (c : Int) = false := isspace_false_of_ne c hf.2.2.1 hf.2.2.2.1
    simp only [List.length_nil, Nat.add_zero] at hlen
    rw [show f + 2 = (f + 1) + 1 from rfl, parseMorkTableJustIdLoop]
    rw [if_pos ⟨by omega, hsp⟩, bufPut_ok _ _ (by omega)]
    simp only [List.nil_append, morkgetc_cons, toChar_cast w hw2]
    rw [if_neg hw125, parseMorkTableJustIdLoop]
    rw [if_neg (by simp [hw])]
  | cons y ys ih =>
    intro c acc fuel hc hb hlen hfuel
    simp only [List.length_cons] at hlen hfuel
    obtain ⟨f, rfl⟩ : ∃ f, fuel = f + 1 := ⟨fuel - 1, by omega⟩
    have hf := idByte_facts c hc
    have hy := hb y (List.mem_cons_self _ _)
    have hfy := idByte_facts y hy
    have hsp : isspace (c : Int) = false := isspace_false_of_ne c hf.2.2.1 hf.2.2.2.1
    rw [parseMorkTableJustIdLoop]
    rw [if_pos ⟨by omega, hsp⟩, bufPut_ok _ _ (by omega)]
    simp only [List.cons_append, morkgetc_cons, toChar_cast y hfy.2.1]
    rw [if_neg (by omega)]
    rw [ih y (acc ++ [c]) f hy (fun z hz => hb z (List.mem_cons_of_mem _ hz))
      (by simp only [List.length_append, List.length_cons, List.length_nil]; omega)
      (by omega)]
    simp

/-- C24: a bare row id in a table body is given to `setCurrentRow` only when
white space follows it.  When the token `c tok` is followed by white space
the table loop goes on with the database that
`setCurrentRow( m, scope, id, rowScope, rowId )` leaves, so the row is in the
index and is the active one; when it is directly followed by the closing
brace, `parseMorkTable` takes its `return result` inside the loop that reads
the token, before the call of `setCurrentRow`: the table ends with the
database unchanged, and the row is not entered in the index. -/
theorem C24_bare_id_before_brace_not_registered (m : MorkDb) (c w : Nat) (tok rest : List Nat)
    (id scope : Int) (fuel : Nat)
    (hc : idByte c = true) (hc2 : c ≠ 45 ∧ c ≠ 43) (ht : ∀ x ∈ tok, idByte x = true)
    (hlen : tok.length + 1 < 512) (hw : isspace (w : Int) = true) (hw2 : w < 256)
    (hfuel : tok.length + 2 ≤ fuel) :
    parseMorkTableLoop id scope (fuel + 1) true c
        { pending := tok ++ 125 :: rest, eof := false } m =
      Except.ok (true, { pending := rest, eof := false }, m) ∧
    parseMorkTableLoop id scope (fuel + 1) true c
        { pending := tok ++ w :: rest, eof := false } m =
      parseMorkTableLoop id scope fuel true
        (toChar (morkgetc { pending := rest, eof := false }).1)
        (morkgetc { pending := rest, eof := false }).2
        (setCurrentRow m scope id (parseScopeId (c :: tok) 0).2
          (parseScopeId (c :: tok) 0).1) := by
  have hf := idByte_facts c hc
  have hsp : isspace (c : Int) = false := isspace_false_of_ne c hf.2.2.1 hf.2.2.2.1
  constructor
  · rw [parseMorkTableLoop]
    rw [if_pos ⟨rfl, by omega, by omega⟩, if_pos hsp, if_neg (by omega), if_neg (by omega),
      if_neg (by omega)]
    rw [parseMorkTableJustIdLoop_brace rest tok c [] fuel hc ht (by simpa using hlen)
      (by omega)]
    simp
  · rw [parseMorkTableLoop]
    rw [if_pos ⟨rfl, by omega, by omega⟩, if_pos hsp, if_neg (by omega), if_neg (by omega),
      if_neg (by omega)]
    rw [parseMorkTableJustIdLoop_space rest w hw hw2 tok c [] fuel hc ht
      (by simpa using hlen) hfuel]
    simp only [Bool.false_eq_true, if_false, List.nil_append]
    rw [bufEnd_ok _ (by simp only [List.length_cons]; omega)]

/-- C24 on the table `\x7b1\x7bm\x7d 5\x7d`: the parse returns the initial
database, without the row (0x80, 1, 0x80, 5), while `\x7b1\x7bm\x7d 5 \x7d`
gives a database with this row, empty and active. -/
theorem C24_bare_id_before_brace_not_registered_witness :
    parseMorkTableLoop 1 0 (20 + 1) true 53 { pending := [] ++ 125 :: [], eof := false }
        initializeTableScopeMap =
      Except.ok (true, { pending := [], eof := false }, initializeTableScopeMap) ∧
    parseMorkStream 60
        { pending := MorkMagicHeader ++ bytes "\x7b1\x7bm\x7d 5\x7d", eof := false } =
      Except.ok (some initializeTableScopeMap) ∧
    cellsAt initializeTableScopeMap 0x80 1 0x80 5 = none ∧
    initializeTableScopeMap.activeCells = none ∧
    (match parseMorkStream 60
        { pending := MorkMagicHeader ++ bytes "\x7b1\x7bm\x7d 5 \x7d", eof := false } with
      | Except.ok (some db) => (cellsAt db 0x80 1 0x80 5, db.activeCells, db.cellsHeap)
      | _ => (none, none, [])) = (some 0, some 0, [makeMorkCells]) :=
  ⟨(C24_bare_id_before_brace_not_registered initializeTableScopeMap 53 32 [] [] 1 0 20
      (by decide) (by decide) (by decide) (by decide) (by decide) (by decide) (by decide)).1,
   by rfl, by decide, by decide, by decide⟩


/-! ## Groups: commit, discard, and the content buffer -/

theorem parseMorkGroupContentLoop_plain (tail : List Nat) (B : List Nat) :
    ∀ (content : List Nat) (size0 f : Nat),
      (∀ c ∈ B, 0 < c ∧ c < 256 ∧ c ≠ 64 ∧ c ≠ 92) →
      size0 = 512 * ((content.length + 511) / 512) →
      parseMorkGroupContentLoop (B.length + f) true
          (morkgetc { pending := B ++ tail, eof := false }).1
          (morkgetc { pending := B ++ tail, eof := false }).2 content size0 =
        parseMorkGroupContentLoop f true
          (morkgetc { pending := tail, eof := false }).1
          (morkgetc { pending := tail, eof := false }).2 (content ++ B)
          (512 * ((content.length + B.length + 511) / 512)) := by
  induction B with
  | nil =>
    intro content size0 f _ hsize
    simp [hsize]
  | cons x xs ih =>
    intro content size0 f hb hsize
    have hx := hb x (List.mem_cons_self _ _)
    have hfuel : (x :: xs).length + f = (xs.length + f) + 1 := by
      simp only [List.length_cons]; omega
    have hsz : (if content.length ≥ size0 then size0 + 512 else size0) =
        512 * (content.length / 512 + 1) := by
      split_ifs <;> omega
    rw [hfuel]
    simp only [List.cons_append, morkgetc_cons]
    rw [parseMorkGroupContentLoop]
    rw [if_pos ⟨rfl, by omega, rfl⟩]
    simp only [hsz]
    rw [if_neg (by omega), if_neg (by omega), toChar_cast x hx.2.1]
    rw [contentPut_ok _ _ _ (by omega)]
    simp only []
    have h := ih (content ++ [x]) (512 * (content.length / 512 + 1)) f
      (fun c hc => hb c (List.mem_cons_of_mem _ hc))
      (by simp only [List.length_append, List.length_cons, List.length_nil]; omega)
    rw [h]
    simp only [List.length_append, List.length_cons, List.length_nil, List.append_assoc,
      List.singleton_append]
    rw [show content.length + (0 + 1) + xs.length = content.length + (xs.length + 1) by omega]

theorem parseMorkGroupContentLoop_overflow (rest : List Nat) (content : List Nat)
    (size0 f : Nat) (hsize : size0 = 512 * ((content.length + 511) / 512))
    (hmod : 510 ≤ content.length % 512) :
    parseMorkGroupContentLoop (f + 1) true
        (morkgetc { pending := 64 :: 36 :: 36 :: rest, eof := false }).1
        (morkgetc { pending := 64 :: 36 :: 36 :: rest, eof := false }).2 content size0 =
      Except.error Fault.overflow := by
  have hsz : (if content.length ≥ size0 then size0 + 512 else size0) =
      512 * (content.length / 512 + 1) := by
    split_ifs <;> omega
  have h64 : toChar ((64 : Nat) : Int) = 64 := rfl
  have h36 : toChar ((36 : Nat) : Int) = 36 := rfl
  simp only [morkgetc_cons]
  rw [parseMorkGroupContentLoop]
  rw [if_pos ⟨rfl, by decide, rfl⟩]
  simp only [hsz]
  rw [if_neg (by decide), if_pos (by decide)]
  simp only [morkgetc_cons, h64, h36]
  rw [contentPut_ok _ _ _ (by omega)]
  simp only []
  by_cases h511 : content.length % 512 = 511
  · have : ¬ (content ++ [64]).length < 512 * (content.length / 512 + 1) := by
      simp only [List.length_append, List.length_cons, List.length_nil]; omega
    simp only [contentPut, this, if_false]
  · rw [contentPut_ok _ _ _
      (by simp only [List.length_append, List.length_cons, List.length_nil]; omega)]
    simp only []
    rw [if_pos (by decide)]
    have : ¬ (content ++ [64] ++ [36]).length < 512 * (content.length / 512 + 1) := by
      simp only [List.length_append, List.length_cons, List.length_nil]; omega
    simp only [contentPut, this, if_false]

theorem parseMorkGroup_head (G tail : List Nat) (fuel : Nat)
    (hG : G ≠ []) (hGd : ∀ c ∈ G, isxdigit c = true) (hGl : G.length ≤ 59)
    (hfuel : G.length + 5 ≤ fuel) :
    parseMorkGroupMarkLoop fuel
        (morkgetc { pending := 36 :: 36 :: 123 :: (G ++ 123 :: 64 :: tail), eof := false }).1
        (morkgetc { pending := 36 :: 36 :: 123 :: (G ++ 123 :: 64 :: tail), eof := false }).2
        [] =
      Except.ok ({ pending := tail, eof := false }, 36 :: 36 :: 123 :: (G ++ [123])) ∧
    ((36 :: 36 :: 123 :: (G ++ [123])).length > 4 ∧
      (36 :: 36 :: 123 :: (G ++ [123])).getLast? = some 123 ∧
      (36 :: 36 :: 123 :: (G ++ [123])).take 3 = bytes "$$\x7b" ∧
      isxdigit ((36 :: 36 :: 123 :: (G ++ [123])).getD 3 0) = true) := by
  have hGb : ∀ c ∈ G, 0 < c ∧ c < 256 ∧ c ≠ 64 := by
    intro c hc
    have := isxdigit_range c (hGd c hc)
    omega
  obtain ⟨g, gs, rfl⟩ : ∃ g gs, G = g :: gs := by
    cases G with
    | nil => exact absurd rfl hG
    | cons g gs => exact ⟨g, gs, rfl⟩
  have hg := hGd g (List.mem_cons_self _ _)
  constructor
  · obtain ⟨f, rfl⟩ : ∃ f, fuel = (36 :: 36 :: 123 :: ((g :: gs) ++ [123])).length + (f + 1) :=
      ⟨fuel - ((36 :: 36 :: 123 :: ((g :: gs) ++ [123])).length + 1), by
        simp only [List.length_cons, List.length_append, List.length_nil] at hfuel ⊢; omega⟩
    have h := parseMorkGroupMarkLoop_tok tail (36 :: 36 :: 123 :: ((g :: gs) ++ [123])) [] f
      (by
        intro c hc
        simp only [List.mem_cons, List.mem_append, List.mem_singleton, List.not_mem_nil,
          or_false] at hc
        rcases hc with rfl | rfl | rfl | hc | rfl
        · decide
        · decide
        · decide
        · exact hGb c (by simpa using hc)
        · decide)
      (by simp only [List.length_cons, List.length_append, List.length_nil] at hGl ⊢; omega)
    simp only [List.nil_append] at h
    rw [← h]
    simp
  · exact ⟨by simp, getLast?_mark _ _ _ _ _,
      by simp only [List.take_succ_cons, List.take_zero]; decide, by simpa using hg⟩

theorem parseMorkGroup_overflow (G B tail : List Nat) (fuel : Nat)
    (hG : G ≠ []) (hGd : ∀ c ∈ G, isxdigit c = true) (hGl : G.length ≤ 59)
    (hB : ∀ c ∈ B, 0 < c ∧ c < 256 ∧ c ≠ 64 ∧ c ≠ 92) (hBl : 510 ≤ B.length % 512)
    (hfuel : G.length + B.length + 6 ≤ fuel) :
    parseMorkGroup fuel
        { pending := 36 :: 36 :: 123 :: (G ++ 123 :: 64 :: (B ++ 64 :: 36 :: 36 :: tail)),
          eof := false } =
      Except.error Fault.overflow := by
  obtain ⟨hhead, htest⟩ := parseMorkGroup_head G (B ++ 64 :: 36 :: 36 :: tail) fuel hG hGd hGl
    (by omega)
  obtain ⟨f, hf⟩ : ∃ f, fuel = B.length + (f + 1) := ⟨fuel - (B.length + 1), by omega⟩
  unfold parseMorkGroup
  rw [hhead]
  simp only []
  rw [if_pos htest]
  conv_lhs => rw [hf]
  rw [parseMorkGroupContentLoop_plain (64 :: 36 :: 36 :: tail) B [] 0 (f + 1) hB (by simp)]
  rw [parseMorkGroupContentLoop_overflow tail ([] ++ B) _ f
    (by simp) (by simpa using hBl)]

theorem parseMorkGroup_footer (G B X R : List Nat) (fuel : Nat)
    (hG : G ≠ []) (hGd : ∀ c ∈ G, isxdigit c = true) (hGl : G.length ≤ 59)
    (hB : ∀ c ∈ B, 0 < c ∧ c < 255 ∧ c ≠ 64 ∧ c ≠ 92) (hBl : B.length % 512 ≤ 509)
    (hX : ∀ c ∈ X, 0 < c ∧ c < 256 ∧ c ≠ 64)
    (hfuel : G.length + B.length + X.length + 6 ≤ fuel) :
    parseMorkGroup fuel { pending := groupWith G B X ++ R, eof := false } =
      if isCommitFooter ((36 :: 36 :: X).take 63) = true ∧
          toInt32 (strtol16 (G ++ [123])) =
            toInt32 (strtol16 (((36 :: 36 :: X).take 63).drop 3)) then
        Except.ok (true, { pending := B ++ R, eof := false })
      else Except.ok (true, { pending := R, eof := false }) := by
  obtain ⟨hhead, htest⟩ := parseMorkGroup_head G
    (B ++ 64 :: 36 :: 36 :: (X ++ 64 :: R)) fuel hG hGd hGl (by omega)
  have hcont : ∀ f, parseMorkGroupContentLoop (B.length + (f + 2)) true
      (morkgetc
        { pending := B ++ 64 :: 36 :: 36 :: (X ++ 64 :: R), eof := false }).1
      (morkgetc
        { pending := B ++ 64 :: 36 :: 36 :: (X ++ 64 :: R), eof := false }).2 [] 0 =
      Except.ok ({ pending := 36 :: 36 :: (X ++ 64 :: R), eof := false },
        B, 512 * (B.length / 512 + 1)) := by
    intro f
    have h := parseMorkGroupContentLoop_body (X ++ 64 :: R) B [] 0 f
      (fun c hc => by have := hB c hc; omega) (by simp) (by simpa using hBl)
    simpa using h
  have hfoot : parseMorkGroupMarkLoop fuel
      (morkgetc { pending := 36 :: 36 :: (X ++ 64 :: R), eof := false }).1
      (morkgetc { pending := 36 :: 36 :: (X ++ 64 :: R), eof := false }).2 [] =
      Except.ok ({ pending := R, eof := false }, (36 :: 36 :: X).take 63) := by
    obtain ⟨f, rfl⟩ : ∃ f, fuel = (36 :: 36 :: X).length + (f + 1) :=
      ⟨fuel - ((36 :: 36 :: X).length + 1), by
        simp only [List.length_cons] at hfuel ⊢; omega⟩
    have h := parseMorkGroupMarkLoop_trunc R (36 :: 36 :: X) [] f
      (by
        intro c hc
        simp only [List.mem_cons] at hc
        rcases hc with rfl | rfl | hc
        · decide
        · decide
        · exact hX c hc)
      (by simp)
    simp only [List.nil_append] at h
    rw [← h]
    simp
  obtain ⟨f, hf⟩ : ∃ f, fuel = B.length + (f + 2) := ⟨fuel - (B.length + 2), by omega⟩
  have hin : groupWith G B X ++ R =
      36 :: 36 :: 123 :: (G ++ 123 :: 64 :: (B ++ 64 :: 36 :: 36 :: (X ++ 64 :: R))) := by
    simp [groupWith]
  unfold parseMorkGroup
  rw [hin, hhead]
  simp only []
  rw [if_pos htest]
  conv_lhs => rw [hf]
  rw [hcont f]
  simp only []
  rw [if_neg (by omega), if_neg (by simp; omega)]
  rw [← hf, hfoot]
  simp only [List.drop_succ_cons, List.drop_zero]
  have hpush := pushBackContent_all B.reverse R false
    (fun c hc => (hB c (List.mem_reverse.1 hc)).2.1)
  simp only [List.reverse_reverse] at hpush
  by_cases hc : isCommitFooter ((36 :: 36 :: X).take 63) = true
  · have hc2 := hc
    simp only [isCommitFooter, decide_eq_true_eq] at hc2
    rw [if_pos hc2]
    by_cases hid : toInt32 (strtol16 (G ++ [123])) =
        toInt32 (strtol16 (((36 :: 36 :: X).take 63).drop 3))
    · rw [if_neg (not_not.2 hid), if_pos ⟨hc, hid⟩, hpush]
      simp
    · rw [if_pos hid, if_neg (fun h => hid h.2)]
  · have hc2 := hc
    simp only [isCommitFooter, decide_eq_true_eq] at hc2
    have hr : ¬ (isCommitFooter ((36 :: 36 :: X).take 63) = true ∧
        toInt32 (strtol16 (G ++ [123])) =
          toInt32 (strtol16 (((36 :: 36 :: X).take 63).drop 3))) := fun h => hc h.1
    rw [if_neg hc2]
    simp only [hr, if_false]
    split_ifs <;> rfl


theorem groupText_eq_groupWith (G B : List Nat) :
    groupText G B = groupWith G B (125 :: (G ++ [125])) := by
  simp [groupText, groupWith]

/-- C21: for a hex group id `G` of at most 59 digits, a body `B` of bytes
from 1 to 254 with neither `@` nor backslash, and any remaining input `R`,
`parseMorkGroup` on `$$\x7bG\x7b@ B @$$\x7dG\x7d@ R` leaves exactly `B` followed by `R` to
be read, and the parse of the wrapped input is the parse of `B` followed by
`R`, when the length of `B` is at most 509 modulo 512.  When it is 510 or 511
modulo 512 the bytes `@$$` of the terminator are stored past the end of the
content buffer, which is grown for one byte only at each turn of the loop:
the run ends in a buffer overflow. -/
theorem C21_group_commit_overflows_buffer (G B R : List Nat) (fuel : Nat)
    (hG : G ≠ []) (hGd : ∀ c ∈ G, isxdigit c = true) (hGl : G.length ≤ 59)
    (hB : ∀ c ∈ B, 0 < c ∧ c < 255 ∧ c ≠ 64 ∧ c ≠ 92)
    (hfuel : G.length + B.length + 6 ≤ fuel) :
    (B.length % 512 ≤ 509 →
      parseMorkGroup fuel { pending := groupText G B ++ R, eof := false } =
        Except.ok (true, { pending := B ++ R, eof := false }) ∧
      parseMorkStream (fuel + 1)
          { pending := MorkMagicHeader ++ 64 :: (groupText G B ++ R), eof := false } =
        parseMorkStream fuel { pending := MorkMagicHeader ++ (B ++ R), eof := false }) ∧
    (510 ≤ B.length % 512 →
      parseMorkGroup fuel { pending := groupText G B ++ R, eof := false } =
        Except.error Fault.overflow ∧
      parseMorkStream (fuel + 1)
          { pending := MorkMagicHeader ++ 64 :: (groupText G B ++ R), eof := false } =
        Except.error Fault.overflow) := by
  constructor
  · intro hBl
    exact ⟨parseMorkGroup_commit G B R fuel hG hGd hGl hB hBl hfuel,
      parseMorkStream_group_commit G B R fuel hG hGd hGl hB hBl hfuel⟩
  · intro hBl
    have hov : parseMorkGroup fuel { pending := groupText G B ++ R, eof := false } =
        Except.error Fault.overflow := by
      have h := parseMorkGroup_overflow G B (125 :: (G ++ 125 :: 64 :: R)) fuel hG hGd hGl
        (fun c hc => by have := hB c hc; omega) hBl hfuel
      have hin : groupText G B ++ R =
          36 :: 36 :: 123 :: (G ++ 123 :: 64 :: (B ++ 64 :: 36 :: 36 ::
            (125 :: (G ++ 125 :: 64 :: R)))) := by
        simp [groupText]
      rw [hin]
      exact h
    refine ⟨hov, ?_⟩
    rw [parseMorkStream_header]
    simp only [morkgetc_cons, Nat.cast_ofNat]
    rw [parseMorkStreamLoop]
    rw [if_pos ⟨rfl, by decide, rfl⟩, if_pos (by decide), if_neg (by decide),
      if_neg (by decide), if_neg (by decide), if_neg (by decide), if_pos (by decide), hov]

/-- C21 on the group `1` whose body is the dictionary `<(1=aa..a)>` of 510
bytes: the wrapped input overflows the content buffer. -/
theorem C21_group_commit_overflows_buffer_witness :
    (bytes "<(1=" ++ (List.replicate 504 97 ++ bytes ")>")).length = 510 ∧
    parseMorkGroup 600
        { pending := groupText (bytes "1")
            (bytes "<(1=" ++ (List.replicate 504 97 ++ bytes ")>")) ++ [],
          eof := false } =
      Except.error Fault.overflow ∧
    parseMorkStream (600 + 1)
        { pending := MorkMagicHeader ++ 64 :: (groupText (bytes "1")
            (bytes "<(1=" ++ (List.replicate 504 97 ++ bytes ")>")) ++ []),
          eof := false } =
      Except.error Fault.overflow :=
  ⟨by rw [List.length_append, List.length_append, List.length_replicate]; decide,
   (C21_group_commit_overflows_buffer (bytes "1")
      (bytes "<(1=" ++ (List.replicate 504 97 ++ bytes ")>")) [] 600
      (by decide) (by decide) (by decide)
      (by
        intro c hc
        simp only [List.mem_append, List.mem_replicate] at hc
        rcases hc with hc | hc | hc
        · revert c; decide
        · rw [hc.2]; decide
        · revert c; decide)
      (by rw [List.length_append, List.length_append, List.length_replicate]; decide)).2
      (by rw [List.length_append, List.length_append, List.length_replicate]; decide)⟩


theorem groupId_hex (G : List Nat) (d : Nat) (hG : G ≠ []) (hGd : ∀ c ∈ G, isxdigit c = true)
    (hv : hexValue G < 2 ^ 31) (hdn : isxdigit d = false) (hdx : d ≠ 120 ∧ d ≠ 88) :
    toInt32 (strtol16 (G ++ [d])) = (hexValue G : Int) := by
  rw [strtol16_hex_then G d [] hG hGd hdn hdx]
  have h1 : ((hexValue G : Nat) : Int) < 2 ^ 31 := by exact_mod_cast hv
  have h0 : (0 : Int) ≤ (hexValue G : Nat) := Int.ofNat_nonneg _
  rw [max_eq_right (by omega), min_eq_left (by omega)]
  exact toInt32_of_lt _ h0 h1

theorem abortFooter_not_commit (G2 : List Nat) :
    isCommitFooter ((36 :: 36 :: (bytes "\x7d~abort~" ++ (G2 ++ [125]))).take 63) = false := by
  have h : ((36 :: 36 :: (bytes "\x7d~abort~" ++ (G2 ++ [125]))).take 63).getD 3 0 = 126 := rfl
  simp only [isCommitFooter, decide_eq_false_iff_not, not_and]
  intro _ _ _
  rw [h]
  decide

/-- C22: for a group with an accepted header `$$\x7bG\x7b` and a body `B` of plain
bytes whose length is at most 509 modulo 512, the body is discarded whenever
the footer is the abort form `$$\x7d~abort~G2\x7d` with the same or another
id, or the commit form `$$\x7dG2\x7d` with another id, or any text that fails the
test of the commit form: `parseMorkGroup` returns true and leaves exactly the
bytes `R` that follow the `@` closing the footer, none of the body being
pushed back, and the dispatch loop goes on with `R` and the database it had.
When the length of the body is 510 or 511 modulo 512, the bytes `@$$` of the
terminator are stored past the end of the content buffer, whatever the footer:
the run ends in a buffer overflow.  When the body ends with `@`, the
terminator is not seen: on the group 1 with body `(2=b)@` and the abort
footer, followed by `<(1=a)>`, the rest of the input is buffered as content
and the dictionary after the group is never parsed. -/
theorem C22_group_body_discarded_or_lost (G G2 B X R : List Nat) (m : MorkDb) (fuel : Nat)
    (hG : G ≠ []) (hGd : ∀ c ∈ G, isxdigit c = true) (hGl : G.length ≤ 59)
    (hG2 : G2 ≠ []) (hG2d : ∀ c ∈ G2, isxdigit c = true) (hG2l : G2.length ≤ 59)
    (hB : ∀ c ∈ B, 0 < c ∧ c < 255 ∧ c ≠ 64 ∧ c ≠ 92)
    (hX : ∀ c ∈ X, 0 < c ∧ c < 256 ∧ c ≠ 64)
    (hfuel : G.length + G2.length + B.length + X.length + 16 ≤ fuel) :
    (B.length % 512 ≤ 509 →
      (parseMorkGroup fuel
          { pending := groupWith G B (bytes "\x7d~abort~" ++ (G2 ++ [125])) ++ R,
            eof := false } =
        Except.ok (true, { pending := R, eof := false }) ∧
       parseMorkStreamLoop (fuel + 1) true 64
          { pending := groupWith G B (bytes "\x7d~abort~" ++ (G2 ++ [125])) ++ R,
            eof := false } m =
        parseMorkStreamLoop fuel true (morkgetc { pending := R, eof := false }).1
          (morkgetc { pending := R, eof := false }).2 m) ∧
      (hexValue G < 2 ^ 31 → hexValue G2 < 2 ^ 31 → hexValue G2 ≠ hexValue G →
        parseMorkGroup fuel
            { pending := groupWith G B (125 :: (G2 ++ [125])) ++ R, eof := false } =
          Except.ok (true, { pending := R, eof := false }) ∧
        parseMorkStreamLoop (fuel + 1) true 64
            { pending := groupWith G B (125 :: (G2 ++ [125])) ++ R, eof := false } m =
          parseMorkStreamLoop fuel true (morkgetc { pending := R, eof := false }).1
            (morkgetc { pending := R, eof := false }).2 m) ∧
      (isCommitFooter ((36 :: 36 :: X).take 63) = false →
        parseMorkGroup fuel { pending := groupWith G B X ++ R, eof := false } =
          Except.ok (true, { pending := R, eof := false }) ∧
        parseMorkStreamLoop (fuel + 1) true 64
            { pending := groupWith G B X ++ R, eof := false } m =
          parseMorkStreamLoop fuel true (morkgetc { pending := R, eof := false }).1
            (morkgetc { pending := R, eof := false }).2 m)) ∧
    (510 ≤ B.length % 512 →
      parseMorkGroup fuel { pending := groupWith G B X ++ R, eof := false } =
        Except.error Fault.overflow) ∧
    parseMorkGroup 100
        { pending := groupWith (bytes "1") (bytes "(2=b)@")
            (bytes "\x7d~abort~" ++ (bytes "1" ++ [125])) ++ bytes "<(1=a)>",
          eof := false } =
      Except.ok (true, { pending := [], eof := true }) := by
  refine ⟨fun hBl => ?_, fun hBl => ?_, rfl⟩
  · have hG2b : ∀ c ∈ G2, 0 < c ∧ c < 256 ∧ c ≠ 64 := by
      intro c hc
      have := isxdigit_range c (hG2d c hc)
      omega
    have hloop : ∀ (Y : List Nat),
        parseMorkGroup fuel { pending := groupWith G B Y ++ R, eof := false } =
          Except.ok (true, { pending := R, eof := false }) →
        parseMorkStreamLoop (fuel + 1) true 64
            { pending := groupWith G B Y ++ R, eof := false } m =
          parseMorkStreamLoop fuel true (morkgetc { pending := R, eof := false }).1
            (morkgetc { pending := R, eof := false }).2 m := by
      intro Y h
      exact parseMorkStreamLoop_group fuel { pending := groupWith G B Y ++ R, eof := false } m _
        rfl h
    have hdisc : ∀ (Y : List Nat), (∀ c ∈ Y, 0 < c ∧ c < 256 ∧ c ≠ 64) →
        G.length + B.length + Y.length + 6 ≤ fuel →
        ¬ (isCommitFooter ((36 :: 36 :: Y).take 63) = true ∧
          toInt32 (strtol16 (G ++ [123])) =
            toInt32 (strtol16 (((36 :: 36 :: Y).take 63).drop 3))) →
        parseMorkGroup fuel { pending := groupWith G B Y ++ R, eof := false } =
          Except.ok (true, { pending := R, eof := false }) := by
      intro Y hY hf hn
      rw [parseMorkGroup_footer G B Y R fuel hG hGd hGl hB hBl hY hf, if_neg hn]
    refine ⟨?_, ?_, ?_⟩
    · have h := hdisc (bytes "\x7d~abort~" ++ (G2 ++ [125]))
        (by
          intro c hc
          simp only [List.mem_append, List.mem_singleton] at hc
          rcases hc with hc | hc | rfl
          · revert c; decide
          · exact hG2b c hc
          · decide)
        (by
          simp only [List.length_append, List.length_cons, List.length_nil]
          have : (bytes "\x7d~abort~").length = 8 := by decide
          omega)
        (by
          intro h
          rw [abortFooter_not_commit G2] at h
          exact absurd h.1 (by decide))
      exact ⟨h, hloop _ h⟩
    · intro hv hv2 hne
      have hshort : (36 :: 36 :: 125 :: (G2 ++ [125])).take 63 =
          36 :: 36 :: 125 :: (G2 ++ [125]) :=
        List.take_of_length_le
          (by simp only [List.length_cons, List.length_append, List.length_nil]; omega)
      have h := hdisc (125 :: (G2 ++ [125]))
        (by
          intro c hc
          simp only [List.mem_cons, List.mem_append, List.mem_singleton, List.not_mem_nil,
            or_false] at hc
          rcases hc with rfl | hc | rfl
          · decide
          · exact hG2b c hc
          · decide)
        (by simp only [List.length_append, List.length_cons, List.length_nil]; omega)
        (by
          intro h
          rw [hshort] at h
          simp only [List.drop_succ_cons, List.drop_zero] at h
          rw [groupId_hex G 123 hG hGd hv (by decide) (by decide),
            groupId_hex G2 125 hG2 hG2d hv2 (by decide) (by decide)] at h
          exact hne (by exact_mod_cast h.2.symm))
      exact ⟨h, hloop _ h⟩
    · intro hc
      have h := hdisc X hX (by omega) (by
        intro h
        rw [hc] at h
        exact absurd h.1 (by decide))
      exact ⟨h, hloop _ h⟩
  · have h := parseMorkGroup_overflow G B (X ++ 64 :: R) fuel hG hGd hGl
      (fun c hc => by have := hB c hc; omega) hBl (by omega)
    have hin : groupWith G B X ++ R =
        36 :: 36 :: 123 :: (G ++ 123 :: 64 :: (B ++ 64 :: 36 :: 36 :: (X ++ 64 :: R))) := by
      simp [groupWith]
    rw [hin]
    exact h

set_option maxRecDepth 20000 in
/-- C22 on the group 1 with body `(2=b)`, closed by the abort footer, by the
commit footer of group 2, and by the text `oops`, each followed by `<(1=a)>`:
only the dictionary after the group is left to be parsed.  With the body
`(2=b)@` the parse returns the initial database: the dictionary after the
group is lost. -/
theorem C22_group_body_discarded_or_lost_witness :
    groupWith (bytes "1") (bytes "(2=b)") (bytes "\x7d~abort~" ++ (bytes "1" ++ [125])) ++
        bytes "<(1=a)>" = bytes "$$\x7b1\x7b@(2=b)@$$\x7d~abort~1\x7d@<(1=a)>" ∧
    parseMorkGroup 60
        { pending := groupWith (bytes "1") (bytes "(2=b)")
            (bytes "\x7d~abort~" ++ (bytes "1" ++ [125])) ++ bytes "<(1=a)>",
          eof := false } =
      Except.ok (true, { pending := bytes "<(1=a)>", eof := false }) ∧
    parseMorkGroup 60
        { pending := groupWith (bytes "1") (bytes "(2=b)") (125 :: (bytes "2" ++ [125])) ++
            bytes "<(1=a)>", eof := false } =
      Except.ok (true, { pending := bytes "<(1=a)>", eof := false }) ∧
    parseMorkGroup 60
        { pending := groupWith (bytes "1") (bytes "(2=b)") (bytes "oops") ++ bytes "<(1=a)>",
          eof := false } =
      Except.ok (true, { pending := bytes "<(1=a)>", eof := false }) ∧
    parseMorkStream 60
        { pending := MorkMagicHeader ++
            bytes "@$$\x7b1\x7b@(2=b)@$$\x7d~abort~1\x7d@<(1=a)>", eof := false } =
      Except.ok (some { initializeTableScopeMap with
        values := { entries := [makeMorkDictEntry 1 "a"] } }) ∧
    parseMorkStream 100
        { pending := MorkMagicHeader ++
            bytes "@$$\x7b1\x7b@(2=b)@@$$\x7d~abort~1\x7d@<(1=a)>", eof := false } =
      Except.ok (some initializeTableScopeMap) :=
  ⟨by decide,
   ((C22_group_body_discarded_or_lost (bytes "1") (bytes "1") (bytes "(2=b)") (bytes "oops")
      (bytes "<(1=a)>") initializeTableScopeMap 60 (by decide) (by decide) (by decide)
      (by decide) (by decide) (by decide) (by decide) (by decide)
      (by decide)).1 (by decide)).1.1,
   (((C22_group_body_discarded_or_lost (bytes "1") (bytes "2") (bytes "(2=b)") (bytes "oops")
      (bytes "<(1=a)>") initializeTableScopeMap 60 (by decide) (by decide) (by decide)
      (by decide) (by decide) (by decide) (by decide) (by decide)
      (by decide)).1 (by decide)).2.1 (by decide) (by decide) (by decide)).1,
   (((C22_group_body_discarded_or_lost (bytes "1") (bytes "1") (bytes "(2=b)") (bytes "oops")
      (bytes "<(1=a)>") initializeTableScopeMap 60 (by decide) (by decide) (by decide)
      (by decide) (by decide) (by decide) (by decide) (by decide)
      (by decide)).1 (by decide)).2.2 (by decide)).1,
   by rfl, by rfl⟩

/-! ## Invariants of a parsed database and the lookup by column name -/

theorem storeInMorkCell_strictAsc (cells : MorkCells) (k v : Int)
    (h : StrictAsc (cells.entries.map (fun e => e.key))) :
    StrictAsc ((storeInMorkCell cells k v).entries.map (fun e => e.key)) := by
  rw [storeInMorkCell_entries]
  exact upsertBy_strictAsc _ k _ rfl _ h

theorem getD_mem {α : Type} (l : List α) (p : Nat) (d : α) (h : p < l.length) :
    l.getD p d ∈ l := by
  induction l generalizing p with
  | nil => simp at h
  | cons x xs ih =>
    cases p with
    | zero => simp
    | succ n =>
      simp only [List.length_cons, Nat.add_lt_add_iff_right] at h
      simp only [List.getD_cons_succ, List.mem_cons]
      exact Or.inr (ih n h)

theorem storeInActiveCellsOrFault_inv (m m2 : MorkDb) (k v : Int)
    (h : storeInActiveCellsOrFault m k v = Except.ok m2) (hi : ParsedInv m) :
    ParsedInv m2 := by
  unfold storeInActiveCellsOrFault storeInActiveCells at h
  split at h
  · cases h
  · rename_i m3 h3
    cases h
    split at h3
    · cases h3
    · rename_i p hp
      split_ifs at h3 with hlt
      cases h3
      obtain ⟨h1, h2, h4, h5, h6⟩ := hi
      refine ⟨IndexWF_congr m _ rfl rfl h1,
        HeapWF_congr m _ rfl rfl (by simp) rfl h2, h4, h5, ?_⟩
      intro c hc
      rcases List.mem_or_eq_of_mem_set hc with hc | rfl
      · exact h6 c hc
      · exact storeInMorkCell_strictAsc _ k v (h6 _ (getD_mem _ p _ hlt))

theorem parseMorkCellApply_inv (m m2 : MorkDb) (v : Bool) (column text : List Nat)
    (h : parseMorkCellApply m v column text = Except.ok m2) (hi : ParsedInv m) :
    ParsedInv m2 := by
  unfold parseMorkCellApply at h
  simp only [] at h
  split_ifs at h
  · exact storeInActiveCellsOrFault_inv _ _ _ _ h hi
  · refine storeInActiveCellsOrFault_inv _ _ _ _ h ?_
    obtain ⟨h1, h2, h4, h5, h6⟩ := hi
    exact ⟨IndexWF_congr m _ rfl rfl h1, HeapWF_congr m _ rfl rfl rfl rfl h2, h4,
      storeInMorkDict_strictAsc _ _ _ h5, h6⟩
  · cases h
    obtain ⟨h1, h2, h4, h5, h6⟩ := hi
    exact ⟨IndexWF_congr m _ rfl rfl h1, HeapWF_congr m _ rfl rfl rfl rfl h2,
      storeInMorkDict_strictAsc _ _ _ h4, h5, h6⟩
  · cases h
    obtain ⟨h1, h2, h4, h5, h6⟩ := hi
    exact ⟨IndexWF_congr m _ rfl rfl h1, HeapWF_congr m _ rfl rfl rfl rfl h2, h4,
      storeInMorkDict_strictAsc _ _ _ h5, h6⟩
  · cases h
    exact hi

theorem setCurrentRow_inv (m : MorkDb) (ts tid rs rid : Int) (hi : ParsedInv m) :
    ParsedInv (setCurrentRow m ts tid rs rid) := by
  obtain ⟨h1, h2, h4, h5, h6⟩ := hi
  obtain ⟨s1, _, s3, _⟩ := setCurrentRow_spec m ts tid rs rid h1
  obtain ⟨f1, f2, _, _, _⟩ := setCurrentRow_frame m ts tid rs rid
  refine ⟨s1, setCurrentRow_heapWF m ts tid rs rid h1 h2, by rw [f1]; exact h4,
    by rw [f2]; exact h5, ?_⟩
  intro c hc
  rw [s3] at hc
  split at hc
  · exact h6 c hc
  · rcases List.mem_append.1 hc with hc | hc
    · exact h6 c hc
    · rw [List.mem_singleton.1 hc]
      simp [makeMorkCells, StrictAsc]

theorem ParsedInv_closed : ParserClosed (fun m m2 => ParsedInv m → ParsedInv m2) where
  refl := fun _ h => h
  trans := fun _ _ _ h1 h2 h => h2 (h1 h)
  apply := fun m v column text m2 h hi => parseMorkCellApply_inv m m2 v column text h hi
  row := fun m ts tid rs rid hi => setCurrentRow_inv m ts tid rs rid hi
  target := fun m t hi => by
    obtain ⟨h1, h2, h4, h5, h6⟩ := hi
    exact ⟨IndexWF_congr m _ rfl rfl h1, HeapWF_congr m _ rfl rfl rfl rfl h2, h4, h5, h6⟩

theorem initializeTableScopeMap_inv : ParsedInv initializeTableScopeMap :=
  ⟨initializeTableScopeMap_WF.1, initializeTableScopeMap_WF.2,
    by simp [initializeTableScopeMap, emptyDict, StrictAsc],
    by simp [initializeTableScopeMap, emptyDict, StrictAsc],
    by intro c hc; simp [initializeTableScopeMap] at hc⟩

theorem parseMorkStream_inv (fuel : Nat) (ifp : MorkFile) (db : MorkDb)
    (h : parseMorkStream fuel ifp = Except.ok (some db)) : ParsedInv db :=
  parseMorkStream_closed _ ParsedInv_closed fuel ifp db h initializeTableScopeMap_inv

theorem cellValueId_of_mem (l : List MorkCellEntry)
    (hl : StrictAsc (l.map (fun e => e.key))) (e : MorkCellEntry) (he : e ∈ l) :
    cellValueId e.key l = some e.value := by
  unfold StrictAsc at hl
  rw [List.pairwise_map] at hl
  induction l with
  | nil => cases he
  | cons y ys ih =>
    rw [List.pairwise_cons] at hl
    obtain ⟨hy, hys⟩ := hl
    rcases List.mem_cons.1 he with rfl | h
    · simp [cellValueId]
    · have hne : ¬ y.key = e.key := by
        have := hy e h
        omega
      simp only [cellValueId, hne, if_false]
      exact ih hys h

theorem cellValueId_none (k : Int) (l : List MorkCellEntry) (h : ∀ e ∈ l, e.key ≠ k) :
    cellValueId k l = none := by
  induction l with
  | nil => rfl
  | cons y ys ih =>
    have hy := h y (List.mem_cons_self _ _)
    simp only [cellValueId, hy, if_false]
    exact ih (fun e he => h e (List.mem_cons_of_mem _ he))

/-- C30: in every database that `parseMorkStream` returns, for every Cell Set
of it (those of the rows of the index are among them) and every name `N` that
the columns dictionary holds under some id `k`: `getColumnId` on `N` is an id
whose name is `N` and is at most `k`, so it is the smallest such id `c`;
`valueForColumnId` on `c` and the Cell Set returns the text that the values
dictionary gives for `v` when the Cell Set has a cell (c, v), and the null
pointer when it has no cell for `c`. -/
theorem C30_value_for_column_name (input : List Nat) (fuel : Nat) (db : MorkDb)
    (cells : MorkCells) (N : String) (k : Int)
    (h : parseMorkStream fuel { pending := input, eof := false } = Except.ok (some db))
    (hcells : cells ∈ db.cellsHeap) (hN : makeMorkDictEntry k N ∈ db.columns.entries) :
    (makeMorkDictEntry (getColumnId db N) N ∈ db.columns.entries ∧ getColumnId db N ≤ k) ∧
    (∀ v, makeMorkCellEntry (getColumnId db N) v ∈ cells.entries →
      valueForColumnId (getColumnId db N) cells db = some (getValue db v)) ∧
    ((∀ e ∈ cells.entries, e.key ≠ getColumnId db N) →
      valueForColumnId (getColumnId db N) cells db = none) ∧
    (∀ a b c d p, cellsAt db a b c d = some p → derefCells db p ∈ db.cellsHeap) := by
  obtain ⟨_, h2, h4, _, h6⟩ := parseMorkStream_inv fuel _ db h
  obtain ⟨hle, e2, he2, hv2, hk2⟩ := getMorkDictKeyLoop_least N db.columns.entries h4
    (makeMorkDictEntry k N) hN rfl
  have hc : getColumnId db N = getMorkDictKeyLoop N db.columns.entries := rfl
  refine ⟨⟨?_, ?_⟩, ?_, ?_, ?_⟩
  · rw [hc, ← hk2, ← hv2]
    exact he2
  · rw [hc]; exact hle
  · intro v hv
    unfold valueForColumnId
    have := cellValueId_of_mem cells.entries (h6 cells hcells) _ hv
    simp only [makeMorkCellEntry] at this
    rw [this]
    rfl
  · intro hno
    unfold valueForColumnId
    rw [cellValueId_none _ _ hno]
    rfl
  · intro a b c d p hp
    exact getD_mem _ p _ (h2.1 a b c d p hp)

set_option maxRecDepth 20000 in
/-- C30 on the magic header followed by
`<<(a=c)>(8E=FirstName)(8F=FirstName)(90=LastName)>[1(^8E=Ann)]`: the name
FirstName is held under 0x8E and 0x8F and `getColumnId` gives 0x8E; the Cell
Set of row 1 has the cell (0x8E, 0x7ffffffe), so the lookup gives `Ann`, and it
has no cell for LastName, so that lookup gives the null pointer. -/
theorem C30_value_for_column_name_witness :
    ∃ db cells,
      parseMorkStream 200
        { pending := MorkMagicHeader ++
            bytes "<<(a=c)>(8E=FirstName)(8F=FirstName)(90=LastName)>[1(^8E=Ann)]"
          eof := false } = Except.ok (some db) ∧
      cells ∈ db.cellsHeap ∧ cellsAt db 0x80 0 0x80 1 = some 0 ∧ derefCells db 0 = cells ∧
      makeMorkDictEntry 0x8F "FirstName" ∈ db.columns.entries ∧
      getColumnId db "FirstName" = 0x8E ∧
      valueForColumnId 0x8E cells db = some "Ann" ∧
      valueForColumnId (getColumnId db "LastName") cells db = none ∧
      ((makeMorkDictEntry (getColumnId db "FirstName") "FirstName" ∈ db.columns.entries ∧
        getColumnId db "FirstName" ≤ 0x8F) ∧
      (∀ v, makeMorkCellEntry (getColumnId db "FirstName") v ∈ cells.entries →
        valueForColumnId (getColumnId db "FirstName") cells db = some (getValue db v)) ∧
      ((∀ e ∈ cells.entries, e.key ≠ getColumnId db "FirstName") →
        valueForColumnId (getColumnId db "FirstName") cells db = none) ∧
      (∀ a b c d p, cellsAt db a b c d = some p → derefCells db p ∈ db.cellsHeap)) :=
  ⟨{ keys := [128]
     entries := [{ keys := [0], entries := [{ keys := [128], entries :=
       [{ keys := [1], entries := [0] }] }] }]
     columns := { entries := [makeMorkDictEntry 0x8E "FirstName",
       makeMorkDictEntry 0x8F "FirstName", makeMorkDictEntry 0x90 "LastName"] }
     values := { entries := [makeMorkDictEntry 0x7ffffffe "Ann"] }
     nowParsing := NowParsingType.NPRows
     nextAddValueId := 0x7ffffffe
     defaultScope := 128
     activeCells := some 0
     cellsHeap := [{ entries := [makeMorkCellEntry 0x8E 0x7ffffffe] }] },
   { entries := [makeMorkCellEntry 0x8E 0x7ffffffe] },
   rfl, List.Mem.head _, rfl, rfl, List.Mem.tail _ (List.Mem.head _), rfl, rfl, rfl,
   C30_value_for_column_name (MorkMagicHeader ++
       bytes "<<(a=c)>(8E=FirstName)(8F=FirstName)(90=LastName)>[1(^8E=Ann)]")
     200 _ _ "FirstName" 0x8F rfl (List.Mem.head _)
     (List.Mem.tail _ (List.Mem.head _))⟩


/-! ## The escaping of vCard values -/

theorem dstPut_mid (a b : List Nat) (x c : Nat) :
    dstPut (a ++ x :: b) a.length c = Except.ok (a ++ c :: b) := by
  simp [dstPut]

theorem dstPut_mid2 (a b : List Nat) (x y c : Nat) :
    dstPut (a ++ x :: y :: b) (a.length + 1) c = Except.ok (a ++ x :: c :: b) := by
  have h := dstPut_mid (a ++ [x]) b y c
  simpa using h

theorem escapedForm_cons_zero (src : List Nat) : escapedForm (0 :: src) = [] := by
  simp [escapedForm]

theorem escapedForm_cons (c : Nat) (src : List Nat) (hc : c ≠ 0) :
    escapedForm (c :: src) = escapedByte c ++ escapedForm src := by
  simp [escapedForm, List.takeWhile_cons, hc]

theorem escapedForm_nil : escapedForm [] = [] := by
  simp [escapedForm]

theorem vCardEscapeLoop_spec (n : Nat) :
    ∀ (s a b : List Nat), a.length + (escapedForm s).length ≤ n →
      (escapedForm s).length ≤ b.length →
      vCardEscapeLoop n s a.length a.length (a ++ b) =
        Except.ok (a.length + (escapedForm s).length, a.length + (escapedForm s).length,
          a ++ (escapedForm s ++ b.drop (escapedForm s).length)) := by
  intro s
  induction s with
  | nil => intro a b _ _; simp [vCardEscapeLoop, escapedForm_nil]
  | cons c src ih =>
    intro a b hn hb
    by_cases hc : c = 0
    · subst hc
      simp [vCardEscapeLoop, escapedForm_cons_zero]
    · rw [escapedForm_cons c src hc] at hn hb ⊢
      have two : ∀ (e : Nat), escapedByte c = [92, e] →
          (match dstPut (a ++ b) a.length 92 with
            | Except.error e => Except.error e
            | Except.ok d1 =>
              match dstPut d1 (a.length + 1) e with
              | Except.error e => Except.error e
              | Except.ok d2 => vCardEscapeLoop n src (a.length + 2) (a.length + 2) d2) =
            Except.ok (a.length + (escapedByte c ++ escapedForm src).length,
              a.length + (escapedByte c ++ escapedForm src).length,
              a ++ ((escapedByte c ++ escapedForm src) ++
                b.drop (escapedByte c ++ escapedForm src).length)) := by
        intro e he
        rw [he] at hn hb ⊢
        simp only [List.length_append, List.length_cons, List.length_nil] at hn hb
        obtain ⟨x, y, b2, rfl⟩ : ∃ x y b2, b = x :: y :: b2 := by
          match b, hb with
          | x :: y :: b2, _ => exact ⟨x, y, b2, rfl⟩
          | [], h => simp at h
          | [x], h => simp at h; omega
        rw [dstPut_mid]
        simp only []
        rw [dstPut_mid2]
        simp only []
        have h := ih (a ++ [92, e]) b2
          (by simp only [List.length_append, List.length_cons, List.length_nil]; omega)
          (by simp only [List.length_cons] at hb; omega)
        simp only [List.length_append, List.length_cons, List.length_nil, List.append_assoc,
          List.cons_append, List.nil_append] at h
        rw [h]
        simp only [List.length_append, List.length_cons, List.length_nil, List.cons_append,
          List.nil_append]
        have e1 : a.length + (0 + 1 + 1) + (escapedForm src).length =
            a.length + ((escapedForm src).length + 1 + 1) := by omega
        rw [e1]
        simp only [List.drop_succ_cons]
      have hlt : a.length < n := by
        have : 0 < (escapedByte c).length := by
          unfold escapedByte; split_ifs <;> simp
        simp only [List.length_append] at hn
        omega
      rw [vCardEscapeLoop]
      rw [if_pos ⟨hlt, hc⟩]
      by_cases h13 : c = 13
      · rw [if_pos h13]
        exact two 114 (by simp [escapedByte, h13])
      · rw [if_neg h13]
        by_cases h10 : c = 10
        · rw [if_pos h10]
          exact two 110 (by simp [escapedByte, h10])
        · rw [if_neg h10]
          by_cases hsc : c = 59 ∨ c = 44
          · rw [if_pos hsc]
            exact two c (by simp [escapedByte, h13, h10, hsc])
          · rw [if_neg hsc]
            have he : escapedByte c = [c] := by simp [escapedByte, h13, h10, hsc]
            rw [he] at hn hb ⊢
            simp only [List.length_append, List.length_cons, List.length_nil] at hn hb
            obtain ⟨x, b2, rfl⟩ : ∃ x b2, b = x :: b2 := by
              match b, hb with
              | x :: b2, _ => exact ⟨x, b2, rfl⟩
              | [], h => simp at h
            rw [dstPut_mid]
            simp only []
            have h := ih (a ++ [c]) b2
              (by simp only [List.length_append, List.length_cons, List.length_nil]; omega)
              (by simp only [List.length_cons] at hb; omega)
            simp only [List.length_append, List.length_cons, List.length_nil,
              List.append_assoc, List.cons_append, List.nil_append] at h
            rw [h]
            simp only [List.length_append, List.length_cons, List.length_nil, List.cons_append,
              List.nil_append]
            have e1 : a.length + (0 + 1) + (escapedForm src).length =
                a.length + ((escapedForm src).length + 1) := by omega
            rw [e1]
            simp only [List.drop_succ_cons]

theorem vCardFillLoop_spec :
    ∀ (k : Nat) (a b : List Nat), k ≤ b.length →
      vCardFillLoop k a.length (a ++ b) = Except.ok (a ++ (List.replicate k 0 ++ b.drop k)) := by
  intro k
  induction k with
  | zero => intro a b _; simp [vCardFillLoop]
  | succ k ih =>
    intro a b hb
    obtain ⟨x, b2, rfl⟩ : ∃ x b2, b = x :: b2 := by
      match b, hb with
      | x :: b2, _ => exact ⟨x, b2, rfl⟩
      | [], h => simp at h
    rw [vCardFillLoop, dstPut_mid]
    simp only []
    have h := ih (a ++ [0]) b2 (by simp only [List.length_cons] at hb; omega)
    simp only [List.length_append, List.length_cons, List.length_nil, List.append_assoc,
      List.cons_append, List.nil_append] at h
    rw [h]
    simp [List.replicate_succ]

theorem vCardEscapeString_spec (d src : List Nat) (n : Nat) (hd : n ≤ d.length)
    (hL : (escapedForm src).length ≤ n) :
    vCardEscapeString (some d) (some src) n =
      Except.ok (some (escapedForm src ++
        (List.replicate (n - (escapedForm src).length) 0 ++ d.drop n))) := by
  unfold vCardEscapeString
  simp only []
  have h := vCardEscapeLoop_spec n src [] d (by simpa using hL) (by omega)
  simp only [List.length_nil, Nat.zero_add, List.nil_append] at h
  rw [h]
  simp only []
  have h2 := vCardFillLoop_spec (n - (escapedForm src).length) (escapedForm src)
    (d.drop (escapedForm src).length) (by simp only [List.length_drop]; omega)
  rw [h2]
  simp only [List.drop_drop]
  have : (escapedForm src).length + (n - (escapedForm src).length) = n := by omega
  rw [this]

theorem escapedForm_ne_zero (src : List Nat) : ∀ c ∈ escapedForm src, c ≠ 0 := by
  intro c hc
  simp only [escapedForm, List.mem_flatten, List.mem_map] at hc
  obtain ⟨l, ⟨x, hx, rfl⟩, hcl⟩ := hc
  have hx0 : x ≠ 0 := by simpa using (List.mem_takeWhile_imp hx)
  unfold escapedByte at hcl
  split_ifs at hcl <;> simp at hcl <;> omega

theorem readCString_padded (src rest : List Nat) (k : Nat) :
    readCString (escapedForm src ++ (List.replicate (k + 1) 0 ++ rest)) =
      Except.ok (escapedForm src) := by
  unfold readCString
  rw [List.replicate_succ]
  rw [if_pos (by simp)]
  rw [List.takeWhile_append_of_pos (by simpa using escapedForm_ne_zero src)]
  simp

/-- C34: for a destination object of at least `n` bytes and a source whose
escaped form is shorter than `n`, `vCardEscapeString` leaves in the first `n`
bytes of the destination the escaped form of the source (CR as backslash `r`,
LF as backslash `n`, semicolon and comma behind a backslash, every other byte
unchanged) followed by zero bytes, `n` bytes in all, and does not touch the
bytes after them; read as a string, the destination is then the escaped form.
For a null source it stores one zero byte at the start of the destination,
which makes it the empty string, and for a null destination it returns
null. -/
theorem C34_escape_fills_n_bytes (d src : List Nat) (n : Nat) (hd : n ≤ d.length)
    (hL : (escapedForm src).length < n) :
    vCardEscapeString (some d) (some src) n =
      Except.ok (some (escapedForm src ++
        (List.replicate (n - (escapedForm src).length) 0 ++ d.drop n))) ∧
    (escapedForm src ++ List.replicate (n - (escapedForm src).length) 0).length = n ∧
    readCString (escapedForm src ++
        (List.replicate (n - (escapedForm src).length) 0 ++ d.drop n)) =
      Except.ok (escapedForm src) ∧
    vCardEscapeString (some d) none n = Except.ok (some (0 :: d.tail)) ∧
    readCString (0 :: d.tail) = Except.ok [] ∧
    vCardEscapeString none (some src) n = Except.ok none := by
  obtain ⟨k, hk⟩ : ∃ k, n - (escapedForm src).length = k + 1 :=
    ⟨n - (escapedForm src).length - 1, by omega⟩
  refine ⟨vCardEscapeString_spec d src n hd (by omega), ?_, ?_, ?_, ?_, rfl⟩
  · simp only [List.length_append, List.length_replicate]; omega
  · rw [hk]
    exact readCString_padded src _ k
  · obtain ⟨x, d2, rfl⟩ : ∃ x d2, d = x :: d2 := by
      match d, hd with
      | x :: d2, _ => exact ⟨x, d2, rfl⟩
      | [], h => simp at h; omega
    simp [vCardEscapeString, dstPut]
  · simp [readCString]

/-- C34 on the source `a;b,c` followed by CR and LF, with `n` = 12 and a
destination of 14 bytes: the eleven bytes of the escaped form, one zero byte,
and the last two bytes of the destination as they were. -/
theorem C34_escape_fills_n_bytes_witness :
    vCardEscapeString (some (List.replicate 14 255)) (some (bytes "a;b,c\r\n")) 12 =
      Except.ok (some (escapedForm (bytes "a;b,c\r\n") ++
        (List.replicate (12 - (escapedForm (bytes "a;b,c\r\n")).length) 0 ++
          (List.replicate 14 255).drop 12))) ∧
    escapedForm (bytes "a;b,c\r\n") = bytes "a\\;b\\,c\\r\\n" ∧
    escapedForm (bytes "a;b,c\r\n") ++
        (List.replicate (12 - (escapedForm (bytes "a;b,c\r\n")).length) 0 ++
          (List.replicate 14 255).drop 12) =
      bytes "a\\;b\\,c\\r\\n" ++ [0, 255, 255] :=
  ⟨(C34_escape_fills_n_bytes (List.replicate 14 255) (bytes "a;b,c\r\n") 12
      (by decide) (by decide)).1, by decide, by decide⟩

theorem vCardEscapeLoop_plain (n : Nat) (rest : List Nat) :
    ∀ (k : Nat) (a b : List Nat), a.length + k ≤ n → k ≤ b.length →
      vCardEscapeLoop n (List.replicate k 97 ++ rest) a.length a.length (a ++ b) =
        vCardEscapeLoop n rest (a.length + k) (a.length + k)
          (a ++ (List.replicate k 97 ++ b.drop k)) := by
  intro k
  induction k with
  | zero => intro a b _ _; simp
  | succ k ih =>
    intro a b hn hb
    obtain ⟨x, b2, rfl⟩ : ∃ x b2, b = x :: b2 := by
      match b, hb with
      | x :: b2, _ => exact ⟨x, b2, rfl⟩
      | [], h => simp at h
    rw [List.replicate_succ, List.cons_append, vCardEscapeLoop]
    rw [if_pos ⟨by omega, by decide⟩, if_neg (by decide), if_neg (by decide),
      if_neg (by decide), dstPut_mid]
    simp only []
    have h := ih (a ++ [97]) b2
      (by simp only [List.length_append, List.length_cons, List.length_nil]; omega)
      (by simp only [List.length_cons] at hb; omega)
    simp only [List.length_append, List.length_cons, List.length_nil, List.append_assoc,
      List.cons_append, List.nil_append] at h
    rw [h]
    have e1 : a.length + (0 + 1) + k = a.length + (k + 1) := by omega
    rw [e1]
    simp only [List.drop_succ_cons, List.cons_append]

/-- C35: `vCardEscapeString` does not keep to `dst[0..n-1]` and does not always
leave a zero byte there.  For every `n > 0`, on the source made of `n - 1`
letters `a` and a semicolon, the escape that starts at position `n - 1` is
stored in `dst[n-1]` and `dst[n]`: with a destination of exactly `n` bytes the
second store is past its end, and with a longer destination the byte `dst[n]`
is overwritten by the semicolon and none of the first `n` bytes is zero.  On
the source made of `n` letters `a`, whose escaped form has `n` bytes, the
first `n` bytes are the letters and none is zero, so that reading the result
as a string from an object of `n` bytes runs past its end. -/
theorem C35_escape_overruns_destination (n : Nat) (d d2 : List Nat) (hn : 0 < n)
    (hd : d.length = n) (hd2 : n < d2.length) :
    vCardEscapeString (some d) (some (List.replicate (n - 1) 97 ++ [59])) n =
      Except.error Fault.overflow ∧
    vCardEscapeString (some d2) (some (List.replicate (n - 1) 97 ++ [59])) n =
      Except.ok (some (List.replicate (n - 1) 97 ++ 92 :: 59 :: d2.drop (n + 1))) ∧
    (List.replicate (n - 1) 97 ++ 92 :: 59 :: d2.drop (n + 1)).getD n 0 = 59 ∧
    0 ∉ (List.replicate (n - 1) 97 ++ 92 :: 59 :: d2.drop (n + 1)).take n ∧
    vCardEscapeString (some d) (some (List.replicate n 97)) n =
      Except.ok (some (List.replicate n 97)) ∧
    readCString (List.replicate n 97) = Except.error Fault.overflow := by
  obtain ⟨k, rfl⟩ : ∃ k, n = k + 1 := ⟨n - 1, by omega⟩
  simp only [Nat.add_sub_cancel]
  refine ⟨?_, ?_, ?_, ?_, ?_, ?_⟩
  · have hdk : (d.drop k).length = 1 := by simp only [List.length_drop]; omega
    obtain ⟨x, hx⟩ : ∃ x, d.drop k = [x] := by
      match h : d.drop k, hdk with
      | [x], _ => exact ⟨x, rfl⟩
    unfold vCardEscapeString
    simp only []
    have h := vCardEscapeLoop_plain (k + 1) [59] k [] d (by simp) (by omega)
    simp only [List.length_nil, Nat.zero_add, List.nil_append] at h
    rw [h, hx, vCardEscapeLoop]
    rw [if_pos ⟨by omega, by decide⟩, if_neg (by decide), if_neg (by decide),
      if_pos (by decide)]
    have h1 : dstPut (List.replicate k 97 ++ [x]) k 92 =
        Except.ok (List.replicate k 97 ++ [92]) := by
      have := dstPut_mid (List.replicate k 97) [] x 92
      simpa using this
    rw [h1]
    simp only []
    have h2 : dstPut (List.replicate k 97 ++ [92]) (k + 1) 59 =
        Except.error Fault.overflow := by
      simp [dstPut]
    rw [h2]
  · have hdk : 2 ≤ (d2.drop k).length := by simp only [List.length_drop]; omega
    obtain ⟨x, y, t, hx⟩ : ∃ x y t, d2.drop k = x :: y :: t := by
      match h : d2.drop k, hdk with
      | x :: y :: t, _ => exact ⟨x, y, t, rfl⟩
      | [], h2 => simp at h2
    have ht : d2.drop (k + 1 + 1) = t := by
      have : d2.drop (k + 1 + 1) = (d2.drop k).drop 2 := by
        rw [List.drop_drop]
      rw [this, hx]; rfl
    unfold vCardEscapeString
    simp only []
    have h := vCardEscapeLoop_plain (k + 1) [59] k [] d2 (by simp) (by omega)
    simp only [List.length_nil, Nat.zero_add, List.nil_append] at h
    rw [h, hx, vCardEscapeLoop]
    rw [if_pos ⟨by omega, by decide⟩, if_neg (by decide), if_neg (by decide),
      if_pos (by decide)]
    have h1 : dstPut (List.replicate k 97 ++ x :: y :: t) k 92 =
        Except.ok (List.replicate k 97 ++ 92 :: y :: t) := by
      have := dstPut_mid (List.replicate k 97) (y :: t) x 92
      simpa using this
    rw [h1]
    simp only []
    have h2 : dstPut (List.replicate k 97 ++ 92 :: y :: t) (k + 1) 59 =
        Except.ok (List.replicate k 97 ++ 92 :: 59 :: t) := by
      have := dstPut_mid2 (List.replicate k 97) t 92 y 59
      simpa using this
    rw [h2]
    simp only [vCardEscapeLoop]
    have h0 : k + 1 - (k + 2) = 0 := by omega
    rw [h0]
    simp only [vCardFillLoop, ht]
  · rw [List.getD_append_right _ _ _ _ (by simp)]
    simp
  · intro h0
    have := List.mem_of_mem_take h0
    have hlen : (List.replicate k 97 ++ 92 :: 59 :: d2.drop (k + 1 + 1)).take (k + 1) =
        List.replicate k 97 ++ [92] := by
      rw [List.take_append_eq_append_take]
      simp
    rw [hlen] at h0
    simp only [List.mem_append, List.mem_replicate, List.mem_singleton] at h0
    omega
  · have hE : escapedForm (List.replicate (k + 1) 97) = List.replicate (k + 1) 97 := by
      generalize k + 1 = j
      induction j with
      | zero => simp [escapedForm]
      | succ j ih =>
        rw [List.replicate_succ, escapedForm_cons 97 _ (by decide), ih]
        simp [escapedByte]
    have h := vCardEscapeString_spec d (List.replicate (k + 1) 97) (k + 1) (by omega)
      (by rw [hE]; simp)
    rw [hE] at h
    rw [h]
    simp [hd]
  · unfold readCString
    rw [if_neg (by simp)]

/-- C35 for `n` = 3: on the source `aa;` a destination of three bytes is
overrun, and a destination of five bytes gets the semicolon in `dst[3]`, with
no zero byte in `dst[0..2]`; on the source `aaa` the three bytes written hold
no zero byte. -/
theorem C35_escape_overruns_destination_witness :
    vCardEscapeString (some [1, 2, 3]) (some (List.replicate (3 - 1) 97 ++ [59])) 3 =
      Except.error Fault.overflow ∧
    vCardEscapeString (some [1, 2, 3, 4, 5]) (some (List.replicate (3 - 1) 97 ++ [59])) 3 =
      Except.ok (some (List.replicate (3 - 1) 97 ++ 92 :: 59 :: [1, 2, 3, 4, 5].drop (3 + 1))) ∧
    (List.replicate (3 - 1) 97 ++ 92 :: 59 :: [1, 2, 3, 4, 5].drop (3 + 1)).getD 3 0 = 59 ∧
    0 ∉ (List.replicate (3 - 1) 97 ++ 92 :: 59 :: [1, 2, 3, 4, 5].drop (3 + 1)).take 3 ∧
    vCardEscapeString (some [1, 2, 3]) (some (List.replicate 3 97)) 3 =
      Except.ok (some (List.replicate 3 97)) ∧
    readCString (List.replicate 3 97) = Except.error Fault.overflow :=
  C35_escape_overruns_destination 3 [1, 2, 3] [1, 2, 3, 4, 5] (by decide) rfl (by decide)

/-! ## The `N:` line of the vCard writers -/

theorem fprintfEscaped_spec (pre post v : String) (w : VcardOut)
    (hw : w.escBuf.length = ESCBUFSIZE)
    (hv : (escapedForm (bytes v)).length < ESCBUFSIZE) :
    ∃ buf, buf.length = ESCBUFSIZE ∧
      fprintfEscaped pre post v w =
        Except.ok { ofp := w.ofp ++ bytes pre ++ escapedForm (bytes v) ++ bytes post,
                    escBuf := buf } := by
  refine ⟨escapedForm (bytes v) ++
    (List.replicate (ESCBUFSIZE - (escapedForm (bytes v)).length) 0 ++
      w.escBuf.drop ESCBUFSIZE), ?_, ?_⟩
  · simp only [List.length_append, List.length_replicate, List.length_drop]
    omega
  · unfold fprintfEscaped
    rw [vCardEscapeString_spec w.escBuf (bytes v) ESCBUFSIZE (by omega) (by omega)]
    simp only []
    obtain ⟨k, hk⟩ : ∃ k, ESCBUFSIZE - (escapedForm (bytes v)).length = k + 1 :=
      ⟨ESCBUFSIZE - (escapedForm (bytes v)).length - 1, by omega⟩
    rw [hk, readCString_padded]

theorem writeNameLine_spec (F L : String) (w : VcardOut) (hw : w.escBuf.length = ESCBUFSIZE)
    (hF : (escapedForm (bytes F)).length < ESCBUFSIZE)
    (hL : (escapedForm (bytes L)).length < ESCBUFSIZE) :
    ∃ buf, buf.length = ESCBUFSIZE ∧
      writeNameLine (some F) (some L) w =
        Except.ok { ofp := w.ofp ++ bytes "N:" ++ escapedForm (bytes F) ++ bytes ";" ++
                      escapedForm (bytes L) ++ bytes ";;;\n",
                    escBuf := buf } := by
  obtain ⟨b1, l1, h1⟩ := fprintfEscaped_spec "" "" F (fprintfText "N:" w) hw hF
  obtain ⟨b2, l2, h2⟩ := fprintfEscaped_spec ";" "" L
    { ofp := (fprintfText "N:" w).ofp ++ bytes "" ++ escapedForm (bytes F) ++ bytes "",
      escBuf := b1 } l1 hL
  refine ⟨b2, l2, ?_⟩
  unfold writeNameLine
  simp only [Option.isSome_some, true_or, if_true, fprintfEscapedIf]
  rw [h1]
  simp only []
  rw [h2]
  simp [fprintfText, bytes]

/-- A step of a writer that only adds to what is written. -/
theorem fprintfEscapedIf_ext (pre post : String) (v : Option String) (w w2 : VcardOut)
    (h : fprintfEscapedIf pre post v w = Except.ok w2) : ∃ t, w2.ofp = w.ofp ++ t := by
  unfold fprintfEscapedIf at h
  split at h
  · cases h; exact ⟨[], by simp⟩
  · unfold fprintfEscaped at h
    split at h
    · cases h
    · cases h
    · split at h
      · cases h
      · cases h
        exact ⟨_, by simp only [List.append_assoc]; rfl⟩

theorem fprintfText_ext (s : String) (w : VcardOut) :
    ∃ t, (fprintfText s w).ofp = w.ofp ++ t := ⟨bytes s, rfl⟩

theorem writeAddressTail_ext (v2 v3 v4 v5 : Option String) (w w2 : VcardOut)
    (h : writeAddressTail v2 v3 v4 v5 w = Except.ok w2) : ∃ t, w2.ofp = w.ofp ++ t := by
  unfold writeAddressTail at h
  split at h
  · cases h
  · rename_i a ha
    split at h
    · cases h
    · rename_i b hb
      split at h
      · cases h
      · rename_i c hc
        split at h
        · cases h
        · rename_i d hd
          cases h
          obtain ⟨t1, e1⟩ := fprintfEscapedIf_ext _ _ _ _ _ ha
          obtain ⟨t2, e2⟩ := fprintfEscapedIf_ext _ _ _ _ _ hb
          obtain ⟨t3, e3⟩ := fprintfEscapedIf_ext _ _ _ _ _ hc
          obtain ⟨t4, e4⟩ := fprintfEscapedIf_ext _ _ _ _ _ hd
          simp only [fprintfText] at e2 e3 e4 ⊢
          rw [e4, e3, e2, e1]
          exact ⟨_, by simp only [List.append_assoc]; rfl⟩

theorem writeAddress3_0_ext (label : String) (v1 v2 v3 v4 v5 a2 : Option String)
    (w w2 : VcardOut)
    (h : writeAddress3_0 label v1 v2 v3 v4 v5 a2 w = Except.ok w2) :
    ∃ t, w2.ofp = w.ofp ++ t := by
  unfold writeAddress3_0 at h
  split_ifs at h
  · obtain ⟨t, e⟩ := writeAddressTail_ext _ _ _ _ _ _ h
    rw [e]
    cases a2 <;> cases v1 <;> simp only [fprintfText] <;>
      exact ⟨_, by simp only [List.append_assoc]; rfl⟩
  · cases h; exact ⟨[], by simp⟩

theorem writeAddress2_1_ext (label : String) (v1 v2 v3 v4 v5 a2 : Option String)
    (w w2 : VcardOut)
    (h : writeAddress2_1 label v1 v2 v3 v4 v5 a2 w = Except.ok w2) :
    ∃ t, w2.ofp = w.ofp ++ t := by
  unfold writeAddress2_1 at h
  split_ifs at h
  · split at h
    · cases h
    · rename_i a ha
      split at h
      · cases h
      · rename_i b hb
        obtain ⟨t1, e1⟩ := fprintfEscapedIf_ext _ _ _ _ _ ha
        obtain ⟨t2, e2⟩ := fprintfEscapedIf_ext _ _ _ _ _ hb
        obtain ⟨t3, e3⟩ := writeAddressTail_ext _ _ _ _ _ _ h
        simp only [fprintfText] at e1 e2 e3 ⊢
        rw [e3, e2, e1]
        exact ⟨_, by simp only [List.append_assoc]; rfl⟩
  · cases h; exact ⟨[], by simp⟩

theorem Except_bind_ok {α β : Type} (x : Except Fault α) (f : α → Except Fault β) (r : β)
    (h : (x >>= f) = Except.ok r) : ∃ a, x = Except.ok a ∧ f a = Except.ok r := by
  cases x with
  | error e => cases h
  | ok a => exact ⟨a, rfl, h⟩

theorem writers_names_only (morkDb : MorkDb) (cells : MorkCells) (F L : String)
    (hcnt : 1 < cells.cnt)
    (hF : valueForColumnId (getColumnId morkDb "FirstName") cells morkDb = some F)
    (hL : valueForColumnId (getColumnId morkDb "LastName") cells morkDb = some L)
    (hFe : (escapedForm (bytes F)).length < ESCBUFSIZE)
    (hLe : (escapedForm (bytes L)).length < ESCBUFSIZE)
    (hnone : ∀ name ∈
        ["DisplayName", "PrimaryEmail", "WorkPhone", "FaxNumber", "HomePhone", "PagerNumber",
         "CellularNumber", "HomeAddress", "HomeAddress2", "HomeCity", "HomeState",
         "HomeZipCode", "HomeCountry", "WorkAddress", "WorkAddress2", "WorkCity", "WorkState",
         "WorkZipCode", "WorkCountry", "JobTitle", "Company", "Notes"],
      valueForColumnId (getColumnId morkDb name) cells morkDb = none) :
    writeMorkCellsAsVcard3_0 morkDb cells =
      Except.ok (bytes "BEGIN:VCARD\nVERSION:3.0\n" ++
        (bytes "N:" ++ escapedForm (bytes F) ++ bytes ";" ++ escapedForm (bytes L) ++
          bytes ";;;\n") ++ bytes "END:VCARD\n") ∧
    writeMorkCellsAsVcard2_1 morkDb cells =
      Except.ok (bytes "BEGIN:VCARD\nVERSION:2.1\n" ++
        (bytes "N:" ++ escapedForm (bytes F) ++ bytes ";" ++ escapedForm (bytes L) ++
          bytes ";;;\n") ++ bytes "END:VCARD\n") := by
  have n0 := hnone "DisplayName" (by simp)
  have n1 := hnone "PrimaryEmail" (by simp)
  have n2 := hnone "WorkPhone" (by simp)
  have n3 := hnone "FaxNumber" (by simp)
  have n4 := hnone "HomePhone" (by simp)
  have n5 := hnone "PagerNumber" (by simp)
  have n6 := hnone "CellularNumber" (by simp)
  have n7 := hnone "HomeAddress" (by simp)
  have n8 := hnone "HomeAddress2" (by simp)
  have n9 := hnone "HomeCity" (by simp)
  have n10 := hnone "HomeState" (by simp)
  have n11 := hnone "HomeZipCode" (by simp)
  have n12 := hnone "HomeCountry" (by simp)
  have n13 := hnone "WorkAddress" (by simp)
  have n14 := hnone "WorkAddress2" (by simp)
  have n15 := hnone "WorkCity" (by simp)
  have n16 := hnone "WorkState" (by simp)
  have n17 := hnone "WorkZipCode" (by simp)
  have n18 := hnone "WorkCountry" (by simp)
  have n19 := hnone "JobTitle" (by simp)
  have n20 := hnone "Company" (by simp)
  have n21 := hnone "Notes" (by simp)
  obtain ⟨b3, _, h3⟩ := writeNameLine_spec F L
    (fprintfText "VERSION:3.0\n" (fprintfText "BEGIN:VCARD\n"
      { ofp := [], escBuf := List.replicate ESCBUFSIZE 0 })) (by simp [fprintfText]) hFe hLe
  obtain ⟨b2, _, h2⟩ := writeNameLine_spec F L
    (fprintfText "VERSION:2.1\n" (fprintfText "BEGIN:VCARD\n"
      { ofp := [], escBuf := List.replicate ESCBUFSIZE 0 })) (by simp [fprintfText]) hFe hLe
  constructor
  · unfold writeMorkCellsAsVcard3_0
    simp only []
    rw [if_neg (by omega), if_neg (by rw [hF]; simp), hF, hL, h3]
    simp only [n0, n1, n2, n3, n4, n5, n6, n7, n8, n9, n10, n11, n12, n13, n14, n15, n16, n17, n18, n19, n20, n21, vCardLine, fprintfEscapedIf, writeAddress3_0,
      Option.isSome_none, Bool.false_eq_true, or_self, if_false, bind, Except.bind,
      fprintfText]
    simp [bytes]
  · unfold writeMorkCellsAsVcard2_1
    simp only []
    rw [if_neg (by omega), if_neg (by rw [hF]; simp), hF, hL, h2]
    simp only [n0, n1, n2, n3, n4, n5, n6, n7, n8, n9, n10, n11, n12, n13, n14, n15, n16, n17, n18, n19, n20, n21, vCardLine, fprintfEscapedIf, writeAddress2_1,
      Option.isSome_none, Bool.false_eq_true, or_self, if_false, bind, Except.bind,
      fprintfText]
    simp [bytes]

theorem vCardLine_ext (morkDb : MorkDb) (cells : MorkCells) (colId : Int) (pre post : String)
    (w w2 : VcardOut) (h : vCardLine morkDb cells colId pre post w = Except.ok w2) :
    ∃ t, w2.ofp = w.ofp ++ t :=
  fprintfEscapedIf_ext pre post _ w w2 h

/-- C33: the `N:` line of both writers has the given name first.  For a row
with more than one cell whose FirstName value is `F` and whose LastName value
is `L` (escaped forms below `ESCBUFSIZE`): the block that writes the line
appends `N:` escaped(F) `;` escaped(L) `;;;` and a line feed, and whatever
`writeMorkCellsAsVcard3_0` and `writeMorkCellsAsVcard2_1` return starts with
the two header lines followed by that line; when the row has no value for the
other columns that the writers look up, they return exactly these three lines
and the closing line. -/
theorem C33_name_line_given_name_first (morkDb : MorkDb) (cells : MorkCells) (F L : String)
    (hcnt : 1 < cells.cnt)
    (hF : valueForColumnId (getColumnId morkDb "FirstName") cells morkDb = some F)
    (hL : valueForColumnId (getColumnId morkDb "LastName") cells morkDb = some L)
    (hFe : (escapedForm (bytes F)).length < ESCBUFSIZE)
    (hLe : (escapedForm (bytes L)).length < ESCBUFSIZE) :
    (∀ w : VcardOut, w.escBuf.length = ESCBUFSIZE →
      ∃ buf, writeNameLine (some F) (some L) w =
        Except.ok { ofp := w.ofp ++ bytes "N:" ++ escapedForm (bytes F) ++ bytes ";" ++
                      escapedForm (bytes L) ++ bytes ";;;\n",
                    escBuf := buf }) ∧
    (∀ out, writeMorkCellsAsVcard3_0 morkDb cells = Except.ok out →
      ∃ rest, out = bytes "BEGIN:VCARD\nVERSION:3.0\n" ++
        (bytes "N:" ++ escapedForm (bytes F) ++ bytes ";" ++ escapedForm (bytes L) ++
          bytes ";;;\n") ++ rest) ∧
    (∀ out, writeMorkCellsAsVcard2_1 morkDb cells = Except.ok out →
      ∃ rest, out = bytes "BEGIN:VCARD\nVERSION:2.1\n" ++
        (bytes "N:" ++ escapedForm (bytes F) ++ bytes ";" ++ escapedForm (bytes L) ++
          bytes ";;;\n") ++ rest) ∧
    ((∀ name ∈
        ["DisplayName", "PrimaryEmail", "WorkPhone", "FaxNumber", "HomePhone", "PagerNumber",
         "CellularNumber", "HomeAddress", "HomeAddress2", "HomeCity", "HomeState",
         "HomeZipCode", "HomeCountry", "WorkAddress", "WorkAddress2", "WorkCity", "WorkState",
         "WorkZipCode", "WorkCountry", "JobTitle", "Company", "Notes"],
        valueForColumnId (getColumnId morkDb name) cells morkDb = none) →
      writeMorkCellsAsVcard3_0 morkDb cells =
        Except.ok (bytes "BEGIN:VCARD\nVERSION:3.0\n" ++
          (bytes "N:" ++ escapedForm (bytes F) ++ bytes ";" ++ escapedForm (bytes L) ++
            bytes ";;;\n") ++ bytes "END:VCARD\n") ∧
      writeMorkCellsAsVcard2_1 morkDb cells =
        Except.ok (bytes "BEGIN:VCARD\nVERSION:2.1\n" ++
          (bytes "N:" ++ escapedForm (bytes F) ++ bytes ";" ++ escapedForm (bytes L) ++
            bytes ";;;\n") ++ bytes "END:VCARD\n")) := by
  have hname : ∀ w : VcardOut, w.escBuf.length = ESCBUFSIZE →
      ∃ buf, writeNameLine (some F) (some L) w =
        Except.ok { ofp := w.ofp ++ bytes "N:" ++ escapedForm (bytes F) ++ bytes ";" ++
                      escapedForm (bytes L) ++ bytes ";;;\n",
                    escBuf := buf } := by
    intro w hw
    obtain ⟨buf, _, h⟩ := writeNameLine_spec F L w hw hFe hLe
    exact ⟨buf, h⟩
  refine ⟨hname, ?_, ?_, writers_names_only morkDb cells F L hcnt hF hL hFe hLe⟩
  · intro out h
    unfold writeMorkCellsAsVcard3_0 at h
    simp only [] at h
    rw [if_neg (by omega), if_neg (by rw [hF]; simp), hF, hL] at h
    obtain ⟨buf, hN⟩ := hname (fprintfText "VERSION:3.0\n" (fprintfText "BEGIN:VCARD\n"
      { ofp := [], escBuf := List.replicate ESCBUFSIZE 0 })) (by simp [fprintfText])
    obtain ⟨w1, h1, h⟩ := Except_bind_ok _ _ _ h
    rw [hN] at h1
    cases h1
    obtain ⟨w2, h2, h⟩ := Except_bind_ok _ _ _ h
    obtain ⟨w3, h3, h⟩ := Except_bind_ok _ _ _ h
    obtain ⟨w4, h4, h⟩ := Except_bind_ok _ _ _ h
    obtain ⟨w5, h5, h⟩ := Except_bind_ok _ _ _ h
    obtain ⟨w6, h6, h⟩ := Except_bind_ok _ _ _ h
    obtain ⟨w7, h7, h⟩ := Except_bind_ok _ _ _ h
    obtain ⟨w8, h8, h⟩ := Except_bind_ok _ _ _ h
    obtain ⟨w9, h9, h⟩ := Except_bind_ok _ _ _ h
    obtain ⟨w10, h10, h⟩ := Except_bind_ok _ _ _ h
    obtain ⟨w11, h11, h⟩ := Except_bind_ok _ _ _ h
    obtain ⟨w12, h12, h⟩ := Except_bind_ok _ _ _ h
    obtain ⟨w13, h13, h⟩ := Except_bind_ok _ _ _ h
    cases h
    obtain ⟨t2, e2⟩ := vCardLine_ext _ _ _ _ _ _ _ h2
    obtain ⟨t3, e3⟩ := vCardLine_ext _ _ _ _ _ _ _ h3
    obtain ⟨t4, e4⟩ := vCardLine_ext _ _ _ _ _ _ _ h4
    obtain ⟨t5, e5⟩ := vCardLine_ext _ _ _ _ _ _ _ h5
    obtain ⟨t6, e6⟩ := vCardLine_ext _ _ _ _ _ _ _ h6
    obtain ⟨t7, e7⟩ := vCardLine_ext _ _ _ _ _ _ _ h7
    obtain ⟨t8, e8⟩ := vCardLine_ext _ _ _ _ _ _ _ h8
    obtain ⟨t9, e9⟩ := vCardLine_ext _ _ _ _ _ _ _ h9
    obtain ⟨t10, e10⟩ := vCardLine_ext _ _ _ _ _ _ _ h10
    obtain ⟨t11, e11⟩ := writeAddress3_0_ext _ _ _ _ _ _ _ _ _ h11
    obtain ⟨t12, e12⟩ := writeAddress3_0_ext _ _ _ _ _ _ _ _ _ h12
    obtain ⟨t13, e13⟩ := vCardLine_ext _ _ _ _ _ _ _ h13
    simp only [fprintfText] at e2 ⊢
    rw [e13, e12, e11, e10, e9, e8, e7, e6, e5, e4, e3, e2]
    refine ⟨t2 ++ t3 ++ t4 ++ t5 ++ t6 ++ t7 ++ t8 ++ t9 ++ t10 ++ t11 ++ t12 ++ t13 ++
      bytes "END:VCARD\n", ?_⟩
    simp [bytes]
  · intro out h
    unfold writeMorkCellsAsVcard2_1 at h
    simp only [] at h
    rw [if_neg (by omega), if_neg (by rw [hF]; simp), hF, hL] at h
    obtain ⟨buf, hN⟩ := hname (fprintfText "VERSION:2.1\n" (fprintfText "BEGIN:VCARD\n"
      { ofp := [], escBuf := List.replicate ESCBUFSIZE 0 })) (by simp [fprintfText])
    obtain ⟨w1, h1, h⟩ := Except_bind_ok _ _ _ h
    rw [hN] at h1
    cases h1
    obtain ⟨w2, h2, h⟩ := Except_bind_ok _ _ _ h
    obtain ⟨w3, h3, h⟩ := Except_bind_ok _ _ _ h
    obtain ⟨w4, h4, h⟩ := Except_bind_ok _ _ _ h
    obtain ⟨w5, h5, h⟩ := Except_bind_ok _ _ _ h
    obtain ⟨w6, h6, h⟩ := Except_bind_ok _ _ _ h
    obtain ⟨w7, h7, h⟩ := Except_bind_ok _ _ _ h
    obtain ⟨w8, h8, h⟩ := Except_bind_ok _ _ _ h
    obtain ⟨w9, h9, h⟩ := Except_bind_ok _ _ _ h
    obtain ⟨w10, h10, h⟩ := Except_bind_ok _ _ _ h
    obtain ⟨w11, h11, h⟩ := Except_bind_ok _ _ _ h
    obtain ⟨w12, h12, h⟩ := Except_bind_ok _ _ _ h
    obtain ⟨w13, h13, h⟩ := Except_bind_ok _ _ _ h
    cases h
    obtain ⟨t2, e2⟩ := vCardLine_ext _ _ _ _ _ _ _ h2
    obtain ⟨t3, e3⟩ := vCardLine_ext _ _ _ _ _ _ _ h3
    obtain ⟨t4, e4⟩ := vCardLine_ext _ _ _ _ _ _ _ h4
    obtain ⟨t5, e5⟩ := vCardLine_ext _ _ _ _ _ _ _ h5
    obtain ⟨t6, e6⟩ := vCardLine_ext _ _ _ _ _ _ _ h6
    obtain ⟨t7, e7⟩ := vCardLine_ext _ _ _ _ _ _ _ h7
    obtain ⟨t8, e8⟩ := vCardLine_ext _ _ _ _ _ _ _ h8
    obtain ⟨t9, e9⟩ := vCardLine_ext _ _ _ _ _ _ _ h9
    obtain ⟨t10, e10⟩ := writeAddress2_1_ext _ _ _ _ _ _ _ _ _ h10
    obtain ⟨t11, e11⟩ := writeAddress2_1_ext _ _ _ _ _ _ _ _ _ h11
    obtain ⟨t12, e12⟩ := vCardLine_ext _ _ _ _ _ _ _ h12
    obtain ⟨t13, e13⟩ := vCardLine_ext _ _ _ _ _ _ _ h13
    simp only [fprintfText] at e2 ⊢
    rw [e13, e12, e11, e10, e9, e8, e7, e6, e5, e4, e3, e2]
    refine ⟨t2 ++ t3 ++ t4 ++ t5 ++ t6 ++ t7 ++ t8 ++ t9 ++ t10 ++ t11 ++ t12 ++ t13 ++
      bytes "END:VCARD\n", ?_⟩
    simp [bytes]

set_option maxRecDepth 20000 in
/-- C33 on the database parsed from the magic header followed by
`<<(a=c)>(81=FirstName)(82=LastName)>[1(^81=Forrest)(^82=Gump)]`: both writers
give the line `N:Forrest;Gump;;;` for row 1, not `N:Gump;Forrest;;;`. -/
theorem C33_name_line_given_name_first_witness :
    ∃ db cells,
      parseMorkStream 200
        { pending := MorkMagicHeader ++
            bytes "<<(a=c)>(81=FirstName)(82=LastName)>[1(^81=Forrest)(^82=Gump)]"
          eof := false } = Except.ok (some db) ∧
      cellsAt db 0x80 0 0x80 1 = some 0 ∧ derefCells db 0 = cells ∧
      (writeMorkCellsAsVcard3_0 db cells =
        Except.ok (bytes "BEGIN:VCARD\nVERSION:3.0\n" ++
          (bytes "N:" ++ escapedForm (bytes "Forrest") ++ bytes ";" ++
            escapedForm (bytes "Gump") ++ bytes ";;;\n") ++ bytes "END:VCARD\n") ∧
       writeMorkCellsAsVcard2_1 db cells =
        Except.ok (bytes "BEGIN:VCARD\nVERSION:2.1\n" ++
          (bytes "N:" ++ escapedForm (bytes "Forrest") ++ bytes ";" ++
            escapedForm (bytes "Gump") ++ bytes ";;;\n") ++ bytes "END:VCARD\n")) ∧
      bytes "BEGIN:VCARD\nVERSION:3.0\n" ++
          (bytes "N:" ++ escapedForm (bytes "Forrest") ++ bytes ";" ++
            escapedForm (bytes "Gump") ++ bytes ";;;\n") ++ bytes "END:VCARD\n" =
        bytes "BEGIN:VCARD\nVERSION:3.0\nN:Forrest;Gump;;;\nEND:VCARD\n" ∧
      bytes "N:Forrest;Gump;;;\n" ≠ bytes "N:Gump;Forrest;;;\n" :=
  ⟨{ keys := [128]
     entries := [{ keys := [0], entries := [{ keys := [128], entries :=
       [{ keys := [1], entries := [0] }] }] }]
     columns := { entries := [makeMorkDictEntry 0x81 "FirstName",
       makeMorkDictEntry 0x82 "LastName"] }
     values := { entries := [makeMorkDictEntry 0x7ffffffd "Gump",
       makeMorkDictEntry 0x7ffffffe "Forrest"] }
     nowParsing := NowParsingType.NPRows
     nextAddValueId := 0x7ffffffd
     defaultScope := 128
     activeCells := some 0
     cellsHeap := [{ entries := [makeMorkCellEntry 0x81 0x7ffffffe,
       makeMorkCellEntry 0x82 0x7ffffffd] }] },
   { entries := [makeMorkCellEntry 0x81 0x7ffffffe, makeMorkCellEntry 0x82 0x7ffffffd] },
   rfl, rfl, rfl,
   by
     refine (C33_name_line_given_name_first _ _ "Forrest" "Gump" ?_ ?_ ?_ ?_ ?_).2.2.2 ?_
     · decide
     · rfl
     · rfl
     · decide
     · decide
     · decide,
   by decide, by decide⟩


/-! ## Group bodies that end in `@` -/

theorem contentPut_eq (content : List Nat) (size c : Nat) (c1 : List Nat)
    (h : contentPut content size c = Except.ok c1) : c1 = content ++ [c] := by
  unfold contentPut at h
  split_ifs at h
  cases h
  rfl

theorem parseMorkGroupContentLoop_keeps_content :
    ∀ (fuel : Nat) (b : Bool) (cur : Int) (ifp : MorkFile) (content : List Nat) (size : Nat)
      (r : MorkFile × List Nat × Nat),
      parseMorkGroupContentLoop fuel b cur ifp content size = Except.ok r →
      content <+: r.2.1 := by
  intro fuel
  induction fuel with
  | zero => intro b cur ifp content size r h; simp [parseMorkGroupContentLoop] at h
  | succ f ih =>
    intro b cur ifp content size r h
    rw [parseMorkGroupContentLoop] at h
    by_cases h0 : b = true ∧ cur ≠ 0 ∧ feof ifp = false
    · rw [if_pos h0] at h
      simp only [] at h
      generalize (if content.length ≥ size then size + 512 else size) = S at h
      by_cases h92 : cur = 92
      · rw [if_pos h92] at h
        split at h
        · cases h
        · rename_i c1 hc1
          split at h
          · cases h
          · rename_i c2 hc2
            have e1 := contentPut_eq _ _ _ _ hc1
            have e2 := contentPut_eq _ _ _ _ hc2
            have := ih _ _ _ _ _ _ h
            rw [e2, e1] at this
            exact (List.prefix_append _ _).trans ((List.prefix_append _ _).trans this)
      · rw [if_neg h92] at h
        by_cases h64 : cur = 64
        · rw [if_pos h64] at h
          split at h
          · cases h
          · rename_i c1 hc1
            split at h
            · cases h
            · rename_i c2 hc2
              have e1 := contentPut_eq _ _ _ _ hc1
              have e2 := contentPut_eq _ _ _ _ hc2
              by_cases h36 : (morkgetc ifp).1 = 36
              · rw [if_pos h36] at h
                split at h
                · cases h
                · rename_i c3 hc3
                  have e3 := contentPut_eq _ _ _ _ hc3
                  by_cases h36b : (morkgetc (morkgetc ifp).2).1 = 36
                  · rw [if_pos h36b] at h
                    have := ih _ _ _ _ _ _ h
                    rw [e3, e2, e1] at this
                    simp only [List.length_append, List.length_cons, List.length_nil,
                      List.append_assoc, List.cons_append, List.nil_append] at this
                    have e4 : content.length + (0 + 1 + 1 + 1) - 3 = content.length := by omega
                    rw [e4, List.take_left'] at this
                    · exact this
                    · rfl
                  · rw [if_neg h36b] at h
                    have := ih _ _ _ _ _ _ h
                    rw [e3, e2, e1] at this
                    exact (List.prefix_append _ _).trans ((List.prefix_append _ _).trans
                      ((List.prefix_append _ _).trans this))
              · rw [if_neg h36] at h
                have := ih _ _ _ _ _ _ h
                rw [e2, e1] at this
                exact (List.prefix_append _ _).trans ((List.prefix_append _ _).trans this)
        · rw [if_neg h64] at h
          split at h
          · cases h
          · rename_i c1 hc1
            have e1 := contentPut_eq _ _ _ _ hc1
            have := ih _ _ _ _ _ _ h
            rw [e1] at this
            exact (List.prefix_append _ _).trans this
    · rw [if_neg h0] at h
      cases h
      exact List.prefix_refl _

theorem parseMorkGroupContentLoop_at_at (X content : List Nat) (size0 f : Nat)
    (hsize : size0 = 512 * ((content.length + 511) / 512))
    (hmod : content.length % 512 ≤ 507) :
    parseMorkGroupContentLoop (f + 3) true 64
        { pending := 64 :: 36 :: 36 :: X, eof := false } content size0 =
      parseMorkGroupContentLoop f true (morkgetc { pending := X, eof := false }).1
        (morkgetc { pending := X, eof := false }).2 (content ++ [64, 64, 36, 36])
        (512 * (content.length / 512 + 1)) := by
  have hsz : (if content.length ≥ size0 then size0 + 512 else size0) =
      512 * (content.length / 512 + 1) := by
    split_ifs <;> omega
  have t64 : toChar (64 : Int) = 64 := rfl
  have t36 : toChar (36 : Int) = 36 := rfl
  have l1 : (content ++ [64]).length < 512 * (content.length / 512 + 1) := by
    simp; omega
  have l2 : (content ++ [64] ++ [64]).length < 512 * (content.length / 512 + 1) := by
    simp; omega
  have l3 : (content ++ [64] ++ [64] ++ [36]).length < 512 * (content.length / 512 + 1) := by
    simp; omega
  rw [show f + 3 = (f + 2) + 1 from rfl, parseMorkGroupContentLoop]
  rw [if_pos ⟨rfl, by decide, rfl⟩]
  simp only [hsz]
  rw [if_neg (by decide), if_pos (by decide)]
  rw [t64, contentPut_ok _ _ _ (by omega)]
  simp only [morkgetc_cons, Nat.cast_ofNat, t64]
  rw [contentPut_ok _ _ _ l1]
  simp only []
  rw [if_neg (by decide)]
  rw [show f + 2 = (f + 1) + 1 from rfl, parseMorkGroupContentLoop]
  rw [if_pos ⟨rfl, by decide, rfl⟩, if_neg (not_le.mpr l2), if_neg (by decide), if_neg (by decide),
    t36, contentPut_ok _ _ _ l2]
  simp only [morkgetc_cons, Nat.cast_ofNat]
  rw [parseMorkGroupContentLoop]
  rw [if_pos ⟨rfl, by decide, rfl⟩, if_neg (not_le.mpr l3), if_neg (by decide), if_neg (by decide),
    t36, contentPut_ok _ _ _ l3]
  simp only [List.append_assoc, List.cons_append, List.nil_append]

theorem parseMorkGroupContentLoop_at_dollar_at (X content : List Nat) (size0 f : Nat)
    (hsize : size0 = 512 * ((content.length + 511) / 512))
    (hmod : content.length % 512 ≤ 506) :
    parseMorkGroupContentLoop (f + 3) true 64
        { pending := 36 :: 64 :: 36 :: 36 :: X, eof := false } content size0 =
      parseMorkGroupContentLoop f true (morkgetc { pending := X, eof := false }).1
        (morkgetc { pending := X, eof := false }).2 (content ++ [64, 36, 64, 36, 36])
        (512 * (content.length / 512 + 1)) := by
  have hsz : (if content.length ≥ size0 then size0 + 512 else size0) =
      512 * (content.length / 512 + 1) := by
    split_ifs <;> omega
  have t64 : toChar (64 : Int) = 64 := rfl
  have t36 : toChar (36 : Int) = 36 := rfl
  have l1 : (content ++ [64]).length < 512 * (content.length / 512 + 1) := by
    simp; omega
  have l2 : (content ++ [64] ++ [36]).length < 512 * (content.length / 512 + 1) := by
    simp; omega
  have l3 : (content ++ [64] ++ [36] ++ [64]).length < 512 * (content.length / 512 + 1) := by
    simp; omega
  have l4 : (content ++ [64] ++ [36] ++ [64] ++ [36]).length <
      512 * (content.length / 512 + 1) := by
    simp; omega
  rw [show f + 3 = (f + 2) + 1 from rfl, parseMorkGroupContentLoop]
  rw [if_pos ⟨rfl, by decide, rfl⟩]
  simp only [hsz]
  rw [if_neg (by decide), if_pos (by decide)]
  rw [t64, contentPut_ok _ _ _ (by omega)]
  simp only [morkgetc_cons, Nat.cast_ofNat, t36, t64]
  rw [contentPut_ok _ _ _ l1]
  simp only []
  rw [if_pos (by decide), contentPut_ok _ _ _ l2]
  simp only []
  rw [if_neg (by decide)]
  rw [show f + 2 = (f + 1) + 1 from rfl, parseMorkGroupContentLoop]
  rw [if_pos ⟨rfl, by decide, rfl⟩, if_neg (not_le.mpr l3), if_neg (by decide), if_neg (by decide),
    t36, contentPut_ok _ _ _ l3]
  simp only [morkgetc_cons, Nat.cast_ofNat]
  rw [parseMorkGroupContentLoop]
  rw [if_pos ⟨rfl, by decide, rfl⟩, if_neg (not_le.mpr l4), if_neg (by decide), if_neg (by decide),
    t36, contentPut_ok _ _ _ l4]
  simp only [List.append_assoc, List.cons_append, List.nil_append]

/-- C31: `parseMorkGroup` misses the terminator `@$$` that comes right after an
`@` or an `@$`.  For plain bytes `B` and any bytes `X`: on `B @$$ X` the loop
that loads the group contents buffers exactly `B`; on `B @ @$$ X`, where the
body is `B @`, it stores the second `@` as the byte that follows the first one
and the two `$` as ordinary bytes, and goes on with `X`, so that whatever it
returns begins with `B @@$$` and is not the body `B @`; on `B @$ @$$ X`
likewise, what it returns begins with `B @$@$$`. -/
theorem C31_terminator_after_at_is_missed (B X : List Nat) (f : Nat)
    (hB : ∀ c ∈ B, 0 < c ∧ c < 256 ∧ c ≠ 64 ∧ c ≠ 92) (hmod : B.length % 512 ≤ 506) :
    parseMorkGroupContentLoop (B.length + (f + 2)) true
        (morkgetc { pending := B ++ 64 :: 36 :: 36 :: X, eof := false }).1
        (morkgetc { pending := B ++ 64 :: 36 :: 36 :: X, eof := false }).2 [] 0 =
      Except.ok ({ pending := 36 :: 36 :: X, eof := false }, B,
        512 * (B.length / 512 + 1)) ∧
    (parseMorkGroupContentLoop (B.length + (f + 3)) true
        (morkgetc { pending := (B ++ [64]) ++ 64 :: 36 :: 36 :: X, eof := false }).1
        (morkgetc { pending := (B ++ [64]) ++ 64 :: 36 :: 36 :: X, eof := false }).2 [] 0 =
      parseMorkGroupContentLoop f true (morkgetc { pending := X, eof := false }).1
        (morkgetc { pending := X, eof := false }).2 (B ++ [64, 64, 36, 36])
        (512 * (B.length / 512 + 1)) ∧
     ∀ r, parseMorkGroupContentLoop (B.length + (f + 3)) true
        (morkgetc { pending := (B ++ [64]) ++ 64 :: 36 :: 36 :: X, eof := false }).1
        (morkgetc { pending := (B ++ [64]) ++ 64 :: 36 :: 36 :: X, eof := false }).2 [] 0 =
          Except.ok r →
        B ++ [64, 64, 36, 36] <+: r.2.1 ∧ r.2.1 ≠ B ++ [64]) ∧
    (parseMorkGroupContentLoop (B.length + (f + 3)) true
        (morkgetc { pending := (B ++ [64, 36]) ++ 64 :: 36 :: 36 :: X, eof := false }).1
        (morkgetc { pending := (B ++ [64, 36]) ++ 64 :: 36 :: 36 :: X, eof := false }).2 [] 0 =
      parseMorkGroupContentLoop f true (morkgetc { pending := X, eof := false }).1
        (morkgetc { pending := X, eof := false }).2 (B ++ [64, 36, 64, 36, 36])
        (512 * (B.length / 512 + 1)) ∧
     ∀ r, parseMorkGroupContentLoop (B.length + (f + 3)) true
        (morkgetc { pending := (B ++ [64, 36]) ++ 64 :: 36 :: 36 :: X, eof := false }).1
        (morkgetc { pending := (B ++ [64, 36]) ++ 64 :: 36 :: 36 :: X, eof := false }).2 [] 0 =
          Except.ok r →
        B ++ [64, 36, 64, 36, 36] <+: r.2.1 ∧ r.2.1 ≠ B ++ [64, 36]) := by
  have hs0b : (0 : Nat) = 512 * ((([] : List Nat).length + 511) / 512) := by simp
  have e1 : parseMorkGroupContentLoop (B.length + (f + 3)) true
        (morkgetc { pending := (B ++ [64]) ++ 64 :: 36 :: 36 :: X, eof := false }).1
        (morkgetc { pending := (B ++ [64]) ++ 64 :: 36 :: 36 :: X, eof := false }).2 [] 0 =
      parseMorkGroupContentLoop f true (morkgetc { pending := X, eof := false }).1
        (morkgetc { pending := X, eof := false }).2 (B ++ [64, 64, 36, 36])
        (512 * (B.length / 512 + 1)) := by
    have h := parseMorkGroupContentLoop_plain (64 :: 64 :: 36 :: 36 :: X) B [] 0 (f + 3) hB hs0b
    simp only [List.append_assoc, List.cons_append, List.nil_append, List.length_nil,
      Nat.zero_add] at h ⊢
    rw [h]
    simp only [morkgetc_cons, Nat.cast_ofNat]
    exact parseMorkGroupContentLoop_at_at X B _ f rfl (by omega)
  have e2 : parseMorkGroupContentLoop (B.length + (f + 3)) true
        (morkgetc { pending := (B ++ [64, 36]) ++ 64 :: 36 :: 36 :: X, eof := false }).1
        (morkgetc { pending := (B ++ [64, 36]) ++ 64 :: 36 :: 36 :: X, eof := false }).2 [] 0 =
      parseMorkGroupContentLoop f true (morkgetc { pending := X, eof := false }).1
        (morkgetc { pending := X, eof := false }).2 (B ++ [64, 36, 64, 36, 36])
        (512 * (B.length / 512 + 1)) := by
    have h := parseMorkGroupContentLoop_plain (64 :: 36 :: 64 :: 36 :: 36 :: X) B [] 0 (f + 3)
      hB hs0b
    simp only [List.append_assoc, List.cons_append, List.nil_append, List.length_nil,
      Nat.zero_add] at h ⊢
    rw [h]
    simp only [morkgetc_cons, Nat.cast_ofNat]
    exact parseMorkGroupContentLoop_at_dollar_at X B _ f rfl hmod
  refine ⟨?_, ⟨e1, ?_⟩, ⟨e2, ?_⟩⟩
  · have h := parseMorkGroupContentLoop_body X B [] 0 f hB hs0b
      (by simp only [List.length_nil, Nat.zero_add]; omega)
    simpa using h
  · intro r hr
    rw [e1] at hr
    have hp := parseMorkGroupContentLoop_keeps_content _ _ _ _ _ _ _ hr
    refine ⟨hp, ?_⟩
    intro he
    have := hp.length_le
    rw [he] at this
    simp at this
  · intro r hr
    rw [e2] at hr
    have hp := parseMorkGroupContentLoop_keeps_content _ _ _ _ _ _ _ hr
    refine ⟨hp, ?_⟩
    intro he
    have := hp.length_le
    rw [he] at this
    simp at this

set_option maxRecDepth 20000 in
/-- C31 on the group 1 with the body `<(1=a)>@`: the terminator after the `@`
is not seen, the loop buffers the rest of the input, and the parse of the
wrapped input returns the initial database, while the body followed by the
rest of the input gives the value 1. -/
theorem C31_terminator_after_at_is_missed_witness :
    (∀ r, parseMorkGroupContentLoop ((bytes "<(1=a)>").length + (40 + 3)) true
        (morkgetc
          { pending := (bytes "<(1=a)>" ++ [64]) ++ 64 :: 36 :: 36 ::
              bytes "\x7d1\x7d@<(2=b)>"
            eof := false }).1
        (morkgetc
          { pending := (bytes "<(1=a)>" ++ [64]) ++ 64 :: 36 :: 36 ::
              bytes "\x7d1\x7d@<(2=b)>"
            eof := false }).2 [] 0 =
          Except.ok r →
        bytes "<(1=a)>" ++ [64, 64, 36, 36] <+: r.2.1 ∧ r.2.1 ≠ bytes "<(1=a)>" ++ [64]) ∧
    parseMorkGroupContentLoop 50 true 60
        { pending := bytes "(1=a)>@@$$\x7d1\x7d@<(2=b)>", eof := false } [] 0 =
      Except.ok ({ pending := [], eof := true },
        bytes "<(1=a)>@@$$\x7d1\x7d@<(2=b)>", 512) ∧
    parseMorkStream 100
        { pending := MorkMagicHeader ++ bytes "@$$\x7b1\x7b@<(1=a)>@@$$\x7d1\x7d@<(2=b)>"
          eof := false } =
      Except.ok (some initializeTableScopeMap) ∧
    parseMorkStream 100
        { pending := MorkMagicHeader ++ bytes "<(1=a)>@<(2=b)>", eof := false } =
      Except.ok (some { initializeTableScopeMap with
        values := { entries := [makeMorkDictEntry 1 "a"] } }) :=
  ⟨(C31_terminator_after_at_is_missed (bytes "<(1=a)>") (bytes "\x7d1\x7d@<(2=b)>") 40
      (by decide) (by decide)).2.1.2,
   by rfl, by rfl, by rfl⟩

/-! ## Inputs that end inside a comment or a table -/

theorem parseMorkCommentLoop_never (fuel : Nat) :
    ∀ (cur : Int) (ifp : MorkFile) (buf : List Nat),
      (cur ≠ 0 ∧ cur ≠ 13 ∧ cur ≠ 10) →
      (∀ c ∈ ifp.pending, c ≠ 0 ∧ c ≠ 13 ∧ c ≠ 10) →
      ∃ e, parseMorkCommentLoop fuel cur ifp buf = Except.error e := by
  induction fuel with
  | zero => intro cur ifp buf _ _; exact ⟨_, rfl⟩
  | succ f ih =>
    intro cur ifp buf hc hp
    rw [parseMorkCommentLoop, if_pos hc]
    cases hb : bufPut buf (toChar cur) with
    | error e => exact ⟨e, rfl⟩
    | ok b =>
      simp only []
      apply ih
      · cases hq : ifp.pending with
        | nil => simp [morkgetc, hq, EOF]
        | cons x xs =>
          have := hp x (by rw [hq]; exact List.mem_cons_self _ _)
          simp only [morkgetc, hq]
          omega
      · cases hq : ifp.pending with
        | nil => simp [morkgetc, hq]
        | cons x xs =>
          intro c hc2
          simp only [morkgetc, hq] at hc2
          exact hp c (by rw [hq]; exact List.mem_cons_of_mem _ hc2)

theorem parseMorkCommentLoop_overflow :
    ∀ (n : Nat) (buf : List Nat) (fuel : Nat) (cur : Int) (ifp : MorkFile),
      buf.length + n = 512 → n + 1 ≤ fuel →
      (cur ≠ 0 ∧ cur ≠ 13 ∧ cur ≠ 10) →
      (∀ c ∈ ifp.pending, c ≠ 0 ∧ c ≠ 13 ∧ c ≠ 10) →
      parseMorkCommentLoop fuel cur ifp buf = Except.error Fault.overflow := by
  intro n
  induction n with
  | zero =>
    intro buf fuel cur ifp hn hf hc _
    obtain ⟨f, rfl⟩ : ∃ f, fuel = f + 1 := ⟨fuel - 1, by omega⟩
    rw [parseMorkCommentLoop, if_pos hc]
    simp [bufPut, show ¬ buf.length < 512 by omega]
  | succ n ih =>
    intro buf fuel cur ifp hn hf hc hp
    obtain ⟨f, rfl⟩ : ∃ f, fuel = f + 1 := ⟨fuel - 1, by omega⟩
    rw [parseMorkCommentLoop, if_pos hc, bufPut_ok _ _ (by omega)]
    simp only []
    apply ih
    · simp only [List.length_append, List.length_cons, List.length_nil]; omega
    · omega
    · cases hq : ifp.pending with
      | nil => simp [morkgetc, hq, EOF]
      | cons x xs =>
        have := hp x (by rw [hq]; exact List.mem_cons_self _ _)
        simp only [morkgetc, hq]
        omega
    · cases hq : ifp.pending with
      | nil => simp [morkgetc, hq]
      | cons x xs =>
        intro c hc2
        simp only [morkgetc, hq] at hc2
        exact hp c (by rw [hq]; exact List.mem_cons_of_mem _ hc2)

theorem parseMorkComment_never (text : List Nat) (fuel : Nat)
    (ht : ∀ c ∈ text, c ≠ 0 ∧ c ≠ 13 ∧ c ≠ 10) :
    (∃ e, parseMorkComment fuel { pending := 47 :: text, eof := false } = Except.error e) ∧
    (513 ≤ fuel →
      parseMorkComment fuel { pending := 47 :: text, eof := false } =
        Except.error Fault.overflow) := by
  constructor
  · obtain ⟨e, he⟩ := parseMorkCommentLoop_never fuel 47 { pending := text, eof := false } []
      (by decide) ht
    refine ⟨e, ?_⟩
    unfold parseMorkComment
    simp only [morkgetc_cons, Nat.cast_ofNat]
    rw [if_neg (by decide), he]
  · intro hf
    unfold parseMorkComment
    simp only [morkgetc_cons, Nat.cast_ofNat]
    rw [if_neg (by decide),
      parseMorkCommentLoop_overflow 512 [] fuel 47 { pending := text, eof := false } rfl hf
        (by decide) ht]

theorem toChar_morkgetc_tid (ifp : MorkFile)
    (hp : ∀ c ∈ ifp.pending, 0 < c ∧ c < 256 ∧ c ≠ 123 ∧ c ≠ 91 ∧ c ≠ 125) :
    (toChar (morkgetc ifp).1 ≠ 0 ∧ toChar (morkgetc ifp).1 ≠ 123 ∧
      toChar (morkgetc ifp).1 ≠ 91 ∧ toChar (morkgetc ifp).1 ≠ 125) ∧
    ∀ c ∈ (morkgetc ifp).2.pending, 0 < c ∧ c < 256 ∧ c ≠ 123 ∧ c ≠ 91 ∧ c ≠ 125 := by
  cases hq : ifp.pending with
  | nil =>
    simp only [morkgetc, hq]
    exact ⟨by decide, by simp⟩
  | cons x xs =>
    have hx := hp x (by rw [hq]; exact List.mem_cons_self _ _)
    simp only [morkgetc, hq, toChar_cast x hx.2.1]
    exact ⟨by omega, fun c hc => hp c (by rw [hq]; exact List.mem_cons_of_mem _ hc)⟩

theorem parseMorkTableIdLoop_never (fuel : Nat) :
    ∀ (cur : Nat) (ifp : MorkFile) (buf : List Nat),
      (cur ≠ 0 ∧ cur ≠ 123 ∧ cur ≠ 91 ∧ cur ≠ 125) →
      (∀ c ∈ ifp.pending, 0 < c ∧ c < 256 ∧ c ≠ 123 ∧ c ≠ 91 ∧ c ≠ 125) →
      ∃ e, parseMorkTableIdLoop fuel cur ifp buf = Except.error e := by
  induction fuel with
  | zero => intro cur ifp buf _ _; exact ⟨_, rfl⟩
  | succ f ih =>
    intro cur ifp buf hc hp
    obtain ⟨h1, h2⟩ := toChar_morkgetc_tid ifp hp
    rw [parseMorkTableIdLoop, if_pos hc]
    split_ifs
    · cases hb : bufPut buf cur with
      | error e => exact ⟨e, rfl⟩
      | ok b =>
        simp only []
        exact ih _ _ _ h1 h2
    · exact ih _ _ _ h1 h2

theorem parseMorkTable_never (T : List Nat) (fuel : Nat)
    (hT : ∀ c ∈ T, 0 < c ∧ c < 256 ∧ c ≠ 123 ∧ c ≠ 91 ∧ c ≠ 125) (m : MorkDb) :
    ∃ e, parseMorkTable fuel { pending := T, eof := false } m = Except.error e := by
  obtain ⟨h1, h2⟩ := toChar_morkgetc_tid { pending := T, eof := false } hT
  obtain ⟨e, he⟩ := parseMorkTableIdLoop_never fuel _ _ [] h1 h2
  refine ⟨e, ?_⟩
  unfold parseMorkTable
  rw [he]

/-- C32: `parseMorkStream` does not return on every input.  When the input
ends inside a `//` comment (no CR, LF or zero byte after the two slashes), the
loop of `parseMorkComment`, which has no test of the end of input, goes on
storing the value `EOF` into `cmntBuf`: no amount of fuel gives a result, and
from 514 units on the run ends in the overflow of the 512-byte buffer.  When
the input ends inside the id text of a table (no brace or bracket after the
opening brace), the first loop of `parseMorkTable` does the same with
`textId`.  The loops of `parseMorkRow`, `parseMorkCell` and `parseMorkDict`
test the end of input: the inputs that end inside a row, a cell or a
dictionary give a database. -/
theorem C32_comment_and_table_never_return (text T : List Nat) (fuel : Nat)
    (ht : ∀ c ∈ text, c ≠ 0 ∧ c ≠ 13 ∧ c ≠ 10)
    (hT : ∀ c ∈ T, 0 < c ∧ c < 256 ∧ c ≠ 123 ∧ c ≠ 91 ∧ c ≠ 125) :
    (∃ e, parseMorkStream fuel
        { pending := MorkMagicHeader ++ 47 :: 47 :: text, eof := false } = Except.error e) ∧
    (514 ≤ fuel →
      parseMorkStream fuel
          { pending := MorkMagicHeader ++ 47 :: 47 :: text, eof := false } =
        Except.error Fault.overflow) ∧
    (∃ e, parseMorkStream fuel
        { pending := MorkMagicHeader ++ 123 :: T, eof := false } = Except.error e) ∧
    (∃ db, parseMorkStream 40
        { pending := MorkMagicHeader ++ bytes "[1(5=x", eof := false } =
      Except.ok (some db)) ∧
    (∃ db, parseMorkStream 40
        { pending := MorkMagicHeader ++ bytes "[1", eof := false } = Except.ok (some db)) ∧
    (∃ db, parseMorkStream 40
        { pending := MorkMagicHeader ++ bytes "<(1=a", eof := false } = Except.ok (some db)) := by
  refine ⟨?_, ?_, ?_, ⟨_, rfl⟩, ⟨_, rfl⟩, ⟨_, rfl⟩⟩
  · rw [parseMorkStream_header]
    simp only [morkgetc_cons, Nat.cast_ofNat]
    cases fuel with
    | zero => exact ⟨_, rfl⟩
    | succ f =>
      obtain ⟨e, he⟩ := (parseMorkComment_never text f ht).1
      refine ⟨e, ?_⟩
      rw [parseMorkStreamLoop]
      rw [if_pos ⟨rfl, by decide, rfl⟩, if_pos (by decide), if_neg (by decide), if_pos rfl, he]
  · intro hf
    obtain ⟨f, rfl⟩ : ∃ f, fuel = f + 1 := ⟨fuel - 1, by omega⟩
    rw [parseMorkStream_header]
    simp only [morkgetc_cons, Nat.cast_ofNat]
    rw [parseMorkStreamLoop]
    rw [if_pos ⟨rfl, by decide, rfl⟩, if_pos (by decide), if_neg (by decide), if_pos rfl,
      (parseMorkComment_never text f ht).2 (by omega)]
  · rw [parseMorkStream_header]
    simp only [morkgetc_cons, Nat.cast_ofNat]
    cases fuel with
    | zero => exact ⟨_, rfl⟩
    | succ f =>
      obtain ⟨e, he⟩ := parseMorkTable_never T f hT initializeTableScopeMap
      refine ⟨e, ?_⟩
      rw [parseMorkStreamLoop]
      rw [if_pos ⟨rfl, by decide, rfl⟩, if_pos (by decide), if_neg (by decide),
        if_neg (by decide), if_pos rfl, he]

/-- C32 on the magic header followed by `// note` and by `\x7b1`, with 600
units of fuel: neither run gives a result, and the one of the comment ends in
the overflow of `cmntBuf`. -/
theorem C32_comment_and_table_never_return_witness :
    (∃ e, parseMorkStream 600
        { pending := MorkMagicHeader ++ 47 :: 47 :: bytes " note", eof := false } =
      Except.error e) ∧
    parseMorkStream 600
        { pending := MorkMagicHeader ++ 47 :: 47 :: bytes " note", eof := false } =
      Except.error Fault.overflow ∧
    (∃ e, parseMorkStream 600
        { pending := MorkMagicHeader ++ 123 :: bytes "1", eof := false } = Except.error e) :=
  ⟨(C32_comment_and_table_never_return (bytes " note") (bytes "1") 600 (by decide)
      (by decide)).1,
   (C32_comment_and_table_never_return (bytes " note") (bytes "1") 600 (by decide)
      (by decide)).2.1 (by decide),
   (C32_comment_and_table_never_return (bytes " note") (bytes "1") 600 (by decide)
      (by decide)).2.2.1⟩


/-! ## The Cell Set that `parseMorkCell` stores into -/

theorem storeInActiveCellsOrFault_keeps (m m2 : MorkDb) (k v : Int)
    (h : storeInActiveCellsOrFault m k v = Except.ok m2) :
    m2.keys = m.keys ∧ m2.entries = m.entries ∧ m2.activeCells = m.activeCells ∧
    m2.nowParsing = m.nowParsing ∧ m2.cellsHeap.length = m.cellsHeap.length := by
  unfold storeInActiveCellsOrFault storeInActiveCells at h
  split at h
  · cases h
  · rename_i m3 h3
    cases h
    split at h3
    · cases h3
    · split_ifs at h3
      cases h3
      exact ⟨rfl, rfl, rfl, rfl, by simp⟩

theorem parseMorkCellApply_keeps (m m2 : MorkDb) (v : Bool) (column text : List Nat)
    (h : parseMorkCellApply m v column text = Except.ok m2) :
    m2.keys = m.keys ∧ m2.entries = m.entries ∧ m2.activeCells = m.activeCells ∧
    m2.nowParsing = m.nowParsing ∧ m2.cellsHeap.length = m.cellsHeap.length := by
  unfold parseMorkCellApply at h
  simp only [] at h
  split_ifs at h
  · exact storeInActiveCellsOrFault_keeps _ _ _ _ h
  · exact storeInActiveCellsOrFault_keeps
      { m with
        nextAddValueId := m.nextAddValueId - 1
        values := storeInMorkDict m.values (m.nextAddValueId - 1) (cString text) } _ _ _ h
  · cases h; exact ⟨rfl, rfl, rfl, rfl, rfl⟩
  · cases h; exact ⟨rfl, rfl, rfl, rfl, rfl⟩
  · cases h; exact ⟨rfl, rfl, rfl, rfl, rfl⟩

theorem parseMorkCell_keeps (fuel : Nat) (ifp : MorkFile) (m : MorkDb)
    (r : Bool × MorkFile × MorkDb) (h : parseMorkCell fuel ifp m = Except.ok r) :
    r.2.2.keys = m.keys ∧ r.2.2.entries = m.entries ∧ r.2.2.activeCells = m.activeCells ∧
    r.2.2.nowParsing = m.nowParsing ∧ r.2.2.cellsHeap.length = m.cellsHeap.length := by
  unfold parseMorkCell at h
  split at h
  · cases h
  · split at h
    · cases h
    · split at h
      · cases h
      · split at h
        · cases h
        · rename_i m2 happ
          cases h
          exact parseMorkCellApply_keeps _ _ _ _ _ happ

theorem parseMorkRowLoopCalls_good (ts tid rs rid : Int) (p : Nat) :
    ∀ (fuel : Nat) (result : Bool) (cur : Int) (ifp : MorkFile) (m : MorkDb),
      m.activeCells = some p → p < m.cellsHeap.length → cellsAt m ts tid rs rid = some p →
      ∀ c ∈ parseMorkRowLoopCalls (ts, tid, rs, rid) fuel result cur ifp m, GoodCall c := by
  intro fuel
  induction fuel with
  | zero => intro result cur ifp m _ _ _ c hc; simp [parseMorkRowLoopCalls] at hc
  | succ f ih =>
    intro result cur ifp m ha hlt hat c hc
    rw [parseMorkRowLoopCalls] at hc
    split_ifs at hc
    · rcases List.mem_cons.1 hc with rfl | hc
      · intro _
        exact ⟨ts, tid, rs, rid, p, rfl, ha, hlt, hat⟩
      · split at hc
        · cases hc
        · rename_i r hr
          obtain ⟨k1, k2, k3, _, k5⟩ := parseMorkCell_keeps _ _ _ _ hr
          exact ih _ _ _ _ (by rw [k3]; exact ha) (by rw [k5]; exact hlt)
            (by rw [cellsAt_congr _ _ k1 k2]; exact hat) c hc
    · split at hc
      · cases hc
      · exact ih _ _ _ _ ha hlt hat c hc
    · exact ih _ _ _ _ ha hlt hat c hc
    · exact ih _ _ _ _ ha hlt hat c hc
    · cases hc

theorem parseMorkRowCalls_good (fuel : Nat) (ifp : MorkFile) (m : MorkDb)
    (tableId tableScope : Int) (hWF : IndexWF m) (hH : HeapWF m) :
    ∀ c ∈ parseMorkRowCalls fuel ifp m tableId tableScope, GoodCall c := by
  intro c hc
  unfold parseMorkRowCalls at hc
  split at hc
  · cases hc
  · split at hc
    · cases hc
    · rename_i r hr rowIdText hb
      simp only [] at hc
      have hWF1 : IndexWF { m with nowParsing := NowParsingType.NPRows } :=
        IndexWF_congr m _ rfl rfl hWF
      have hH1 : HeapWF { m with nowParsing := NowParsingType.NPRows } :=
        HeapWF_congr m _ rfl rfl rfl rfl hH
      obtain ⟨_, s2, _, s4⟩ := setCurrentRow_spec
        { m with nowParsing := NowParsingType.NPRows } tableScope tableId
        (parseScopeId rowIdText 0).2 (parseScopeId rowIdText 0).1 hWF1
      have hH2 := setCurrentRow_heapWF
        { m with nowParsing := NowParsingType.NPRows } tableScope tableId
        (parseScopeId rowIdText 0).2 (parseScopeId rowIdText 0).1 hWF1 hH1
      refine parseMorkRowLoopCalls_good _ _ _ _ _ fuel true _ _ _ s2 (hH2.2.2 _ s2) ?_ c hc
      rw [s4, if_pos ⟨rfl, rfl, rfl, rfl⟩]
      exact s2

theorem parseMorkTableLoopCalls_good (id scope : Int) :
    ∀ (fuel : Nat) (result : Bool) (cur : Nat) (ifp : MorkFile) (m : MorkDb),
      ParsedInv m → ∀ c ∈ parseMorkTableLoopCalls id scope fuel result cur ifp m, GoodCall c := by
  intro fuel
  induction fuel with
  | zero => intro result cur ifp m _ c hc; simp [parseMorkTableLoopCalls] at hc
  | succ f ih =>
    intro result cur ifp m hi c hc
    rw [parseMorkTableLoopCalls] at hc
    split_ifs at hc
    · split at hc
      · cases hc
      · exact ih _ _ _ _ hi c hc
    · rcases List.mem_append.1 hc with hc | hc
      · exact parseMorkRowCalls_good _ _ _ _ _ hi.1 hi.2.1 c hc
      · split at hc
        · cases hc
        · rename_i r hr
          exact ih _ _ _ _ (parseMorkRow_closed _ ParsedInv_closed _ _ _ _ _ _ hr hi) c hc
    · exact ih _ _ _ _ hi c hc
    · split at hc
      · cases hc
      · split_ifs at hc
        · cases hc
        · split at hc
          · cases hc
          · exact ih _ _ _ _ (setCurrentRow_inv _ _ _ _ _ hi) c hc
    · exact ih _ _ _ _ hi c hc
    · cases hc

theorem parseMorkTableCalls_good (fuel : Nat) (ifp : MorkFile) (m : MorkDb) (hi : ParsedInv m) :
    ∀ c ∈ parseMorkTableCalls fuel ifp m, GoodCall c := by
  intro c hc
  unfold parseMorkTableCalls at hc
  split at hc
  · cases hc
  · split at hc
    · cases hc
    · exact parseMorkTableLoopCalls_good _ _ _ _ _ _ _ hi c hc

theorem parseMorkDictLoopCalls_good :
    ∀ (fuel : Nat) (result : Bool) (cur : Int) (ifp : MorkFile) (m : MorkDb),
      m.nowParsing ≠ NowParsingType.NPRows →
      ∀ c ∈ parseMorkDictLoopCalls fuel result cur ifp m, GoodCall c := by
  intro fuel
  induction fuel with
  | zero => intro result cur ifp m _ c hc; simp [parseMorkDictLoopCalls] at hc
  | succ f ih =>
    intro result cur ifp m hn c hc
    rw [parseMorkDictLoopCalls] at hc
    split_ifs at hc
    · exact ih _ _ _ _ (by simp) c hc
    · exact ih _ _ _ _ hn c hc
    · rcases List.mem_cons.1 hc with rfl | hc
      · intro h
        exact absurd h hn
      · split at hc
        · cases hc
        · rename_i r hr
          obtain ⟨_, _, _, k4, _⟩ := parseMorkCell_keeps _ _ _ _ hr
          exact ih _ _ _ _ (by rw [k4]; exact hn) c hc
    · split at hc
      · cases hc
      · exact ih _ _ _ _ hn c hc
    · exact ih _ _ _ _ hn c hc
    · exact ih _ _ _ _ hn c hc
    · cases hc

theorem parseMorkStreamLoopCalls_good :
    ∀ (fuel : Nat) (result : Bool) (cur : Int) (ifp : MorkFile) (m : MorkDb),
      ParsedInv m → ∀ c ∈ parseMorkStreamLoopCalls fuel result cur ifp m, GoodCall c := by
  intro fuel
  induction fuel with
  | zero => intro result cur ifp m _ c hc; simp [parseMorkStreamLoopCalls] at hc
  | succ f ih =>
    intro result cur ifp m hi c hc
    rw [parseMorkStreamLoopCalls] at hc
    split_ifs at hc
    · rcases List.mem_append.1 hc with hc | hc
      · exact parseMorkDictLoopCalls_good _ _ _ _ _ (by simp) c hc
      · split at hc
        · cases hc
        · rename_i r hr
          exact ih _ _ _ _ (parseMorkDict_closed _ ParsedInv_closed _ _ _ _ hr hi) c hc
    · split at hc
      · cases hc
      · exact ih _ _ _ _ hi c hc
    · rcases List.mem_append.1 hc with hc | hc
      · exact parseMorkTableCalls_good _ _ _ hi c hc
      · split at hc
        · cases hc
        · rename_i r hr
          exact ih _ _ _ _ (parseMorkTable_closed _ ParsedInv_closed _ _ _ _ hr hi) c hc
    · rcases List.mem_append.1 hc with hc | hc
      · exact parseMorkRowCalls_good _ _ _ _ _ hi.1 hi.2.1 c hc
      · split at hc
        · cases hc
        · rename_i r hr
          exact ih _ _ _ _ (parseMorkRow_closed _ ParsedInv_closed _ _ _ _ _ _ hr hi) c hc
    · split at hc
      · cases hc
      · exact ih _ _ _ _ hi c hc
    · exact ih _ _ _ _ hi c hc
    · exact ih _ _ _ _ hi c hc
    · cases hc

/-- C36: for every input and every amount of fuel, at every call of
`parseMorkCell` made during the run of `parseMorkStream` with the parsing
target Rows: the call is made by `parseMorkRow`, `activeCells` is not null and
points to an allocated Cell Set, this Cell Set is the one that the index holds
for the row whose header `parseMorkRow` has just parsed, and the stores of the
cell into it cannot fault, whatever the cell holds. -/
theorem C36_active_cells_valid_at_every_cell (input : List Nat) (fuel : Nat) (c : CellCall)
    (hc : c ∈ parseMorkStreamCalls fuel { pending := input, eof := false })
    (hrows : c.db.nowParsing = NowParsingType.NPRows) :
    (∃ ts tid rs rid p, c.row = some (ts, tid, rs, rid) ∧ c.db.activeCells = some p ∧
      p < c.db.cellsHeap.length ∧ cellsAt c.db ts tid rs rid = some p) ∧
    ∀ (v : Bool) (column text : List Nat),
      ∃ m2, parseMorkCellApply c.db v column text = Except.ok m2 := by
  have hg : GoodCall c := by
    unfold parseMorkStreamCalls at hc
    split_ifs at hc
    · cases hc
    · exact parseMorkStreamLoopCalls_good _ _ _ _ _ initializeTableScopeMap_inv c hc
  obtain ⟨ts, tid, rs, rid, p, h1, h2, h3, h4⟩ := hg hrows
  refine ⟨⟨ts, tid, rs, rid, p, h1, h2, h3, h4⟩, ?_⟩
  intro v column text
  obtain ⟨m2, hm2, _⟩ := parseMorkCellApply_frame c.db v column text p h2 h3
  exact ⟨m2, hm2⟩

set_option maxRecDepth 20000 in
/-- C36 on the magic header followed by `<(1=a)>\x7b1 [2(^6^1)]\x7d`: two calls are
made, one from the dictionary with the target Values and one for the cell of
row 2 of table 1, with the target Rows; at the second `activeCells` is the
Cell Set 0, the one of the row (0x80, 1, 0x80, 2). -/
theorem C36_active_cells_valid_at_every_cell_witness :
    ∃ c0 c,
      parseMorkStreamCalls 100
        { pending := MorkMagicHeader ++ bytes "<(1=a)>\x7b1 [2(^6^1)]\x7d", eof := false } =
        [c0, c] ∧
      c0.db.nowParsing = NowParsingType.NPValues ∧
      c.row = some (0x80, 1, 0x80, 2) ∧ c.db.activeCells = some 0 ∧
      c.db.nowParsing = NowParsingType.NPRows ∧
      ((∃ ts tid rs rid p, c.row = some (ts, tid, rs, rid) ∧ c.db.activeCells = some p ∧
        p < c.db.cellsHeap.length ∧ cellsAt c.db ts tid rs rid = some p) ∧
      ∀ (v : Bool) (column text : List Nat),
        ∃ m2, parseMorkCellApply c.db v column text = Except.ok m2) := by
  have hcalls : parseMorkStreamCalls 100
      { pending := MorkMagicHeader ++ bytes "<(1=a)>\x7b1 [2(^6^1)]\x7d", eof := false } =
      [{ row := none, db := { initializeTableScopeMap with
          nowParsing := NowParsingType.NPValues } },
       { row := some (128, 1, 128, 2)
         db :=
          { keys := [128]
            entries := [{ keys := [1], entries := [{ keys := [128], entries :=
              [{ keys := [2], entries := [0] }] }] }]
            columns := { entries := [] }
            values := { entries := [makeMorkDictEntry 1 "a"] }
            nowParsing := NowParsingType.NPRows
            nextAddValueId := 0x7fffffff
            defaultScope := 128
            activeCells := some 0
            cellsHeap := [{ entries := [] }] } }] := by rfl
  exact ⟨_, _, hcalls, rfl, rfl, rfl, rfl,
    C36_active_cells_valid_at_every_cell
      (MorkMagicHeader ++ bytes "<(1=a)>\x7b1 [2(^6^1)]\x7d") 100 _
      (by rw [hcalls]; exact List.Mem.tail _ (List.Mem.head _)) rfl⟩


/-! ## Synthetic value ids and the ids given by dictionary blocks -/

theorem storeInActiveCellsOrFault_values (m m2 : MorkDb) (k v : Int)
    (h : storeInActiveCellsOrFault m k v = Except.ok m2) : m2.values = m.values := by
  unfold storeInActiveCellsOrFault storeInActiveCells at h
  split at h
  · cases h
  · rename_i m3 h3
    cases h
    split at h3
    · cases h3
    · split_ifs at h3
      cases h3
      rfl

theorem storeInMorkDict_keys (dict : MorkDict) (key : Int) (value : String) :
    ∀ k ∈ (storeInMorkDict dict key value).entries.map (fun e => e.key),
      k = key ∨ k ∈ dict.entries.map (fun e => e.key) := by
  intro k hk
  rw [storeInMorkDict_entries] at hk
  obtain ⟨z, hz, rfl⟩ := List.mem_map.1 hk
  rcases upsertBy_key_mem _ key _ rfl _ z hz with h | h
  · exact Or.inl h
  · exact Or.inr (List.mem_map.2 ⟨z, h, rfl⟩)

theorem parseMorkCellApply_stores (m m1 : MorkDb) (v : Bool) (column text : List Nat)
    (h : parseMorkCellApply m v column text = Except.ok m1) :
    m1.nextAddValueId ≤ m.nextAddValueId ∧
    (∀ e ∈ valueStores m v column text, e.minted = true →
      e.id = m1.nextAddValueId ∧ e.id = m.nextAddValueId - 1 ∧
      e.present = decide (e.id ∈ m.values.entries.map (fun e => e.key))) ∧
    (∀ k ∈ m1.values.entries.map (fun e => e.key),
      k ∈ m.values.entries.map (fun e => e.key) ∨
        ∃ e ∈ valueStores m v column text, e.id = k) := by
  unfold parseMorkCellApply at h
  unfold valueStores
  simp only [] at h
  split_ifs at h with h1 h2 h3 h4
  · have hn := storeInActiveCellsOrFault_next _ _ _ _ h
    have hv := storeInActiveCellsOrFault_values _ _ _ _ h
    rw [if_pos h1, if_pos h2, if_pos h3]
    refine ⟨by omega, by simp, ?_⟩
    intro k hk
    rw [hv] at hk
    exact Or.inl hk
  · have hn := storeInActiveCellsOrFault_next _ _ _ _ h
    have hv := storeInActiveCellsOrFault_values _ _ _ _ h
    simp only [] at hn hv
    rw [if_pos h1, if_pos h2, if_neg h3]
    refine ⟨by omega, ?_, ?_⟩
    · intro e he _
      rw [List.mem_singleton.1 he]
      exact ⟨hn.symm, rfl, rfl⟩
    · intro k hk
      rw [hv] at hk
      rcases storeInMorkDict_keys _ _ _ k hk with hk2 | hk2
      · exact Or.inr ⟨_, List.mem_singleton_self _, hk2.symm⟩
      · exact Or.inl hk2
  · cases h
    rw [if_pos h1, if_neg h2, if_pos h4]
    exact ⟨le_refl _, by simp, fun k hk => Or.inl hk⟩
  · cases h
    rw [if_pos h1, if_neg h2, if_neg h4]
    refine ⟨le_refl _, by simp, ?_⟩
    intro k hk
    rcases storeInMorkDict_keys _ _ _ k hk with hk2 | hk2
    · exact Or.inr ⟨_, List.mem_singleton_self _, hk2.symm⟩
    · exact Or.inl hk2
  · cases h
    rw [if_neg h1]
    exact ⟨le_refl _, by simp, fun k hk => Or.inl hk⟩

theorem Stores_trans (a b c : MorkDb) (e1 e2 : List ValueStore) (h1 : Stores a e1 b)
    (h2 : Stores b e2 c) : Stores a (e1 ++ e2) c := by
  induction h1 with
  | done m => exact h2
  | cell m m1 m2 evs v column text ha _ ih =>
    rw [List.append_assoc]
    exact Stores.cell m m1 c (evs ++ e2) v column text ha (ih h2)
  | row m m2 evs ts tid rs rid _ ih => exact Stores.row m c (evs ++ e2) ts tid rs rid (ih h2)
  | target m m2 evs t _ ih => exact Stores.target m c (evs ++ e2) t (ih h2)

theorem Stores_closed : ParserClosed (fun m m2 => ∃ evs, Stores m evs m2) where
  refl := fun m => ⟨[], Stores.done m⟩
  trans := fun a b c ⟨e1, h1⟩ ⟨e2, h2⟩ => ⟨e1 ++ e2, Stores_trans a b c e1 e2 h1 h2⟩
  apply := fun m v column text m2 h =>
    ⟨valueStores m v column text ++ [], Stores.cell m m2 m2 [] v column text h (Stores.done m2)⟩
  row := fun m ts tid rs rid => ⟨[], Stores.row m _ [] ts tid rs rid (Stores.done _)⟩
  target := fun m t => ⟨[], Stores.target m _ [] t (Stores.done _)⟩

theorem Stores_next_le (m m2 : MorkDb) (evs : List ValueStore) (h : Stores m evs m2) :
    m2.nextAddValueId ≤ m.nextAddValueId := by
  induction h with
  | done m => exact le_refl _
  | cell m m1 m2 evs v column text ha _ ih =>
    exact le_trans ih (parseMorkCellApply_stores m m1 v column text ha).1
  | row m m2 evs ts tid rs rid _ ih =>
    rw [(setCurrentRow_frame m ts tid rs rid).2.2.2.1] at ih
    exact ih
  | target m m2 evs t _ ih => exact ih

theorem upsertBy_keys_grow {α : Type} (kf : α → Int) (key : Int) (x : α) (hx : kf x = key)
    (l : List α) :
    key ∈ (upsertBy kf key x l).map kf ∧ ∀ k ∈ l.map kf, k ∈ (upsertBy kf key x l).map kf := by
  induction l with
  | nil => simp [upsertBy, hx]
  | cons y ys ih =>
    simp only [upsertBy]
    split
    · split
      · rename_i h1 h2
        refine ⟨by simp [hx], ?_⟩
        intro k hk
        simp only [List.map_cons, List.mem_cons] at hk ⊢
        rcases hk with h | h
        · left; rw [h, hx, h2]
        · right; exact h
      · refine ⟨by simp [hx], ?_⟩
        intro k hk
        simp only [List.map_cons, List.mem_cons] at hk ⊢
        right; exact hk
    · refine ⟨?_, ?_⟩
      · simp only [List.map_cons, List.mem_cons]
        right; exact ih.1
      · intro k hk
        simp only [List.map_cons, List.mem_cons] at hk ⊢
        rcases hk with h | h
        · left; exact h
        · right; exact ih.2 k h

theorem storeInMorkDict_keys_grow (dict : MorkDict) (key : Int) (value : String) :
    key ∈ (storeInMorkDict dict key value).entries.map (fun e => e.key) ∧
    ∀ k ∈ dict.entries.map (fun e => e.key),
      k ∈ (storeInMorkDict dict key value).entries.map (fun e => e.key) := by
  rw [storeInMorkDict_entries]
  exact upsertBy_keys_grow _ key _ rfl _

theorem parseMorkCellApply_keys_grow (m m1 : MorkDb) (v : Bool) (column text : List Nat)
    (h : parseMorkCellApply m v column text = Except.ok m1) :
    (∀ k ∈ m.values.entries.map (fun e => e.key),
      k ∈ m1.values.entries.map (fun e => e.key)) ∧
    (∀ e ∈ valueStores m v column text, e.id ∈ m1.values.entries.map (fun e => e.key)) := by
  unfold parseMorkCellApply at h
  unfold valueStores
  simp only [] at h
  split_ifs at h with h1 h2 h3 h4
  · have hv := storeInActiveCellsOrFault_values _ _ _ _ h
    rw [if_pos h1, if_pos h2, if_pos h3, hv]
    exact ⟨fun k hk => hk, by simp⟩
  · have hv := storeInActiveCellsOrFault_values _ _ _ _ h
    simp only [] at hv
    rw [if_pos h1, if_pos h2, if_neg h3, hv]
    refine ⟨(storeInMorkDict_keys_grow _ _ _).2, ?_⟩
    intro e he
    rw [List.mem_singleton.1 he]
    exact (storeInMorkDict_keys_grow _ _ _).1
  · cases h
    rw [if_pos h1, if_neg h2, if_pos h4]
    exact ⟨fun k hk => hk, by simp⟩
  · cases h
    rw [if_pos h1, if_neg h2, if_neg h4]
    refine ⟨(storeInMorkDict_keys_grow _ _ _).2, ?_⟩
    intro e he
    rw [List.mem_singleton.1 he]
    exact (storeInMorkDict_keys_grow _ _ _).1
  · cases h
    rw [if_neg h1]
    exact ⟨fun k hk => hk, by simp⟩

theorem valueStores_cases (m : MorkDb) (v : Bool) (column text : List Nat) :
    valueStores m v column text = [] ∨ ∃ ev, valueStores m v column text = [ev] := by
  unfold valueStores
  split_ifs
  · exact Or.inl rfl
  · exact Or.inr ⟨_, rfl⟩
  · exact Or.inl rfl
  · exact Or.inr ⟨_, rfl⟩
  · exact Or.inl rfl

theorem Stores_minted_below (m m2 : MorkDb) (evs : List ValueStore) (h : Stores m evs m2) :
    ∀ e ∈ evs, e.minted = true → e.id < m.nextAddValueId := by
  induction h with
  | done m => intro e he; cases he
  | cell m m1 m2 evs v column text ha hs ih =>
    intro e he hm
    obtain ⟨a1, a2, _⟩ := parseMorkCellApply_stores m m1 v column text ha
    rcases List.mem_append.1 he with he1 | he2
    · have := (a2 e he1 hm).2.1
      omega
    · have := ih e he2 hm
      omega
  | row m m2 evs ts tid rs rid _ ih =>
    intro e he hm
    have := ih e he hm
    rw [(setCurrentRow_frame m ts tid rs rid).2.2.2.1] at this
    exact this
  | target m m2 evs t _ ih => exact ih

theorem Stores_present (m m2 : MorkDb) (evs : List ValueStore) (h : Stores m evs m2) :
    ∀ (pre : List ValueStore) (e : ValueStore) (post : List ValueStore),
      evs = pre ++ e :: post → e.minted = true →
      (e.present = true ↔
        (e.id ∈ m.values.entries.map (fun e => e.key) ∨
          ∃ x ∈ pre, x.minted = false ∧ x.id = e.id)) := by
  induction h with
  | done m =>
    intro pre e post he
    exact absurd he (by simp)
  | cell m m1 m2 evs v column text ha hs ih =>
    intro pre e post he hm
    obtain ⟨a1, a2, a3⟩ := parseMorkCellApply_stores m m1 v column text ha
    obtain ⟨g1, g2⟩ := parseMorkCellApply_keys_grow m m1 v column text ha
    rcases valueStores_cases m v column text with h0 | ⟨ev, h1⟩
    · rw [h0] at a3 he
      simp only [List.nil_append] at he
      have := ih pre e post he hm
      rw [this]
      constructor
      · rintro (hk | hx)
        · rcases a3 _ hk with h | ⟨x, hx, _⟩
          · exact Or.inl h
          · cases hx
        · exact Or.inr hx
      · rintro (hk | hx)
        · exact Or.inl (g1 _ hk)
        · exact Or.inr hx
    · rw [h1] at a2 a3 g2 he
      cases pre with
      | nil =>
        simp only [List.nil_append, List.singleton_append, List.cons.injEq] at he
        obtain ⟨he1, _⟩ := he
        subst he1
        have b := (a2 ev (List.mem_singleton_self _) hm).2.2
        rw [b, decide_eq_true_iff]
        constructor
        · intro hk; exact Or.inl hk
        · rintro (hk | ⟨x, hx, _⟩)
          · exact hk
          · cases hx
      | cons p pre2 =>
        simp only [List.singleton_append, List.cons_append, List.cons.injEq] at he
        obtain ⟨he1, he2⟩ := he
        subst he1
        simp only [List.nil_append] at he2
        have := ih pre2 e post he2 hm
        rw [this]
        have hlt : e.id < m1.nextAddValueId :=
          Stores_minted_below m1 m2 evs hs e (by rw [he2]; simp) hm
        constructor
        · rintro (hk | ⟨x, hx, hx2⟩)
          · rcases a3 _ hk with h | ⟨x, hx, hx2⟩
            · exact Or.inl h
            · rw [List.mem_singleton.1 hx] at hx2
              cases hmm : ev.minted with
              | true =>
                have := (a2 ev (List.mem_singleton_self _) hmm).1
                omega
              | false => exact Or.inr ⟨ev, List.mem_cons_self _ _, hmm, hx2⟩
          · exact Or.inr ⟨x, List.mem_cons_of_mem _ hx, hx2⟩
        · rintro (hk | ⟨x, hx, hx2⟩)
          · exact Or.inl (g1 _ hk)
          · rcases List.mem_cons.1 hx with h | h
            · subst h
              left
              rw [← hx2.2]
              exact g2 x (List.mem_singleton_self _)
            · exact Or.inr ⟨x, h, hx2⟩
  | row m m2 evs ts tid rs rid _ ih =>
    intro pre e post he hm
    have := ih pre e post he hm
    rw [(setCurrentRow_frame m ts tid rs rid).2.1] at this
    exact this
  | target m m2 evs t _ ih =>
    intro pre e post he hm
    exact ih pre e post he hm

/-- C37, with the collision of a synthetic id with an explicit one taken into
account: the updates that lead from the initial database to the one
`parseMorkStream` returns form a succession `Stores`, and in every such
succession a synthetic id was already a key of the values dictionary when it
was minted exactly when a dictionary cell processed before had stored a value
under the same id; in particular interning a literal row value overwrites
nothing unless an explicit id stored earlier equals the id being minted. -/
theorem C37_minted_id_present_iff_explicit (input : List Nat) (fuel : Nat) (db : MorkDb)
    (h : parseMorkStream fuel { pending := input, eof := false } = Except.ok (some db)) :
    (∃ evs, Stores initializeTableScopeMap evs db) ∧
    ∀ evs, Stores initializeTableScopeMap evs db →
      ∀ (pre : List ValueStore) (e : ValueStore) (post : List ValueStore),
        evs = pre ++ e :: post → e.minted = true →
        ((e.present = true ↔ ∃ x ∈ pre, x.minted = false ∧ x.id = e.id) ∧
         ((∀ x ∈ pre, x.minted = false → x.id ≠ e.id) → e.present = false)) := by
  refine ⟨parseMorkStream_closed _ Stores_closed fuel _ db h, ?_⟩
  intro evs hs pre e post he hm
  have h1 := Stores_present _ _ evs hs pre e post he hm
  have h2 : (e.present = true ↔ ∃ x ∈ pre, x.minted = false ∧ x.id = e.id) := by
    rw [h1]
    constructor
    · rintro (hk | hx)
      · simp [initializeTableScopeMap, emptyDict] at hk
      · exact hx
    · intro hx; exact Or.inr hx
  refine ⟨h2, ?_⟩
  intro hne
  cases hp : e.present with
  | false => rfl
  | true =>
    obtain ⟨x, hx, hxm, hxi⟩ := h2.1 hp
    exact absurd hxi (hne x hx hxm)

set_option maxRecDepth 20000 in
/-- C37 on the magic header followed by `<(7=x)>[1(5=y)]`: the explicit id 7
is not the synthetic id 0x7ffffffe. -/
theorem C37_minted_id_present_iff_explicit_witness :
    parseMorkStream 100
        { pending := MorkMagicHeader ++ bytes "<(7=x)>[1(5=y)]", eof := false } =
      Except.ok (some
        { keys := [128]
          entries := [{ keys := [0], entries := [{ keys := [128], entries :=
            [{ keys := [1], entries := [0] }] }] }]
          columns := { entries := [] }
          values := { entries := [makeMorkDictEntry 7 "x", makeMorkDictEntry 0x7ffffffe "y"] }
          nowParsing := NowParsingType.NPRows
          nextAddValueId := 0x7ffffffe
          defaultScope := 128
          activeCells := some 0
          cellsHeap := [{ entries := [makeMorkCellEntry 5 0x7ffffffe] }] }) ∧
    ((∃ evs, Stores initializeTableScopeMap evs
        { keys := [128]
          entries := [{ keys := [0], entries := [{ keys := [128], entries :=
            [{ keys := [1], entries := [0] }] }] }]
          columns := { entries := [] }
          values := { entries := [makeMorkDictEntry 7 "x", makeMorkDictEntry 0x7ffffffe "y"] }
          nowParsing := NowParsingType.NPRows
          nextAddValueId := 0x7ffffffe
          defaultScope := 128
          activeCells := some 0
          cellsHeap := [{ entries := [makeMorkCellEntry 5 0x7ffffffe] }] }) ∧
     ∀ evs, Stores initializeTableScopeMap evs
        { keys := [128]
          entries := [{ keys := [0], entries := [{ keys := [128], entries :=
            [{ keys := [1], entries := [0] }] }] }]
          columns := { entries := [] }
          values := { entries := [makeMorkDictEntry 7 "x", makeMorkDictEntry 0x7ffffffe "y"] }
          nowParsing := NowParsingType.NPRows
          nextAddValueId := 0x7ffffffe
          defaultScope := 128
          activeCells := some 0
          cellsHeap := [{ entries := [makeMorkCellEntry 5 0x7ffffffe] }] } →
      ∀ (pre : List ValueStore) (e : ValueStore) (post : List ValueStore),
        evs = pre ++ e :: post → e.minted = true →
        ((e.present = true ↔ ∃ x ∈ pre, x.minted = false ∧ x.id = e.id) ∧
         ((∀ x ∈ pre, x.minted = false → x.id ≠ e.id) → e.present = false))) :=
  ⟨rfl, C37_minted_id_present_iff_explicit (MorkMagicHeader ++ bytes "<(7=x)>[1(5=y)]") 100 _
    rfl⟩

set_option maxRecDepth 20000 in
/-- C37 as stated fails when a dictionary block defines the id 0x7FFFFFFE: the
first literal row value is given the same id, which is a key of the values
dictionary at that moment, and the text `x` stored under it is replaced by
`y`. -/
theorem C37_synthetic_id_overwrites_explicit :
    ∃ d0 d,
      parseMorkStream 100
        { pending := MorkMagicHeader ++ bytes "<(7FFFFFFE=x)>", eof := false } =
        Except.ok (some d0) ∧
      getValue d0 0x7ffffffe = "x" ∧ d0.nextAddValueId = 0x7fffffff ∧
      valueStores (setCurrentRow { d0 with nowParsing := NowParsingType.NPRows } 0 0 0 1)
          false (bytes "5") (bytes "y") =
        [{ minted := true, id := 0x7ffffffe, present := true }] ∧
      parseMorkStream 100
        { pending := MorkMagicHeader ++ bytes "<(7FFFFFFE=x)>[1(5=y)]", eof := false } =
        Except.ok (some d) ∧
      d.values.entries = [makeMorkDictEntry 0x7ffffffe "y"] ∧ getValue d 0x7ffffffe = "y" :=
  ⟨{ initializeTableScopeMap with
      values := { entries := [makeMorkDictEntry 0x7ffffffe "x"] } },
   { keys := [128]
     entries := [{ keys := [0], entries := [{ keys := [128], entries :=
       [{ keys := [1], entries := [0] }] }] }]
     columns := { entries := [] }
     values := { entries := [makeMorkDictEntry 0x7ffffffe "y"] }
     nowParsing := NowParsingType.NPRows
     nextAddValueId := 0x7ffffffe
     defaultScope := 128
     activeCells := some 0
     cellsHeap := [{ entries := [makeMorkCellEntry 5 0x7ffffffe] }] },
   rfl, rfl, rfl, by decide, rfl, rfl, rfl⟩

/-! ## Ids that do not fit an `int`, zero bytes, and full token buffers -/

theorem parseMorkCellLoop_form_le (form : CellForm) (C : List Nat) (items : List ValueItem)
    (rest : List Nat) (fuel : Nat)
    (hC : ∀ c ∈ C, columnByte c = true) (hI : ∀ i ∈ items, i.OK = true)
    (hcl : (columnToken C).length ≤ 512) (htl : (decodeItems items).length ≤ 512)
    (hfuel : C.length + items.length + 3 ≤ fuel) :
    ∃ st, parseMorkCellLoop fuel
        (toChar (morkgetc
          { pending := cellText form C (itemsText items) ++ 41 :: rest, eof := false }).1)
        (morkgetc
          { pending := cellText form C (itemsText items) ++ 41 :: rest, eof := false }).2
        { columnIsObjectId := false, valueIsObjectId := false, bColumn := true, corners := 0,
          column := [], text := [] } =
      Except.ok ({ pending := rest, eof := false }, st) ∧
      st.valueIsObjectId = decide (form = CellForm.oidOid) ∧
      st.column = columnToken C ∧ st.text = decodeItems items := by
  cases form with
  | literal =>
    obtain ⟨f, rfl⟩ : ∃ f, fuel = C.length + ((items.length + (f + 1)) + 1) :=
      ⟨fuel - (C.length + items.length + 2), by omega⟩
    refine ⟨{ columnIsObjectId := false, valueIsObjectId := false, bColumn := false,
                corners := 0, column := [] ++ columnToken C,
                text := [] ++ decodeItems items }, ?_, ?_, ?_, ?_⟩
    · simp only [cellText, List.append_assoc, List.cons_append]
      rw [parseMorkCellLoop_column _ C _ _ hC rfl (by simpa using hcl),
        parseMorkCellLoop_step 61 _ _
          { columnIsObjectId := false, valueIsObjectId := false, bColumn := false,
            corners := 0, column := [] ++ columnToken C, text := [] } _
          (by decide) (by decide) (by decide) (by simp [parseMorkCellSwitch]),
        parseMorkCellLoop_value _ items _ _ hI rfl (by simpa using htl),
        parseMorkCellLoop_close]
    · rfl
    · simp
    · simp
  | oidLiteral =>
    obtain ⟨f, rfl⟩ : ∃ f, fuel = (C.length + ((items.length + (f + 1)) + 1)) + 1 :=
      ⟨fuel - (C.length + items.length + 3), by omega⟩
    refine ⟨{ columnIsObjectId := true, valueIsObjectId := false, bColumn := false,
                corners := 1, column := [] ++ columnToken C,
                text := [] ++ decodeItems items }, ?_, ?_, ?_, ?_⟩
    · simp only [cellText, List.append_assoc, List.cons_append]
      rw [parseMorkCellLoop_step 94 _ _
          { columnIsObjectId := true, valueIsObjectId := false, bColumn := true,
            corners := 1, column := [], text := [] } _
          (by decide) (by decide) (by decide) (by simp [parseMorkCellSwitch]),
        parseMorkCellLoop_column _ C _ _ hC rfl (by simpa using hcl),
        parseMorkCellLoop_step 61 _ _
          { columnIsObjectId := true, valueIsObjectId := false, bColumn := false,
            corners := 1, column := [] ++ columnToken C, text := [] } _
          (by decide) (by decide) (by decide) (by simp [parseMorkCellSwitch]),
        parseMorkCellLoop_value _ items _ _ hI rfl (by simpa using htl),
        parseMorkCellLoop_close]
    · rfl
    · simp
    · simp
  | oidOid =>
    obtain ⟨f, rfl⟩ : ∃ f, fuel = (C.length + ((items.length + (f + 1)) + 1)) + 1 :=
      ⟨fuel - (C.length + items.length + 3), by omega⟩
    refine ⟨{ columnIsObjectId := true, valueIsObjectId := true, bColumn := false,
                corners := 2, column := [] ++ columnToken C,
                text := [] ++ decodeItems items }, ?_, ?_, ?_, ?_⟩
    · simp only [cellText, List.append_assoc, List.cons_append]
      rw [parseMorkCellLoop_step 94 _ _
          { columnIsObjectId := true, valueIsObjectId := false, bColumn := true,
            corners := 1, column := [], text := [] } _
          (by decide) (by decide) (by decide) (by simp [parseMorkCellSwitch]),
        parseMorkCellLoop_column _ C _ _ hC rfl (by simpa using hcl),
        parseMorkCellLoop_step 94 _ _
          { columnIsObjectId := true, valueIsObjectId := true, bColumn := false,
            corners := 2, column := [] ++ columnToken C, text := [] } _
          (by decide) (by decide) (by decide) (by simp [parseMorkCellSwitch]),
        parseMorkCellLoop_value _ items _ _ hI rfl (by simpa using htl),
        parseMorkCellLoop_close]
    · rfl
    · simp
    · simp

theorem parseMorkCell_full_buffer (form : CellForm) (C : List Nat) (items : List ValueItem)
    (rest : List Nat) (m : MorkDb) (fuel : Nat)
    (hC : ∀ c ∈ C, columnByte c = true) (hI : ∀ i ∈ items, i.OK = true)
    (hcl : (columnToken C).length ≤ 512) (htl : (decodeItems items).length ≤ 512)
    (hfull : (columnToken C).length = 512 ∨ (decodeItems items).length = 512)
    (hfuel : C.length + items.length + 3 ≤ fuel) :
    parseMorkCell fuel
        { pending := cellText form C (itemsText items) ++ 41 :: rest, eof := false } m =
      Except.error Fault.overflow := by
  obtain ⟨st, hs, _, hc, ht⟩ :=
    parseMorkCellLoop_form_le form C items rest fuel hC hI hcl htl hfuel
  unfold parseMorkCell
  rw [hs]
  simp only [hc, ht]
  by_cases h : (columnToken C).length = 512
  · simp [bufEnd, h]
  · have h2 : (decodeItems items).length = 512 := by
      rcases hfull with h3 | h3
      · exact absurd h3 h
      · exact h3
    rw [bufEnd_ok _ (by omega)]
    simp [bufEnd, h2]

theorem parseMorkCell_full_hex_value (form : CellForm) (C T rest : List Nat) (m : MorkDb)
    (fuel : Nat) (hCd : ∀ c ∈ C, isxdigit c = true) (hCl : C.length ≤ 512)
    (hTb : ∀ c ∈ T, cellByte c = true) (hTl : T.length ≤ 512)
    (hfull : C.length = 512 ∨ T.length = 512)
    (hfuel : C.length + T.length + 3 ≤ fuel) :
    parseMorkCell fuel { pending := cellText form C T ++ 41 :: rest, eof := false } m =
      Except.error Fault.overflow := by
  have h := parseMorkCell_full_buffer form C (T.map ValueItem.plain) rest m fuel
    (fun c hc => isxdigit_columnByte c (hCd c hc)) (plain_OK T hTb)
    (by rw [columnToken_hex C hCd]; exact hCl) (by rw [decodeItems_plain]; exact hTl)
    (by rw [columnToken_hex C hCd, decodeItems_plain]; exact hfull)
    (by rw [List.length_map]; exact hfuel)
  rw [itemsText_plain] at h
  exact h

theorem parseMorkTableIdLoop_tok_le (rest : List Nat) (e : Bool) (tok : List Nat) :
    ∀ (c : Nat) (acc : List Nat) (fuel : Nat), idByte c = true →
      (∀ x ∈ tok, idByte x = true) → acc.length + tok.length + 1 ≤ 512 →
      tok.length + 2 ≤ fuel →
      parseMorkTableIdLoop fuel c { pending := tok ++ 123 :: rest, eof := e } acc =
        Except.ok (123, { pending := rest, eof := e }, acc ++ c :: tok) := by
  induction tok with
  | nil =>
    intro c acc fuel hc _ hlen hfuel
    obtain ⟨f, rfl⟩ : ∃ f, fuel = f + 2 := ⟨fuel - 2, by simp at hfuel; omega⟩
    have hf := idByte_facts c hc
    have hsp : isspace (c : Int) = false := isspace_false_of_ne c hf.2.2.1 hf.2.2.2.1
    have hcond : c ≠ 0 ∧ c ≠ 123 ∧ c ≠ 91 ∧ c ≠ 125 := by omega
    simp only [parseMorkTableIdLoop, hcond, hsp, bufPut_ok acc c (by omega), List.nil_append,
      morkgetc_cons, toChar_cast 123 (by omega), and_self, if_true, ne_eq, not_false_eq_true]
    simp
  | cons x xs ih =>
    intro c acc fuel hc htok hlen hfuel
    obtain ⟨f, rfl⟩ : ∃ f, fuel = f + 1 := ⟨fuel - 1, by omega⟩
    have hf := idByte_facts c hc
    have hx := idByte_facts x (htok x (List.mem_cons_self _ _))
    have hsp : isspace (c : Int) = false := isspace_false_of_ne c hf.2.2.1 hf.2.2.2.1
    have hcond : c ≠ 0 ∧ c ≠ 123 ∧ c ≠ 91 ∧ c ≠ 125 := by omega
    simp only [List.length_cons] at hlen hfuel
    simp only [parseMorkTableIdLoop, hcond, hsp, bufPut_ok acc c (by omega), List.cons_append,
      morkgetc_cons, toChar_cast x hx.2.1, and_self, if_true, ne_eq, not_false_eq_true]
    rw [ih x (acc ++ [c]) f (htok x (List.mem_cons_self _ _))
      (fun y hy => htok y (List.mem_cons_of_mem _ hy)) (by simp; omega) (by omega)]
    simp

theorem parseMorkRowIdLoop_tok_le (rest : List Nat) (d : Nat) (hd : d = 40 ∨ d = 93)
    (tok : List Nat) :
    ∀ (c : Nat) (acc : List Nat) (fuel : Nat), idByte c = true →
      (∀ x ∈ tok, idByte x = true) → acc.length + tok.length + 1 ≤ 512 →
      tok.length + 2 ≤ fuel →
      parseMorkRowIdLoop fuel (c : Int) { pending := tok ++ d :: rest, eof := false } acc =
        Except.ok ((d : Int), { pending := rest, eof := false }, acc ++ c :: tok) := by
  induction tok with
  | nil =>
    intro c acc fuel hc _ hlen hfuel
    obtain ⟨f, rfl⟩ : ∃ f, fuel = f + 2 := ⟨fuel - 2, by simp at hfuel; omega⟩
    have hf := idByte_facts c hc
    have hsp : isspace (c : Int) = false := isspace_false_of_ne c hf.2.2.1 hf.2.2.2.1
    have hcond : (c : Int) ≠ 40 ∧ (c : Int) ≠ 91 ∧ (c : Int) ≠ 93 ∧ (c : Int) ≠ 0 := by omega
    simp only [parseMorkRowIdLoop, feof, hcond, hsp, toChar_cast c hf.2.1,
      bufPut_ok acc c (by omega), List.nil_append, morkgetc_cons, and_self, if_true, ne_eq,
      not_false_eq_true]
    rw [if_neg]
    intro h; omega
  | cons x xs ih =>
    intro c acc fuel hc htok hlen hfuel
    obtain ⟨f, rfl⟩ : ∃ f, fuel = f + 1 := ⟨fuel - 1, by omega⟩
    have hf := idByte_facts c hc
    have hsp : isspace (c : Int) = false := isspace_false_of_ne c hf.2.2.1 hf.2.2.2.1
    have hcond : (c : Int) ≠ 40 ∧ (c : Int) ≠ 91 ∧ (c : Int) ≠ 93 ∧ (c : Int) ≠ 0 := by omega
    simp only [List.length_cons] at hlen hfuel
    simp only [parseMorkRowIdLoop, feof, hcond, hsp, toChar_cast c hf.2.1,
      bufPut_ok acc c (by omega), List.cons_append, morkgetc_cons, and_self, if_true, ne_eq,
      not_false_eq_true]
    rw [ih x (acc ++ [c]) f (htok x (List.mem_cons_self _ _))
      (fun y hy => htok y (List.mem_cons_of_mem _ hy)) (by simp; omega) (by omega)]
    simp

theorem parseMorkRow_full_id (rest rTok : List Nat) (d : Nat) (hd : d = 40 ∨ d = 93)
    (m : MorkDb) (tableId tableScope : Int) (fuel : Nat)
    (hrb : ∀ x ∈ rTok, idByte x = true) (hrl : rTok.length = 512)
    (hfuel : rTok.length + 2 ≤ fuel) :
    parseMorkRow fuel { pending := rTok ++ d :: rest, eof := false } m tableId tableScope =
      Except.error Fault.overflow := by
  cases rTok with
  | nil => simp at hrl
  | cons c tok =>
    simp only [List.length_cons] at hrl hfuel
    unfold parseMorkRow
    simp only [List.cons_append, morkgetc_cons]
    rw [parseMorkRowIdLoop_tok_le rest d hd tok c [] fuel (hrb c (List.mem_cons_self _ _))
      (fun x hx => hrb x (List.mem_cons_of_mem _ hx))
      (by simp only [List.length_nil]; omega) (by omega)]
    simp [bufEnd, hrl]

theorem parseMorkTable_full_id (rest tTok : List Nat) (m : MorkDb) (fuel : Nat)
    (htb : ∀ x ∈ tTok, idByte x = true) (htl : tTok.length = 512)
    (hfuel : tTok.length + 2 ≤ fuel) :
    parseMorkTable fuel { pending := tTok ++ 123 :: rest, eof := false } m =
      Except.error Fault.overflow := by
  cases tTok with
  | nil => simp at htl
  | cons c tok =>
    simp only [List.length_cons] at htl hfuel
    have hf := idByte_facts c (htb c (List.mem_cons_self _ _))
    unfold parseMorkTable
    simp only [List.cons_append, morkgetc_cons, toChar_cast c hf.2.1]
    rw [parseMorkTableIdLoop_tok_le rest false tok c [] fuel (htb c (List.mem_cons_self _ _))
      (fun x hx => htb x (List.mem_cons_of_mem _ hx))
      (by simp only [List.length_nil]; omega) (by omega)]
    simp [bufEnd, htl]

set_option maxRecDepth 20000 in
/-- C12 as stated fails for ids that do not fit an `int`: the cell
`(^FFFFFFFF^100000001)` puts the pair (-1, 1) in the active Cell Set, and
nothing under the column id 0xFFFFFFFF.  A column or value id written with 512
digits fills the 512 bytes of its buffer, and the zero that ends it is written
past the buffer. -/
theorem C12_oid_cell_id_beyond_int :
    (∃ m2,
      parseMorkCell 40
          { pending := cellText CellForm.oidOid (bytes "FFFFFFFF") (bytes "100000001") ++
              41 :: [], eof := false }
          (setCurrentRow { initializeTableScopeMap with nowParsing := NowParsingType.NPRows }
            0 0 0 1) =
        Except.ok (true, { pending := [], eof := false }, m2) ∧
      m2.activeCells = some 0 ∧
      (derefCells m2 0).entries = [makeMorkCellEntry (-1) 1] ∧
      hexValue (bytes "FFFFFFFF") = 0xFFFFFFFF ∧ hexValue (bytes "100000001") = 0x100000001 ∧
      cellValueId (hexValue (bytes "FFFFFFFF")) (derefCells m2 0).entries = none) ∧
    parseMorkCell 600
        { pending := cellText CellForm.oidOid (List.replicate 511 48 ++ [53]) (bytes "1") ++
            41 :: [], eof := false }
        (setCurrentRow { initializeTableScopeMap with nowParsing := NowParsingType.NPRows }
          0 0 0 1) =
      Except.error Fault.overflow ∧
    parseMorkCell 600
        { pending := cellText CellForm.oidOid (bytes "5") (List.replicate 511 48 ++ [49]) ++
            41 :: [], eof := false }
        (setCurrentRow { initializeTableScopeMap with nowParsing := NowParsingType.NPRows }
          0 0 0 1) =
      Except.error Fault.overflow := by
  have hmem : ∀ (d : Nat) (c : Nat), isxdigit d = true → c ∈ List.replicate 511 48 ++ [d] →
      isxdigit c = true := by
    intro d c hd hc
    rcases List.mem_append.1 hc with h | h
    · rw [List.eq_of_mem_replicate h]; decide
    · rw [List.mem_singleton.1 h]; exact hd
  have hlen : ∀ (d : Nat), (List.replicate 511 48 ++ [d]).length = 512 := by
    intro d
    rw [List.length_append, List.length_replicate]; rfl
  refine ⟨⟨_, rfl, by decide, by decide, by decide, by decide, by decide⟩, ?_, ?_⟩
  · exact parseMorkCell_full_hex_value CellForm.oidOid _ _ [] _ 600
      (fun c hc => hmem 53 c (by decide) hc) (by rw [hlen]) (by decide) (by decide)
      (Or.inl (hlen 53)) (by rw [hlen]; decide)
  · exact parseMorkCell_full_hex_value CellForm.oidOid _ _ [] _ 600
      (by decide) (by decide)
      (fun c hc => isxdigit_cellByte c (hmem 49 c (by decide) hc)) (by rw [hlen])
      (Or.inr (hlen 49)) (by rw [hlen]; decide)

set_option maxRecDepth 20000 in
/-- C13 as stated fails in these ways.  A column id that does not fit an
`int`: the cell `(FFFFFFFF=Ann)` stores the new id under the column id -1, and
`valueForColumnId` finds nothing under 0xFFFFFFFF.  A zero byte in the text:
the cell `(8E=A`, zero byte, `nn)` ends at the zero byte, and the text stored
is `A`.  An escape in the text: for the cell `(8E=a$41)` the text stored is
`aA`, and for the cell `(8E=a\b)` it is `ab`.  A closing parenthesis in the
text: the cell `(8E=a)b)` ends at the first one, and the text stored is `a`.
A text of 512 bytes fills the 512 bytes of its buffer, and the zero that ends
it is written past the buffer. -/
theorem C13_literal_cell_id_or_text_out_of_range :
    (∃ m2,
      parseMorkCell 40
          { pending := cellText CellForm.literal (bytes "FFFFFFFF") (bytes "Ann") ++ 41 :: [],
            eof := false }
          (setCurrentRow { initializeTableScopeMap with nowParsing := NowParsingType.NPRows }
            0 0 0 1) =
        Except.ok (true, { pending := [], eof := false }, m2) ∧
      m2.activeCells = some 0 ∧
      (derefCells m2 0).entries = [makeMorkCellEntry (-1) 0x7ffffffe] ∧
      hexValue (bytes "FFFFFFFF") = 0xFFFFFFFF ∧
      valueForColumnId (hexValue (bytes "FFFFFFFF")) (derefCells m2 0) m2 = none) ∧
    (∃ m2,
      parseMorkCell 40
          { pending := cellText CellForm.literal (bytes "8E") (bytes "A" ++ 0 :: bytes "nn") ++
              41 :: [], eof := false }
          (setCurrentRow { initializeTableScopeMap with nowParsing := NowParsingType.NPRows }
            0 0 0 1) =
        Except.ok (true, { pending := bytes "nn)", eof := false }, m2) ∧
      m2.nextAddValueId = 0x7ffffffe ∧
      getValue m2 m2.nextAddValueId = "A" ∧
      valueForColumnId (hexValue (bytes "8E")) (derefCells m2 0) m2 = some "A") ∧
    (∃ m2,
      parseMorkCell 40
          { pending := cellText CellForm.literal (bytes "8E") (bytes "a$41") ++ 41 :: [],
            eof := false }
          (setCurrentRow { initializeTableScopeMap with nowParsing := NowParsingType.NPRows }
            0 0 0 1) =
        Except.ok (true, { pending := [], eof := false }, m2) ∧
      getValue m2 m2.nextAddValueId = "aA" ∧
      valueForColumnId (hexValue (bytes "8E")) (derefCells m2 0) m2 = some "aA") ∧
    (∃ m2,
      parseMorkCell 40
          { pending := cellText CellForm.literal (bytes "8E") [97, 92, 98] ++ 41 :: [],
            eof := false }
          (setCurrentRow { initializeTableScopeMap with nowParsing := NowParsingType.NPRows }
            0 0 0 1) =
        Except.ok (true, { pending := [], eof := false }, m2) ∧
      getValue m2 m2.nextAddValueId = "ab" ∧
      valueForColumnId (hexValue (bytes "8E")) (derefCells m2 0) m2 = some "ab") ∧
    (∃ m2,
      parseMorkCell 40
          { pending := cellText CellForm.literal (bytes "8E") (bytes "a)b") ++ 41 :: [],
            eof := false }
          (setCurrentRow { initializeTableScopeMap with nowParsing := NowParsingType.NPRows }
            0 0 0 1) =
        Except.ok (true, { pending := bytes "b)", eof := false }, m2) ∧
      getValue m2 m2.nextAddValueId = "a" ∧
      valueForColumnId (hexValue (bytes "8E")) (derefCells m2 0) m2 = some "a") ∧
    parseMorkCell 600
        { pending := cellText CellForm.literal (bytes "8E") (List.replicate 512 97) ++
            41 :: [], eof := false }
        (setCurrentRow { initializeTableScopeMap with nowParsing := NowParsingType.NPRows }
          0 0 0 1) =
      Except.error Fault.overflow := by
  refine ⟨⟨_, rfl, by decide, by decide, by decide, by decide⟩,
    ⟨_, rfl, by decide, by decide, by decide⟩, ⟨_, rfl, by decide, by decide⟩,
    ⟨_, rfl, by decide, by decide⟩, ⟨_, rfl, by decide, by decide⟩, ?_⟩
  exact parseMorkCell_full_hex_value CellForm.literal _ _ [] _ 600
    (by decide) (by decide)
    (fun c hc => by rw [List.eq_of_mem_replicate hc]; decide)
    (by rw [List.length_replicate])
    (Or.inr (by rw [List.length_replicate])) (by rw [List.length_replicate]; decide)

set_option maxRecDepth 20000 in
/-- C15 as stated fails in three ways.  A column id that does not fit an
`int`: after `<<(a=c)>(FFFFFFFF=FirstName)>` the name is stored under the id
-1, and `getColumn` on 0xFFFFFFFF gives the empty string.  A zero byte in the
name: the cell `(8E=Fi`, zero byte, `rst)` ends at the zero byte, and the name
stored is `Fi`.  A name of 512 bytes fills the 512 bytes of its buffer, and
the zero that ends it is written past the buffer. -/
theorem C15_column_cell_id_or_name_out_of_range :
    (∃ db,
      parseMorkStream 100
          { pending := MorkMagicHeader ++ bytes "<<(a=c)>(FFFFFFFF=FirstName)>",
            eof := false } = Except.ok (some db) ∧
      hexValue (bytes "FFFFFFFF") = 0xFFFFFFFF ∧
      getColumn db (hexValue (bytes "FFFFFFFF")) = "" ∧ getColumn db (-1) = "FirstName") ∧
    (∃ db,
      parseMorkStream 100
          { pending := MorkMagicHeader ++
              (bytes "<<(a=c)>(" ++ cellText CellForm.literal (bytes "8E")
                (bytes "Fi" ++ 0 :: bytes "rst") ++ bytes ")>"),
            eof := false } = Except.ok (some db) ∧
      getColumn db (hexValue (bytes "8E")) = "Fi") ∧
    parseMorkCell 600
        { pending := cellText CellForm.literal (bytes "8E") (List.replicate 512 97) ++
            41 :: bytes ">", eof := false }
        { initializeTableScopeMap with nowParsing := NowParsingType.NPColumns } =
      Except.error Fault.overflow := by
  refine ⟨⟨_, rfl, by decide, by decide, by decide⟩, ⟨_, rfl, by decide⟩, ?_⟩
  exact parseMorkCell_full_hex_value CellForm.literal _ _ _ _ 600
    (by decide) (by decide)
    (fun c hc => by rw [List.eq_of_mem_replicate hc]; decide)
    (by rw [List.length_replicate])
    (Or.inr (by rw [List.length_replicate])) (by rw [List.length_replicate]; decide)

set_option maxRecDepth 20000 in
/-- C26 as stated fails for a header id that does not fit an `int`: after the
row `[FFFFFFFF(^5^6)]` at top level the index has nothing at
(0x80, 0, 0x80, 0xFFFFFFFF); the Cell Set made active is at (0x80, 0, 0x80, -1).
A header id written with 512 digits fills the 512 bytes of its buffer, and the
zero that ends it is written past the buffer. -/
theorem C26_row_id_beyond_int_or_full :
    (∃ db,
      parseMorkStream 100
          { pending := MorkMagicHeader ++ bytes "[FFFFFFFF(^5^6)]", eof := false } =
        Except.ok (some db) ∧
      hexValue (bytes "FFFFFFFF") = 0xFFFFFFFF ∧
      db.activeCells = some 0 ∧
      cellsAt db 0x80 0 0x80 (hexValue (bytes "FFFFFFFF")) = none ∧
      cellsAt db 0x80 0 0x80 (-1) = some 0) ∧
    parseMorkRow 600
        { pending := (List.replicate 511 48 ++ [53]) ++ 40 :: bytes "^5^6)]", eof := false }
        initializeTableScopeMap 0 0 =
      Except.error Fault.overflow := by
  refine ⟨⟨_, rfl, by decide, by decide, by decide, by decide⟩, ?_⟩
  have hlen : (List.replicate 511 48 ++ [53]).length = 512 := by
    rw [List.length_append, List.length_replicate]; rfl
  exact parseMorkRow_full_id _ _ 40 (Or.inl rfl) _ 0 0 600
    (fun c hc => by
      rcases List.mem_append.1 hc with h | h
      · rw [List.eq_of_mem_replicate h]; decide
      · rw [List.mem_singleton.1 h]; decide)
    hlen (by rw [hlen]; decide)

/-! ## The magic header and the return of a database -/

/-- C18: for every input byte stream, `parseMorkStream` returns the null
pointer exactly when the first 33 bytes of the input are not the magic header,
which includes every input shorter than the header.  When they are the header
the result is never null: it is the database built by the dispatch loop on the
bytes after the header, if this loop ends.  It does not end on every input: on
the magic header followed by a `//` comment that the input ends without a line
end, no amount of fuel gives a result, so that no database is returned
although the first 33 bytes are the magic header. -/
theorem C18_null_iff_header_mismatch (input text : List Nat) (fuel : Nat)
    (hb : ∀ c ∈ input, c < 256) (ht : ∀ c ∈ text, c ≠ 0 ∧ c ≠ 13 ∧ c ≠ 10) :
    MorkMagicHeader.length = 33 ∧
    (parseMorkStream fuel { pending := input, eof := false } = Except.ok none ↔
      input.take 33 ≠ MorkMagicHeader) ∧
    (input.length < 33 →
      parseMorkStream fuel { pending := input, eof := false } = Except.ok none) ∧
    (input.take 33 = MorkMagicHeader →
      ∀ r, parseMorkStreamLoop fuel true
          (morkgetc { pending := input.drop 33, eof := false }).1
          (morkgetc { pending := input.drop 33, eof := false }).2
          initializeTableScopeMap = Except.ok r →
        parseMorkStream fuel { pending := input, eof := false } = Except.ok (some r.2.2)) ∧
    (input = MorkMagicHeader →
      parseMorkStream (fuel + 1) { pending := input, eof := false } =
        Except.ok (some initializeTableScopeMap)) ∧
    ((MorkMagicHeader ++ 47 :: 47 :: text).take 33 = MorkMagicHeader ∧
      ∀ f, ∃ e, parseMorkStream f
        { pending := MorkMagicHeader ++ 47 :: 47 :: text, eof := false } = Except.error e) := by
  have hhead : ∀ (rest : List Nat), (MorkMagicHeader ++ rest).take 33 = MorkMagicHeader := by
    intro rest
    rw [List.take_append_of_le_length (by rw [MorkMagicHeader_length])]
    exact List.take_of_length_le (by rw [MorkMagicHeader_length])
  have hmatch : input.take 33 = MorkMagicHeader →
      parseMorkStream fuel { pending := input, eof := false } =
        parseMorkStream fuel { pending := MorkMagicHeader ++ input.drop 33, eof := false } := by
    intro h
    have hin : input = MorkMagicHeader ++ input.drop 33 := by
      rw [← h]; exact (List.take_append_drop 33 input).symm
    conv_lhs => rw [hin]
  refine ⟨MorkMagicHeader_length, ?_, ?_, ?_, ?_, hhead _, ?_⟩
  · by_cases h : input.take 33 = MorkMagicHeader
    · constructor
      · intro h2
        rw [hmatch h, parseMorkStream_header] at h2
        split at h2 <;> simp at h2
      · intro h2; exact absurd h h2
    · refine ⟨fun _ => h, fun _ => ?_⟩
      unfold parseMorkStream
      rw [if_pos (fun h2 => h ((magicHeader_test input hb).1 h2))]
  · intro hlen
    have h : input.take 33 ≠ MorkMagicHeader := by
      intro h
      have h2 := congrArg List.length h
      rw [List.length_take, MorkMagicHeader_length] at h2
      omega
    unfold parseMorkStream
    rw [if_pos (fun h2 => h ((magicHeader_test input hb).1 h2))]
  · intro h r hr
    rw [hmatch h, parseMorkStream_header, hr]
  · intro h
    subst h
    have := parseMorkStream_header [] (fuel + 1)
    rw [List.append_nil] at this
    rw [this, parseMorkStreamLoop_end]
  · intro f
    rw [parseMorkStream_header]
    simp only [morkgetc_cons, Nat.cast_ofNat]
    cases f with
    | zero => exact ⟨_, rfl⟩
    | succ f =>
      obtain ⟨e, he⟩ := (parseMorkComment_never text f ht).1
      refine ⟨e, ?_⟩
      rw [parseMorkStreamLoop]
      rw [if_pos ⟨rfl, by decide, rfl⟩, if_pos (by decide), if_neg (by decide), if_pos rfl, he]

/-- C18 on the header with its last byte missing (no database), on the header
with one byte changed (no database), on the header alone (a database), and on
the header followed by `// note` (no result, whatever the fuel). -/
theorem C18_null_iff_header_mismatch_witness :
    parseMorkStream 10
        { pending := bytes "// <!-- <mdb:mork:z v=\"1.4\"/> --", eof := false } =
      Except.ok none ∧
    parseMorkStream 10
        { pending := bytes "// <!-- <mdb:mork:z v=\"1.5\"/> --><(1=a)>", eof := false } =
      Except.ok none ∧
    parseMorkStream (10 + 1)
        { pending := bytes "// <!-- <mdb:mork:z v=\"1.4\"/> -->", eof := false } =
      Except.ok (some initializeTableScopeMap) ∧
    ((MorkMagicHeader ++ 47 :: 47 :: bytes " note").take 33 = MorkMagicHeader ∧
      ∀ f, ∃ e, parseMorkStream f
        { pending := MorkMagicHeader ++ 47 :: 47 :: bytes " note", eof := false } =
          Except.error e) :=
  ⟨(C18_null_iff_header_mismatch (bytes "// <!-- <mdb:mork:z v=\"1.4\"/> --") [] 10
      (by decide) (by decide)).2.2.1 (by decide),
   (C18_null_iff_header_mismatch (bytes "// <!-- <mdb:mork:z v=\"1.5\"/> --><(1=a)>") [] 10
      (by decide) (by decide)).2.1.2 (by decide),
   (C18_null_iff_header_mismatch (bytes "// <!-- <mdb:mork:z v=\"1.4\"/> -->") [] 10
      (by decide) (by decide)).2.2.2.2.1 (by decide),
   (C18_null_iff_header_mismatch [] (bytes " note") 10 (by decide) (by decide)).2.2.2.2.2⟩

/-! ## The updates made during a parse give the database returned -/

theorem applyUpdates_append (us vs : List Update) :
    ∀ (m m1 : MorkDb), applyUpdates m us = Except.ok m1 →
      applyUpdates m (us ++ vs) = applyUpdates m1 vs := by
  induction us with
  | nil =>
    intro m m1 h
    simp only [applyUpdates] at h
    cases h
    rfl
  | cons u us ih =>
    intro m m1 h
    rw [List.cons_append]
    rw [applyUpdates] at h ⊢
    split at h
    · cases h
    · rename_i m2 h2
      exact ih m2 m1 h

theorem parseMorkCell_replay (fuel : Nat) (ifp : MorkFile) (m : MorkDb)
    (r : Bool × MorkFile × MorkDb) (h : parseMorkCell fuel ifp m = Except.ok r) :
    applyUpdates m (parseMorkCellUpdates fuel ifp) = Except.ok r.2.2 := by
  unfold parseMorkCell at h
  unfold parseMorkCellUpdates
  split at h
  · cases h
  · rename_i r1 h1
    try rw [h1]
    try simp only []
    split at h
    · cases h
    · rename_i c hc
      try rw [hc]
      try simp only []
      split at h
      · cases h
      · rename_i t ht
        try rw [ht]
        try simp only []
        split at h
        · cases h
        · rename_i m2 happ
          cases h
          simp only [applyUpdates, applyUpdate, happ]

theorem parseMorkRowLoop_replay :
    ∀ (fuel : Nat) (result : Bool) (cur : Int) (ifp : MorkFile) (m : MorkDb)
      (r : Bool × MorkFile × MorkDb),
      parseMorkRowLoop fuel result cur ifp m = Except.ok r →
      applyUpdates m (parseMorkRowLoopUpdates fuel result cur ifp m) = Except.ok r.2.2 := by
  intro fuel
  induction fuel with
  | zero => intro result cur ifp m r h; simp [parseMorkRowLoop] at h
  | succ f ih =>
    intro result cur ifp m r h
    rw [parseMorkRowLoop] at h
    rw [parseMorkRowLoopUpdates]
    split_ifs at h ⊢
    · split at h
      · cases h
      · rename_i rc hc
        try rw [hc]
        rw [applyUpdates_append _ _ _ _ (parseMorkCell_replay _ _ _ _ hc)]
        try rw [hc]
        exact ih _ _ _ _ _ h
    · split at h
      · cases h
      · rename_i rc hc
        try rw [hc]
        exact ih _ _ _ _ _ h
    · exact ih _ _ _ _ _ h
    · exact ih _ _ _ _ _ h
    · cases h; rfl

theorem parseMorkRow_replay (fuel : Nat) (ifp : MorkFile) (m : MorkDb)
    (tableId tableScope : Int) (r : Bool × MorkFile × MorkDb)
    (h : parseMorkRow fuel ifp m tableId tableScope = Except.ok r) :
    applyUpdates m (parseMorkRowUpdates fuel ifp m tableId tableScope) = Except.ok r.2.2 := by
  unfold parseMorkRow at h
  unfold parseMorkRowUpdates
  split at h
  · cases h
  · rename_i r1 h1
    try rw [h1]
    try simp only []
    split at h
    · cases h
    · rename_i t ht
      try rw [ht]
      simp only [applyUpdates, applyUpdate]
      exact parseMorkRowLoop_replay _ _ _ _ _ _ h

theorem parseMorkTableLoop_replay (id scope : Int) :
    ∀ (fuel : Nat) (result : Bool) (cur : Nat) (ifp : MorkFile) (m : MorkDb)
      (r : Bool × MorkFile × MorkDb),
      parseMorkTableLoop id scope fuel result cur ifp m = Except.ok r →
      applyUpdates m (parseMorkTableLoopUpdates id scope fuel result cur ifp m) =
        Except.ok r.2.2 := by
  intro fuel
  induction fuel with
  | zero => intro result cur ifp m r h; simp [parseMorkTableLoop] at h
  | succ f ih =>
    intro result cur ifp m r h
    rw [parseMorkTableLoop] at h
    rw [parseMorkTableLoopUpdates]
    split_ifs at h ⊢
    · split at h
      · cases h
      · rename_i rc hc
        try rw [hc]
        exact ih _ _ _ _ _ h
    · split at h
      · cases h
      · rename_i rc hc
        try rw [hc]
        rw [applyUpdates_append _ _ _ _ (parseMorkRow_replay _ _ _ _ _ _ hc)]
        try rw [hc]
        exact ih _ _ _ _ _ h
    · exact ih _ _ _ _ _ h
    · split at h
      · cases h
      · rename_i rc hc
        try rw [hc]
        try simp only []
        split_ifs at h ⊢
        · cases h; rfl
        · split at h
          · cases h
          · rename_i j hj
            try rw [hj]
            simp only [applyUpdates, applyUpdate]
            exact ih _ _ _ _ _ h
    · exact ih _ _ _ _ _ h
    · cases h; rfl

theorem parseMorkTable_replay (fuel : Nat) (ifp : MorkFile) (m : MorkDb)
    (r : Bool × MorkFile × MorkDb) (h : parseMorkTable fuel ifp m = Except.ok r) :
    applyUpdates m (parseMorkTableUpdates fuel ifp m) = Except.ok r.2.2 := by
  unfold parseMorkTable at h
  unfold parseMorkTableUpdates
  split at h
  · cases h
  · rename_i r1 h1
    try rw [h1]
    try simp only []
    split at h
    · cases h
    · rename_i t ht
      try rw [ht]
      exact parseMorkTableLoop_replay _ _ _ _ _ _ _ _ h

theorem parseMorkDictLoop_replay :
    ∀ (fuel : Nat) (result : Bool) (cur : Int) (ifp : MorkFile) (m : MorkDb)
      (r : Bool × MorkFile × MorkDb),
      parseMorkDictLoop fuel result cur ifp m = Except.ok r →
      applyUpdates m (parseMorkDictLoopUpdates fuel result cur ifp m) = Except.ok r.2.2 := by
  intro fuel
  induction fuel with
  | zero => intro result cur ifp m r h; simp [parseMorkDictLoop] at h
  | succ f ih =>
    intro result cur ifp m r h
    rw [parseMorkDictLoop] at h
    rw [parseMorkDictLoopUpdates]
    split_ifs at h ⊢
    · simp only [applyUpdates, applyUpdate]
      exact ih _ _ _ _ _ h
    · exact ih _ _ _ _ _ h
    · split at h
      · cases h
      · rename_i rc hc
        try rw [hc]
        rw [applyUpdates_append _ _ _ _ (parseMorkCell_replay _ _ _ _ hc)]
        try rw [hc]
        exact ih _ _ _ _ _ h
    · split at h
      · cases h
      · rename_i rc hc
        try rw [hc]
        exact ih _ _ _ _ _ h
    · exact ih _ _ _ _ _ h
    · exact ih _ _ _ _ _ h
    · cases h; rfl

theorem parseMorkDict_replay (fuel : Nat) (ifp : MorkFile) (m : MorkDb)
    (r : Bool × MorkFile × MorkDb) (h : parseMorkDict fuel ifp m = Except.ok r) :
    applyUpdates m (parseMorkDictUpdates fuel ifp m) = Except.ok r.2.2 := by
  unfold parseMorkDict at h
  unfold parseMorkDictUpdates
  simp only [applyUpdates, applyUpdate]
  exact parseMorkDictLoop_replay _ _ _ _ _ _ h

theorem parseMorkStreamLoop_replay :
    ∀ (fuel : Nat) (result : Bool) (cur : Int) (ifp : MorkFile) (m : MorkDb)
      (r : Bool × MorkFile × MorkDb),
      parseMorkStreamLoop fuel result cur ifp m = Except.ok r →
      applyUpdates m (parseMorkStreamLoopUpdates fuel result cur ifp m) = Except.ok r.2.2 := by
  intro fuel
  induction fuel with
  | zero => intro result cur ifp m r h; simp [parseMorkStreamLoop] at h
  | succ f ih =>
    intro result cur ifp m r h
    rw [parseMorkStreamLoop] at h
    rw [parseMorkStreamLoopUpdates]
    split_ifs at h ⊢
    · split at h
      · cases h
      · rename_i rc hc
        try rw [hc]
        rw [applyUpdates_append _ _ _ _ (parseMorkDict_replay _ _ _ _ hc)]
        try rw [hc]
        exact ih _ _ _ _ _ h
    · split at h
      · cases h
      · rename_i rc hc
        try rw [hc]
        exact ih _ _ _ _ _ h
    · split at h
      · cases h
      · rename_i rc hc
        try rw [hc]
        rw [applyUpdates_append _ _ _ _ (parseMorkTable_replay _ _ _ _ hc)]
        try rw [hc]
        exact ih _ _ _ _ _ h
    · split at h
      · cases h
      · rename_i rc hc
        try rw [hc]
        rw [applyUpdates_append _ _ _ _ (parseMorkRow_replay _ _ _ _ _ _ hc)]
        try rw [hc]
        exact ih _ _ _ _ _ h
    · split at h
      · cases h
      · rename_i rc hc
        try rw [hc]
        exact ih _ _ _ _ _ h
    · exact ih _ _ _ _ _ h
    · exact ih _ _ _ _ _ h
    · cases h; rfl

theorem parseMorkStream_replay (fuel : Nat) (ifp : MorkFile) (db : MorkDb)
    (h : parseMorkStream fuel ifp = Except.ok (some db)) :
    applyUpdates initializeTableScopeMap (parseMorkStreamUpdates fuel ifp) = Except.ok db := by
  unfold parseMorkStream at h
  unfold parseMorkStreamUpdates
  split_ifs at h ⊢
  · cases h
  · split at h
    · cases h
    · rename_i r hr
      cases h
      exact parseMorkStreamLoop_replay _ _ _ _ _ _ hr

/-! ## The literal row values interned during a parse -/

theorem storeInActiveCellsOrFault_inv_ok (m m2 : MorkDb) (k v : Int)
    (h : storeInActiveCellsOrFault m k v = Except.ok m2) :
    ∃ p, m.activeCells = some p ∧ p < m.cellsHeap.length ∧
      m2 = { m with cellsHeap := m.cellsHeap.set p (storeInMorkCell (derefCells m p) k v) } := by
  unfold storeInActiveCellsOrFault storeInActiveCells at h
  split at h
  · cases h
  · rename_i m3 h3
    cases h
    split at h3
    · cases h3
    · rename_i p hp
      split_ifs at h3 with hlt
      cases h3
      exact ⟨p, hp, hlt, rfl⟩

theorem parseMorkCellApply_literal (m m1 : MorkDb) (v : Bool) (column text : List Nat)
    (hl : MintsLiteral m v text) (h : parseMorkCellApply m v column text = Except.ok m1) :
    LiteralStore.StoredUnder { before := m, after := m1, column := column, text := text }
      (m.nextAddValueId - 1) := by
  obtain ⟨h1, h2, h3⟩ := hl
  unfold parseMorkCellApply at h
  simp only [] at h
  rw [if_pos h1, if_pos h2, h3] at h
  simp only [Bool.false_eq_true, if_false] at h
  obtain ⟨p, hp, hlt, rfl⟩ := storeInActiveCellsOrFault_inv_ok _ _ _ _ h
  simp only [] at hp hlt
  have hd : derefCells
      { m with
        nextAddValueId := m.nextAddValueId - 1
        values := storeInMorkDict m.values (m.nextAddValueId - 1) (cString text)
        cellsHeap := m.cellsHeap.set p
          (storeInMorkCell (derefCells { m with
              nextAddValueId := m.nextAddValueId - 1
              values := storeInMorkDict m.values (m.nextAddValueId - 1) (cString text) } p)
            (toInt32 (strtol16 column)) (m.nextAddValueId - 1)) } p =
      storeInMorkCell (derefCells m p) (toInt32 (strtol16 column)) (m.nextAddValueId - 1) := by
    simp only [derefCells]
    exact getD_set_self _ _ _ _ hlt
  refine ⟨h2, by simp, rfl, rfl, getValue_storeInMorkDict _ _ _, p, hp, hp, hd, ?_, ?_⟩
  · rw [hd]
    exact cellValueId_storeInMorkCell _ _ _
  · unfold valueForColumnId
    rw [hd, cellValueId_storeInMorkCell]
    simp only [Option.map_some', Option.some.injEq]
    exact getValue_storeInMorkDict _ _ _

theorem applyUpdate_next (m m1 : MorkDb) (u : Update) (h : applyUpdate m u = Except.ok m1) :
    m1.nextAddValueId =
      match u with
      | Update.cell v _ text =>
        if MintsLiteral m v text then m.nextAddValueId - 1 else m.nextAddValueId
      | _ => m.nextAddValueId := by
  cases u with
  | cell v column text => exact parseMorkCellApply_next m m1 v column text h
  | row ts tid rs rid =>
    simp only [applyUpdate] at h
    cases h
    exact (setCurrentRow_frame m ts tid rs rid).2.2.2.1
  | target t =>
    simp only [applyUpdate] at h
    cases h
    rfl

theorem literalStores_spec (us : List Update) :
    ∀ (m : MorkDb),
      (∀ (k : Nat) (e : LiteralStore), (literalStores m us)[k]? = some e →
        e.StoredUnder (m.nextAddValueId - ((k : Int) + 1))) ∧
      (∀ m2, applyUpdates m us = Except.ok m2 →
        m2.nextAddValueId = m.nextAddValueId - ((literalStores m us).length : Int)) := by
  induction us with
  | nil =>
    intro m
    refine ⟨fun k e h => by simp [literalStores] at h, fun m2 h => ?_⟩
    simp only [applyUpdates] at h
    cases h
    simp [literalStores]
  | cons u us ih =>
    intro m
    cases hu : applyUpdate m u with
    | error e0 =>
      refine ⟨fun k e h => ?_, fun m2 h => ?_⟩
      · rw [literalStores, hu] at h
        simp at h
      · rw [applyUpdates, hu] at h
        cases h
    | ok m1 =>
      obtain ⟨ih1, ih2⟩ := ih m1
      have hn := applyUpdate_next m m1 u hu
      cases u with
      | cell v column text =>
        simp only [] at hn
        by_cases hl : MintsLiteral m v text
        · rw [if_pos hl] at hn
          have hls : literalStores m (Update.cell v column text :: us) =
              { before := m, after := m1, column := column, text := text } ::
                literalStores m1 us := by
            rw [literalStores, hu]
            simp only [if_pos hl]
          refine ⟨fun k e h => ?_, fun m2 h => ?_⟩
          · rw [hls] at h
            cases k with
            | zero =>
              simp only [List.getElem?_cons_zero, Option.some.injEq] at h
              subst h
              have := parseMorkCellApply_literal m m1 v column text hl hu
              simpa using this
            | succ j =>
              simp only [List.getElem?_cons_succ] at h
              have := ih1 j e h
              rw [hn] at this
              have e1 : m.nextAddValueId - 1 - ((j : Int) + 1) =
                  m.nextAddValueId - (((j + 1 : Nat) : Int) + 1) := by push_cast; ring
              rw [e1] at this
              exact this
          · rw [applyUpdates, hu] at h
            rw [hls, ih2 m2 h, hn]
            simp only [List.length_cons]
            push_cast
            ring
        · rw [if_neg hl] at hn
          have hls : literalStores m (Update.cell v column text :: us) =
              literalStores m1 us := by
            rw [literalStores, hu]
            simp only [if_neg hl]
          refine ⟨fun k e h => ?_, fun m2 h => ?_⟩
          · rw [hls] at h
            have := ih1 k e h
            rw [hn] at this
            exact this
          · rw [applyUpdates, hu] at h
            rw [hls, ih2 m2 h, hn]
      | row ts tid rs rid =>
        simp only [] at hn
        have hls : literalStores m (Update.row ts tid rs rid :: us) =
            literalStores m1 us := by
          rw [literalStores, hu]
        refine ⟨fun k e h => ?_, fun m2 h => ?_⟩
        · rw [hls] at h
          have := ih1 k e h
          rw [hn] at this
          exact this
        · rw [applyUpdates, hu] at h
          rw [hls, ih2 m2 h, hn]
      | target t =>
        simp only [] at hn
        have hls : literalStores m (Update.target t :: us) =
            literalStores m1 us := by
          rw [literalStores, hu]
        refine ⟨fun k e h => ?_, fun m2 h => ?_⟩
        · rw [hls] at h
          have := ih1 k e h
          rw [hn] at this
          exact this
        · rw [applyUpdates, hu] at h
          rw [hls, ih2 m2 h, hn]

/-- C14: in every parse, whether it returns a database or not, the k-th literal
row value interned among the updates that `parseMorkStreamUpdates` lists in
processing order (k = 1, 2, ..; index k - 1 of `literalStores`) receives the id
0x7fffffff - k, whatever its row and its text: its text is stored in the
values dictionary under this id and the active Cell Set maps its column to
this id.  The ids of any two literal values are therefore distinct and
strictly decreasing in processing order, and all are below the seed 0x7fffffff
that `initializeTableScopeMap` sets.  When the parse returns a database, the
updates listed, made one after the other from the initial database, give the
database returned, and `nextAddValueId` ends at the seed minus the number of
literal values. -/
theorem C14_kth_literal_stored_under_seed_minus_k (input : List Nat) (fuel : Nat) :
    initializeTableScopeMap.nextAddValueId = 0x7fffffff ∧
    (∀ (k : Nat) (e : LiteralStore),
      (literalStores initializeTableScopeMap
        (parseMorkStreamUpdates fuel { pending := input, eof := false }))[k]? = some e →
      e.StoredUnder (0x7fffffff - ((k : Int) + 1))) ∧
    (∀ (j k : Nat) (ej ek : LiteralStore), j < k →
      (literalStores initializeTableScopeMap
        (parseMorkStreamUpdates fuel { pending := input, eof := false }))[j]? = some ej →
      (literalStores initializeTableScopeMap
        (parseMorkStreamUpdates fuel { pending := input, eof := false }))[k]? = some ek →
      ek.after.nextAddValueId < ej.after.nextAddValueId ∧
        ej.after.nextAddValueId < 0x7fffffff) ∧
    ∀ (db : MorkDb),
      parseMorkStream fuel { pending := input, eof := false } = Except.ok (some db) →
      applyUpdates initializeTableScopeMap
        (parseMorkStreamUpdates fuel { pending := input, eof := false }) = Except.ok db ∧
      db.nextAddValueId = 0x7fffffff -
        ((literalStores initializeTableScopeMap
          (parseMorkStreamUpdates fuel { pending := input, eof := false })).length : Int) := by
  obtain ⟨h1, h2⟩ := literalStores_spec
    (parseMorkStreamUpdates fuel { pending := input, eof := false }) initializeTableScopeMap
  have hseed : initializeTableScopeMap.nextAddValueId = 0x7fffffff := rfl
  rw [hseed] at h1 h2
  refine ⟨rfl, h1, ?_, ?_⟩
  · intro j k ej ek hjk hj hk
    obtain ⟨_, _, a1, _⟩ := h1 j ej hj
    obtain ⟨_, _, a2, _⟩ := h1 k ek hk
    rw [a1, a2]
    constructor <;> omega
  · intro db h
    have hr := parseMorkStream_replay fuel _ db h
    exact ⟨hr, h2 db hr⟩

set_option maxRecDepth 20000 in
/-- C14 on the magic header followed by `[1(5=x)(6=x)][2(5=y)]`: the three
literal values, two of them equal and in the same row, are stored under the
ids 0x7ffffffe, 0x7ffffffd and 0x7ffffffc. -/
theorem C14_kth_literal_stored_under_seed_minus_k_witness :
    (literalStores initializeTableScopeMap
      (parseMorkStreamUpdates 60
        { pending := MorkMagicHeader ++ bytes "[1(5=x)(6=x)][2(5=y)]", eof := false })).map
      (fun e => (e.column, e.text, e.after.nextAddValueId,
        e.after.values.entries.map (fun d => (d.key, d.value)),
        e.after.cellsHeap.map (fun c => c.entries.map (fun x => (x.key, x.value))))) =
      [(bytes "5", bytes "x", 0x7ffffffe, [(0x7ffffffe, "x")], [[(5, 0x7ffffffe)]]),
       (bytes "6", bytes "x", 0x7ffffffd, [(0x7ffffffd, "x"), (0x7ffffffe, "x")],
         [[(5, 0x7ffffffe), (6, 0x7ffffffd)]]),
       (bytes "5", bytes "y", 0x7ffffffc,
         [(0x7ffffffc, "y"), (0x7ffffffd, "x"), (0x7ffffffe, "x")],
         [[(5, 0x7ffffffe), (6, 0x7ffffffd)], [(5, 0x7ffffffc)]])] ∧
    (∀ (k : Nat) (e : LiteralStore),
      (literalStores initializeTableScopeMap
        (parseMorkStreamUpdates 60
          { pending := MorkMagicHeader ++ bytes "[1(5=x)(6=x)][2(5=y)]",
            eof := false }))[k]? = some e →
      e.StoredUnder (0x7fffffff - ((k : Int) + 1))) ∧
    (∃ db,
      parseMorkStream 60
          { pending := MorkMagicHeader ++ bytes "[1(5=x)(6=x)][2(5=y)]", eof := false } =
        Except.ok (some db) ∧
      db.nextAddValueId = 0x7ffffffc) :=
  ⟨by rfl,
   (C14_kth_literal_stored_under_seed_minus_k
    (MorkMagicHeader ++ bytes "[1(5=x)(6=x)][2(5=y)]") 60).2.1,
   ⟨_, rfl, by decide⟩⟩

/-! ## Blocks of plain cells: dictionaries, rows and tables -/

theorem parseMorkCellApply_dict (m : MorkDb) (v : Bool) (column text : List Nat)
    (h : m.nowParsing ≠ NowParsingType.NPRows) :
    ∃ m2, parseMorkCellApply m v column text = Except.ok m2 := by
  unfold parseMorkCellApply
  simp only []
  split_ifs <;> exact ⟨_, rfl⟩

theorem parseMorkCell_plain_dict (body : List Nat) (m : MorkDb)
    (hb : ∀ x ∈ body, cellByte x = true) (hlen : body.length < 512)
    (hnp : m.nowParsing ≠ NowParsingType.NPRows) :
    ∃ m2,
      (∀ (rest : List Nat) (fuel : Nat), body.length + 1 ≤ fuel →
        parseMorkCell fuel { pending := body ++ 41 :: rest, eof := false } m =
          Except.ok (true, { pending := rest, eof := false }, m2)) ∧
      m2.keys = m.keys ∧ m2.entries = m.entries ∧ m2.activeCells = m.activeCells ∧
      m2.nowParsing = m.nowParsing ∧ m2.cellsHeap.length = m.cellsHeap.length := by
  obtain ⟨st2, hs2, hc2, ht2⟩ := parseMorkCellLoop_plain_u body
    { columnIsObjectId := false, valueIsObjectId := false, bColumn := true, corners := 0,
      column := [], text := [] } hb (by simpa using hlen) (by simpa using hlen)
  simp only [List.length_nil, Nat.zero_add] at hc2 ht2
  obtain ⟨m2, hm2⟩ := parseMorkCellApply_dict m st2.valueIsObjectId st2.column st2.text hnp
  refine ⟨m2, ?_, parseMorkCellApply_keeps m m2 _ _ _ hm2⟩
  intro rest fuel hfuel
  unfold parseMorkCell
  rw [hs2 rest fuel hfuel]
  simp only [bufEnd_ok st2.column (by omega), bufEnd_ok st2.text (by omega), hm2]

theorem parseMorkDictLoop_cells_u (cells : List (List Nat)) :
    ∀ (m : MorkDb), PlainCells cells → m.nowParsing ≠ NowParsingType.NPRows →
      ∃ m2,
        (m2.keys = m.keys ∧ m2.entries = m.entries ∧ m2.activeCells = m.activeCells ∧
          m2.nowParsing = m.nowParsing ∧ m2.cellsHeap.length = m.cellsHeap.length) ∧
        ∀ (c : Nat) (tail : List Nat) (f : Nat), (∀ b ∈ cells, b.length + 1 ≤ f) →
          parseMorkDictLoop (cells.length + f) true
              (morkgetc { pending := cellsText cells ++ c :: tail, eof := false }).1
              (morkgetc { pending := cellsText cells ++ c :: tail, eof := false }).2 m =
            parseMorkDictLoop f true (c : Int) { pending := tail, eof := false } m2 := by
  induction cells with
  | nil =>
    intro m _ _
    refine ⟨m, ⟨rfl, rfl, rfl, rfl, rfl⟩, ?_⟩
    intro c tail f _
    simp [cellsText, morkgetc_cons]
  | cons b bs ih =>
    intro m hcells hnp
    have hb := hcells b (List.mem_cons_self _ _)
    obtain ⟨m1, hm1, k1, k2, k3, k4, k5⟩ := parseMorkCell_plain_dict b m hb.1 hb.2 hnp
    obtain ⟨m2, ⟨j1, j2, j3, j4, j5⟩, hm2⟩ := ih m1
      (fun b2 hb2 => hcells b2 (List.mem_cons_of_mem _ hb2)) (by rw [k4]; exact hnp)
    refine ⟨m2, ⟨j1.trans k1, j2.trans k2, j3.trans k3, j4.trans k4, j5.trans k5⟩, ?_⟩
    intro c tail f hf
    have hfb := hf b (List.mem_cons_self _ _)
    have hfuel : (b :: bs).length + f = (bs.length + f) + 1 := by
      simp only [List.length_cons]; omega
    rw [hfuel]
    simp only [cellsText, List.cons_append, List.append_assoc, morkgetc_cons, Nat.cast_ofNat]
    rw [parseMorkDictLoop]
    rw [if_pos ⟨rfl, by decide, by decide, rfl⟩, if_pos (by decide), if_neg (by decide),
      if_pos rfl, hm1 (cellsText bs ++ c :: tail) (bs.length + f) (by omega)]
    exact hm2 c tail f (fun b2 hb2 => hf b2 (List.mem_cons_of_mem _ hb2))

theorem cellsText_length (cells : List (List Nat)) :
    (∀ b ∈ cells, b.length + 2 * cells.length ≤ (cellsText cells).length) ∧
    2 * cells.length ≤ (cellsText cells).length := by
  induction cells with
  | nil => exact ⟨fun b hb => absurd hb (List.not_mem_nil b), by simp⟩
  | cons c cs ih =>
    constructor
    · intro b hb
      simp only [cellsText, List.length_cons, List.length_append]
      rcases List.mem_cons.1 hb with rfl | h
      · have := ih.2
        omega
      · have := ih.1 b h
        omega
    · simp only [cellsText, List.length_cons, List.length_append]
      have := ih.2
      omega

/-- The dispatch loop on a dictionary of plain cells. -/
theorem parseMorkStreamLoop_dict_block (cells : List (List Nat)) (m : MorkDb)
    (hcells : PlainCells cells) (hWF : IndexWF m) (hH : HeapWF m) :
    ∃ m2, IndexWF m2 ∧ HeapWF m2 ∧
      (∀ (rest : List Nat) (f : Nat), (cellsText cells).length + 2 ≤ f →
        parseMorkDict f { pending := cellsText cells ++ 62 :: rest, eof := false } m =
          Except.ok (true, { pending := rest, eof := false }, m2)) ∧
      (∀ (y : Nat) (rest : List Nat) (f : Nat), y ≠ 47 → (cellsText cells).length + 4 ≤ f →
        parseMorkDict f { pending := cellsText cells ++ 47 :: y :: rest, eof := false } m =
          Except.ok (false, (morkgetc { pending := rest, eof := false }).2, m2)) ∧
      ∀ (tail : List Nat) (f : Nat), (cellsText cells).length + 2 ≤ f →
        parseMorkStreamLoop (f + 1) true 60
            { pending := cellsText cells ++ 62 :: tail, eof := false } m =
          parseMorkStreamLoop f true (morkgetc { pending := tail, eof := false }).1
            (morkgetc { pending := tail, eof := false }).2 m2 := by
  obtain ⟨m2, ⟨k1, k2, k3, k4, k5⟩, hloop⟩ := parseMorkDictLoop_cells_u cells
    { m with nowParsing := NowParsingType.NPValues } hcells (by simp)
  have hlen := cellsText_length cells
  have hdict : ∀ (rest : List Nat) (f : Nat), (cellsText cells).length + 2 ≤ f →
      parseMorkDict f { pending := cellsText cells ++ 62 :: rest, eof := false } m =
        Except.ok (true, { pending := rest, eof := false }, m2) := by
    intro rest f hf
    obtain ⟨g, rfl⟩ : ∃ g, f = cells.length + (g + 1) :=
      ⟨f - cells.length - 1, by omega⟩
    unfold parseMorkDict
    rw [hloop 62 rest (g + 1) (fun b hb => by have := hlen.1 b hb; omega)]
    simp only [Nat.cast_ofNat]
    rw [parseMorkDictLoop]
    rw [if_neg (by simp)]
  refine ⟨m2, IndexWF_congr m m2 k1 k2 hWF, HeapWF_congr m m2 k1 k2 k5 k3 hH, hdict, ?_, ?_⟩
  · intro y rest f hy hf
    obtain ⟨g, rfl⟩ : ∃ g, f = cells.length + (g + 2) :=
      ⟨f - cells.length - 2, by omega⟩
    unfold parseMorkDict
    rw [hloop 47 (y :: rest) (g + 2) (fun b hb => by have := hlen.1 b hb; omega)]
    simp only [Nat.cast_ofNat]
    rw [show g + 2 = (g + 1) + 1 from rfl, parseMorkDictLoop]
    rw [if_pos ⟨rfl, by decide, by decide, rfl⟩, if_pos (by decide), if_neg (by decide),
      if_neg (by decide), if_pos rfl, parseMorkComment_single y rest (g + 1) hy]
    simp only []
    rw [parseMorkDictLoop]
    rw [if_neg (by simp)]
  · intro tail f hf
    rw [parseMorkStreamLoop]
    rw [if_pos ⟨rfl, by decide, rfl⟩, if_pos (by decide), if_pos rfl, hdict tail f hf]

theorem parseMorkCell_plain_run (body : List Nat) (m : MorkDb) (p : Nat)
    (hb : ∀ x ∈ body, cellByte x = true) (hlen : body.length < 512)
    (hp : m.activeCells = some p) (hlt : p < m.cellsHeap.length) :
    ∃ m2,
      (∀ (rest : List Nat) (fuel : Nat), body.length + 1 ≤ fuel →
        parseMorkCell fuel { pending := body ++ 41 :: rest, eof := false } m =
          Except.ok (true, { pending := rest, eof := false }, m2)) ∧
      CellFrame m m2 p ∧
      applyUpdates m
        (parseMorkCellUpdates (body.length + 1) { pending := body ++ [41], eof := false }) =
        Except.ok m2 := by
  obtain ⟨m2, h1, h2⟩ := parseMorkCell_plain_u body m p hb hlen hp hlt
  exact ⟨m2, h1, h2, parseMorkCell_replay _ _ _ _ (h1 [] (body.length + 1) (le_refl _))⟩

theorem parseMorkRowLoop_cells_run (p : Nat) (cells : List (List Nat)) :
    ∀ (m : MorkDb), PlainCells cells →
      m.activeCells = some p → p < m.cellsHeap.length →
      ∃ m2, CellFrame m m2 p ∧ applyUpdates m (cellsUpdates cells) = Except.ok m2 ∧
        ∀ (tail : List Nat) (f : Nat), (∀ b ∈ cells, b.length + 1 ≤ f) →
          parseMorkRowLoop (cells.length + f) true
              (morkgetc { pending := cellsText cells ++ tail, eof := false }).1
              (morkgetc { pending := cellsText cells ++ tail, eof := false }).2 m =
            parseMorkRowLoop f true (morkgetc { pending := tail, eof := false }).1
              (morkgetc { pending := tail, eof := false }).2 m2 := by
  induction cells with
  | nil =>
    intro m _ _ _
    refine ⟨m, CellFrame_refl m p, rfl, ?_⟩
    intro tail f _
    simp [cellsText]
  | cons b bs ih =>
    intro m hcells hp hlt
    have hb := hcells b (List.mem_cons_self _ _)
    obtain ⟨m1, hm1, hf1, hu1⟩ := parseMorkCell_plain_run b m p hb.1 hb.2 hp hlt
    obtain ⟨m2, hf2, hu2, hm2⟩ := ih m1 (fun b2 hb2 => hcells b2 (List.mem_cons_of_mem _ hb2))
      (by rw [hf1.2.2.1, hp]) (by rw [hf1.2.2.2.2.2.1]; exact hlt)
    refine ⟨m2, CellFrame_trans m m1 m2 p hf1 hf2, ?_, ?_⟩
    · rw [cellsUpdates, applyUpdates_append _ _ _ _ hu1]
      exact hu2
    · intro tail f hf
      have hfb := hf b (List.mem_cons_self _ _)
      have hfuel : (b :: bs).length + f = (bs.length + f) + 1 := by
        simp only [List.length_cons]; omega
      rw [hfuel]
      simp only [cellsText, List.cons_append, List.append_assoc, morkgetc_cons, Nat.cast_ofNat]
      rw [parseMorkRowLoop]
      rw [if_pos ⟨rfl, by decide, by decide⟩, if_pos (by decide), if_pos rfl,
        hm1 (cellsText bs ++ tail) (bs.length + f) (by omega)]
      exact hm2 tail f (fun b2 hb2 => hf b2 (List.mem_cons_of_mem _ hb2))

/-- A byte that makes the loop of `parseMorkRow` fail. -/
theorem parseMorkRowLoop_stray (g : Nat) (c : Int) (ifp : MorkFile) (d : MorkDb)
    (h0 : c ≠ 0) (hsp : isspace c = false) (h40 : c ≠ 40) (h91 : c ≠ 91) (h93 : c ≠ 93) :
    parseMorkRowLoop (g + 2) true c ifp d = Except.ok (false, (morkgetc ifp).2, d) := by
  rw [parseMorkRowLoop]
  rw [if_pos ⟨rfl, h93, h0⟩, if_pos hsp, if_neg h40, if_neg h91]
  rw [parseMorkRowLoop]
  rw [if_neg (by simp)]

/-- A row `[R(cell)..(cell)` of plain cells, parsed from a well-formed
database: the database `m2` after the cells, and what `parseMorkRow` returns
when the row is closed, when a stray byte follows the cells, when the input
ends, and when a zero byte follows. -/
theorem parseMorkRow_cells_run (rTok : List Nat) (cells : List (List Nat)) (m : MorkDb)
    (tableId tableScope : Int) (hr : rTok ≠ []) (hc : cells ≠ [])
    (hrb : ∀ x ∈ rTok, idByte x = true) (hrl : rTok.length < 512)
    (hcells : PlainCells cells) (hWF : IndexWF m) (hH : HeapWF m) :
    ∃ m2 p,
      IndexWF m2 ∧ HeapWF m2 ∧
      (setCurrentRow { m with nowParsing := NowParsingType.NPRows } tableScope tableId
        (parseScopeId rTok 0).2 (parseScopeId rTok 0).1).activeCells = some p ∧
      CellFrame
        (setCurrentRow { m with nowParsing := NowParsingType.NPRows } tableScope tableId
          (parseScopeId rTok 0).2 (parseScopeId rTok 0).1) m2 p ∧
      applyUpdates
        (setCurrentRow { m with nowParsing := NowParsingType.NPRows } tableScope tableId
          (parseScopeId rTok 0).2 (parseScopeId rTok 0).1) (cellsUpdates cells) =
        Except.ok m2 ∧
      (∀ (rest : List Nat) (F : Nat), rTok.length + 2 * (cellsText cells).length + 4 ≤ F →
        parseMorkRow F { pending := rTok ++ (cellsText cells ++ 93 :: rest), eof := false } m
            tableId tableScope =
          Except.ok (true, { pending := rest, eof := false }, m2)) ∧
      (∀ (x : Nat) (tail : List Nat) (F : Nat),
        x ≠ 0 → isspace (x : Int) = false → x ≠ 40 → x ≠ 91 → x ≠ 93 →
        rTok.length + 2 * (cellsText cells).length + 4 ≤ F →
        parseMorkRow F { pending := rTok ++ (cellsText cells ++ x :: tail), eof := false } m
            tableId tableScope =
          Except.ok (false, (morkgetc { pending := tail, eof := false }).2, m2)) ∧
      (∀ (F : Nat), rTok.length + 2 * (cellsText cells).length + 4 ≤ F →
        parseMorkRow F { pending := rTok ++ (cellsText cells ++ []), eof := false } m
            tableId tableScope =
          Except.ok (false, { pending := [], eof := true }, m2)) ∧
      (∀ (tail : List Nat) (F : Nat), rTok.length + 2 * (cellsText cells).length + 4 ≤ F →
        parseMorkRow F { pending := rTok ++ (cellsText cells ++ 0 :: tail), eof := false } m
            tableId tableScope =
          Except.ok (true, { pending := tail, eof := false }, m2)) := by
  have hWF0 : IndexWF { m with nowParsing := NowParsingType.NPRows } :=
    IndexWF_congr m _ rfl rfl hWF
  have hH0 : HeapWF { m with nowParsing := NowParsingType.NPRows } :=
    HeapWF_congr m _ rfl rfl rfl rfl hH
  obtain ⟨hWF1, hact, _, _⟩ := setCurrentRow_spec
    { m with nowParsing := NowParsingType.NPRows }
    tableScope tableId (parseScopeId rTok 0).2 (parseScopeId rTok 0).1 hWF0
  have hH1 := setCurrentRow_heapWF { m with nowParsing := NowParsingType.NPRows }
    tableScope tableId (parseScopeId rTok 0).2 (parseScopeId rTok 0).1 hWF0 hH0
  obtain ⟨m2, hframe, hupd, hloop⟩ := parseMorkRowLoop_cells_run _ cells
    (setCurrentRow { m with nowParsing := NowParsingType.NPRows } tableScope tableId
      (parseScopeId rTok 0).2 (parseScopeId rTok 0).1) hcells hact (hH1.2.2 _ hact)
  have hlen := cellsText_length cells
  have hrow : ∀ (tail : List Nat) (f : Nat), rTok.length + (cellsText cells).length + 1 ≤ f →
      parseMorkRow (cells.length + f)
          { pending := rTok ++ (cellsText cells ++ tail), eof := false } m
          tableId tableScope =
        parseMorkRowLoop f true (morkgetc { pending := tail, eof := false }).1
          (morkgetc { pending := tail, eof := false }).2 m2 := by
    intro tail f hfuel
    cases rTok with
    | nil => exact absurd rfl hr
    | cons c tok =>
      cases cells with
      | nil => exact absurd rfl hc
      | cons b bs =>
        simp only [List.length_cons] at hrl hfuel
        have hid := parseMorkRowIdLoop_tok (b ++ 41 :: (cellsText bs ++ tail)) 40
          (Or.inl rfl) tok c [] ((b :: bs).length + f)
          (hrb c (List.mem_cons_self _ _)) (fun y hy => hrb y (List.mem_cons_of_mem _ hy))
          (by simp; omega) (by omega)
        have hl := hloop tail f (fun b2 hb2 => by
          have := cell_length_le_cellsText (b :: bs) b2 hb2
          omega)
        simp only [cellsText, List.cons_append, List.append_assoc, morkgetc_cons,
          Nat.cast_ofNat] at hl hid
        unfold parseMorkRow
        simp only [cellsText, List.cons_append, List.append_assoc, morkgetc_cons, hid,
          List.nil_append, bufEnd_ok (c :: tok) (by simp; omega), Nat.cast_ofNat]
        exact hl
  obtain ⟨hk, he, ha, _, _, hl, _⟩ := hframe
  refine ⟨m2, _, IndexWF_congr _ m2 hk he hWF1, HeapWF_congr _ m2 hk he hl ha hH1, hact,
    ⟨hk, he, ha, by assumption, by assumption, hl, by assumption⟩, hupd, ?_, ?_, ?_, ?_⟩
  · intro rest F hF
    obtain ⟨g, rfl⟩ : ∃ g, F = cells.length + (g + 1) := ⟨F - cells.length - 1, by omega⟩
    rw [hrow (93 :: rest) (g + 1) (by omega)]
    simp only [morkgetc_cons, Nat.cast_ofNat]
    rw [parseMorkRowLoop]
    rw [if_neg (by simp)]
  · intro x tail F h0 hsp h40 h91 h93 hF
    obtain ⟨g, rfl⟩ : ∃ g, F = cells.length + (g + 2) := ⟨F - cells.length - 2, by omega⟩
    rw [hrow (x :: tail) (g + 2) (by omega)]
    simp only [morkgetc_cons]
    exact parseMorkRowLoop_stray g x _ m2 (by omega) hsp (by omega) (by omega) (by omega)
  · intro F hF
    obtain ⟨g, rfl⟩ : ∃ g, F = cells.length + (g + 2) := ⟨F - cells.length - 2, by omega⟩
    rw [hrow [] (g + 2) (by omega)]
    exact parseMorkRowLoop_stray g EOF { pending := [], eof := true } m2 (by decide)
      (by decide) (by decide) (by decide) (by decide)
  · intro tail F hF
    obtain ⟨g, rfl⟩ : ∃ g, F = cells.length + (g + 1) := ⟨F - cells.length - 1, by omega⟩
    rw [hrow (0 :: tail) (g + 1) (by omega)]
    simp only [morkgetc_cons, Nat.cast_ofNat]
    rw [parseMorkRowLoop]
    rw [if_neg (by simp)]

/-- A table `\x7bT\x7bmeta\x7d[R(cell)..(cell)` with one row of plain cells,
parsed from a well-formed database: the database `m2` after the cells is the
one that `parseMorkRow` gives for the row with the table id and scope read
from `T`; `parseMorkTable` returns true with it when the row and the table are
closed, and false with it when a stray byte follows the cells. -/
theorem parseMorkTable_block_run (tTok metaText rTok : List Nat) (cells : List (List Nat))
    (m : MorkDb) (ht : tTok ≠ [])
    (htb : ∀ x ∈ tTok, idByte x = true) (htl : tTok.length < 512)
    (hm : ∀ x ∈ metaText, metaByte x = true) (hr : rTok ≠ []) (hc : cells ≠ [])
    (hrb : ∀ x ∈ rTok, idByte x = true) (hrl : rTok.length < 512)
    (hcells : PlainCells cells) (hWF : IndexWF m) (hH : HeapWF m) :
    ∃ m2 p,
      IndexWF m2 ∧ HeapWF m2 ∧
      (setCurrentRow { m with nowParsing := NowParsingType.NPRows } (parseScopeId tTok 0).2
        (parseScopeId tTok 0).1 (parseScopeId rTok 0).2 (parseScopeId rTok 0).1).activeCells =
        some p ∧
      CellFrame
        (setCurrentRow { m with nowParsing := NowParsingType.NPRows } (parseScopeId tTok 0).2
          (parseScopeId tTok 0).1 (parseScopeId rTok 0).2 (parseScopeId rTok 0).1) m2 p ∧
      applyUpdates
        (setCurrentRow { m with nowParsing := NowParsingType.NPRows } (parseScopeId tTok 0).2
          (parseScopeId tTok 0).1 (parseScopeId rTok 0).2 (parseScopeId rTok 0).1)
        (cellsUpdates cells) = Except.ok m2 ∧
      (∀ (rest : List Nat) (F : Nat),
        tTok.length + metaText.length + rTok.length + 2 * (cellsText cells).length + 8 ≤ F →
        parseMorkTable F
            { pending := tableBlockText tTok metaText rTok cells rest, eof := false } m =
          Except.ok (true, { pending := rest, eof := false }, m2)) ∧
      (∀ (x : Nat) (tail : List Nat) (F : Nat),
        x ≠ 0 → isspace (x : Int) = false → x ≠ 40 → x ≠ 91 → x ≠ 93 →
        tTok.length + metaText.length + rTok.length + 2 * (cellsText cells).length + 8 ≤ F →
        parseMorkTable F
            { pending := tTok ++ 123 :: (metaText ++ 125 :: 91 ::
                (rTok ++ (cellsText cells ++ x :: tail))), eof := false } m =
          Except.ok (false,
            (morkgetc (morkgetc { pending := tail, eof := false }).2).2, m2)) := by
  obtain ⟨m2, p, w1, w2, hact, hframe, hupd, hclosed, hstray, _, _⟩ :=
    parseMorkRow_cells_run rTok cells m (parseScopeId tTok 0).1 (parseScopeId tTok 0).2
      hr hc hrb hrl hcells hWF hH
  refine ⟨m2, p, w1, w2, hact, hframe, hupd, ?_, ?_⟩
  · intro rest F hF
    cases tTok with
    | nil => exact absurd rfl ht
    | cons c tok =>
      simp only [List.length_cons] at htl hF
      obtain ⟨f3, rfl⟩ : ∃ f3, F = f3 + 3 := ⟨F - 3, by omega⟩
      have hc := idByte_facts c (htb c (List.mem_cons_self _ _))
      have hid := parseMorkTableIdLoop_tok
        (metaText ++ 125 :: 91 :: (rTok ++ (cellsText cells ++ 93 :: 125 :: rest))) false tok
        c [] (f3 + 3) (htb c (List.mem_cons_self _ _))
        (fun y hy => htb y (List.mem_cons_of_mem _ hy)) (by simp; omega) (by omega)
      have hmeta := parseMorkMeta_brace
        (91 :: (rTok ++ (cellsText cells ++ 93 :: 125 :: rest))) metaText (f3 + 2) hm
        (by omega)
      have hrow := hclosed (125 :: rest) (f3 + 1) (by omega)
      have h123 : isspace (123 : Int) = false := by decide
      have h91 : isspace (91 : Int) = false := by decide
      have t91 : toChar (91 : Int) = 91 := rfl
      have t125 : toChar (125 : Int) = 125 := rfl
      unfold parseMorkTable
      simp only [tableBlockText, List.cons_append, morkgetc_cons, toChar_cast c hc.2.1, hid,
        List.nil_append, bufEnd_ok (c :: tok) (by simp; omega)]
      simp only [parseMorkTableLoop, Nat.cast_ofNat, h123, h91, t91, t125, hmeta, hrow,
        morkgetc_cons]
      simp
  · intro x tail F h0 hsp h40 h91x h93 hF
    cases tTok with
    | nil => exact absurd rfl ht
    | cons c tok =>
      simp only [List.length_cons] at htl hF
      obtain ⟨f3, rfl⟩ : ∃ f3, F = f3 + 3 := ⟨F - 3, by omega⟩
      have hc := idByte_facts c (htb c (List.mem_cons_self _ _))
      have hid := parseMorkTableIdLoop_tok
        (metaText ++ 125 :: 91 :: (rTok ++ (cellsText cells ++ x :: tail))) false tok
        c [] (f3 + 3) (htb c (List.mem_cons_self _ _))
        (fun y hy => htb y (List.mem_cons_of_mem _ hy)) (by simp; omega) (by omega)
      have hmeta := parseMorkMeta_brace
        (91 :: (rTok ++ (cellsText cells ++ x :: tail))) metaText (f3 + 2) hm
        (by omega)
      have hrow := hstray x tail (f3 + 1) h0 hsp h40 h91x h93 (by omega)
      have h123 : isspace (123 : Int) = false := by decide
      have h91 : isspace (91 : Int) = false := by decide
      have t91 : toChar (91 : Int) = 91 := rfl
      unfold parseMorkTable
      simp only [List.cons_append, morkgetc_cons, toChar_cast c hc.2.1, hid,
        List.nil_append, bufEnd_ok (c :: tok) (by simp; omega)]
      rw [show f3 + 3 = (f3 + 2) + 1 from rfl, parseMorkTableLoop]
      rw [if_pos ⟨rfl, by decide, by decide⟩, if_pos (by decide), if_pos rfl, hmeta]
      simp only [morkgetc_cons, Nat.cast_ofNat, t91]
      rw [show f3 + 2 = (f3 + 1) + 1 from rfl, parseMorkTableLoop]
      rw [if_pos ⟨rfl, by decide, by decide⟩, if_pos (by decide), if_neg (by decide),
        if_pos rfl, hrow]
      simp only []
      cases f3 with
      | zero => omega
      | succ f4 =>
        rw [parseMorkTableLoop]
        rw [if_neg (by simp)]

/-- A byte that the dispatch loop does not know ends the loop. -/
theorem parseMorkStreamLoop_stray (g : Nat) (x : Int) (ifp : MorkFile) (m : MorkDb)
    (hf : feof ifp = false) (h0 : x ≠ 0) (hsp : isspace x = false) (h60 : x ≠ 60)
    (h47 : x ≠ 47) (h123 : x ≠ 123) (h91 : x ≠ 91) (h64 : x ≠ 64) :
    parseMorkStreamLoop (g + 2) true x ifp m = Except.ok (false, (morkgetc ifp).2, m) := by
  rw [parseMorkStreamLoop]
  rw [if_pos ⟨rfl, h0, hf⟩, if_pos hsp, if_neg h60, if_neg h47, if_neg h123, if_neg h91,
    if_neg h64]
  rw [parseMorkStreamLoop]
  rw [if_neg (by simp)]

theorem parseMorkStreamLoop_false (g : Nat) (c : Int) (ifp : MorkFile) (m : MorkDb) :
    parseMorkStreamLoop (g + 1) false c ifp m = Except.ok (false, ifp, m) := by
  rw [parseMorkStreamLoop]
  rw [if_neg (by simp)]

/-- The dispatch loop on a row of plain cells: closed, and with a stray byte
after the cells. -/
theorem parseMorkStreamLoop_row_block (R : List Nat) (cells : List (List Nat)) (m : MorkDb)
    (hr : R ≠ []) (hc : cells ≠ []) (hrb : ∀ x ∈ R, idByte x = true) (hrl : R.length < 512)
    (hcells : PlainCells cells) (hWF : IndexWF m) (hH : HeapWF m) :
    ∃ m2, IndexWF m2 ∧ HeapWF m2 ∧
      (∀ (tail : List Nat) (f : Nat), R.length + 2 * (cellsText cells).length + 4 ≤ f →
        parseMorkStreamLoop (f + 1) true 91
            { pending := R ++ (cellsText cells ++ 93 :: tail), eof := false } m =
          parseMorkStreamLoop f true (morkgetc { pending := tail, eof := false }).1
            (morkgetc { pending := tail, eof := false }).2 m2) ∧
      (∀ (x : Nat) (tail : List Nat) (f : Nat),
        x ≠ 0 → isspace (x : Int) = false → x ≠ 40 → x ≠ 91 → x ≠ 93 →
        R.length + 2 * (cellsText cells).length + 4 ≤ f →
        parseMorkStreamLoop (f + 1) true 91
            { pending := R ++ (cellsText cells ++ x :: tail), eof := false } m =
          Except.ok (false,
            (morkgetc (morkgetc { pending := tail, eof := false }).2).2, m2)) := by
  obtain ⟨m2, p, w1, w2, _, _, _, hclosed, hstray, _, _⟩ :=
    parseMorkRow_cells_run R cells m 0 0 hr hc hrb hrl hcells hWF hH
  refine ⟨m2, w1, w2, ?_, ?_⟩
  · intro tail f hf
    rw [parseMorkStreamLoop]
    rw [if_pos ⟨rfl, by decide, rfl⟩, if_pos (by decide), if_neg (by decide),
      if_neg (by decide), if_neg (by decide), if_pos rfl, hclosed tail f hf]
  · intro x tail f h0 hsp h40 h91 h93 hf
    rw [parseMorkStreamLoop]
    rw [if_pos ⟨rfl, by decide, rfl⟩, if_pos (by decide), if_neg (by decide),
      if_neg (by decide), if_neg (by decide), if_pos rfl,
      hstray x tail f h0 hsp h40 h91 h93 hf]
    simp only []
    obtain ⟨g, rfl⟩ : ∃ g, f = g + 1 := ⟨f - 1, by omega⟩
    exact parseMorkStreamLoop_false g _ _ _

/-- The dispatch loop on a table with one row of plain cells: closed, and with
a stray byte after the cells. -/
theorem parseMorkStreamLoop_table_block (T metaText R : List Nat) (cells : List (List Nat))
    (m : MorkDb) (ht : T ≠ []) (htb : ∀ x ∈ T, idByte x = true) (htl : T.length < 512)
    (hm : ∀ x ∈ metaText, metaByte x = true)
    (hr : R ≠ []) (hc : cells ≠ []) (hrb : ∀ x ∈ R, idByte x = true) (hrl : R.length < 512)
    (hcells : PlainCells cells) (hWF : IndexWF m) (hH : HeapWF m) :
    ∃ m2, IndexWF m2 ∧ HeapWF m2 ∧
      (∀ (tail : List Nat) (f : Nat),
        T.length + metaText.length + R.length + 2 * (cellsText cells).length + 8 ≤ f →
        parseMorkStreamLoop (f + 1) true 123
            { pending := tableBlockText T metaText R cells tail, eof := false } m =
          parseMorkStreamLoop f true (morkgetc { pending := tail, eof := false }).1
            (morkgetc { pending := tail, eof := false }).2 m2) ∧
      (∀ (x : Nat) (tail : List Nat) (f : Nat),
        x ≠ 0 → isspace (x : Int) = false → x ≠ 40 → x ≠ 91 → x ≠ 93 →
        T.length + metaText.length + R.length + 2 * (cellsText cells).length + 8 ≤ f →
        parseMorkStreamLoop (f + 1) true 123
            { pending := T ++ 123 :: (metaText ++ 125 :: 91 ::
                (R ++ (cellsText cells ++ x :: tail))), eof := false } m =
          Except.ok (false,
            (morkgetc (morkgetc (morkgetc { pending := tail, eof := false }).2).2).2,
            m2)) := by
  obtain ⟨m2, p, w1, w2, _, _, _, hclosed, hstray⟩ :=
    parseMorkTable_block_run T metaText R cells m ht htb htl hm hr hc hrb hrl hcells hWF hH
  refine ⟨m2, w1, w2, ?_, ?_⟩
  · intro tail f hf
    rw [parseMorkStreamLoop]
    rw [if_pos ⟨rfl, by decide, rfl⟩, if_pos (by decide), if_neg (by decide),
      if_neg (by decide), if_pos rfl, hclosed tail f hf]
  · intro x tail f h0 hsp h40 h91 h93 hf
    rw [parseMorkStreamLoop]
    rw [if_pos ⟨rfl, by decide, rfl⟩, if_pos (by decide), if_neg (by decide),
      if_neg (by decide), if_pos rfl, hstray x tail f h0 hsp h40 h91 h93 hf]
    simp only []
    obtain ⟨g, rfl⟩ : ∃ g, f = g + 1 := ⟨f - 1, by omega⟩
    exact parseMorkStreamLoop_false g _ _ _

/-- The dispatch loop on a sequence of blocks of plain cells goes through them
and reaches what follows with a database that depends on the blocks only. -/
theorem parseMorkStreamLoop_blocks (bs : List Block) :
    ∀ (m : MorkDb), (∀ b ∈ bs, b.OK) → IndexWF m → HeapWF m →
      ∃ m2, IndexWF m2 ∧ HeapWF m2 ∧
        ∀ (tail : List Nat) (f : Nat), (∀ b ∈ bs, 2 * b.text.length + 4 ≤ f) →
          parseMorkStreamLoop (bs.length + f) true
              (morkgetc { pending := blocksText bs ++ tail, eof := false }).1
              (morkgetc { pending := blocksText bs ++ tail, eof := false }).2 m =
            parseMorkStreamLoop f true (morkgetc { pending := tail, eof := false }).1
              (morkgetc { pending := tail, eof := false }).2 m2 := by
  induction bs with
  | nil =>
    intro m _ hWF hH
    refine ⟨m, hWF, hH, ?_⟩
    intro tail f _
    simp [blocksText]
  | cons b bs ih =>
    intro m hOK hWF hH
    have hb := hOK b (List.mem_cons_self _ _)
    cases b with
    | dict cells =>
      obtain ⟨m1, w1, w2, _, _, hstep⟩ := parseMorkStreamLoop_dict_block cells m hb hWF hH
      obtain ⟨m2, v1, v2, hrest⟩ := ih m1 (fun b2 hb2 => hOK b2 (List.mem_cons_of_mem _ hb2))
        w1 w2
      refine ⟨m2, v1, v2, ?_⟩
      intro tail f hf
      have hfb := hf _ (List.mem_cons_self _ _)
      simp only [Block.text, List.length_cons, List.length_append, List.length_nil] at hfb
      have hfuel : (Block.dict cells :: bs).length + f = (bs.length + f) + 1 := by
        simp only [List.length_cons]; omega
      rw [hfuel]
      simp only [blocksText, Block.text, List.cons_append, List.append_assoc, morkgetc_cons,
        Nat.cast_ofNat, List.nil_append]
      rw [hstep (blocksText bs ++ tail) (bs.length + f) (by omega)]
      exact hrest tail f (fun b2 hb2 => hf b2 (List.mem_cons_of_mem _ hb2))
    | row R cells =>
      obtain ⟨h1, h2, h3, h4, h5⟩ := hb
      obtain ⟨m1, w1, w2, hstep, _⟩ := parseMorkStreamLoop_row_block R cells m h1 h4 h2 h3 h5
        hWF hH
      obtain ⟨m2, v1, v2, hrest⟩ := ih m1 (fun b2 hb2 => hOK b2 (List.mem_cons_of_mem _ hb2))
        w1 w2
      refine ⟨m2, v1, v2, ?_⟩
      intro tail f hf
      have hfb := hf _ (List.mem_cons_self _ _)
      simp only [Block.text, List.length_cons, List.length_append, List.length_nil] at hfb
      have hfuel : (Block.row R cells :: bs).length + f = (bs.length + f) + 1 := by
        simp only [List.length_cons]; omega
      rw [hfuel]
      simp only [blocksText, Block.text, List.cons_append, List.append_assoc, morkgetc_cons,
        Nat.cast_ofNat, List.nil_append]
      rw [hstep (blocksText bs ++ tail) (bs.length + f) (by omega)]
      exact hrest tail f (fun b2 hb2 => hf b2 (List.mem_cons_of_mem _ hb2))

theorem block_text_le (bs : List Block) :
    ∀ b ∈ bs, b.text.length ≤ (blocksText bs).length := by
  induction bs with
  | nil => intro b hb; cases hb
  | cons a as ih =>
    intro b hb
    simp only [blocksText, List.length_append]
    rcases List.mem_cons.mp hb with h | h
    · subst h; omega
    · have := ih b h; omega

/-- After the magic header and a sequence of blocks of plain cells, the result
of `parseMorkStream` is that of the dispatch loop on what follows, from a
database that depends on the blocks only. -/
theorem parseMorkStream_blocks_then (bs : List Block) (hOK : ∀ b ∈ bs, b.OK) :
    ∃ m1, IndexWF m1 ∧ HeapWF m1 ∧
      ∀ (tail : List Nat) (F : Nat) (r : Bool × MorkFile × MorkDb),
        bs.length + 2 * (blocksText bs).length + 4 ≤ F →
        parseMorkStreamLoop (F - bs.length) true
            (morkgetc { pending := tail, eof := false }).1
            (morkgetc { pending := tail, eof := false }).2 m1 = Except.ok r →
        parseMorkStream F
            { pending := MorkMagicHeader ++ (blocksText bs ++ tail), eof := false } =
          Except.ok (some r.2.2) := by
  obtain ⟨m1, w1, w2, h⟩ := parseMorkStreamLoop_blocks bs initializeTableScopeMap hOK
    initializeTableScopeMap_WF.1 initializeTableScopeMap_WF.2
  refine ⟨m1, w1, w2, ?_⟩
  intro tail F r hF hr
  rw [parseMorkStream_header]
  have h2 := h tail (F - bs.length) (fun b hb => by
    have := block_text_le bs b hb
    omega)
  rw [show bs.length + (F - bs.length) = F by omega] at h2
  rw [h2, hr]

/-! ## Nothing stored is lost by an update -/

theorem Grows_refl (m : MorkDb) : Grows m m :=
  ⟨fun _ h => h, fun _ h => h, fun _ _ _ _ _ h => h, fun _ _ h => h⟩

theorem Grows_trans (a b c : MorkDb) (h1 : Grows a b) (h2 : Grows b c) : Grows a c :=
  ⟨fun k h => h2.1 k (h1.1 k h), fun k h => h2.2.1 k (h1.2.1 k h),
    fun x y z w p h => h2.2.2.1 x y z w p (h1.2.2.1 x y z w p h),
    fun p k h => h2.2.2.2 p k (h1.2.2.2 p k h)⟩

theorem storeInMorkCell_keys_grow (cells : MorkCells) (key value : Int) :
    key ∈ (storeInMorkCell cells key value).entries.map (fun e => e.key) ∧
    ∀ k ∈ cells.entries.map (fun e => e.key),
      k ∈ (storeInMorkCell cells key value).entries.map (fun e => e.key) := by
  rw [storeInMorkCell_entries]
  exact upsertBy_keys_grow _ key _ rfl _

theorem storeInActiveCellsOrFault_grows (m m2 : MorkDb) (k v : Int)
    (h : storeInActiveCellsOrFault m k v = Except.ok m2) :
    m2.keys = m.keys ∧ m2.entries = m.entries ∧ m2.columns = m.columns ∧
    m2.values = m.values ∧
    (∀ p, ∀ x ∈ (derefCells m p).entries.map (fun e => e.key),
      x ∈ (derefCells m2 p).entries.map (fun e => e.key)) ∧
    ∃ p, m.activeCells = some p ∧
      k ∈ (derefCells m2 p).entries.map (fun e => e.key) := by
  obtain ⟨p, hp, hlt, rfl⟩ := storeInActiveCellsOrFault_inv_ok m m2 k v h
  refine ⟨rfl, rfl, rfl, rfl, ?_, p, hp, ?_⟩
  · intro q x hx
    by_cases hq : q = p
    · subst hq
      unfold derefCells
      simp only []
      rw [getD_set_self _ _ _ _ hlt]
      exact (storeInMorkCell_keys_grow _ _ _).2 x hx
    · unfold derefCells
      simp only []
      rw [List.getD_eq_getElem?_getD, List.getElem?_set_ne (fun e => hq e.symm),
        ← List.getD_eq_getElem?_getD]
      exact hx
  · unfold derefCells
    simp only []
    rw [getD_set_self _ _ _ _ hlt]
    exact (storeInMorkCell_keys_grow _ _ _).1

/-- Applying a cell loses nothing that was stored. -/
theorem parseMorkCellApply_grows (m m2 : MorkDb) (v : Bool) (column text : List Nat)
    (h : parseMorkCellApply m v column text = Except.ok m2) : Grows m m2 := by
  have hk := parseMorkCellApply_keeps m m2 v column text h
  have hpath : ∀ a b c d p, cellsAt m a b c d = some p → cellsAt m2 a b c d = some p := by
    intro a b c d p hp
    rw [cellsAt_congr m m2 hk.1 hk.2.1]
    exact hp
  unfold parseMorkCellApply at h
  simp only [] at h
  split_ifs at h with h1 h2 h3 h4
  · obtain ⟨_, _, g3, g4, g5, _⟩ := storeInActiveCellsOrFault_grows _ _ _ _ h
    exact ⟨fun k hk => by rw [g3]; exact hk, fun k hk => by rw [g4]; exact hk, hpath, g5⟩
  · obtain ⟨_, _, g3, g4, g5, _⟩ := storeInActiveCellsOrFault_grows _ _ _ _ h
    simp only [] at g3 g4
    refine ⟨fun k hk => by rw [g3]; exact hk, fun k hk => ?_, hpath, g5⟩
    rw [g4]
    exact (storeInMorkDict_keys_grow _ _ _).2 k hk
  · cases h
    exact ⟨(storeInMorkDict_keys_grow _ _ _).2, fun _ hk => hk, hpath, fun _ _ hk => hk⟩
  · cases h
    exact ⟨fun _ hk => hk, (storeInMorkDict_keys_grow _ _ _).2, hpath, fun _ _ hk => hk⟩
  · cases h
    exact Grows_refl _

/-- Selecting a row loses nothing that was stored. -/
theorem setCurrentRow_grows (m : MorkDb) (ts tid rs rid : Int) (hWF : IndexWF m) :
    Grows m (setCurrentRow m ts tid rs rid) := by
  obtain ⟨_, hact, _, hpath⟩ := setCurrentRow_spec m ts tid rs rid hWF
  obtain ⟨f1, f2, _⟩ := setCurrentRow_frame m ts tid rs rid
  refine ⟨fun k hk => by rw [f1]; exact hk, fun k hk => by rw [f2]; exact hk, ?_, ?_⟩
  · intro a b c d p hp
    rw [hpath a b c d]
    split_ifs with hc
    · obtain ⟨rfl, rfl, rfl, rfl⟩ := hc
      rw [hact, hp]
      rfl
    · exact hp
  · intro p k hk
    rw [derefCells_setCurrentRow m ts tid rs rid hWF p]
    exact hk

theorem applyUpdate_grows (m m2 : MorkDb) (u : Update) (hWF : IndexWF m)
    (h : applyUpdate m u = Except.ok m2) : IndexWF m2 ∧ Grows m m2 := by
  cases u with
  | cell v column text =>
    have hk := parseMorkCellApply_keeps m m2 v column text h
    exact ⟨IndexWF_congr m m2 hk.1 hk.2.1 hWF, parseMorkCellApply_grows m m2 v column text h⟩
  | row ts tid rs rid =>
    cases h
    exact ⟨(setCurrentRow_spec m ts tid rs rid hWF).1, setCurrentRow_grows m ts tid rs rid hWF⟩
  | target t =>
    cases h
    exact ⟨hWF, fun _ hk => hk, fun _ hk => hk, fun _ _ _ _ _ hp => hp, fun _ _ hk => hk⟩

/-- A sequence of updates loses nothing that was stored. -/
theorem applyUpdates_grows (us : List Update) :
    ∀ (m m2 : MorkDb), IndexWF m → applyUpdates m us = Except.ok m2 →
      IndexWF m2 ∧ Grows m m2 := by
  induction us with
  | nil =>
    intro m m2 hWF h
    cases h
    exact ⟨hWF, Grows_refl m⟩
  | cons u us ih =>
    intro m m2 hWF h
    simp only [applyUpdates] at h
    split at h
    · cases h
    · rename_i m1 h1
      obtain ⟨w1, g1⟩ := applyUpdate_grows m m1 u hWF h1
      obtain ⟨w2, g2⟩ := ih m1 m2 w1 h
      exact ⟨w2, Grows_trans m m1 m2 g1 g2⟩

/-- The updates made up to any point of a sequence give a database, none of
whose contents is missing at the end. -/
theorem applyUpdates_cut (pre post : List Update) (m m2 : MorkDb) (hWF : IndexWF m)
    (h : applyUpdates m (pre ++ post) = Except.ok m2) :
    ∃ m1, applyUpdates m pre = Except.ok m1 ∧ applyUpdates m1 post = Except.ok m2 ∧
      Grows m m1 ∧ Grows m1 m2 := by
  cases h1 : applyUpdates m pre with
  | error e =>
    exfalso
    revert h h1
    induction pre generalizing m with
    | nil => intro h h1; simp [applyUpdates] at h1
    | cons u us ih =>
      intro h h1
      simp only [List.cons_append, applyUpdates] at h h1
      split at h
      · cases h
      · rename_i m3 h3
        rw [h3] at h1
        simp only [] at h1
        exact ih m3 (applyUpdate_grows m m3 u hWF h3).1 h h1
  | ok m1 =>
    rw [applyUpdates_append pre post m m1 h1] at h
    obtain ⟨w1, g1⟩ := applyUpdates_grows pre m m1 hWF h1
    exact ⟨m1, rfl, h, g1, (applyUpdates_grows post m1 m2 w1 h).2⟩

/-! ## Format errors after blocks of plain cells -/

/-- Whatever the dispatch loop returns holds everything that was stored when
it started. -/
theorem parseMorkStreamLoop_grows (fuel : Nat) (result : Bool) (cur : Int) (ifp : MorkFile)
    (m : MorkDb) (r : Bool × MorkFile × MorkDb) (hWF : IndexWF m)
    (h : parseMorkStreamLoop fuel result cur ifp m = Except.ok r) :
    IndexWF r.2.2 ∧ Grows m r.2.2 :=
  applyUpdates_grows _ m r.2.2 hWF (parseMorkStreamLoop_replay fuel result cur ifp m r h)

theorem parseMorkDict_grows (fuel : Nat) (ifp : MorkFile) (m : MorkDb)
    (r : Bool × MorkFile × MorkDb) (hWF : IndexWF m)
    (h : parseMorkDict fuel ifp m = Except.ok r) : IndexWF r.2.2 ∧ Grows m r.2.2 :=
  applyUpdates_grows _ m r.2.2 hWF (parseMorkDict_replay fuel ifp m r h)

theorem parseMorkTable_grows (fuel : Nat) (ifp : MorkFile) (m : MorkDb)
    (r : Bool × MorkFile × MorkDb) (hWF : IndexWF m)
    (h : parseMorkTable fuel ifp m = Except.ok r) : IndexWF r.2.2 ∧ Grows m r.2.2 :=
  applyUpdates_grows _ m r.2.2 hWF (parseMorkTable_replay fuel ifp m r h)

theorem parseMorkRow_grows (fuel : Nat) (ifp : MorkFile) (m : MorkDb)
    (tableId tableScope : Int) (r : Bool × MorkFile × MorkDb) (hWF : IndexWF m)
    (h : parseMorkRow fuel ifp m tableId tableScope = Except.ok r) :
    IndexWF r.2.2 ∧ Grows m r.2.2 :=
  applyUpdates_grows _ m r.2.2 hWF (parseMorkRow_replay fuel ifp m tableId tableScope r h)

/-- The five kinds of format error, each after the magic header and a sequence
of blocks of plain cells.  A stray byte at top level and a comment that lacks
its second slash return the database of the blocks alone; a row or a table
whose row meets a stray byte after its cells, and a dictionary that meets a
comment lacking its second slash, return the database of the same input with
the construct closed; these databases hold everything the blocks stored. -/
theorem parseMorkStream_errors (bs : List Block) (T metaText R : List Nat)
    (cells dcells : List (List Nat)) (hOK : ∀ b ∈ bs, b.OK)
    (ht : T ≠ []) (htb : ∀ x ∈ T, idByte x = true) (htl : T.length < 512)
    (hm : ∀ x ∈ metaText, metaByte x = true) (hrow : (Block.row R cells).OK)
    (hd : PlainCells dcells) :
    ∃ m0 mRow mTable mDict,
      Grows initializeTableScopeMap m0 ∧ Grows m0 mRow ∧ Grows m0 mTable ∧ Grows m0 mDict ∧
      ∀ (F : Nat),
        bs.length + 2 * (blocksText bs).length + T.length + metaText.length + R.length +
          2 * (cellsText cells).length + (cellsText dcells).length + 12 ≤ F →
        parseMorkStream F
            { pending := MorkMagicHeader ++ (blocksText bs ++ []), eof := false } =
          Except.ok (some m0) ∧
        (∀ (x : Nat) (rest : List Nat),
          x ≠ 0 → isspace (x : Int) = false → x ≠ 60 → x ≠ 47 → x ≠ 123 → x ≠ 91 → x ≠ 64 →
          parseMorkStream F
              { pending := MorkMagicHeader ++ (blocksText bs ++ x :: rest), eof := false } =
            Except.ok (some m0)) ∧
        (∀ (y : Nat) (rest : List Nat), y ≠ 47 →
          parseMorkStream F
              { pending := MorkMagicHeader ++ (blocksText bs ++ 47 :: y :: rest),
                eof := false } =
            Except.ok (some m0)) ∧
        parseMorkStream F
            { pending := MorkMagicHeader ++
                (blocksText bs ++ 91 :: (R ++ (cellsText cells ++ [93]))), eof := false } =
          Except.ok (some mRow) ∧
        (∀ (x : Nat) (rest : List Nat),
          x ≠ 0 → isspace (x : Int) = false → x ≠ 40 → x ≠ 91 → x ≠ 93 →
          parseMorkStream F
              { pending := MorkMagicHeader ++
                  (blocksText bs ++ 91 :: (R ++ (cellsText cells ++ x :: rest))),
                eof := false } =
            Except.ok (some mRow)) ∧
        parseMorkStream F
            { pending := MorkMagicHeader ++
                (blocksText bs ++ 123 :: tableBlockText T metaText R cells []),
              eof := false } =
          Except.ok (some mTable) ∧
        (∀ (x : Nat) (rest : List Nat),
          x ≠ 0 → isspace (x : Int) = false → x ≠ 40 → x ≠ 91 → x ≠ 93 →
          parseMorkStream F
              { pending := MorkMagicHeader ++
                  (blocksText bs ++ 123 :: (T ++ 123 :: (metaText ++ 125 :: 91 ::
                    (R ++ (cellsText cells ++ x :: rest))))),
                eof := false } =
            Except.ok (some mTable)) ∧
        parseMorkStream F
            { pending := MorkMagicHeader ++
                (blocksText bs ++ 60 :: (cellsText dcells ++ [62])), eof := false } =
          Except.ok (some mDict) ∧
        (∀ (y : Nat) (rest : List Nat), y ≠ 47 →
          parseMorkStream F
              { pending := MorkMagicHeader ++
                  (blocksText bs ++ 60 :: (cellsText dcells ++ 47 :: y :: rest)),
                eof := false } =
            Except.ok (some mDict)) := by
  obtain ⟨m0, w1, w2, h⟩ := parseMorkStream_blocks_then bs hOK
  obtain ⟨h1, h2, h3, h4, h5⟩ := hrow
  obtain ⟨mRow, _, _, rclosed, rstray⟩ := parseMorkStreamLoop_row_block R cells m0 h1 h4 h2
    h3 h5 w1 w2
  obtain ⟨mTable, _, _, tclosed, tstray⟩ := parseMorkStreamLoop_table_block T metaText R cells
    m0 ht htb htl hm h1 h4 h2 h3 h5 w1 w2
  obtain ⟨mDict, _, _, _, dfail, dstep⟩ := parseMorkStreamLoop_dict_block dcells m0 hd w1 w2
  have e0 : ∀ g, parseMorkStreamLoop (g + 1) true
      (morkgetc { pending := [], eof := false }).1
      (morkgetc { pending := [], eof := false }).2 m0 =
      Except.ok (true, { pending := [], eof := true }, m0) :=
    fun g => parseMorkStreamLoop_end g true m0
  have g0 : Grows initializeTableScopeMap m0 := by
    have h0 := h [] (bs.length + 2 * (blocksText bs).length + 4) _ (le_refl _)
      (by
        rw [show bs.length + 2 * (blocksText bs).length + 4 - bs.length =
          (2 * (blocksText bs).length + 3) + 1 by omega]
        exact e0 _)
    exact (applyUpdates_grows _ _ _ initializeTableScopeMap_WF.1
      (parseMorkStream_replay _ _ _ h0)).2
  have gR : Grows m0 mRow := by
    have h0 := rclosed [] (R.length + 2 * (cellsText cells).length + 4) (le_refl _)
    rw [show R.length + 2 * (cellsText cells).length + 4 =
      (R.length + 2 * (cellsText cells).length + 3) + 1 from rfl,
      parseMorkStreamLoop_end _ true mRow] at h0
    exact (parseMorkStreamLoop_grows _ _ _ _ _ _ w1 h0).2
  have gT : Grows m0 mTable := by
    have h0 := tclosed []
      (T.length + metaText.length + R.length + 2 * (cellsText cells).length + 8) (le_refl _)
    rw [show T.length + metaText.length + R.length + 2 * (cellsText cells).length + 8 =
      (T.length + metaText.length + R.length + 2 * (cellsText cells).length + 7) + 1 from rfl,
      parseMorkStreamLoop_end _ true mTable] at h0
    exact (parseMorkStreamLoop_grows _ _ _ _ _ _ w1 h0).2
  have gD : Grows m0 mDict := by
    have h0 := dstep [] ((cellsText dcells).length + 2) (le_refl _)
    rw [show (cellsText dcells).length + 2 = ((cellsText dcells).length + 1) + 1 from rfl,
      parseMorkStreamLoop_end _ true mDict] at h0
    exact (parseMorkStreamLoop_grows _ _ _ _ _ _ w1 h0).2
  refine ⟨m0, mRow, mTable, mDict, g0, gR, gT, gD, ?_⟩
  intro F hF
  obtain ⟨g, hg⟩ : ∃ g, F - bs.length = g + 2 := ⟨F - bs.length - 2, by omega⟩
  have hb : bs.length + 2 * (blocksText bs).length + 4 ≤ F := by omega
  refine ⟨?_, ?_, ?_, ?_, ?_, ?_, ?_, ?_, ?_⟩
  · exact h [] F _ hb (by rw [hg]; exact e0 (g + 1))
  · intro x rest h0 hsp h60 h47 h123 h91 h64
    exact h (x :: rest) F _ hb (by
      rw [hg, morkgetc_cons]
      exact parseMorkStreamLoop_stray g x _ m0 rfl (by omega) hsp (by omega) (by omega)
        (by omega) (by omega) (by omega))
  · intro y rest hy
    exact h (47 :: y :: rest) F (false, (morkgetc { pending := rest, eof := false }).2, m0)
      hb (by
      rw [hg, morkgetc_cons]
      simp only [Nat.cast_ofNat]
      rw [parseMorkStreamLoop]
      rw [if_pos ⟨rfl, by decide, rfl⟩, if_pos (by decide), if_neg (by decide), if_pos rfl,
        parseMorkComment_single y rest (g + 1) hy]
      simp only []
      exact parseMorkStreamLoop_false g _ _ _)
  · exact h _ F (true, { pending := [], eof := true }, mRow) hb (by
      rw [hg, morkgetc_cons]
      simp only [Nat.cast_ofNat]
      rw [show g + 2 = (g + 1) + 1 from rfl, rclosed [] (g + 1) (by omega)]
      exact parseMorkStreamLoop_end g true mRow)
  · intro x rest h0 hsp h40 h91 h93
    exact h _ F _ hb (by
      rw [hg, morkgetc_cons]
      simp only [Nat.cast_ofNat]
      exact rstray x rest (g + 1) h0 hsp h40 h91 h93 (by omega))
  · exact h _ F (true, { pending := [], eof := true }, mTable) hb (by
      rw [hg, morkgetc_cons]
      simp only [Nat.cast_ofNat]
      rw [show g + 2 = (g + 1) + 1 from rfl, tclosed [] (g + 1) (by omega)]
      exact parseMorkStreamLoop_end g true mTable)
  · intro x rest h0 hsp h40 h91 h93
    exact h _ F _ hb (by
      rw [hg, morkgetc_cons]
      simp only [Nat.cast_ofNat]
      exact tstray x rest (g + 1) h0 hsp h40 h91 h93 (by omega))
  · exact h _ F (true, { pending := [], eof := true }, mDict) hb (by
      rw [hg, morkgetc_cons]
      simp only [Nat.cast_ofNat]
      rw [show g + 2 = (g + 1) + 1 from rfl, dstep [] (g + 1) (by omega)]
      exact parseMorkStreamLoop_end g true mDict)
  · intro y rest hy
    exact h _ F (false, (morkgetc (morkgetc { pending := rest, eof := false }).2).2, mDict)
      hb (by
      rw [hg, morkgetc_cons]
      simp only [Nat.cast_ofNat]
      rw [show g + 2 = (g + 1) + 1 from rfl, parseMorkStreamLoop]
      rw [if_pos ⟨rfl, by decide, rfl⟩, if_pos (by decide), if_pos rfl,
        dfail y rest (g + 1) hy (by omega)]
      simp only []
      exact parseMorkStreamLoop_false g _ _ _)

/-! ## The cells of a table block at their index path -/

/-- A row `[R(cell)..(cell)]` of plain cells, possibly without any cell, closed
by `]`: the database after it is the result of the cell updates applied to the
row selected. -/
theorem parseMorkRow_closed_run (rTok : List Nat) (cells : List (List Nat)) (m : MorkDb)
    (tableId tableScope : Int) (hr : rTok ≠ [])
    (hrb : ∀ x ∈ rTok, idByte x = true) (hrl : rTok.length < 512)
    (hcells : PlainCells cells) (hWF : IndexWF m) (hH : HeapWF m) :
    ∃ m2 p,
      (setCurrentRow { m with nowParsing := NowParsingType.NPRows } tableScope tableId
        (parseScopeId rTok 0).2 (parseScopeId rTok 0).1).activeCells = some p ∧
      CellFrame
        (setCurrentRow { m with nowParsing := NowParsingType.NPRows } tableScope tableId
          (parseScopeId rTok 0).2 (parseScopeId rTok 0).1) m2 p ∧
      applyUpdates
        (setCurrentRow { m with nowParsing := NowParsingType.NPRows } tableScope tableId
          (parseScopeId rTok 0).2 (parseScopeId rTok 0).1) (cellsUpdates cells) =
        Except.ok m2 ∧
      ∀ (rest : List Nat) (F : Nat), rTok.length + 2 * (cellsText cells).length + 4 ≤ F →
        parseMorkRow F { pending := rTok ++ (cellsText cells ++ 93 :: rest), eof := false } m
            tableId tableScope =
          Except.ok (true, { pending := rest, eof := false }, m2) := by
  by_cases hc : cells = []
  · subst hc
    have hWF0 : IndexWF { m with nowParsing := NowParsingType.NPRows } :=
      IndexWF_congr m _ rfl rfl hWF
    obtain ⟨_, hact, _, _⟩ := setCurrentRow_spec
      { m with nowParsing := NowParsingType.NPRows }
      tableScope tableId (parseScopeId rTok 0).2 (parseScopeId rTok 0).1 hWF0
    refine ⟨_, _, hact, CellFrame_refl _ _, rfl, ?_⟩
    intro rest F hF
    cases rTok with
    | nil => exact absurd rfl hr
    | cons c tok =>
      simp only [List.length_cons] at hrl hF
      have hid := parseMorkRowIdLoop_tok rest 93 (Or.inr rfl) tok c [] F
        (hrb c (List.mem_cons_self _ _)) (fun y hy => hrb y (List.mem_cons_of_mem _ hy))
        (by simp; omega) (by omega)
      unfold parseMorkRow
      simp only [cellsText, List.cons_append, List.nil_append, morkgetc_cons, hid,
        bufEnd_ok (c :: tok) (by simp; omega), Nat.cast_ofNat]
      obtain ⟨g, rfl⟩ : ∃ g, F = g + 1 := ⟨F - 1, by omega⟩
      rw [parseMorkRowLoop]
      rw [if_neg (by simp)]
  · obtain ⟨m2, p, _, _, hact, hframe, hup, hclosed, _⟩ :=
      parseMorkRow_cells_run rTok cells m tableId tableScope hr hc hrb hrl hcells hWF hH
    exact ⟨m2, p, hact, hframe, hup, hclosed⟩

/-- A table block `\x7bT\x7bmeta\x7d[R(cell)..(cell)]\x7d` of plain cells: the
database after it is the result of the cell updates applied to the row
selected. -/
theorem parseMorkTable_closed_run (tTok metaText rTok : List Nat) (cells : List (List Nat))
    (m : MorkDb) (ht : tTok ≠ [])
    (htb : ∀ x ∈ tTok, idByte x = true) (htl : tTok.length < 512)
    (hm : ∀ x ∈ metaText, metaByte x = true) (hr : rTok ≠ [])
    (hrb : ∀ x ∈ rTok, idByte x = true) (hrl : rTok.length < 512)
    (hcells : PlainCells cells) (hWF : IndexWF m) (hH : HeapWF m) :
    ∃ m2 p,
      (setCurrentRow { m with nowParsing := NowParsingType.NPRows } (parseScopeId tTok 0).2
        (parseScopeId tTok 0).1 (parseScopeId rTok 0).2 (parseScopeId rTok 0).1).activeCells =
        some p ∧
      CellFrame
        (setCurrentRow { m with nowParsing := NowParsingType.NPRows } (parseScopeId tTok 0).2
          (parseScopeId tTok 0).1 (parseScopeId rTok 0).2 (parseScopeId rTok 0).1) m2 p ∧
      applyUpdates
        (setCurrentRow { m with nowParsing := NowParsingType.NPRows } (parseScopeId tTok 0).2
          (parseScopeId tTok 0).1 (parseScopeId rTok 0).2 (parseScopeId rTok 0).1)
        (cellsUpdates cells) = Except.ok m2 ∧
      ∀ (rest : List Nat) (F : Nat),
        tTok.length + metaText.length + rTok.length + 2 * (cellsText cells).length + 8 ≤ F →
        parseMorkTable F
            { pending := tableBlockText tTok metaText rTok cells rest, eof := false } m =
          Except.ok (true, { pending := rest, eof := false }, m2) := by
  obtain ⟨m2, p, hact, hframe, hupd, hclosed⟩ :=
    parseMorkRow_closed_run rTok cells m (parseScopeId tTok 0).1 (parseScopeId tTok 0).2
      hr hrb hrl hcells hWF hH
  refine ⟨m2, p, hact, hframe, hupd, ?_⟩
  intro rest F hF
  cases tTok with
  | nil => exact absurd rfl ht
  | cons c tok =>
    simp only [List.length_cons] at htl hF
    obtain ⟨f3, rfl⟩ : ∃ f3, F = f3 + 3 := ⟨F - 3, by omega⟩
    have hc := idByte_facts c (htb c (List.mem_cons_self _ _))
    have hid := parseMorkTableIdLoop_tok
      (metaText ++ 125 :: 91 :: (rTok ++ (cellsText cells ++ 93 :: 125 :: rest))) false tok
      c [] (f3 + 3) (htb c (List.mem_cons_self _ _))
      (fun y hy => htb y (List.mem_cons_of_mem _ hy)) (by simp; omega) (by omega)
    have hmeta := parseMorkMeta_brace
      (91 :: (rTok ++ (cellsText cells ++ 93 :: 125 :: rest))) metaText (f3 + 2) hm
      (by omega)
    have hrow := hclosed (125 :: rest) (f3 + 1) (by omega)
    have h123 : isspace (123 : Int) = false := by decide
    have h91 : isspace (91 : Int) = false := by decide
    have t91 : toChar (91 : Int) = 91 := rfl
    have t125 : toChar (125 : Int) = 125 := rfl
    unfold parseMorkTable
    simp only [tableBlockText, List.cons_append, morkgetc_cons, toChar_cast c hc.2.1, hid,
      List.nil_append, bufEnd_ok (c :: tok) (by simp; omega)]
    simp only [parseMorkTableLoop, Nat.cast_ofNat, h123, h91, t91, t125, hmeta, hrow,
      morkgetc_cons]
    simp

/-- The update made by a cell `(^C^V)`, `(^C=V)` or `(C=V)` with a hex column
`C` and a value of cell bytes. -/
theorem parseMorkCellUpdates_hex_value (form : CellForm) (C T rest : List Nat) (fuel : Nat)
    (hCd : ∀ c ∈ C, isxdigit c = true) (hCl : C.length < 512)
    (hTb : ∀ c ∈ T, cellByte c = true) (hTl : T.length < 512)
    (hfuel : C.length + T.length + 3 ≤ fuel) :
    parseMorkCellUpdates fuel { pending := cellText form C T ++ 41 :: rest, eof := false } =
      [Update.cell (decide (form = CellForm.oidOid)) C T] := by
  obtain ⟨st, hs, hv, hc, ht⟩ := parseMorkCellLoop_form form C (T.map ValueItem.plain) rest
    fuel (fun c hc => isxdigit_columnByte c (hCd c hc)) (plain_OK T hTb)
    (by rw [columnToken_hex C hCd]; exact hCl) (by rw [decodeItems_plain]; exact hTl)
    (by rw [List.length_map]; exact hfuel)
  rw [itemsText_plain] at hs
  rw [decodeItems_plain] at ht
  rw [columnToken_hex C hCd] at hc
  unfold parseMorkCellUpdates
  rw [hs]
  simp only [hc, ht, hv, bufEnd_ok _ hCl, bufEnd_ok _ hTl]

/-- The updates made by a sequence of cells `(^C^V)` with hex ids. -/
theorem cellsUpdates_oid (pairs : List (List Nat × List Nat))
    (h : ∀ cv ∈ pairs, (∀ c ∈ cv.1, isxdigit c = true) ∧ cv.1.length < 512 ∧
      (∀ c ∈ cv.2, isxdigit c = true) ∧ cv.2.length < 512) :
    cellsUpdates (pairs.map (fun cv => cellText CellForm.oidOid cv.1 cv.2)) =
      pairs.map (fun cv => Update.cell true cv.1 cv.2) := by
  induction pairs with
  | nil => rfl
  | cons cv rest ih =>
    obtain ⟨h1, h2, h3, h4⟩ := h cv (List.mem_cons_self _ _)
    simp only [List.map_cons, cellsUpdates]
    rw [ih (fun x hx => h x (List.mem_cons_of_mem _ hx))]
    have := parseMorkCellUpdates_hex_value CellForm.oidOid cv.1 cv.2 []
      ((cellText CellForm.oidOid cv.1 cv.2).length + 1) h1 h2
      (fun c hc => isxdigit_cellByte c (h3 c hc)) h4
      (by simp [cellText]; omega)
    rw [this]
    rfl

theorem cellsUpdates_cells (cells : List (List Nat)) :
    ∀ u ∈ cellsUpdates cells, ∃ v column text, u = Update.cell v column text := by
  induction cells with
  | nil => intro u hu; cases hu
  | cons b bs ih =>
    intro u hu
    simp only [cellsUpdates, List.mem_append] at hu
    rcases hu with h | h
    · unfold parseMorkCellUpdates at h
      split at h
      · cases h
      · split at h
        · cases h
        · split at h
          · cases h
          · exact ⟨_, _, _, List.mem_singleton.1 h⟩
    · exact ih u h

/-- After the cell updates of a row, the column id of every cell with a
non-empty text is a key of the active Cell Set. -/
theorem applyUpdates_cells_keys (us : List Update) :
    ∀ (m m2 : MorkDb) (p : Nat),
      (∀ u ∈ us, ∃ v column text, u = Update.cell v column text) →
      IndexWF m → m.nowParsing = NowParsingType.NPRows → m.activeCells = some p →
      applyUpdates m us = Except.ok m2 →
      ∀ v column text, Update.cell v column text ∈ us →
        text.head? ≠ none ∧ text.head? ≠ some 0 →
        toInt32 (strtol16 column) ∈ (derefCells m2 p).entries.map (fun e => e.key) := by
  induction us with
  | nil => intro m m2 p _ _ _ _ _ v column text hu; cases hu
  | cons u us ih =>
    intro m m2 p hall hWF hrows hact h v column text hu htext
    simp only [applyUpdates] at h
    split at h
    · cases h
    · rename_i m1 h1
      obtain ⟨v0, c0, t0, rfl⟩ := hall u (List.mem_cons_self _ _)
      simp only [applyUpdate] at h1
      have hk := parseMorkCellApply_keeps m m1 v0 c0 t0 h1
      have hWF1 : IndexWF m1 := IndexWF_congr m m1 hk.1 hk.2.1 hWF
      rcases List.mem_cons.1 hu with he | he
      · cases he
        have hg := (applyUpdates_grows us m1 m2 hWF1 h).2
        apply hg.2.2.2 p
        unfold parseMorkCellApply at h1
        simp only [] at h1
        rw [if_pos htext, if_pos hrows] at h1
        split_ifs at h1
        · obtain ⟨_, _, _, _, _, q, hq, hmem⟩ := storeInActiveCellsOrFault_grows _ _ _ _ h1
          rw [hact] at hq
          cases hq
          exact hmem
        · obtain ⟨_, _, _, _, _, q, hq, hmem⟩ := storeInActiveCellsOrFault_grows _ _ _ _ h1
          simp only [] at hq
          rw [hact] at hq
          cases hq
          exact hmem
      · exact ih m1 m2 p (fun x hx => hall x (List.mem_cons_of_mem _ hx)) hWF1
          (hk.2.2.2.1.trans hrows) (hk.2.2.1.trans hact) h v column text he htext

/-- After the updates of cells `(^C^V)` with hex ids that fit an `int`, the
active Cell Set is the one before them with each pair stored, in order. -/
theorem applyUpdates_oid_cells (pairs : List (List Nat × List Nat)) :
    ∀ (m m2 : MorkDb) (p : Nat),
      m.nowParsing = NowParsingType.NPRows → m.activeCells = some p →
      (∀ cv ∈ pairs, cv.1 ≠ [] ∧ (∀ c ∈ cv.1, isxdigit c = true) ∧ hexValue cv.1 < 2 ^ 31 ∧
        cv.2 ≠ [] ∧ (∀ c ∈ cv.2, isxdigit c = true) ∧ hexValue cv.2 < 2 ^ 31) →
      applyUpdates m (pairs.map (fun cv => Update.cell true cv.1 cv.2)) = Except.ok m2 →
      derefCells m2 p =
        pairs.foldl (fun cs cv => storeInMorkCell cs (hexValue cv.1) (hexValue cv.2))
          (derefCells m p) := by
  induction pairs with
  | nil =>
    intro m m2 p _ _ _ h
    cases h
    rfl
  | cons cv rest ih =>
    intro m m2 p hrows hact hall h
    obtain ⟨c1, c2, c3, v1, v2, v3⟩ := hall cv (List.mem_cons_self _ _)
    simp only [List.map_cons, applyUpdates] at h
    split at h
    · cases h
    · rename_i m1 h1
      simp only [applyUpdate] at h1
      have hk := parseMorkCellApply_keeps m m1 true cv.1 cv.2 h1
      have htext : cv.2.head? ≠ none ∧ cv.2.head? ≠ some 0 := by
        cases hv : cv.2 with
        | nil => exact absurd hv v1
        | cons d ds =>
          have := isxdigit_range d (v2 d (by rw [hv]; exact List.mem_cons_self _ _))
          simp only [List.head?_cons, ne_eq, reduceCtorEq, not_false_eq_true,
            Option.some.injEq, true_and]
          omega
      unfold parseMorkCellApply at h1
      simp only [] at h1
      rw [if_pos htext, if_pos hrows] at h1
      simp only [if_true] at h1
      rw [columnId_hex cv.1 c1 c2 c3, columnId_hex cv.2 v1 v2 v3] at h1
      obtain ⟨q, hq, hlt, hm1⟩ := storeInActiveCellsOrFault_inv_ok _ _ _ _ h1
      rw [hact] at hq
      cases hq
      have hd : derefCells m1 p =
          storeInMorkCell (derefCells m p) (hexValue cv.1) (hexValue cv.2) := by
        rw [hm1]
        unfold derefCells
        simp only []
        rw [getD_set_self _ _ _ _ hlt]
      rw [ih m1 m2 p (hk.2.2.2.1.trans hrows) (hk.2.2.1.trans hact)
        (fun x hx => hall x (List.mem_cons_of_mem _ hx)) h, hd]
      rfl

/-- C8, for ids and scopes that fit an `int` and headers shorter than 512
bytes: in a well-formed database whose default scope is 0x80, for hex ids `T`
and `R` (non-empty, below 2^31), each written alone or as `id:^scope`, parsing
the table block `\x7bT\x7bmeta\x7d[R(cell)..(cell)]\x7d` of plain cells
succeeds, consumes exactly the block, and stores the cells of the row in the
Cell Set `p` that the index holds at (table scope, T, row scope, R), where a
scope that is absent (or zero) is replaced by 0x80 and a non-zero scope is used
unchanged.  The database after the block is the result of the cell updates
applied, with the target Rows, to the row selected at that path; `p` is the
only Cell Set whose contents may have changed; the column id of every cell
with a non-empty text is a key of `p`; and when the cells are `(^C^V)` pairs
of hex ids below 2^31, `p` holds what it held before with every pair stored,
in order. -/
theorem C8_table_block_stores_cells_at_path (m : MorkDb) (T R metaText : List Nat)
    (TS RS : Option (List Nat)) (cells : List (List Nat)) (rest : List Nat) (fuel : Nat)
    (hWF : IndexWF m) (hH : HeapWF m) (hdef : m.defaultScope = 0x80)
    (hT : T ≠ []) (hTd : ∀ c ∈ T, isxdigit c = true) (hTv : hexValue T < 2 ^ 31)
    (hTS : ScopeOK TS) (hTl : (scopedIdText T TS).length < 512)
    (hR : R ≠ []) (hRd : ∀ c ∈ R, isxdigit c = true) (hRv : hexValue R < 2 ^ 31)
    (hRS : ScopeOK RS) (hRl : (scopedIdText R RS).length < 512)
    (hm : ∀ x ∈ metaText, metaByte x = true) (hcells : PlainCells cells)
    (hfuel : (scopedIdText T TS).length + metaText.length + (scopedIdText R RS).length +
      2 * (cellsText cells).length + 8 ≤ fuel) :
    ∃ m2 p,
      parseMorkTable fuel
          { pending := tableBlockText (scopedIdText T TS) metaText (scopedIdText R RS) cells rest,
            eof := false } m =
        Except.ok (true, { pending := rest, eof := false }, m2) ∧
      m2.activeCells = some p ∧
      cellsAt m2 (scopeOrDefault TS) (hexValue T) (scopeOrDefault RS) (hexValue R) = some p ∧
      (setCurrentRow m (scopeValue TS) (hexValue T) (scopeValue RS) (hexValue R)).activeCells =
        some p ∧
      (∀ q, q ≠ p → derefCells m2 q = derefCells m q) ∧
      applyUpdates
        (setCurrentRow { m with nowParsing := NowParsingType.NPRows } (scopeValue TS)
          (hexValue T) (scopeValue RS) (hexValue R)) (cellsUpdates cells) = Except.ok m2 ∧
      (∀ v column text, Update.cell v column text ∈ cellsUpdates cells →
        text.head? ≠ none ∧ text.head? ≠ some 0 →
        toInt32 (strtol16 column) ∈ (derefCells m2 p).entries.map (fun e => e.key)) ∧
      ∀ (pairs : List (List Nat × List Nat)),
        cells = pairs.map (fun cv => cellText CellForm.oidOid cv.1 cv.2) →
        (∀ cv ∈ pairs, cv.1 ≠ [] ∧ (∀ c ∈ cv.1, isxdigit c = true) ∧ hexValue cv.1 < 2 ^ 31 ∧
          cv.2 ≠ [] ∧ (∀ c ∈ cv.2, isxdigit c = true) ∧ hexValue cv.2 < 2 ^ 31) →
        derefCells m2 p =
          pairs.foldl (fun cs cv => storeInMorkCell cs (hexValue cv.1) (hexValue cv.2))
            (derefCells m p) := by
  obtain ⟨t1, t2, t3⟩ := scopedIdText_facts T TS hT hTd hTv hTS
  obtain ⟨r1, r2, r3⟩ := scopedIdText_facts R RS hR hRd hRv hRS
  have h := table_block_path (scopedIdText T TS) metaText (scopedIdText R RS) cells rest m fuel
    t1 t2 hTl hm r1 r2 hRl hcells (by omega) hWF hH
  obtain ⟨m3, q, hact3, hframe3, hup3, hparse3⟩ :=
    parseMorkTable_closed_run (scopedIdText T TS) metaText (scopedIdText R RS) cells m
      t1 t2 hTl hm r1 r2 hRl hcells hWF hH
  rw [t3, r3] at h hact3 hframe3 hup3
  have he : ∀ S, effectiveScope m (scopeValue S) = scopeOrDefault S := by
    intro S; unfold effectiveScope scopeOrDefault; rw [hdef]
  simp only [he] at h
  obtain ⟨m2, p, hparse, hact, hpath, hsel, hothers⟩ := h
  have hm23 : m3 = m2 := by
    have := (hparse3 rest fuel hfuel).symm.trans hparse
    cases this
    rfl
  subst hm23
  have hpq : q = p := by
    have := (hframe3.2.2.1.trans hact3).symm.trans hact
    cases this
    rfl
  subst hpq
  have hWF0 : IndexWF { m with nowParsing := NowParsingType.NPRows } :=
    IndexWF_congr m _ rfl rfl hWF
  have hWF1 := (setCurrentRow_spec { m with nowParsing := NowParsingType.NPRows }
    (scopeValue TS) (hexValue T) (scopeValue RS) (hexValue R) hWF0).1
  have hrows := (setCurrentRow_rows_path m (scopeValue TS) (hexValue T) (scopeValue RS)
    (hexValue R) hWF).2.2
  refine ⟨m3, q, hparse, hact, hpath, hsel, hothers, hup3, ?_, ?_⟩
  · exact applyUpdates_cells_keys _ _ m3 q (cellsUpdates_cells cells) hWF1 hrows hact3 hup3
  · intro pairs hc hall
    subst hc
    rw [cellsUpdates_oid pairs (fun cv hcv => by
      obtain ⟨_, c2, _, _, v2, _⟩ := hall cv hcv
      have hl := (hcells _ (List.mem_map_of_mem _ hcv)).2
      simp only [cellText, List.length_cons, List.length_append] at hl
      exact ⟨c2, by omega, v2, by omega⟩)] at hup3
    rw [applyUpdates_oid_cells pairs _ m3 q hrows hact3 hall hup3,
      derefCells_setCurrentRow _ _ _ _ _ hWF0 q]
    rfl

/-- C8 applied to row `80` in table `\x7b1\x7b`, which resolves to (0x80, 1,
0x80, 0x80), and to row `80:^7` in table `\x7b1:^9\x7b`, which resolves to
(9, 1, 7, 0x80): after the block the Cell Set at that path holds the cell
5 → 6 of the row. -/
theorem C8_table_block_stores_cells_at_path_witness :
    (∃ m2 p,
      parseMorkTable 100
          { pending := tableBlockText (scopedIdText (bytes "1") none) (bytes "meta")
              (scopedIdText (bytes "80") none) [bytes "^5^6"] [],
            eof := false } initializeTableScopeMap =
        Except.ok (true, { pending := [], eof := false }, m2) ∧
      m2.activeCells = some p ∧
      cellsAt m2 (scopeOrDefault none) (hexValue (bytes "1")) (scopeOrDefault none)
        (hexValue (bytes "80")) = some p ∧
      (∀ q, q ≠ p → derefCells m2 q = derefCells initializeTableScopeMap q) ∧
      derefCells m2 p = { entries := [makeMorkCellEntry 5 6] }) ∧
    (∃ m2 p,
      parseMorkTable 100
          { pending := tableBlockText (scopedIdText (bytes "1") (some (bytes "9")))
              (bytes "meta") (scopedIdText (bytes "80") (some (bytes "7"))) [bytes "^5^6"] [],
            eof := false } initializeTableScopeMap =
        Except.ok (true, { pending := [], eof := false }, m2) ∧
      m2.activeCells = some p ∧
      cellsAt m2 (scopeOrDefault (some (bytes "9"))) (hexValue (bytes "1"))
        (scopeOrDefault (some (bytes "7"))) (hexValue (bytes "80")) = some p ∧
      (∀ q, q ≠ p → derefCells m2 q = derefCells initializeTableScopeMap q) ∧
      derefCells m2 p = { entries := [makeMorkCellEntry 5 6] }) ∧
    scopeOrDefault none = 0x80 ∧ hexValue (bytes "1") = 1 ∧ hexValue (bytes "80") = 0x80 ∧
    scopeOrDefault (some (bytes "9")) = 9 ∧ scopeOrDefault (some (bytes "7")) = 7 ∧
    tableBlockText (scopedIdText (bytes "1") none) (bytes "meta")
        (scopedIdText (bytes "80") none) [bytes "^5^6"] [] =
      bytes "1\x7bmeta\x7d[80(^5^6)]\x7d" ∧
    tableBlockText (scopedIdText (bytes "1") (some (bytes "9"))) (bytes "meta")
        (scopedIdText (bytes "80") (some (bytes "7"))) [bytes "^5^6"] [] =
      bytes "1:^9\x7bmeta\x7d[80:^7(^5^6)]\x7d" :=
  ⟨by
    obtain ⟨m2, p, h1, h2, h3, _, h5, _, _, h8⟩ :=
      C8_table_block_stores_cells_at_path initializeTableScopeMap (bytes "1") (bytes "80")
        (bytes "meta") none none [bytes "^5^6"] [] 100 initializeTableScopeMap_WF.1
        initializeTableScopeMap_WF.2 rfl (by decide) (by decide) (by decide)
        (fun s hs => by cases hs) (by decide) (by decide) (by decide) (by decide)
        (fun s hs => by cases hs) (by decide) (by decide) (by decide) (by decide)
    refine ⟨m2, p, h1, h2, h3, h5, ?_⟩
    rw [h8 [(bytes "5", bytes "6")] (by decide) (by decide)]
    simp only [derefCells, initializeTableScopeMap, List.getD_nil]
    decide,
   by
    obtain ⟨m2, p, h1, h2, h3, _, h5, _, _, h8⟩ :=
      C8_table_block_stores_cells_at_path initializeTableScopeMap (bytes "1") (bytes "80")
        (bytes "meta") (some (bytes "9")) (some (bytes "7")) [bytes "^5^6"] [] 100
        initializeTableScopeMap_WF.1 initializeTableScopeMap_WF.2 rfl (by decide) (by decide)
        (by decide)
        (fun s hs => by cases hs; exact ⟨by decide, by decide, by decide⟩) (by decide)
        (by decide) (by decide) (by decide)
        (fun s hs => by cases hs; exact ⟨by decide, by decide, by decide⟩) (by decide)
        (by decide) (by decide) (by decide)
    refine ⟨m2, p, h1, h2, h3, h5, ?_⟩
    rw [h8 [(bytes "5", bytes "6")] (by decide) (by decide)]
    simp only [derefCells, initializeTableScopeMap, List.getD_nil]
    decide,
   by decide, by decide, by decide, by decide, by decide, by decide, by decide⟩

set_option maxRecDepth 20000 in
/-- C8 as stated fails for an id that does not fit an `int`: after the table
block `\x7bFFFFFFFF\x7bmeta\x7d[1(^5^6)]\x7d` the index has nothing at
(0x80, 0xFFFFFFFF, 0x80, 1), the cells of the row are at (0x80, -1, 0x80, 1);
after `\x7b1\x7bmeta\x7d[FFFFFFFF(^5^6)]\x7d` the index has nothing at
(0x80, 1, 0x80, 0xFFFFFFFF), the cells are at (0x80, 1, 0x80, -1).  A table id
written with 512 digits fills the 512 bytes of its buffer, and the zero that
ends it is written past the buffer. -/
theorem C8_table_or_row_id_beyond_int_or_full :
    (∃ m2,
      parseMorkTable 100
          { pending := tableBlockText (bytes "FFFFFFFF") (bytes "meta") (bytes "1")
              [bytes "^5^6"] [], eof := false } initializeTableScopeMap =
        Except.ok (true, { pending := [], eof := false }, m2) ∧
      hexValue (bytes "FFFFFFFF") = 0xFFFFFFFF ∧
      m2.activeCells = some 0 ∧
      cellsAt m2 0x80 (hexValue (bytes "FFFFFFFF")) 0x80 1 = none ∧
      cellsAt m2 0x80 (-1) 0x80 1 = some 0 ∧
      derefCells m2 0 = { entries := [makeMorkCellEntry 5 6] }) ∧
    (∃ m2,
      parseMorkTable 100
          { pending := tableBlockText (bytes "1") (bytes "meta") (bytes "FFFFFFFF")
              [bytes "^5^6"] [], eof := false } initializeTableScopeMap =
        Except.ok (true, { pending := [], eof := false }, m2) ∧
      m2.activeCells = some 0 ∧
      cellsAt m2 0x80 1 0x80 (hexValue (bytes "FFFFFFFF")) = none ∧
      cellsAt m2 0x80 1 0x80 (-1) = some 0 ∧
      derefCells m2 0 = { entries := [makeMorkCellEntry 5 6] }) ∧
    parseMorkTable 600
        { pending := (List.replicate 511 48 ++ [53]) ++
            123 :: bytes "meta\x7d[1(^5^6)]\x7d", eof := false }
        initializeTableScopeMap =
      Except.error Fault.overflow := by
  refine ⟨⟨_, rfl, by decide, by decide, by decide, by decide, by decide⟩,
    ⟨_, rfl, by decide, by decide, by decide, by decide⟩, ?_⟩
  have hlen : (List.replicate 511 48 ++ [53]).length = 512 := by
    rw [List.length_append, List.length_replicate]; rfl
  exact parseMorkTable_full_id _ _ _ 600
    (fun c hc => by
      rcases List.mem_append.1 hc with h | h
      · rw [List.eq_of_mem_replicate h]; decide
      · rw [List.mem_singleton.1 h]; decide)
    hlen (by rw [hlen]; decide)

/-! ## A format error returns the database built so far -/

/-- C19: a format error stops `parseMorkStream`, which still returns the
database built so far, not the null pointer.
(1) From any state of the dispatch loop: a non-white byte that is none of `<`,
`/`, `\x7b`, `[`, `@` ends the loop with the database unchanged, and a
sub-parser (dictionary, comment, table or row) that returns failure ends the
loop with the database as that sub-parser left it, which holds everything
that was stored when the sub-parser started; only the one byte after the
offending construct is read and nothing more is parsed.
(2) After a matching magic header the result is never the null pointer.
(3) The database returned is the result of the updates made during the parse,
in order, and at whatever point the list of updates is cut, everything stored
up to that point is in the database returned.
(4) After the header and any sequence `bs` of dictionaries and rows of plain
cells, for every continuation `rest`: a stray byte, and a comment lacking its
second slash, return the database `m0` of the input that ends after `bs`; a
row `[R(cell)..(cell)` and a table `\x7bT\x7bmeta\x7d[R(cell)..(cell)` whose
cells are followed by a stray byte, and a dictionary `<(cell)..(cell)` followed
by a comment lacking its second slash, return the database of the input in
which that construct is closed and ends the input; each of these holds
everything stored in `m0`. -/
theorem C19_format_error_returns_what_was_stored (bs : List Block) (T metaText R : List Nat)
    (cells dcells : List (List Nat)) (hOK : ∀ b ∈ bs, b.OK)
    (ht : T ≠ []) (htb : ∀ x ∈ T, idByte x = true) (htl : T.length < 512)
    (hm : ∀ x ∈ metaText, metaByte x = true) (hrow : (Block.row R cells).OK)
    (hd : PlainCells dcells) :
    (∀ (fuel : Nat) (x : Int) (ifp ifp2 : MorkFile) (m m2 : MorkDb), feof ifp = false →
      (x ≠ 0 → isspace x = false → x ≠ 60 → x ≠ 47 → x ≠ 123 → x ≠ 91 → x ≠ 64 →
        parseMorkStreamLoop (fuel + 2) true x ifp m =
          Except.ok (false, (morkgetc ifp).2, m)) ∧
      (parseMorkDict (fuel + 1) ifp m = Except.ok (false, ifp2, m2) →
        parseMorkStreamLoop (fuel + 2) true 60 ifp m =
          Except.ok (false, (morkgetc ifp2).2, m2) ∧
        applyUpdates m (parseMorkDictUpdates (fuel + 1) ifp m) = Except.ok m2 ∧
        (IndexWF m → Grows m m2)) ∧
      (parseMorkComment (fuel + 1) ifp = Except.ok (false, ifp2) →
        parseMorkStreamLoop (fuel + 2) true 47 ifp m =
          Except.ok (false, (morkgetc ifp2).2, m)) ∧
      (parseMorkTable (fuel + 1) ifp m = Except.ok (false, ifp2, m2) →
        parseMorkStreamLoop (fuel + 2) true 123 ifp m =
          Except.ok (false, (morkgetc ifp2).2, m2) ∧
        applyUpdates m (parseMorkTableUpdates (fuel + 1) ifp m) = Except.ok m2 ∧
        (IndexWF m → Grows m m2)) ∧
      (parseMorkRow (fuel + 1) ifp m 0 0 = Except.ok (false, ifp2, m2) →
        parseMorkStreamLoop (fuel + 2) true 91 ifp m =
          Except.ok (false, (morkgetc ifp2).2, m2) ∧
        applyUpdates m (parseMorkRowUpdates (fuel + 1) ifp m 0 0) = Except.ok m2 ∧
        (IndexWF m → Grows m m2))) ∧
    (∀ (fuel : Nat) (rest : List Nat),
      parseMorkStream fuel { pending := MorkMagicHeader ++ rest, eof := false } ≠
        Except.ok none) ∧
    (∀ (fuel : Nat) (ifp : MorkFile) (db : MorkDb),
      parseMorkStream fuel ifp = Except.ok (some db) →
      applyUpdates initializeTableScopeMap (parseMorkStreamUpdates fuel ifp) = Except.ok db ∧
      ∀ (pre post : List Update), parseMorkStreamUpdates fuel ifp = pre ++ post →
        ∃ m1, applyUpdates initializeTableScopeMap pre = Except.ok m1 ∧
          applyUpdates m1 post = Except.ok db ∧ Grows m1 db) ∧
    ∃ m0 mRow mTable mDict,
      Grows initializeTableScopeMap m0 ∧ Grows m0 mRow ∧ Grows m0 mTable ∧ Grows m0 mDict ∧
      ∀ (F : Nat),
        bs.length + 2 * (blocksText bs).length + T.length + metaText.length + R.length +
          2 * (cellsText cells).length + (cellsText dcells).length + 12 ≤ F →
        parseMorkStream F
            { pending := MorkMagicHeader ++ (blocksText bs ++ []), eof := false } =
          Except.ok (some m0) ∧
        (∀ (x : Nat) (rest : List Nat),
          x ≠ 0 → isspace (x : Int) = false → x ≠ 60 → x ≠ 47 → x ≠ 123 → x ≠ 91 → x ≠ 64 →
          parseMorkStream F
              { pending := MorkMagicHeader ++ (blocksText bs ++ x :: rest), eof := false } =
            Except.ok (some m0)) ∧
        (∀ (y : Nat) (rest : List Nat), y ≠ 47 →
          parseMorkStream F
              { pending := MorkMagicHeader ++ (blocksText bs ++ 47 :: y :: rest),
                eof := false } =
            Except.ok (some m0)) ∧
        parseMorkStream F
            { pending := MorkMagicHeader ++
                (blocksText bs ++ 91 :: (R ++ (cellsText cells ++ [93]))), eof := false } =
          Except.ok (some mRow) ∧
        (∀ (x : Nat) (rest : List Nat),
          x ≠ 0 → isspace (x : Int) = false → x ≠ 40 → x ≠ 91 → x ≠ 93 →
          parseMorkStream F
              { pending := MorkMagicHeader ++
                  (blocksText bs ++ 91 :: (R ++ (cellsText cells ++ x :: rest))),
                eof := false } =
            Except.ok (some mRow)) ∧
        parseMorkStream F
            { pending := MorkMagicHeader ++
                (blocksText bs ++ 123 :: tableBlockText T metaText R cells []),
              eof := false } =
          Except.ok (some mTable) ∧
        (∀ (x : Nat) (rest : List Nat),
          x ≠ 0 → isspace (x : Int) = false → x ≠ 40 → x ≠ 91 → x ≠ 93 →
          parseMorkStream F
              { pending := MorkMagicHeader ++
                  (blocksText bs ++ 123 :: (T ++ 123 :: (metaText ++ 125 :: 91 ::
                    (R ++ (cellsText cells ++ x :: rest))))),
                eof := false } =
            Except.ok (some mTable)) ∧
        parseMorkStream F
            { pending := MorkMagicHeader ++
                (blocksText bs ++ 60 :: (cellsText dcells ++ [62])), eof := false } =
          Except.ok (some mDict) ∧
        (∀ (y : Nat) (rest : List Nat), y ≠ 47 →
          parseMorkStream F
              { pending := MorkMagicHeader ++
                  (blocksText bs ++ 60 :: (cellsText dcells ++ 47 :: y :: rest)),
                eof := false } =
            Except.ok (some mDict)) := by
  refine ⟨?_, ?_, ?_, parseMorkStream_errors bs T metaText R cells dcells hOK ht htb htl hm
    hrow hd⟩
  · intro fuel x ifp ifp2 m m2 heof
    refine ⟨?_, ?_, ?_, ?_, ?_⟩
    · intro h0 hsp h60 h47 h123 h91 h64
      exact parseMorkStreamLoop_stray fuel x ifp m heof h0 hsp h60 h47 h123 h91 h64
    · intro h
      refine ⟨?_, parseMorkDict_replay _ _ _ _ h,
        fun hWF => (parseMorkDict_grows _ _ _ _ hWF h).2⟩
      rw [parseMorkStreamLoop]
      rw [if_pos ⟨rfl, by decide, heof⟩, if_pos (by decide), if_pos rfl, h]
      exact parseMorkStreamLoop_false fuel _ _ _
    · intro h
      rw [parseMorkStreamLoop]
      rw [if_pos ⟨rfl, by decide, heof⟩, if_pos (by decide), if_neg (by decide), if_pos rfl, h]
      exact parseMorkStreamLoop_false fuel _ _ _
    · intro h
      refine ⟨?_, parseMorkTable_replay _ _ _ _ h,
        fun hWF => (parseMorkTable_grows _ _ _ _ hWF h).2⟩
      rw [parseMorkStreamLoop]
      rw [if_pos ⟨rfl, by decide, heof⟩, if_pos (by decide), if_neg (by decide),
        if_neg (by decide), if_pos rfl, h]
      exact parseMorkStreamLoop_false fuel _ _ _
    · intro h
      refine ⟨?_, parseMorkRow_replay _ _ _ _ _ _ h,
        fun hWF => (parseMorkRow_grows _ _ _ _ _ _ hWF h).2⟩
      rw [parseMorkStreamLoop]
      rw [if_pos ⟨rfl, by decide, heof⟩, if_pos (by decide), if_neg (by decide),
        if_neg (by decide), if_neg (by decide), if_pos rfl, h]
      exact parseMorkStreamLoop_false fuel _ _ _
  · intro fuel rest h
    rw [parseMorkStream_header] at h
    split at h <;> cases h
  · intro fuel ifp db h
    have hr := parseMorkStream_replay fuel ifp db h
    refine ⟨hr, ?_⟩
    intro pre post hcut
    rw [hcut] at hr
    obtain ⟨m1, a1, a2, _, a4⟩ := applyUpdates_cut pre post _ _ initializeTableScopeMap_WF.1 hr
    exact ⟨m1, a1, a2, a4⟩

/-- C19 after the dictionary `<(1=a)>`: the stray byte `x`, the comment `/x`,
the row `[1(^5^6)x`, the table `\x7b1\x7bmeta\x7d[1(^5^6)x` and the dictionary
`<(2=b)/x` each return the database of the input that ends where the error is
met (with the row, table or dictionary closed), whatever follows; on
`<(1=a)>x<(2=b)>` the database returned holds 1 → `a` and not 2 → `b`. -/
theorem C19_format_error_returns_what_was_stored_witness :
    (∃ m0 mRow mTable mDict,
      Grows m0 mRow ∧ Grows m0 mTable ∧ Grows m0 mDict ∧
      parseMorkStream 200
          { pending := MorkMagicHeader ++ (blocksText [Block.dict [bytes "1=a"]] ++ []),
            eof := false } = Except.ok (some m0) ∧
      parseMorkStream 200
          { pending := MorkMagicHeader ++
              (blocksText [Block.dict [bytes "1=a"]] ++ 120 :: bytes "<(2=b)>"),
            eof := false } = Except.ok (some m0) ∧
      parseMorkStream 200
          { pending := MorkMagicHeader ++
              (blocksText [Block.dict [bytes "1=a"]] ++ 47 :: 120 :: bytes "<(2=b)>"),
            eof := false } = Except.ok (some m0) ∧
      parseMorkStream 200
          { pending := MorkMagicHeader ++
              (blocksText [Block.dict [bytes "1=a"]] ++
                91 :: (bytes "1" ++ (cellsText [bytes "^5^6"] ++ [93]))),
            eof := false } = Except.ok (some mRow) ∧
      parseMorkStream 200
          { pending := MorkMagicHeader ++
              (blocksText [Block.dict [bytes "1=a"]] ++
                91 :: (bytes "1" ++ (cellsText [bytes "^5^6"] ++ 120 :: bytes "]<(2=b)>"))),
            eof := false } = Except.ok (some mRow) ∧
      parseMorkStream 200
          { pending := MorkMagicHeader ++
              (blocksText [Block.dict [bytes "1=a"]] ++
                123 :: tableBlockText (bytes "1") (bytes "meta") (bytes "1")
                  [bytes "^5^6"] []),
            eof := false } = Except.ok (some mTable) ∧
      parseMorkStream 200
          { pending := MorkMagicHeader ++
              (blocksText [Block.dict [bytes "1=a"]] ++
                123 :: (bytes "1" ++ 123 :: (bytes "meta" ++ 125 :: 91 ::
                  (bytes "1" ++ (cellsText [bytes "^5^6"] ++ 120 :: bytes "]\x7d<(2=b)>"))))),
            eof := false } = Except.ok (some mTable) ∧
      parseMorkStream 200
          { pending := MorkMagicHeader ++
              (blocksText [Block.dict [bytes "1=a"]] ++
                60 :: (cellsText [bytes "2=b"] ++ [62])),
            eof := false } = Except.ok (some mDict) ∧
      parseMorkStream 200
          { pending := MorkMagicHeader ++
              (blocksText [Block.dict [bytes "1=a"]] ++
                60 :: (cellsText [bytes "2=b"] ++ 47 :: 120 :: bytes ">[1(^5^6)]")),
            eof := false } = Except.ok (some mDict)) ∧
    blocksText [Block.dict [bytes "1=a"]] ++ 120 :: bytes "<(2=b)>" =
      bytes "<(1=a)>x<(2=b)>" ∧
    blocksText [Block.dict [bytes "1=a"]] ++
        91 :: (bytes "1" ++ (cellsText [bytes "^5^6"] ++ 120 :: bytes "]<(2=b)>")) =
      bytes "<(1=a)>[1(^5^6)x]<(2=b)>" ∧
    blocksText [Block.dict [bytes "1=a"]] ++
        123 :: (bytes "1" ++ 123 :: (bytes "meta" ++ 125 :: 91 ::
          (bytes "1" ++ (cellsText [bytes "^5^6"] ++ 120 :: bytes "]\x7d<(2=b)>")))) =
      bytes "<(1=a)>\x7b1\x7bmeta\x7d[1(^5^6)x]\x7d<(2=b)>" ∧
    blocksText [Block.dict [bytes "1=a"]] ++
        60 :: (cellsText [bytes "2=b"] ++ 47 :: 120 :: bytes ">[1(^5^6)]") =
      bytes "<(1=a)><(2=b)/x>[1(^5^6)]" ∧
    parseMorkStream 60
        { pending := MorkMagicHeader ++ bytes "<(1=a)>x<(2=b)>", eof := false } =
      Except.ok (some { initializeTableScopeMap with
        values := { entries := [makeMorkDictEntry 1 "a"] } }) ∧
    parseMorkStream 60
        { pending := MorkMagicHeader ++ bytes "<(1=a)>/x<(2=b)>", eof := false } =
      Except.ok (some { initializeTableScopeMap with
        values := { entries := [makeMorkDictEntry 1 "a"] } }) :=
  ⟨by
    obtain ⟨_, _, _, m0, mRow, mTable, mDict, _, g1, g2, g3, h⟩ :=
      C19_format_error_returns_what_was_stored [Block.dict [bytes "1=a"]] (bytes "1")
        (bytes "meta") (bytes "1") [bytes "^5^6"] [bytes "2=b"] (by decide) (by decide)
        (by decide) (by decide) (by decide) (by decide) (by decide)
    obtain ⟨a1, a2, a3, a4, a5, a6, a7, a8, a9⟩ := h 200 (by decide)
    exact ⟨m0, mRow, mTable, mDict, g1, g2, g3, a1,
      a2 120 _ (by decide) (by decide) (by decide) (by decide) (by decide) (by decide)
        (by decide),
      a3 120 _ (by decide), a4,
      a5 120 _ (by decide) (by decide) (by decide) (by decide) (by decide), a6,
      a7 120 _ (by decide) (by decide) (by decide) (by decide) (by decide), a8,
      a9 120 _ (by decide)⟩,
   by decide, by decide, by decide, by decide, by rfl, by rfl⟩

/-! ## A row that fails after its cells -/

/-- C25, with the zero byte taken into account.
(1) In the loop of `parseMorkRow` that follows the header id, from any state, a
byte that is neither zero, nor white space, nor `(`, `[`, `]`, and the end of
input, end the loop with result false and the database as it stands.
(2) For a row `[R(cell)..(cell)` of plain cells parsed from a well-formed `m`
with any table id and scope: there is one database `m2`, the result of the
cell updates applied to the row selected in `m`, holding everything stored in
`m`, that `parseMorkRow` returns with success when the row is closed by `]` or
cut by a zero byte, and with failure when the cells are followed by such a
stray byte or by the end of input.  When the row stands at top level the
dispatch loop then ends with `m2`; when it stands in the table
`\x7bT\x7bmeta\x7d[R..`, `parseMorkTable` returns failure with `m2` and the
dispatch loop ends with `m2`.
(3) After the magic header and any sequence `bs` of dictionaries and rows of
plain cells, the failing row at top level, and the failing row in a table,
make `parseMorkStream` return the database of the input in which the row (and
the table) is closed and ends the input, whatever follows the stray byte. -/
theorem C25_failing_row_keeps_cells (m : MorkDb) (bs : List Block)
    (R T metaText : List Nat) (cells : List (List Nat)) (tableId tableScope : Int)
    (hWF : IndexWF m) (hH : HeapWF m) (hOK : ∀ b ∈ bs, b.OK)
    (hR : R ≠ []) (hRb : ∀ c ∈ R, idByte c = true) (hRl : R.length < 512)
    (hne : cells ≠ []) (hcells : PlainCells cells)
    (hT : T ≠ []) (hTb : ∀ c ∈ T, idByte c = true) (hTl : T.length < 512)
    (hm : ∀ c ∈ metaText, metaByte c = true) :
    (∀ (F : Nat) (c : Int) (ifp : MorkFile) (d : MorkDb), c ≠ 0 → isspace c = false →
      c ≠ 40 → c ≠ 91 → c ≠ 93 →
      parseMorkRowLoop (F + 2) true c ifp d = Except.ok (false, (morkgetc ifp).2, d)) ∧
    (∃ m2 p,
      applyUpdates
        (setCurrentRow { m with nowParsing := NowParsingType.NPRows } tableScope tableId
          (parseScopeId R 0).2 (parseScopeId R 0).1) (cellsUpdates cells) = Except.ok m2 ∧
      m2.activeCells = some p ∧
      CellFrame
        (setCurrentRow { m with nowParsing := NowParsingType.NPRows } tableScope tableId
          (parseScopeId R 0).2 (parseScopeId R 0).1) m2 p ∧
      Grows m m2 ∧
      ∀ (F : Nat),
        T.length + metaText.length + R.length + 2 * (cellsText cells).length + 8 ≤ F →
        (∀ (rest : List Nat),
          parseMorkRow F { pending := R ++ (cellsText cells ++ 93 :: rest), eof := false } m
              tableId tableScope =
            Except.ok (true, { pending := rest, eof := false }, m2)) ∧
        (∀ (tail : List Nat),
          parseMorkRow F { pending := R ++ (cellsText cells ++ 0 :: tail), eof := false } m
              tableId tableScope =
            Except.ok (true, { pending := tail, eof := false }, m2)) ∧
        parseMorkRow F { pending := R ++ (cellsText cells ++ []), eof := false } m
            tableId tableScope =
          Except.ok (false, { pending := [], eof := true }, m2) ∧
        ∀ (x : Nat) (tail : List Nat),
          x ≠ 0 → isspace (x : Int) = false → x ≠ 40 → x ≠ 91 → x ≠ 93 →
          parseMorkRow F { pending := R ++ (cellsText cells ++ x :: tail), eof := false } m
              tableId tableScope =
            Except.ok (false, (morkgetc { pending := tail, eof := false }).2, m2) ∧
          (tableId = 0 → tableScope = 0 →
            parseMorkStreamLoop (F + 1) true 91
                { pending := R ++ (cellsText cells ++ x :: tail), eof := false } m =
              Except.ok (false,
                (morkgetc (morkgetc { pending := tail, eof := false }).2).2, m2)) ∧
          (tableId = (parseScopeId T 0).1 → tableScope = (parseScopeId T 0).2 →
            parseMorkTable F
                { pending := T ++ 123 :: (metaText ++ 125 :: 91 ::
                    (R ++ (cellsText cells ++ x :: tail))), eof := false } m =
              Except.ok (false,
                (morkgetc (morkgetc { pending := tail, eof := false }).2).2, m2) ∧
            parseMorkStreamLoop (F + 1) true 123
                { pending := T ++ 123 :: (metaText ++ 125 :: 91 ::
                    (R ++ (cellsText cells ++ x :: tail))), eof := false } m =
              Except.ok (false,
                (morkgetc (morkgetc (morkgetc { pending := tail, eof := false }).2).2).2,
                m2))) ∧
    ∃ m0 mRow mTable,
      Grows m0 mRow ∧ Grows m0 mTable ∧
      ∀ (F : Nat),
        bs.length + 2 * (blocksText bs).length + T.length + metaText.length + R.length +
          2 * (cellsText cells).length + 12 ≤ F →
        parseMorkStream F
            { pending := MorkMagicHeader ++ (blocksText bs ++ []), eof := false } =
          Except.ok (some m0) ∧
        parseMorkStream F
            { pending := MorkMagicHeader ++
                (blocksText bs ++ 91 :: (R ++ (cellsText cells ++ [93]))), eof := false } =
          Except.ok (some mRow) ∧
        parseMorkStream F
            { pending := MorkMagicHeader ++
                (blocksText bs ++ 123 :: tableBlockText T metaText R cells []),
              eof := false } =
          Except.ok (some mTable) ∧
        ∀ (x : Nat) (rest : List Nat),
          x ≠ 0 → isspace (x : Int) = false → x ≠ 40 → x ≠ 91 → x ≠ 93 →
          parseMorkStream F
              { pending := MorkMagicHeader ++
                  (blocksText bs ++ 91 :: (R ++ (cellsText cells ++ x :: rest))),
                eof := false } =
            Except.ok (some mRow) ∧
          parseMorkStream F
              { pending := MorkMagicHeader ++
                  (blocksText bs ++ 123 :: (T ++ 123 :: (metaText ++ 125 :: 91 ::
                    (R ++ (cellsText cells ++ x :: rest))))),
                eof := false } =
            Except.ok (some mTable) := by
  refine ⟨?_, ?_, ?_⟩
  · intro F c ifp d h0 hsp h40 h91 h93
    exact parseMorkRowLoop_stray F c ifp d h0 hsp h40 h91 h93
  · obtain ⟨m2, p, _, _, hact, hframe, hup, hclosed, hstray, heof, hzero⟩ :=
      parseMorkRow_cells_run R cells m tableId tableScope hR hne hRb hRl hcells hWF hH
    have hg : Grows m m2 :=
      (parseMorkRow_grows _ _ _ _ _ _ hWF
        (hclosed [] (R.length + 2 * (cellsText cells).length + 4) (le_refl _))).2
    refine ⟨m2, p, hup, hframe.2.2.1.trans hact, hframe, hg, ?_⟩
    intro F hF
    refine ⟨fun rest => hclosed rest F (by omega), fun tail => hzero tail F (by omega),
      heof F (by omega), ?_⟩
    intro x tail h0 hsp h40 h91 h93
    have hbad := hstray x tail F h0 hsp h40 h91 h93 (by omega)
    refine ⟨hbad, ?_, ?_⟩
    · intro ht hs
      subst ht hs
      rw [parseMorkStreamLoop]
      rw [if_pos ⟨rfl, by decide, rfl⟩, if_pos (by decide), if_neg (by decide),
        if_neg (by decide), if_neg (by decide), if_pos rfl, hbad]
      simp only []
      obtain ⟨g, rfl⟩ : ∃ g, F = g + 1 := ⟨F - 1, by omega⟩
      exact parseMorkStreamLoop_false g _ _ _
    · intro ht hs
      subst ht hs
      obtain ⟨m3, q, _, _, _, _, hup3, _, hstray3⟩ :=
        parseMorkTable_block_run T metaText R cells m hT hTb hTl hm hR hne hRb hRl hcells
          hWF hH
      have he : m3 = m2 := by
        have := hup3.symm.trans hup
        cases this
        rfl
      subst he
      have htab := hstray3 x tail F h0 hsp h40 h91 h93 hF
      refine ⟨htab, ?_⟩
      rw [parseMorkStreamLoop]
      rw [if_pos ⟨rfl, by decide, rfl⟩, if_pos (by decide), if_neg (by decide),
        if_neg (by decide), if_pos rfl, htab]
      simp only []
      obtain ⟨g, rfl⟩ : ∃ g, F = g + 1 := ⟨F - 1, by omega⟩
      exact parseMorkStreamLoop_false g _ _ _
  · obtain ⟨m0, mRow, mTable, _, _, g1, g2, _, h⟩ :=
      parseMorkStream_errors bs T metaText R cells [] hOK hT hTb hTl hm
        ⟨hR, hRb, hRl, hne, hcells⟩ (fun b hb => absurd hb (List.not_mem_nil b))
    refine ⟨m0, mRow, mTable, g1, g2, ?_⟩
    intro F hF
    obtain ⟨a1, _, _, a4, a5, a6, a7, _, _⟩ := h F (by
      simp only [cellsText, List.length_nil]
      omega)
    exact ⟨a1, a4, a6, fun x rest h0 hsp h40 h91 h93 =>
      ⟨a5 x rest h0 hsp h40 h91 h93, a7 x rest h0 hsp h40 h91 h93⟩⟩

/-- C25 on the row `[1(^5^6)x]`, at top level and in the table
`\x7b1\x7bmeta\x7d[1(^5^6)x]\x7d`: the stray `x` makes the row fail with the
database that the closed row gives, the table fails with it, and in the parse
of `[1(^5^6)x]<(1=a)>` the cell 5 → 6 is in the database returned while the
dictionary after the row is not parsed. -/
theorem C25_failing_row_keeps_cells_witness :
    (∃ m2,
      parseMorkRow 40
          { pending := bytes "1" ++ (cellsText [bytes "^5^6"] ++ 93 :: bytes "<(1=a)>"),
            eof := false } initializeTableScopeMap 0 0 =
        Except.ok (true, { pending := bytes "<(1=a)>", eof := false }, m2) ∧
      parseMorkRow 40
          { pending := bytes "1" ++ (cellsText [bytes "^5^6"] ++ 120 :: bytes "]<(1=a)>"),
            eof := false } initializeTableScopeMap 0 0 =
        Except.ok (false, (morkgetc { pending := bytes "]<(1=a)>", eof := false }).2, m2) ∧
      parseMorkStreamLoop (40 + 1) true 91
          { pending := bytes "1" ++ (cellsText [bytes "^5^6"] ++ 120 :: bytes "]<(1=a)>"),
            eof := false } initializeTableScopeMap =
        Except.ok (false,
          (morkgetc (morkgetc { pending := bytes "]<(1=a)>", eof := false }).2).2, m2)) ∧
    (∃ m2,
      parseMorkRow 40
          { pending := bytes "1" ++ (cellsText [bytes "^5^6"] ++ 93 :: bytes "\x7d"),
            eof := false } initializeTableScopeMap 1 0 =
        Except.ok (true, { pending := bytes "\x7d", eof := false }, m2) ∧
      parseMorkTable 40
          { pending := bytes "1" ++ 123 :: (bytes "meta" ++ 125 :: 91 ::
              (bytes "1" ++ (cellsText [bytes "^5^6"] ++ 120 :: bytes "]\x7d<(1=a)>"))),
            eof := false } initializeTableScopeMap =
        Except.ok (false,
          (morkgetc (morkgetc { pending := bytes "]\x7d<(1=a)>", eof := false }).2).2, m2)) ∧
    (∃ mRow,
      parseMorkStream 200
          { pending := MorkMagicHeader ++
              (blocksText [Block.dict [bytes "1=a"]] ++
                91 :: (bytes "1" ++ (cellsText [bytes "^5^6"] ++ [93]))),
            eof := false } = Except.ok (some mRow) ∧
      parseMorkStream 200
          { pending := MorkMagicHeader ++
              (blocksText [Block.dict [bytes "1=a"]] ++
                91 :: (bytes "1" ++ (cellsText [bytes "^5^6"] ++ 120 :: bytes "]<(2=b)>"))),
            eof := false } = Except.ok (some mRow)) ∧
    (match parseMorkStream 60
        { pending := MorkMagicHeader ++ bytes "[1(^5^6)x]<(1=a)>", eof := false } with
      | Except.ok (some db) => (db.cellsHeap, db.values.entries)
      | _ => ([], [])) =
      ([{ entries := [makeMorkCellEntry 5 6] }], []) :=
  ⟨by
    obtain ⟨_, ⟨m2, p, _, _, _, _, h⟩, _⟩ :=
      C25_failing_row_keeps_cells initializeTableScopeMap [Block.dict [bytes "1=a"]]
        (bytes "1") (bytes "1") (bytes "meta") [bytes "^5^6"] 0 0
        initializeTableScopeMap_WF.1 initializeTableScopeMap_WF.2 (by decide) (by decide)
        (by decide) (by decide) (by decide) (by decide) (by decide) (by decide) (by decide)
        (by decide)
    obtain ⟨a1, _, _, a4⟩ := h 40 (by decide)
    obtain ⟨b1, b2, _⟩ := a4 120 (bytes "]<(1=a)>") (by decide) (by decide) (by decide)
      (by decide) (by decide)
    exact ⟨m2, a1 _, b1, b2 rfl rfl⟩,
   by
    obtain ⟨_, ⟨m2, p, _, _, _, _, h⟩, _⟩ :=
      C25_failing_row_keeps_cells initializeTableScopeMap [Block.dict [bytes "1=a"]]
        (bytes "1") (bytes "1") (bytes "meta") [bytes "^5^6"] 1 0
        initializeTableScopeMap_WF.1 initializeTableScopeMap_WF.2 (by decide) (by decide)
        (by decide) (by decide) (by decide) (by decide) (by decide) (by decide) (by decide)
        (by decide)
    obtain ⟨a1, _, _, a4⟩ := h 40 (by decide)
    obtain ⟨_, _, b3⟩ := a4 120 (bytes "]\x7d<(1=a)>") (by decide) (by decide) (by decide)
      (by decide) (by decide)
    exact ⟨m2, a1 _, (b3 (by decide) (by decide)).1⟩,
   by
    obtain ⟨_, _, m0, mRow, mTable, _, _, h⟩ :=
      C25_failing_row_keeps_cells initializeTableScopeMap [Block.dict [bytes "1=a"]]
        (bytes "1") (bytes "1") (bytes "meta") [bytes "^5^6"] 0 0
        initializeTableScopeMap_WF.1 initializeTableScopeMap_WF.2 (by decide) (by decide)
        (by decide) (by decide) (by decide) (by decide) (by decide) (by decide) (by decide)
        (by decide)
    obtain ⟨_, a2, _, a4⟩ := h 200 (by decide)
    exact ⟨mRow, a2, (a4 120 _ (by decide) (by decide) (by decide) (by decide)
      (by decide)).1⟩,
   by decide⟩

/-- C25 as stated fails on a zero byte, which is a non-whitespace byte other
than `(`, `[` and `]`: in `[1(^5^6)` followed by a zero byte `parseMorkRow`
returns success, and the parse goes on with the dictionary that follows. -/
theorem C25_zero_byte_ends_the_row :
    isspace ((0 : Nat) : Int) = false ∧ (0 : Nat) ≠ 40 ∧ (0 : Nat) ≠ 91 ∧ (0 : Nat) ≠ 93 ∧
    (∃ m2,
      parseMorkRow 40 { pending := bytes "1(^5^6)" ++ 0 :: bytes "<(1=a)>", eof := false }
          initializeTableScopeMap 0 0 =
        Except.ok (true, { pending := bytes "<(1=a)>", eof := false }, m2)) ∧
    (match parseMorkStream 60
        { pending := MorkMagicHeader ++ (bytes "[1(^5^6)" ++ 0 :: bytes "<(1=a)>"),
          eof := false } with
      | Except.ok (some db) => (db.cellsHeap, db.values.entries)
      | _ => ([], [])) =
      ([{ entries := [makeMorkCellEntry 5 6] }], [makeMorkDictEntry 1 "a"]) :=
  ⟨by decide, by decide, by decide, by decide, ⟨_, rfl⟩, by decide⟩

end ParseMork
